import Mathlib

/-!
# Budget manager of `masternode-budget.cpp`: a shallow embedding

The governance code of `src/masternode-budget.cpp` is embedded as pure Lean
functions with explicit state passing.

Conventions.

* `int`, `int64_t` and `CAmount` values are `Int`; `/` and `%` of C++ are
  `Int.tdiv` and `Int.tmod` (truncation toward zero).  Signed overflow is
  undefined behaviour in C++ and is outside the model.
* `uint256` values are natural numbers, scripts are byte lists.
* A `std::map<uint256, V>` is a list of key/value pairs kept in ascending key
  order by the operations below, so that iterating the list is iterating the
  map.
* Everything the file reads from the rest of the node (chain parameters,
  clock, masternode directory, block index, script classification) is a field
  of `Env`.
* A member function that mutates its object returns the new object next to
  its C++ return value.
-/

namespace Budget

abbrev uint256 := Nat
abbrev CScript := List Nat
abbrev CAmount := Int

/-- The value an `int64_t` holds after an arithmetic step whose exact result is
`x`: the representative of `x` modulo `2^64` in `[-2^63, 2^63)`. A result
outside that range is a signed overflow; the two's-complement targets the code
is built for wrap it around. -/
def wrapInt64 (x : Int) : Int :=
  (x + 9223372036854775808) % 18446744073709551616 - 9223372036854775808

/-! ## `std::map<uint256, V>` -/

abbrev StdMap (V : Type) := List (uint256 × V)

namespace StdMap

variable {V : Type}

/-- The value stored under `k`, if any (`find`, `at`). -/
def find (m : StdMap V) (k : uint256) : Option V :=
  match m with
  | [] => none
  | (k0, v0) :: t => if k0 = k then some v0 else find t k

/-- Membership test, `count(k) != 0`. -/
def contains (m : StdMap V) (k : uint256) : Bool := (find m k).isSome

/-- Assignment `m[k] = v`: replaces the value of an existing key, inserts in
key order otherwise. -/
def set (m : StdMap V) (k : uint256) (v : V) : StdMap V :=
  match m with
  | [] => [(k, v)]
  | (k0, v0) :: t =>
    if k < k0 then (k, v) :: (k0, v0) :: t
    else if k = k0 then (k, v) :: t
    else (k0, v0) :: set t k v

/-- Insertion `emplace(k, v)`: no effect when the key is already present. -/
def emplace (m : StdMap V) (k : uint256) (v : V) : StdMap V :=
  if contains m k then m else set m k v

/-- Removal of every entry that satisfies `drop` (an erase loop over the map). -/
def eraseIf (m : StdMap V) (drop : uint256 → V → Bool) : StdMap V :=
  m.filter (fun e => !drop e.1 e.2)

/-- Removal `erase(k)`. -/
def erase (m : StdMap V) (k : uint256) : StdMap V :=
  m.filter (fun e => !decide (e.1 = k))

/-- Number of entries, `size()`. -/
def size (m : StdMap V) : Nat := m.length

/-- The keys, in iteration order. -/
def keys (m : StdMap V) : List uint256 := m.map Prod.fst

/-- The invariant of a `std::map`: keys strictly ascending. -/
def WF (m : StdMap V) : Prop := (keys m).Pairwise (· < ·)

instance WF.decidable (m : StdMap V) : Decidable (WF m) :=
  inferInstanceAs (Decidable ((keys m).Pairwise (· < ·)))

end StdMap

/-! ## Transactions and the environment -/

structure CTxOut where
  nValue : CAmount
  scriptPubKey : CScript
  deriving DecidableEq

structure CTransaction where
  vout : List CTxOut
  nLockTime : Nat
  deriving DecidableEq

structure COutPoint where
  hash : uint256
  n : Nat
  deriving DecidableEq

structure CTxIn where
  prevout : COutPoint
  deriving DecidableEq

/-- Modelled from the spec: `COutPoint::GetHash` is not among the sources.
The spec keys the vote maps "by voter-outpoint", so the hash is taken as an
injective encoding of the outpoint. -/
def COutPoint.GetHash (o : COutPoint) : uint256 := Nat.pair o.hash o.n

structure CBlockIndex where
  nHeight : Int
  nTime : Int
  deriving DecidableEq

/-- An entry of `amnodeman.GetActiveMasternodes()`: the fields of
`CActiveMasternode` the budget code reads. -/
structure CActiveMasternode where
  /-- The resolved outpoint, `nullopt` until the masternode is initialised. -/
  vin : Option CTxIn
  strMasterNodePrivKey : String
  deriving DecidableEq

/-- A peer, as far as the budget code is concerned. -/
structure CNode where
  id : Nat
  deriving DecidableEq

/-- Everything `masternode-budget.cpp` consumes from its collaborators. -/
structure Env where
  /-- `COIN` of `amount.h`. -/
  COIN : Int
  /-- `BUDGET_VOTE_UPDATE_MIN` of `masternode-budget.h`. -/
  BUDGET_VOTE_UPDATE_MIN : Int
  /-- `PROPOSAL_FEE_TX` of `masternode-budget.h`. -/
  PROPOSAL_FEE_TX : Int
  /-- `BUDGET_FEE_TX` of `masternode-budget.h`. -/
  BUDGET_FEE_TX : Int
  /-- `Params().GetConsensus().nBudgetCycleBlocks`. -/
  nBudgetCycleBlocks : Int
  /-- `Params().GetConsensus().nProposalEstablishmentTime`. -/
  nProposalEstablishmentTime : Int
  /-- `Params().GetConsensus().nBudgetFeeConfirmations`. -/
  nBudgetFeeConfirmations : Int
  /-- `Params().NetworkID() == CBaseChainParams::TESTNET`. -/
  isTestnet : Bool
  /-- `NetworkUpgradeActive(h, Consensus::UPGRADE_POS)`. -/
  upgradePoSActive : Int → Bool
  /-- `NetworkUpgradeActive(h, Consensus::UPGRADE_ZC_V2)`. -/
  upgradeZCV2Active : Int → Bool
  /-- `GetTime()`. -/
  GetTime : Int
  /-- `GetAdjustedTime()`. -/
  GetAdjustedTime : Int
  /-- `mnodeman.CountEnabled(ActiveProtocol())`. -/
  CountEnabled : Int
  /-- `mnodeman.Find(vin) != nullptr`. -/
  mnFind : CTxIn → Bool
  /-- `mapBlockIndex.find(hash)`; `none` is `end()` (or a null entry). -/
  mapBlockIndex : uint256 → Option CBlockIndex
  /-- `chainActive.Contains(pindex)`. -/
  chainActiveContains : CBlockIndex → Bool
  /-- `GetTransaction(hash, tx, blockHash, true)`. -/
  GetTransaction : uint256 → Option (CTransaction × uint256)
  /-- `GetIXConfirmations(hash)`. -/
  GetIXConfirmations : uint256 → Int
  /-- `GetBlockValue(height)`. -/
  GetBlockValue : Int → CAmount
  /-- The script `CScript() << OP_RETURN << ToByteVector(hash)`. -/
  opReturnScript : uint256 → CScript
  /-- `script.IsNormalPaymentScript()`. -/
  IsNormalPaymentScript : CScript → Bool
  /-- `script.IsUnspendable()`. -/
  IsUnspendable : CScript → Bool
  /-- `script.IsPayToScriptHash()`. -/
  IsPayToScriptHash : CScript → Bool
  /-- `ExtractDestination(script, dest, false)` succeeds. -/
  ExtractDestination : CScript → Bool
  /-- `IsValidDestination` of the destination extracted from the script. -/
  IsValidDestination : CScript → Bool
  /-- The hash function behind `CBudgetProposal::GetHash`, applied to the
  fields it serialises. -/
  hashProposalFields : String → String → Int → Int → CAmount → CScript → Int → uint256
  /-- The hash function behind `CFinalizedBudget::GetHash`, applied to the
  fields it serialises. -/
  hashBudgetFields : String → Int → List (uint256 × CScript × CAmount) → uint256
  /-- The text `hash.ToString()` of a `uint256`. -/
  uint256ToString : uint256 → String
  /-- The decimal text `strprintf("%ld", n)` of an integer. -/
  decimalText : Int → String
  /-- `masternodeSync.IsSynced()`. -/
  masternodeSyncIsSynced : Bool
  /-- The global `fMasterNode`. -/
  fMasterNode : Bool
  /-- The member `vin` of the global `activeMasternode`. -/
  activeMasternodeVin : Option CTxIn
  /-- `amnodeman.GetActiveMasternodes()`. -/
  GetActiveMasternodes : List CActiveMasternode
  /-- `CMessageSigner::GetKeysFromSecret(strKey, key, pubKey)` succeeds. -/
  GetKeysFromSecret : String → Bool
  /-- `vote.Sign(key, pubKey)` succeeds, for the keys of the secret and a
  finalized-budget vote with the given outpoint, budget hash and time. -/
  signFinalizedVote : String → CTxIn → uint256 → Int → Bool
  /-- The global `strBudgetMode`. -/
  strBudgetMode : String
  /-- The hash function behind `CBudgetVote::GetHash`, applied to the fields it
  serialises (the direction stands for its integer code). -/
  hashVoteFields : CTxIn → uint256 → Nat → Int → uint256
  /-- The hash function behind `CFinalizedBudgetVote::GetHash`, applied to the
  fields it serialises. -/
  hashFinalizedVoteFields : CTxIn → uint256 → Int → uint256
  /-- The global `fLiteMode`. -/
  fLiteMode : Bool
  /-- `masternodeSync.IsBlockchainSynced()`. -/
  masternodeSyncIsBlockchainSynced : Bool
  /-- `vote.CheckSignature()` for a proposal vote with the given outpoint,
  proposal hash, direction code and time that carries the signature `vchSig`. -/
  checkVoteSignature : CTxIn → uint256 → Nat → Int → List Nat → Bool
  /-- `vote.CheckSignature()` for a finalized-budget vote with the given
  outpoint, budget hash and time that carries the signature `vchSig`. -/
  checkFinalizedVoteSignature : CTxIn → uint256 → Int → List Nat → Bool

/-! ## Entities -/

inductive VoteDirection where
  | VOTE_ABSTAIN
  | VOTE_YES
  | VOTE_NO
  deriving DecidableEq

structure CBudgetVote where
  fValid : Bool
  fSynced : Bool
  nProposalHash : uint256
  nVote : VoteDirection
  nTime : Int
  vin : CTxIn
  deriving DecidableEq

structure CFinalizedBudgetVote where
  fValid : Bool
  fSynced : Bool
  vin : CTxIn
  nBudgetHash : uint256
  nTime : Int
  deriving DecidableEq

structure CTxBudgetPayment where
  nProposalHash : uint256
  payee : CScript
  nAmount : CAmount
  deriving DecidableEq

structure CBudgetProposal where
  nAlloted : CAmount
  fValid : Bool
  strInvalid : String
  mapVotes : StdMap CBudgetVote
  strProposalName : String
  strURL : String
  nBlockStart : Int
  nBlockEnd : Int
  address : CScript
  nAmount : CAmount
  nFeeTXHash : uint256
  nTime : Int
  deriving DecidableEq

structure CFinalizedBudget where
  fAutoChecked : Bool
  fValid : Bool
  strInvalid : String
  mapVotes : StdMap CFinalizedBudgetVote
  strBudgetName : String
  nBlockStart : Int
  vecBudgetPayments : List CTxBudgetPayment
  nFeeTXHash : uint256
  strProposals : String
  nTime : Int
  /-- The cache `proposalHash → (paidBlockHash, paidBlockHeight)`. -/
  mapPayment_History : StdMap (uint256 × Int)
  deriving DecidableEq

inductive TrxValidationStatus where
  | InValid
  | Valid
  | DoublePayment
  | VoteThreshold
  deriving DecidableEq

structure CBudgetManager where
  mapProposals : StdMap CBudgetProposal
  mapFinalizedBudgets : StdMap CFinalizedBudget
  mapSeenProposalVotes : StdMap CBudgetVote
  mapOrphanProposalVotes : StdMap CBudgetVote
  mapSeenFinalizedBudgetVotes : StdMap CFinalizedBudgetVote
  mapOrphanFinalizedBudgetVotes : StdMap CFinalizedBudgetVote
  mapCollateralTxids : StdMap uint256
  nBestHeight : Int
  deriving DecidableEq

/-! ## Proposals -/

namespace CBudgetProposal

/-- Modelled from the spec: `CBudgetProposal::GetHash` is declared in the
header, which is not among the sources. Spec, section 3: the identity hash is
"derived over {name, URL, block-start, block-end, amount, payee,
creation-time}-equivalent fields". -/
def GetHash (env : Env) (p : CBudgetProposal) : uint256 :=
  env.hashProposalFields p.strProposalName p.strURL p.nBlockStart p.nBlockEnd
    p.nAmount p.address p.nTime

/-- `CBudgetProposal::GetVoteCount(vd)`: the valid votes of direction `vd`. -/
def GetVoteCount (p : CBudgetProposal) (vd : VoteDirection) : Int :=
  p.mapVotes.foldl (fun ret e => if e.2.nVote = vd ∧ e.2.fValid = true then ret + 1 else ret) 0

/-- Modelled from the spec: `GetYeas` is an inline accessor of the missing
header; the spec's "yeas" are the valid yes votes. -/
def GetYeas (p : CBudgetProposal) : Int := p.GetVoteCount VoteDirection.VOTE_YES

/-- Modelled from the spec: `GetNays` is an inline accessor of the missing
header; the spec's "nays" are the valid no votes. -/
def GetNays (p : CBudgetProposal) : Int := p.GetVoteCount VoteDirection.VOTE_NO

/-- `CBudgetProposal::IsHeavilyDownvoted`. -/
def IsHeavilyDownvoted (env : Env) (p : CBudgetProposal) : Bool × CBudgetProposal :=
  if p.GetNays - p.GetYeas > env.CountEnabled.tdiv 10 then
    (true, { p with strInvalid := "Active removal" })
  else (false, p)

/-- `CBudgetProposal::CheckStartEnd`. -/
def CheckStartEnd (p : CBudgetProposal) : Bool × CBudgetProposal :=
  if p.nBlockStart < 0 then
    (false, { p with strInvalid := "Invalid Proposal" })
  else if p.nBlockEnd < p.nBlockStart then
    (false, { p with strInvalid := "Invalid nBlockEnd (end before start)" })
  else (true, p)

/-- `CBudgetProposal::CheckAmount`. -/
def CheckAmount (env : Env) (p : CBudgetProposal) (nTotalBudget : CAmount) :
    Bool × CBudgetProposal :=
  if p.nAmount < 10 * env.COIN then
    (false, { p with strInvalid := "Invalid nAmount (too low)" })
  else if p.nAmount > nTotalBudget then
    (false, { p with strInvalid := "Invalid nAmount (too high)" })
  else (true, p)

/-- `CBudgetProposal::CheckAddress`. -/
def CheckAddress (env : Env) (p : CBudgetProposal) : Bool × CBudgetProposal :=
  if env.IsPayToScriptHash p.address then
    (false, { p with strInvalid := "Multisig is not currently supported." })
  else if !env.ExtractDestination p.address then
    (false, { p with strInvalid := "Invalid script" })
  else if !env.IsValidDestination p.address then
    (false, { p with strInvalid := "Invalid recipient address" })
  else (true, p)

/-- `CBudgetProposal::IsWellFormed`:
`CheckStartEnd() && CheckAmount(nTotalBudget) && CheckAddress()`. -/
def IsWellFormed (env : Env) (p : CBudgetProposal) (nTotalBudget : CAmount) :
    Bool × CBudgetProposal :=
  let r1 := p.CheckStartEnd
  if !r1.1 then (false, r1.2) else
  let r2 := r1.2.CheckAmount env nTotalBudget
  if !r2.1 then (false, r2.2) else
  r2.2.CheckAddress env

/-- `CBudgetProposal::IsExpired`. -/
def IsExpired (p : CBudgetProposal) (nCurrentHeight : Int) : Bool × CBudgetProposal :=
  if p.nBlockEnd < nCurrentHeight then
    (true, { p with strInvalid := "Proposal expired" })
  else (false, p)

/-- `CBudgetProposal::UpdateValid`. -/
def UpdateValid (env : Env) (p : CBudgetProposal) (nCurrentHeight : Int) :
    Bool × CBudgetProposal :=
  let p0 := { p with fValid := false }
  let r1 := p0.IsHeavilyDownvoted env
  if r1.1 then (false, r1.2) else
  let r2 := r1.2.IsExpired nCurrentHeight
  if r2.1 then (false, r2.2) else
  (true, { r2.2 with fValid := true, strInvalid := "" })

/-- `CBudgetProposal::IsEstablished`. -/
def IsEstablished (env : Env) (p : CBudgetProposal) : Bool :=
  decide (p.nTime < env.GetAdjustedTime - env.nProposalEstablishmentTime)

/-- `CBudgetProposal::IsPassing`. -/
def IsPassing (env : Env) (p : CBudgetProposal) (nBlockStartBudget nBlockEndBudget mnCount : Int) :
    Bool :=
  if !p.fValid then false
  else if p.nBlockStart > nBlockStartBudget then false
  else if p.nBlockEnd < nBlockEndBudget then false
  else if p.GetYeas - p.GetNays ≤ mnCount.tdiv 10 then false
  else if !p.IsEstablished env then false
  else true

/-- `CBudgetProposal::AddOrUpdateVote`. `voteTime` and `oldTime` are
`int64_t`: their difference is the `int64_t` value of the subtraction. -/
def AddOrUpdateVote (env : Env) (p : CBudgetProposal) (vote : CBudgetVote) :
    Bool × CBudgetProposal :=
  let hash := vote.vin.prevout.GetHash
  let voteTime := vote.nTime
  -- the two early returns taken when `mapVotes.count(hash)` is non-zero
  let rejectedByStored : Bool :=
    match p.mapVotes.find hash with
    | some old =>
      let oldTime := old.nTime
      if oldTime > voteTime then true
      else if wrapInt64 (voteTime - oldTime) < env.BUDGET_VOTE_UPDATE_MIN then true
      else false
    | none => false
  if rejectedByStored then (false, p)
  else if voteTime > env.GetTime + 60 * 60 then (false, p)
  else (true, { p with mapVotes := p.mapVotes.set hash vote })

/-- `CBudgetProposal::CleanAndRemove`: flags every stored vote valid iff its
voter is a known masternode. -/
def CleanAndRemove (env : Env) (p : CBudgetProposal) : CBudgetProposal :=
  { p with mapVotes := p.mapVotes.map (fun e => (e.1, { e.2 with fValid := env.mnFind e.2.vin })) }

/-- `CBudgetProposal::PtrHigherYes`. -/
def PtrHigherYes (a b : CBudgetProposal) : Bool :=
  let netYes_a := a.GetYeas - a.GetNays
  let netYes_b := b.GetYeas - b.GetNays
  if netYes_a = netYes_b then decide (a.nFeeTXHash > b.nFeeTXHash)
  else decide (netYes_a > netYes_b)

end CBudgetProposal

/-! ## Finalized budgets -/

namespace CFinalizedBudget

/-- Modelled from the spec: `CFinalizedBudget::GetHash` is declared in the
header, which is not among the sources. Spec, section 3: the identity hash is
"derived over {name, block-start, payments list}". -/
def GetHash (env : Env) (fb : CFinalizedBudget) : uint256 :=
  env.hashBudgetFields fb.strBudgetName fb.nBlockStart
    (fb.vecBudgetPayments.map (fun x => (x.nProposalHash, x.payee, x.nAmount)))

/-- Modelled from the spec: `CFinalizedBudget::GetBlockEnd` is an inline
accessor of the missing header; the block-end is block-start + (number of
payments) - 1, one block per payment. -/
def GetBlockEnd (fb : CFinalizedBudget) : Int :=
  fb.nBlockStart + (fb.vecBudgetPayments.length : Int) - 1

/-- Modelled from the spec: `CFinalizedBudget::GetVoteCount` is an inline
accessor of the missing header; the vote count of a finalized budget is the
number of votes in its vote map (every finalized-budget vote is a yes). -/
def GetVoteCount (fb : CFinalizedBudget) : Int := (fb.mapVotes.size : Int)

/-- `CFinalizedBudget::AddOrUpdateVote`. `voteTime` and `oldTime` are
`int64_t`: their difference is the `int64_t` value of the subtraction. -/
def AddOrUpdateVote (env : Env) (fb : CFinalizedBudget) (vote : CFinalizedBudgetVote) :
    Bool × CFinalizedBudget :=
  let hash := vote.vin.prevout.GetHash
  let voteTime := vote.nTime
  -- the two early returns taken when `mapVotes.count(hash)` is non-zero
  let rejectedByStored : Bool :=
    match fb.mapVotes.find hash with
    | some old =>
      let oldTime := old.nTime
      if oldTime > voteTime then true
      else if wrapInt64 (voteTime - oldTime) < env.BUDGET_VOTE_UPDATE_MIN then true
      else false
    | none => false
  if rejectedByStored then (false, fb)
  else if voteTime > env.GetTime + 60 * 60 then (false, fb)
  else (true, { fb with mapVotes := fb.mapVotes.set hash vote })

/-- The erase loop at the head of `CFinalizedBudget::IsPaidAlready`: the
payment history without the entries whose height is outside
`[GetBlockStart(), GetBlockEnd()]`. -/
def prunedHistory (fb : CFinalizedBudget) : StdMap (uint256 × Int) :=
  fb.mapPayment_History.eraseIf
    (fun _ e => decide (e.2 < fb.nBlockStart) || decide (e.2 > fb.GetBlockEnd))

/-- `CFinalizedBudget::IsPaidAlready`; the cache is a `mutable` member, so
the call returns the new budget as well. -/
def IsPaidAlready (env : Env) (fb : CFinalizedBudget)
    (nProposalHash nBlockHash : uint256) (nBlockHeight : Int) : Bool × CFinalizedBudget :=
  -- Remove budget-payments from former/future payment cycles
  let hist := fb.prunedHistory
  match hist.find nProposalHash with
  | none =>
    -- New proposal payment, insert into map
    (false, { fb with mapPayment_History := hist.emplace nProposalHash (nBlockHash, nBlockHeight) })
  | some paid =>
    let nPaidBlockHash := paid.1
    if nBlockHash ≠ nPaidBlockHash then
      (match env.mapBlockIndex nPaidBlockHash with
        | none => false
        | some pindex => env.chainActiveContains pindex,
       { fb with mapPayment_History := hist })
    else
      -- Re-checking same block. Not a double payment.
      (false, { fb with mapPayment_History := hist })

/-- The backward scan of `txNew.vout` of `CFinalizedBudget::IsTransactionValid`
for an output equal to the expected script and amount. -/
def searchPayment (scriptExpected : CScript) (amountExpected : CAmount) :
    List CTxOut → Bool
  | [] => false
  | out :: rest =>
    if scriptExpected = out.scriptPubKey ∧ amountExpected = out.nValue then true
    else searchPayment scriptExpected amountExpected rest

/-- `CFinalizedBudget::IsTransactionValid`. -/
def IsTransactionValid (env : Env) (fb : CFinalizedBudget) (txNew : CTransaction)
    (nBlockHash : uint256) (nBlockHeight : Int) : TrxValidationStatus × CFinalizedBudget :=
  let nBlockEnd := fb.GetBlockEnd
  if nBlockHeight > nBlockEnd then (TrxValidationStatus.InValid, fb)
  else if nBlockHeight < fb.nBlockStart then (TrxValidationStatus.InValid, fb)
  else
    let nCurrentBudgetPayment := nBlockHeight - fb.nBlockStart
    if nCurrentBudgetPayment > (fb.vecBudgetPayments.length : Int) - 1 then
      (TrxValidationStatus.InValid, fb)
    else
      match fb.vecBudgetPayments[nCurrentBudgetPayment.toNat]? with
      | none => (TrxValidationStatus.InValid, fb) -- index out of range: excluded by the guards
      | some payment =>
        let r := fb.IsPaidAlready env payment.nProposalHash nBlockHash nBlockHeight
        if r.1 then (TrxValidationStatus.DoublePayment, r.2)
        else if searchPayment payment.payee payment.nAmount txNew.vout.reverse then
          (TrxValidationStatus.Valid, r.2)
        else (TrxValidationStatus.InValid, r.2)

/-- `CFinalizedBudget::GetTotalPayout`. The accumulator `ret` is a `CAmount`,
an `int64_t`: each `ret += nAmount` leaves the `int64_t` value of the sum. -/
def GetTotalPayout (fb : CFinalizedBudget) : CAmount :=
  fb.vecBudgetPayments.foldl
    (fun ret vecBudgetPayment => wrapInt64 (ret + vecBudgetPayment.nAmount)) 0

/-- `CFinalizedBudget::GetProposalsHashes`. -/
def GetProposalsHashes (fb : CFinalizedBudget) : List uint256 :=
  fb.vecBudgetPayments.map (fun budgetPayment => budgetPayment.nProposalHash)

/-- `CFinalizedBudget::CheckStartEnd`. -/
def CheckStartEnd (env : Env) (fb : CFinalizedBudget) : Bool × CFinalizedBudget :=
  if fb.nBlockStart = 0 then
    (false, { fb with strInvalid := "Invalid BlockStart == 0" })
  -- Must be the correct block for payment to happen (once a month)
  else if fb.nBlockStart.tmod env.nBudgetCycleBlocks ≠ 0 then
    (false, { fb with strInvalid := "Invalid BlockStart" })
  -- The following 2 checks check the same (basically if vecBudgetPayments.size() > 100)
  else if fb.GetBlockEnd - fb.nBlockStart > 100 then
    (false, { fb with strInvalid := "Invalid BlockEnd" })
  else if (fb.vecBudgetPayments.length : Int) > 100 then
    (false, { fb with strInvalid := "Invalid budget payments count (too many)" })
  else (true, fb)

/-- `CFinalizedBudget::CheckAmount`. -/
def CheckAmount (fb : CFinalizedBudget) (nTotalBudget : CAmount) : Bool × CFinalizedBudget :=
  if fb.GetTotalPayout > nTotalBudget then
    (false, { fb with strInvalid := "Invalid Payout (more than max)" })
  else (true, fb)

/-- `CFinalizedBudget::CheckName`. -/
def CheckName (fb : CFinalizedBudget) : Bool × CFinalizedBudget :=
  if fb.strBudgetName = "" then
    (false, { fb with strInvalid := "Invalid Budget Name" })
  else (true, fb)

/-- `CFinalizedBudget::IsExpired`. -/
def IsExpired (env : Env) (fb : CFinalizedBudget) (nCurrentHeight : Int) :
    Bool × CFinalizedBudget :=
  -- Remove budgets after their last payment block
  let nBlockEnd := fb.GetBlockEnd
  let nBlocksPerCycle := env.nBudgetCycleBlocks
  let nLastSuperBlock := nCurrentHeight - nCurrentHeight.tmod nBlocksPerCycle
  if nBlockEnd < nLastSuperBlock then
    (true, { fb with strInvalid := "(ends at block " ++ env.decimalText nBlockEnd ++
      ") too old and obsolete" })
  else (false, fb)

/-- `CFinalizedBudget::IsWellFormed`:
`CheckStartEnd() && CheckAmount(nTotalBudget) && CheckName()`. -/
def IsWellFormed (env : Env) (fb : CFinalizedBudget) (nTotalBudget : CAmount) :
    Bool × CFinalizedBudget :=
  let r1 := fb.CheckStartEnd env
  if !r1.1 then (false, r1.2) else
  let r2 := r1.2.CheckAmount nTotalBudget
  if !r2.1 then (false, r2.2) else
  r2.2.CheckName

/-- `CFinalizedBudget::UpdateValid`. -/
def UpdateValid (env : Env) (fb : CFinalizedBudget) (nCurrentHeight : Int) :
    Bool × CFinalizedBudget :=
  let fb0 := { fb with fValid := false }
  let r1 := fb0.IsExpired env nCurrentHeight
  if r1.1 then (false, r1.2) else
  (true, { r1.2 with fValid := true, strInvalid := "" })

end CFinalizedBudget

/-! ## Collateral -/

/-- `CheckCollateralConfs`. -/
def CheckCollateralConfs (env : Env) (nTxCollateralHash : uint256)
    (nCurrentHeight nProposalHeight : Int) : Bool :=
  let nRequiredConfs := env.nBudgetFeeConfirmations
  let nConf := env.GetIXConfirmations nTxCollateralHash + nCurrentHeight - nProposalHeight + 1
  if nConf < nRequiredConfs then false else true

/-- The output loop of `CheckCollateral`: `none` on an invalid script,
otherwise the final value of `foundOpReturn`. -/
def CheckCollateral.scan (env : Env) (findScript : CScript) (fBudgetFinalization : Bool) :
    List CTxOut → Bool → Option Bool
  | [], foundOpReturn => some foundOpReturn
  | o :: rest, foundOpReturn =>
    if !env.IsNormalPaymentScript o.scriptPubKey && !env.IsUnspendable o.scriptPubKey then none
    else if fBudgetFinalization then
      if o.scriptPubKey = findScript ∧ o.nValue ≥ env.BUDGET_FEE_TX then
        CheckCollateral.scan env findScript fBudgetFinalization rest true
      else CheckCollateral.scan env findScript fBudgetFinalization rest foundOpReturn
    else
      if o.scriptPubKey = findScript ∧ o.nValue ≥ env.PROPOSAL_FEE_TX then
        CheckCollateral.scan env findScript fBudgetFinalization rest true
      else CheckCollateral.scan env findScript fBudgetFinalization rest foundOpReturn

/-- `CheckCollateral`; `nTime` is the reference argument, returned with the
result. -/
def CheckCollateral (env : Env) (nTxCollateralHash nExpectedHash : uint256) (nTime : Int)
    (nCurrentHeight : Int) (fBudgetFinalization : Bool) : Bool × Int :=
  match env.GetTransaction nTxCollateralHash with
  | none => (false, nTime)
  | some (txCollateral, nBlockHash) =>
    if txCollateral.vout.length < 1 then (false, nTime)
    else if txCollateral.nLockTime ≠ 0 then (false, nTime)
    else
      let findScript := env.opReturnScript nExpectedHash
      match CheckCollateral.scan env findScript fBudgetFinalization txCollateral.vout false with
      | none => (false, nTime)
      | some foundOpReturn =>
        if !foundOpReturn then (false, nTime)
        -- `nBlockHash.IsNull()`
        else if nBlockHash = 0 then (false, nTime)
        else
          let found : Int × Int :=
            match env.mapBlockIndex nBlockHash with
            | some pindex =>
              if env.chainActiveContains pindex then (pindex.nHeight, pindex.nTime) else (0, 0)
            | none => (0, 0)
          let nProposalHeight := found.1
          if nProposalHeight = 0 then (false, found.2)
          else (CheckCollateralConfs env nTxCollateralHash nCurrentHeight nProposalHeight, found.2)

/-! ## The manager -/

namespace CBudgetManager

/-- `CBudgetManager::GetBestHeight` (an accessor of the missing header). -/
def GetBestHeight (m : CBudgetManager) : Int := m.nBestHeight

/-- The `nSubsidy` chain of `CBudgetManager::GetTotalBudget` (main net). -/
def GetTotalBudget.nSubsidy (env : Env) (nHeight : Int) : CAmount :=
  let isPoSActive := env.upgradePoSActive nHeight
  if nHeight ≥ 151200 ∧ !isPoSActive then 50 * env.COIN
  else if isPoSActive ∧ nHeight ≤ 302399 then 50 * env.COIN
  else if nHeight ≤ 345599 ∧ nHeight ≥ 302400 then 45 * env.COIN
  else if nHeight ≤ 388799 ∧ nHeight ≥ 345600 then 40 * env.COIN
  else if nHeight ≤ 431999 ∧ nHeight ≥ 388800 then 35 * env.COIN
  else if nHeight ≤ 475199 ∧ nHeight ≥ 432000 then 30 * env.COIN
  else if nHeight ≤ 518399 ∧ nHeight ≥ 475200 then 25 * env.COIN
  else if nHeight ≤ 561599 ∧ nHeight ≥ 518400 then 20 * env.COIN
  else if nHeight ≤ 604799 ∧ nHeight ≥ 561600 then 15 * env.COIN
  else if nHeight ≤ 647999 ∧ nHeight ≥ 604800 then 10 * env.COIN
  else if env.upgradeZCV2Active nHeight then 10 * env.COIN
  else 5 * env.COIN

/-- `CBudgetManager::GetTotalBudget`. -/
def GetTotalBudget (env : Env) (nHeight : Int) : CAmount :=
  if env.isTestnet then
    let nSubsidy := 500 * env.COIN
    ((nSubsidy.tdiv 100) * 10) * 146
  else
    -- get block value and calculate from that
    let nSubsidy := GetTotalBudget.nSubsidy env nHeight
    -- Amount of blocks in a months period of time (using 1 minutes per) = (60*24*30)
    if nHeight ≤ 172800 then 648000 * env.COIN
    else ((nSubsidy.tdiv 100) * 10) * 1440 * 30

/-- `CBudgetManager::AddProposal`; the proposal is a reference argument and is
returned as the call leaves it. -/
def AddProposal (env : Env) (m : CBudgetManager) (budgetProposal : CBudgetProposal) :
    Bool × CBudgetProposal × CBudgetManager :=
  let nHash := budgetProposal.GetHash env
  if m.mapProposals.contains nHash then (false, budgetProposal, m)
  else
    let r1 := budgetProposal.IsWellFormed env (GetTotalBudget env budgetProposal.nBlockStart)
    if !r1.1 then (false, r1.2, m)
    else
      let nCurrentHeight := m.GetBestHeight
      let r2 := CheckCollateral env r1.2.nFeeTXHash nHash r1.2.nTime nCurrentHeight false
      let p2 := { r1.2 with nTime := r2.2 }
      if !r2.1 then (false, p2, m)
      else
        -- update expiration / heavily-downvoted
        let r3 := p2.UpdateValid env nCurrentHeight
        if !r3.1 then (false, r3.2, m)
        else (true, r3.2, { m with mapProposals := m.mapProposals.emplace nHash r3.2 })

/-- The loop of `CBudgetManager::GetBudgetWithHighestVoteCount`, carrying
`highestVoteCount` and `pHighestBudget`. -/
def GetBudgetWithHighestVoteCount.loop (chainHeight : Int) :
    StdMap CFinalizedBudget → Int → Option CFinalizedBudget → Option CFinalizedBudget
  | [], _, pHighestBudget => pHighestBudget
  | (_, fb) :: rest, highestVoteCount, pHighestBudget =>
    let voteCount := fb.GetVoteCount
    if voteCount > highestVoteCount ∧ chainHeight ≥ fb.nBlockStart ∧ chainHeight ≤ fb.GetBlockEnd then
      GetBudgetWithHighestVoteCount.loop chainHeight rest voteCount (some fb)
    else GetBudgetWithHighestVoteCount.loop chainHeight rest highestVoteCount pHighestBudget

/-- `CBudgetManager::GetBudgetWithHighestVoteCount`. -/
def GetBudgetWithHighestVoteCount (m : CBudgetManager) (chainHeight : Int) :
    Option CFinalizedBudget :=
  GetBudgetWithHighestVoteCount.loop chainHeight m.mapFinalizedBudgets 0 none

/-- `CBudgetManager::GetHighestVoteCount`. -/
def GetHighestVoteCount (m : CBudgetManager) (chainHeight : Int) : Int :=
  match m.GetBudgetWithHighestVoteCount chainHeight with
  | some pbudget => pbudget.GetVoteCount
  | none => -1

/-- `CBudgetManager::IsBudgetPaymentBlock(nBlockHeight, nCountThreshold)`: the
result and the value left in `nCountThreshold`. -/
def IsBudgetPaymentBlock (env : Env) (m : CBudgetManager) (nBlockHeight : Int) : Bool × Int :=
  let nHighestCount := m.GetHighestVoteCount nBlockHeight
  let nCountEnabled := env.CountEnabled
  let nFivePercent := nCountEnabled.tdiv 20
  -- threshold for highest finalized budgets (highest vote count - 10% of active masternodes)
  let nCountThreshold := nHighestCount - nCountEnabled.tdiv 10
  -- reduce the threshold if there are less than 10 enabled masternodes
  let nCountThreshold := if nCountThreshold = nHighestCount then nCountThreshold - 1 else nCountThreshold
  (decide (nHighestCount > nFivePercent), nCountThreshold)

/-- The loop of `CBudgetManager::IsTransactionValid` over `mapFinalizedBudgets`,
carrying `fThreshold`; it returns the status and the budgets as the
per-entity calls leave them. -/
def IsTransactionValid.loop (env : Env) (txNew : CTransaction) (nBlockHash : uint256)
    (nBlockHeight nCountThreshold : Int) :
    StdMap CFinalizedBudget → Bool → TrxValidationStatus × StdMap CFinalizedBudget
  | [], fThreshold =>
    (if fThreshold then TrxValidationStatus.InValid else TrxValidationStatus.VoteThreshold, [])
  | (k, fb) :: rest, fThreshold =>
    if fb.GetVoteCount > nCountThreshold then
      let r := fb.IsTransactionValid env txNew nBlockHash nBlockHeight
      if r.1 = TrxValidationStatus.Valid then (TrxValidationStatus.Valid, (k, r.2) :: rest)
      else
        -- tx not valid. keep looking.
        let r2 := IsTransactionValid.loop env txNew nBlockHash nBlockHeight nCountThreshold rest true
        (r2.1, (k, r.2) :: r2.2)
    else
      let r2 := IsTransactionValid.loop env txNew nBlockHash nBlockHeight nCountThreshold rest fThreshold
      (r2.1, (k, fb) :: r2.2)

/-- `CBudgetManager::IsTransactionValid`. -/
def IsTransactionValid (env : Env) (m : CBudgetManager) (txNew : CTransaction)
    (nBlockHash : uint256) (nBlockHeight : Int) : TrxValidationStatus × CBudgetManager :=
  let r := m.IsBudgetPaymentBlock env nBlockHeight
  if !r.1 then (TrxValidationStatus.InValid, m)
  else
    let nCountThreshold := r.2
    let r2 := IsTransactionValid.loop env txNew nBlockHash nBlockHeight nCountThreshold
      m.mapFinalizedBudgets false
    (r2.1, { m with mapFinalizedBudgets := r2.2 })

/-- The greedy loop of `CBudgetManager::GetBudget` over the sorted proposals,
carrying `nBudgetAllocated`: the entries of `vBudgetProposalsRet` and every
visited entry as the loop leaves it. -/
def GetBudget.loop (env : Env) (nBlockStart nBlockEnd mnCount : Int) (nTotalBudget : CAmount) :
    List (uint256 × CBudgetProposal) → CAmount →
      List (uint256 × CBudgetProposal) × List (uint256 × CBudgetProposal)
  | [], _ => ([], [])
  | (k, p) :: rest, nBudgetAllocated =>
    if p.IsPassing env nBlockStart nBlockEnd mnCount then
      if p.nAmount + nBudgetAllocated ≤ nTotalBudget then
        let p1 := { p with nAlloted := p.nAmount }
        let r := GetBudget.loop env nBlockStart nBlockEnd mnCount nTotalBudget rest
          (nBudgetAllocated + p.nAmount)
        ((k, p1) :: r.1, (k, p1) :: r.2)
      else
        let p1 := { p with nAlloted := 0 }
        let r := GetBudget.loop env nBlockStart nBlockEnd mnCount nTotalBudget rest nBudgetAllocated
        (r.1, (k, p1) :: r.2)
    else
      let r := GetBudget.loop env nBlockStart nBlockEnd mnCount nTotalBudget rest nBudgetAllocated
      (r.1, (k, p) :: r.2)

/-- The call `std::sort(..., CBudgetProposal::PtrHigherYes)` of `GetBudget`,
as an insertion sort (entries that the comparison does not separate keep
their map order). -/
def sortByHigherYes (v : List (uint256 × CBudgetProposal)) : List (uint256 × CBudgetProposal) :=
  v.insertionSort (fun a b => CBudgetProposal.PtrHigherYes a.2 b.2 = true)

/-- `CBudgetManager::GetBudget`: the proposals the returned pointers refer to
(with their map keys), and the manager with `mapProposals` as the call leaves
it. -/
def GetBudget (env : Env) (m : CBudgetManager) :
    List (uint256 × CBudgetProposal) × CBudgetManager :=
  let nHeight := m.GetBestHeight
  if nHeight ≤ 0 then ([], m)
  else
    -- ------- Sort budgets by net Yes Count
    let cleaned : StdMap CBudgetProposal := m.mapProposals.map (fun e => (e.1, e.2.CleanAndRemove env))
    let vBudgetPorposalsSort := sortByHigherYes cleaned
    -- ------- Grab The Budgets In Order
    let nBlocksPerCycle := env.nBudgetCycleBlocks
    let nBlockStart := nHeight - nHeight.tmod nBlocksPerCycle + nBlocksPerCycle
    let nBlockEnd := nBlockStart + nBlocksPerCycle - 1
    let mnCount := env.CountEnabled
    let nTotalBudget := GetTotalBudget env nBlockStart
    let r := GetBudget.loop env nBlockStart nBlockEnd mnCount nTotalBudget vBudgetPorposalsSort 0
    (r.1, { m with mapProposals := cleaned.map (fun e => (e.1, (StdMap.find r.2 e.1).getD e.2)) })

/-- The loop of `CBudgetManager::SetBudgetProposalsStr` over the proposal
hashes of the budget, carrying `strProposals`. -/
def SetBudgetProposalsStr.loop (env : Env) (m : CBudgetManager) : List uint256 → String → String
  | [], strProposals => strProposals
  | hash :: rest, strProposals =>
    let token : String :=
      match m.mapProposals.find hash with
      | some proposal => proposal.strProposalName
      | none => env.uint256ToString hash
    SetBudgetProposalsStr.loop env m rest
      (strProposals ++ ((if strProposals = "" then "" else ", ") ++ token))

/-- `CBudgetManager::SetBudgetProposalsStr`. -/
def SetBudgetProposalsStr (env : Env) (m : CBudgetManager) (finalizedBudget : CFinalizedBudget) :
    CFinalizedBudget :=
  let vHashes := finalizedBudget.GetProposalsHashes
  { finalizedBudget with strProposals := SetBudgetProposalsStr.loop env m vHashes "" }

/-- `CBudgetManager::AddFinalizedBudget`; the budget is a reference argument
and is returned as the call leaves it. -/
def AddFinalizedBudget (env : Env) (m : CBudgetManager) (finalizedBudget : CFinalizedBudget) :
    Bool × CFinalizedBudget × CBudgetManager :=
  let nHash := finalizedBudget.GetHash env
  if m.mapFinalizedBudgets.contains nHash then (false, finalizedBudget, m)
  else
    let r1 := finalizedBudget.IsWellFormed env (GetTotalBudget env finalizedBudget.nBlockStart)
    if !r1.1 then (false, r1.2, m)
    else
      let nCurrentHeight := m.GetBestHeight
      let r2 := CheckCollateral env r1.2.nFeeTXHash nHash r1.2.nTime nCurrentHeight true
      let fb2 := { r1.2 with nTime := r2.2 }
      if !r2.1 then (false, fb2, m)
      else
        -- update expiration
        let r3 := fb2.UpdateValid env nCurrentHeight
        if !r3.1 then (false, r3.2, m)
        else
          let fb4 := m.SetBudgetProposalsStr env r3.2
          (true, fb4, { m with mapFinalizedBudgets := m.mapFinalizedBudgets.emplace nHash fb4 })

end CBudgetManager

/-! ## The cycle and the vector `GetBudget` works on -/

/-- The local `nBlockStart` of `CBudgetManager::GetBudget`: the first block of
the next cycle. -/
def nextCycleStart (env : Env) (m : CBudgetManager) : Int :=
  m.GetBestHeight - m.GetBestHeight.tmod env.nBudgetCycleBlocks + env.nBudgetCycleBlocks

/-- The local `nBlockEnd` of `CBudgetManager::GetBudget`. -/
def nextCycleEnd (env : Env) (m : CBudgetManager) : Int :=
  nextCycleStart env m + env.nBudgetCycleBlocks - 1

/-- The vector `vBudgetPorposalsSort` of `CBudgetManager::GetBudget` after the
sort: the map entries, votes cleaned, ordered by `PtrHigherYes`. -/
def sortedProposals (env : Env) (m : CBudgetManager) : List (uint256 × CBudgetProposal) :=
  CBudgetManager.sortByHigherYes (m.mapProposals.map (fun e => (e.1, e.2.CleanAndRemove env)))

/-! ## Sequences of vote intakes -/

/-- The body shared by `CBudgetProposal::AddOrUpdateVote` and
`CFinalizedBudget::AddOrUpdateVote`, on the vote map alone: `time` reads the
timestamp of a vote, `hash` is the voter's outpoint hash. -/
def voteIntake {V : Type} (updateMin now : Int) (time : V → Int) (m : StdMap V)
    (hash : uint256) (vote : V) : Bool × StdMap V :=
  let voteTime := time vote
  let rejectedByStored : Bool :=
    match m.find hash with
    | some old =>
      let oldTime := time old
      if oldTime > voteTime then true
      else if wrapInt64 (voteTime - oldTime) < updateMin then true
      else false
    | none => false
  if rejectedByStored then (false, m)
  else if voteTime > now + 60 * 60 then (false, m)
  else (true, m.set hash vote)

/-- A sequence of `voteIntake` steps, each at its own clock reading: the
final vote map and the accepted votes, most recent first. -/
def voteIntakeRun {V : Type} (updateMin : Int) (time : V → Int) (key : V → uint256) :
    List (Int × V) → StdMap V × List V → StdMap V × List V
  | [], s => s
  | (now, vote) :: rest, (m, acc) =>
    let r := voteIntake updateMin now time m (key vote) vote
    voteIntakeRun updateMin time key rest (r.2, if r.1 then vote :: acc else acc)

/-- A sequence of `CBudgetProposal::AddOrUpdateVote` calls, each paired with
the value of `GetTime()` at the call: the final proposal and the accepted
votes, most recent first. -/
def CBudgetProposal.addVotes (env : Env) :
    List (Int × CBudgetVote) → CBudgetProposal × List CBudgetVote →
      CBudgetProposal × List CBudgetVote
  | [], s => s
  | (now, vote) :: rest, (p, acc) =>
    let r := p.AddOrUpdateVote { env with GetTime := now } vote
    CBudgetProposal.addVotes env rest (r.2, if r.1 then vote :: acc else acc)

/-- A sequence of `CFinalizedBudget::AddOrUpdateVote` calls, each paired with
the value of `GetTime()` at the call: the final budget and the accepted
votes, most recent first. -/
def CFinalizedBudget.addVotes (env : Env) :
    List (Int × CFinalizedBudgetVote) → CFinalizedBudget × List CFinalizedBudgetVote →
      CFinalizedBudget × List CFinalizedBudgetVote
  | [], s => s
  | (now, vote) :: rest, (fb, acc) =>
    let r := fb.AddOrUpdateVote { env with GetTime := now } vote
    CFinalizedBudget.addVotes env rest (r.2, if r.1 then vote :: acc else acc)

/-- The invariant of a vote map `m` and the log `acc` of accepted votes (most
recent first): keys ascending, every entry filed under its voter's hash, the
stored vote of a voter is the most recent accepted one, and no accepted vote
of that voter is younger. -/
def IntakeInv {V : Type} (time : V → Int) (key : V → uint256) (m : StdMap V) (acc : List V) : Prop :=
  StdMap.WF m ∧
  (∀ e ∈ m, e.1 = key e.2) ∧
  (∀ k, m.find k = acc.find? (fun a => decide (key a = k))) ∧
  (∀ k v, m.find k = some v → ∀ a ∈ acc, key a = k → time a ≤ time v)

/-! ## Construction, vote cleanup, payee selection and block filling -/

/-- The constructor `CBudgetProposal::CBudgetProposal(name, url, paycount,
payee, amount, blockstart, nfeetxhash)`. Its initialiser list does not mention
`nAlloted`: `nAlloted0` is the value the member has after construction. -/
def CBudgetProposal.ctor (env : Env) (nAlloted0 : CAmount) (name url : String) (paycount : Int)
    (payee : CScript) (amount : CAmount) (blockstart : Int) (nfeetxhash : uint256) :
    CBudgetProposal :=
  let nBlockStart := blockstart
  let nBlocksPerCycle := env.nBudgetCycleBlocks
  let nCycleStart := nBlockStart - nBlockStart.tmod nBlocksPerCycle
  -- Calculate the end of the cycle for this vote, vote will be deleted after next cycle
  { nAlloted := nAlloted0, fValid := true, strInvalid := "", mapVotes := [],
    strProposalName := name, strURL := url, nBlockStart := nBlockStart,
    nBlockEnd := nCycleStart + (nBlocksPerCycle + 1) * paycount,
    address := payee, nAmount := amount, nFeeTXHash := nfeetxhash, nTime := 0 }

/-- `CFinalizedBudget::CleanAndRemove`: flags every stored vote valid iff its
voter is a known masternode. -/
def CFinalizedBudget.CleanAndRemove (env : Env) (fb : CFinalizedBudget) : CFinalizedBudget :=
  { fb with
    mapVotes := fb.mapVotes.map (fun e => (e.1, { e.2 with fValid := env.mnFind e.2.vin })) }

/-- `CFinalizedBudget::GetPayeeAndAmount`; `payee` and `nAmount` are reference
arguments, returned as the call leaves them. -/
def CFinalizedBudget.GetPayeeAndAmount (fb : CFinalizedBudget) (nBlockHeight : Int)
    (payee : CScript) (nAmount : CAmount) : Bool × CScript × CAmount :=
  let i := nBlockHeight - fb.nBlockStart
  if i < 0 then (false, payee, nAmount)
  else if i > (fb.vecBudgetPayments.length : Int) - 1 then (false, payee, nAmount)
  else
    match fb.vecBudgetPayments[i.toNat]? with
    | none => (false, payee, nAmount) -- index out of range: excluded by the guards
    | some payment => (true, payment.payee, payment.nAmount)

/-- `CBudgetManager::GetPayeeAndAmount`; `payeeRet` and `nAmountRet` are
reference arguments, returned as the call leaves them. -/
def CBudgetManager.GetPayeeAndAmount (env : Env) (m : CBudgetManager) (chainHeight : Int)
    (payeeRet : CScript) (nAmountRet : CAmount) : Bool × CScript × CAmount :=
  match m.GetBudgetWithHighestVoteCount chainHeight with
  | none => (false, payeeRet, nAmountRet)
  | some pfb =>
    -- Check that there are enough votes
    let nFivePercent := env.CountEnabled.tdiv 20
    if nFivePercent = 0 ∨ pfb.GetVoteCount < nFivePercent then (false, payeeRet, nAmountRet)
    else pfb.GetPayeeAndAmount chainHeight payeeRet nAmountRet

/-- `CBudgetManager::FillBlockPayee`; the transaction is a reference argument
and is returned as the call leaves it. The proof-of-work branch writes to
`txNew.vout[0]`: on a transaction without outputs that access is outside the
vector and the call has no defined result (`none`). -/
def CBudgetManager.FillBlockPayee (env : Env) (m : CBudgetManager) (txNew : CTransaction)
    (fProofOfStake : Bool) : Option (Bool × CTransaction) :=
  let chainHeight := m.GetBestHeight
  if chainHeight ≤ 0 then some (false, txNew)
  else
    let r := m.GetPayeeAndAmount env (chainHeight + 1) [] 0
    if !r.1 then some (false, txNew)
    else
      let payee := r.2.1
      let nAmount := r.2.2
      let blockValue := env.GetBlockValue (chainHeight + 1)
      if fProofOfStake then
        -- `resize(i + 1)`, then both fields of the new last output are set
        some (true, { txNew with vout := txNew.vout ++ [{ nValue := nAmount, scriptPubKey := payee }] })
      else
        match txNew.vout with
        | [] => none
        | out0 :: _ =>
          -- miners get the full amount on these blocks
          -- `resize(2)`, then both fields of output 1 are set
          some (true, { txNew with
            vout := [{ out0 with nValue := blockValue }, { nValue := nAmount, scriptPubKey := payee }] })

/-! ## Broadcast streams -/

/-- Modelled from the spec: the stream operators `<<` and `>>` of `streams.h`
and `serialize.h` are not among the sources. Spec, section 6, lists the
broadcast serialisations field by field ("name ≤20, URL ≤64, creation time,
blockStart, blockEnd, amount, payee script, collateral hash"), so a stream is
the sequence of the values written to it, each with its wire type. -/
inductive StreamItem where
  /-- A string (`LIMITED_STRING` writes the string as it is). -/
  | str (s : String)
  /-- An `int64_t` or `CAmount`. -/
  | i64 (v : Int)
  /-- An `int`. -/
  | i32 (v : Int)
  /-- A script, `CScriptBase`. -/
  | script (s : CScript)
  /-- A `uint256`. -/
  | hash (h : uint256)
  /-- A `std::vector<CTxBudgetPayment>`. -/
  | payments (l : List CTxBudgetPayment)
  deriving DecidableEq

abbrev CDataStream := List StreamItem

namespace CDataStream

/-- Modelled from the spec: `stream >> LIMITED_STRING(s, limit)`; `none` is the
exception thrown on an empty stream, on a value of another wire type, or on a
string longer than `limit` bytes. -/
def readLimitedString (limit : Nat) : CDataStream → Option (String × CDataStream)
  | StreamItem.str s :: rest => if s.utf8ByteSize ≤ limit then some (s, rest) else none
  | _ => none

/-- Modelled from the spec: `stream >> v` for an `int64_t` or `CAmount`. -/
def readInt64 : CDataStream → Option (Int × CDataStream)
  | StreamItem.i64 v :: rest => some (v, rest)
  | _ => none

/-- Modelled from the spec: `stream >> v` for an `int`. -/
def readInt : CDataStream → Option (Int × CDataStream)
  | StreamItem.i32 v :: rest => some (v, rest)
  | _ => none

/-- Modelled from the spec: `stream >> *(CScriptBase*)(&script)`. -/
def readScript : CDataStream → Option (CScript × CDataStream)
  | StreamItem.script s :: rest => some (s, rest)
  | _ => none

/-- Modelled from the spec: `stream >> v` for a `uint256`. -/
def readUint256 : CDataStream → Option (uint256 × CDataStream)
  | StreamItem.hash h :: rest => some (h, rest)
  | _ => none

/-- Modelled from the spec: `stream >> v` for a vector of budget payments. -/
def readPayments : CDataStream → Option (List CTxBudgetPayment × CDataStream)
  | StreamItem.payments l :: rest => some (l, rest)
  | _ => none

end CDataStream

namespace CBudgetProposal

/-- The default constructor `CBudgetProposal::CBudgetProposal()`. Its
initialiser list does not mention `nAlloted`: `nAlloted0` is the value the
member has after construction. -/
def ctorDefault (nAlloted0 : CAmount) : CBudgetProposal :=
  { nAlloted := nAlloted0, fValid := true, strInvalid := "", mapVotes := [],
    strProposalName := "unknown", strURL := "", nBlockStart := 0, nBlockEnd := 0,
    address := [], nAmount := 0, nFeeTXHash := 0, nTime := 0 }

/-- `CBudgetProposal::GetBroadcast`. -/
def GetBroadcast (p : CBudgetProposal) : CDataStream :=
  [StreamItem.str p.strProposalName, StreamItem.str p.strURL, StreamItem.i64 p.nTime,
   StreamItem.i32 p.nBlockStart, StreamItem.i32 p.nBlockEnd, StreamItem.i64 p.nAmount,
   StreamItem.script p.address, StreamItem.hash p.nFeeTXHash]

/-- `CBudgetProposal::ParseBroadcast`: the object is first overwritten with a
default-constructed proposal, then filled field by field; an exception of a
read ends the call with false and leaves the fields read so far. The result,
the object and the stream are returned as the call leaves them. -/
def ParseBroadcast (nAlloted0 : CAmount) (broadcast : CDataStream) :
    Bool × CBudgetProposal × CDataStream :=
  let p := ctorDefault nAlloted0
  match broadcast.readLimitedString 20 with
  | none => (false, p, broadcast)
  | some (v, broadcast) =>
  let p := { p with strProposalName := v }
  match broadcast.readLimitedString 64 with
  | none => (false, p, broadcast)
  | some (v, broadcast) =>
  let p := { p with strURL := v }
  match broadcast.readInt64 with
  | none => (false, p, broadcast)
  | some (v, broadcast) =>
  let p := { p with nTime := v }
  match broadcast.readInt with
  | none => (false, p, broadcast)
  | some (v, broadcast) =>
  let p := { p with nBlockStart := v }
  match broadcast.readInt with
  | none => (false, p, broadcast)
  | some (v, broadcast) =>
  let p := { p with nBlockEnd := v }
  match broadcast.readInt64 with
  | none => (false, p, broadcast)
  | some (v, broadcast) =>
  let p := { p with nAmount := v }
  match broadcast.readScript with
  | none => (false, p, broadcast)
  | some (v, broadcast) =>
  let p := { p with address := v }
  match broadcast.readUint256 with
  | none => (false, p, broadcast)
  | some (v, broadcast) =>
  (true, { p with nFeeTXHash := v }, broadcast)

end CBudgetProposal

namespace CFinalizedBudget

/-- The default constructor `CFinalizedBudget::CFinalizedBudget()`. -/
def ctorDefault : CFinalizedBudget :=
  { fAutoChecked := false, fValid := true, strInvalid := "", mapVotes := [],
    strBudgetName := "", nBlockStart := 0, vecBudgetPayments := [], nFeeTXHash := 0,
    strProposals := "", nTime := 0, mapPayment_History := [] }

/-- `CFinalizedBudget::GetBroadcast`. -/
def GetBroadcast (fb : CFinalizedBudget) : CDataStream :=
  [StreamItem.str fb.strBudgetName, StreamItem.i32 fb.nBlockStart,
   StreamItem.payments fb.vecBudgetPayments, StreamItem.hash fb.nFeeTXHash]

/-- `CFinalizedBudget::ParseBroadcast`: the object is first overwritten with a
default-constructed budget, then filled field by field; an exception of a
read ends the call with false and leaves the fields read so far. -/
def ParseBroadcast (broadcast : CDataStream) : Bool × CFinalizedBudget × CDataStream :=
  let fb := ctorDefault
  match broadcast.readLimitedString 20 with
  | none => (false, fb, broadcast)
  | some (v, broadcast) =>
  let fb := { fb with strBudgetName := v }
  match broadcast.readInt with
  | none => (false, fb, broadcast)
  | some (v, broadcast) =>
  let fb := { fb with nBlockStart := v }
  match broadcast.readPayments with
  | none => (false, fb, broadcast)
  | some (v, broadcast) =>
  let fb := { fb with vecBudgetPayments := v }
  match broadcast.readUint256 with
  | none => (false, fb, broadcast)
  | some (v, broadcast) =>
  (true, { fb with nFeeTXHash := v }, broadcast)

end CFinalizedBudget

/-! ## Votes reaching the manager -/

/-- The global objects of `masternode-budget.cpp` that the manager's member
functions read and write: the manager `budget` itself and the map
`askedForSourceProposalOrBudget`. -/
structure Globals where
  budget : CBudgetManager
  askedForSourceProposalOrBudget : StdMap Int
  deriving DecidableEq

/-- Modelled from the spec: the integer codes of `VoteDirection` are declared
in the header, which is not among the sources; they are taken in the order
abstain, yes, no. -/
def VoteDirection.code : VoteDirection → Nat
  | VoteDirection.VOTE_ABSTAIN => 0
  | VoteDirection.VOTE_YES => 1
  | VoteDirection.VOTE_NO => 2

/-- `CBudgetVote::GetHash`. -/
def CBudgetVote.GetHash (env : Env) (vote : CBudgetVote) : uint256 :=
  env.hashVoteFields vote.vin vote.nProposalHash vote.nVote.code vote.nTime

/-- `CFinalizedBudgetVote::GetHash`. -/
def CFinalizedBudgetVote.GetHash (env : Env) (vote : CFinalizedBudgetVote) : uint256 :=
  env.hashFinalizedVoteFields vote.vin vote.nBudgetHash vote.nTime

/-- The constructor `CFinalizedBudgetVote::CFinalizedBudgetVote(vinIn,
nBudgetHashIn)`. -/
def CFinalizedBudgetVote.ctor (env : Env) (vinIn : CTxIn) (nBudgetHashIn : uint256) :
    CFinalizedBudgetVote :=
  { fValid := true, fSynced := false, vin := vinIn, nBudgetHash := nBudgetHashIn,
    nTime := env.GetAdjustedTime }

namespace CBudgetManager

/-- `CBudgetManager::AddSeenFinalizedBudgetVote`. -/
def AddSeenFinalizedBudgetVote (env : Env) (m : CBudgetManager) (vote : CFinalizedBudgetVote) :
    CBudgetManager :=
  { m with
    mapSeenFinalizedBudgetVotes := m.mapSeenFinalizedBudgetVotes.emplace (vote.GetHash env) vote }

/-- `CBudgetManager::UpdateProposal`; `pfrom` is `none` for a null pointer. The
message pushed to the peer is outside the model. -/
def UpdateProposal (env : Env) (s : Globals) (vote : CBudgetVote) (pfrom : Option CNode) :
    Bool × Globals :=
  let nProposalHash := vote.nProposalHash
  match s.budget.mapProposals.find nProposalHash with
  | none =>
    -- `!mapProposals.count(nProposalHash)`
    match pfrom with
    | some _ =>
      -- only ask for missing items after our syncing process is complete
      if !env.masternodeSyncIsSynced then (false, s)
      else
        let budget1 := { s.budget with
          mapOrphanProposalVotes := s.budget.mapOrphanProposalVotes.set nProposalHash vote }
        let asked1 :=
          if !s.askedForSourceProposalOrBudget.contains nProposalHash then
            s.askedForSourceProposalOrBudget.set nProposalHash env.GetTime
          else s.askedForSourceProposalOrBudget
        (false, { budget := budget1, askedForSourceProposalOrBudget := asked1 })
    | none => (false, s)
  | some proposal =>
    let r := proposal.AddOrUpdateVote env vote
    (r.1, { s with budget := { s.budget with
      mapProposals := (s.budget.mapProposals.set nProposalHash r.2) } })

/-- `CBudgetManager::UpdateFinalizedBudget`; `pfrom` is `none` for a null
pointer. The message pushed to the peer is outside the model. -/
def UpdateFinalizedBudget (env : Env) (s : Globals) (vote : CFinalizedBudgetVote)
    (pfrom : Option CNode) : Bool × Globals :=
  let nBudgetHash := vote.nBudgetHash
  match s.budget.mapFinalizedBudgets.find nBudgetHash with
  | none =>
    -- `!mapFinalizedBudgets.count(nBudgetHash)`
    match pfrom with
    | some _ =>
      -- only ask for missing items after our syncing process is complete
      if !env.masternodeSyncIsSynced then (false, s)
      else
        let budget1 := { s.budget with
          mapOrphanFinalizedBudgetVotes :=
            (s.budget.mapOrphanFinalizedBudgetVotes.set nBudgetHash vote) }
        let asked1 :=
          if !s.askedForSourceProposalOrBudget.contains nBudgetHash then
            s.askedForSourceProposalOrBudget.set nBudgetHash env.GetTime
          else s.askedForSourceProposalOrBudget
        (false, { budget := budget1, askedForSourceProposalOrBudget := asked1 })
    | none => (false, s)
  | some finalizedBudget =>
    let r := finalizedBudget.AddOrUpdateVote env vote
    (r.1, { s with budget := { s.budget with
      mapFinalizedBudgets := (s.budget.mapFinalizedBudgets.set nBudgetHash r.2) } })

/-- The body of the first loop of `CBudgetManager::CheckOrphanVotes`, at the
entry `(k, vote)` of `mapOrphanProposalVotes`: the entry is erased when
`UpdateProposal` succeeds. -/
def CheckOrphanVotes.proposalStep (env : Env) (s : Globals) (k : uint256) (vote : CBudgetVote) :
    Globals :=
  let r := UpdateProposal env s vote none
  if r.1 then
    { r.2 with budget := { r.2.budget with
        mapOrphanProposalVotes := (r.2.budget.mapOrphanProposalVotes.erase k) } }
  else r.2

/-- The first loop of `CBudgetManager::CheckOrphanVotes`, over the entries of
`mapOrphanProposalVotes` as they stand when the loop starts (the calls it
makes pass a null peer and so leave the other entries of that map alone). -/
def CheckOrphanVotes.proposalLoop (env : Env) : StdMap CBudgetVote → Globals → Globals
  | [], s => s
  | (k, vote) :: rest, s =>
    CheckOrphanVotes.proposalLoop env rest (CheckOrphanVotes.proposalStep env s k vote)

/-- The body of the second loop of `CBudgetManager::CheckOrphanVotes`, at the
entry `(k, vote)` of `mapOrphanFinalizedBudgetVotes`. -/
def CheckOrphanVotes.budgetStep (env : Env) (s : Globals) (k : uint256)
    (vote : CFinalizedBudgetVote) : Globals :=
  let r := UpdateFinalizedBudget env s vote none
  if r.1 then
    { r.2 with budget := { r.2.budget with
        mapOrphanFinalizedBudgetVotes := (r.2.budget.mapOrphanFinalizedBudgetVotes.erase k) } }
  else r.2

/-- The second loop of `CBudgetManager::CheckOrphanVotes`, over the entries of
`mapOrphanFinalizedBudgetVotes` as they stand when the loop starts. -/
def CheckOrphanVotes.budgetLoop (env : Env) : StdMap CFinalizedBudgetVote → Globals → Globals
  | [], s => s
  | (k, vote) :: rest, s =>
    CheckOrphanVotes.budgetLoop env rest (CheckOrphanVotes.budgetStep env s k vote)

/-- `CBudgetManager::CheckOrphanVotes`. -/
def CheckOrphanVotes (env : Env) (s : Globals) : Globals :=
  let s1 := CheckOrphanVotes.proposalLoop env s.budget.mapOrphanProposalVotes s
  CheckOrphanVotes.budgetLoop env s1.budget.mapOrphanFinalizedBudgetVotes s1

end CBudgetManager

/-! ## Maintenance: the auto-vote and the removal pass -/

namespace CFinalizedBudget

/-- The loop of `CFinalizedBudget::SubmitVote` over
`amnodeman.GetActiveMasternodes()`; `fb` is the budget the function is called
on (the loop reads its hash only). `none` stands for a call without a defined
result: the failed `assert(fMasterNode)`, or `*(activeMasternode.vin)` on an
empty optional. -/
def SubmitVote.loop (env : Env) (fb : CFinalizedBudget) :
    List CActiveMasternode → Globals → Option Globals
  | [], s => some s
  | activeMasternode :: rest, s =>
    -- function called only from initialized masternodes
    if !env.fMasterNode then none
    else if activeMasternode.vin ≠ none then SubmitVote.loop env fb rest s
    else if !env.GetKeysFromSecret activeMasternode.strMasterNodePrivKey then some s
    else
      match activeMasternode.vin with
      | none => none
      | some vin =>
        let vote := CFinalizedBudgetVote.ctor env vin (fb.GetHash env)
        if !env.signFinalizedVote activeMasternode.strMasterNodePrivKey vote.vin
            vote.nBudgetHash vote.nTime then some s
        else
          let r := CBudgetManager.UpdateFinalizedBudget env s vote none
          if r.1 then
            SubmitVote.loop env fb rest
              { r.2 with budget := r.2.budget.AddSeenFinalizedBudgetVote env vote }
          else SubmitVote.loop env fb rest r.2

/-- `CFinalizedBudget::SubmitVote`; the relay of the vote is outside the
model. -/
def SubmitVote (env : Env) (s : Globals) (fb : CFinalizedBudget) : Option Globals :=
  SubmitVote.loop env fb env.GetActiveMasternodes s

/-- Modelled from the spec: `CBudgetProposal::PtrGreater` is declared in the
header, which is not among the sources. Spec, section 4.3: the local slate is
sorted "by proposal hash descending"; the call
`std::sort(..., CBudgetProposal::PtrGreater)` is taken as an insertion sort
by the identity hash, descending. -/
def CheckAndVote.sortProposals (env : Env) (v : List (uint256 × CBudgetProposal)) :
    List (uint256 × CBudgetProposal) :=
  v.insertionSort (fun a b => a.2.GetHash env > b.2.GetHash env)

/-- Modelled from the spec: `operator>` of `CTxBudgetPayment` is declared in
the header, which is not among the sources. Spec, section 4.3: the payments
are sorted "by proposal hash descending"; the call
`std::sort(..., std::greater<CTxBudgetPayment>())` is taken as an insertion
sort by the proposal hash, descending. -/
def CheckAndVote.sortPayments (v : List CTxBudgetPayment) : List CTxBudgetPayment :=
  v.insertionSort (fun a b => a.nProposalHash > b.nProposalHash)

/-- The last loop of `CFinalizedBudget::CheckAndVote`: whether every payment
agrees with the proposal at the same index in hash, payee and amount. -/
def CheckAndVote.allMatch (env : Env) :
    List CTxBudgetPayment → List (uint256 × CBudgetProposal) → Bool
  | [], _ => true
  | _ :: _, [] => false
  | payment :: payments, proposal :: proposals =>
    if payment.nProposalHash ≠ proposal.2.GetHash env then false
    else if payment.payee ≠ proposal.2.address then false
    else if payment.nAmount ≠ proposal.2.nAmount then false
    else CheckAndVote.allMatch env payments proposals

/-- `CFinalizedBudget::CheckAndVote`, called on the entry of
`budget.mapFinalizedBudgets` under the key `k` (the function reaches the
manager through the global `budget`, which holds the object itself); `rand`
is the value `rand()` returns if it is called. -/
def CheckAndVote (env : Env) (rand : Int) (s : Globals) (k : uint256) : Option Globals :=
  match s.budget.mapFinalizedBudgets.find k with
  | none => some s -- not reached: the object is the entry under `k`
  | some fb =>
    if !env.fMasterNode || fb.fAutoChecked then some s
    else if env.activeMasternodeVin = none then some s
    -- Do this 1 in 4 blocks -- spread out the voting activity
    else if rand.tmod 4 ≠ 0 then some s
    else
      -- we only need to check this once
      let fb1 := { fb with fAutoChecked := true }
      let s1 : Globals := { s with budget := { s.budget with
        mapFinalizedBudgets := (s.budget.mapFinalizedBudgets.set k fb1) } }
      -- only vote for exact matches
      if env.strBudgetMode = "auto" then
        let r := s1.budget.GetBudget env
        let s2 : Globals := { s1 with budget := r.2 }
        let vBudgetProposalsSortedByHash := CheckAndVote.sortProposals env r.1
        let vecBudgetPaymentsSortedByHash := CheckAndVote.sortPayments fb1.vecBudgetPayments
        if vBudgetProposalsSortedByHash.length = 0 then some s2
        else if vBudgetProposalsSortedByHash.length ≠ vecBudgetPaymentsSortedByHash.length then
          some s2
        else if !CheckAndVote.allMatch env vecBudgetPaymentsSortedByHash
            vBudgetProposalsSortedByHash then some s2
        else SubmitVote env s2 fb1
      else some s1

end CFinalizedBudget

namespace CBudgetManager

/-- The first loop of `CBudgetManager::CheckAndRemove`, over the keys of
`mapFinalizedBudgets` (the loop adds and removes no entry of that map);
`tmp` is `tmpMapFinalizedBudgets` and `rand k` the value `rand()` returns if
the auto-check of the budget under `k` calls it. `none` as in `SubmitVote`. -/
def CheckAndRemove.budgetsLoop (env : Env) (rand : uint256 → Int) (nCurrentHeight : Int) :
    List uint256 → Globals → StdMap CFinalizedBudget → Option (Globals × StdMap CFinalizedBudget)
  | [], s, tmp => some (s, tmp)
  | k :: rest, s, tmp =>
    match s.budget.mapFinalizedBudgets.find k with
    | none => CheckAndRemove.budgetsLoop env rand nCurrentHeight rest s tmp -- not reached
    | some fb =>
      let r := fb.UpdateValid env nCurrentHeight
      let s1 : Globals := { s with budget := { s.budget with
        mapFinalizedBudgets := (s.budget.mapFinalizedBudgets.set k r.2) } }
      if !r.1 then CheckAndRemove.budgetsLoop env rand nCurrentHeight rest s1 tmp
      else
        match CFinalizedBudget.CheckAndVote env (rand k) s1 k with
        | none => none
        | some s2 =>
          match s2.budget.mapFinalizedBudgets.find k with
          | none => CheckAndRemove.budgetsLoop env rand nCurrentHeight rest s2 tmp -- not reached
          | some fb2 =>
            CheckAndRemove.budgetsLoop env rand nCurrentHeight rest s2
              (tmp.emplace (fb2.GetHash env) fb2)

/-- The second loop of `CBudgetManager::CheckAndRemove`, over `mapProposals`;
`tmp` is `tmpMapProposals`. -/
def CheckAndRemove.proposalsLoop (env : Env) (nCurrentHeight : Int) :
    StdMap CBudgetProposal → StdMap CBudgetProposal → StdMap CBudgetProposal
  | [], tmp => tmp
  | (_, p) :: rest, tmp =>
    let r := p.UpdateValid env nCurrentHeight
    if !r.1 then CheckAndRemove.proposalsLoop env nCurrentHeight rest tmp
    else CheckAndRemove.proposalsLoop env nCurrentHeight rest (tmp.emplace (r.2.GetHash env) r.2)

/-- `CBudgetManager::CheckAndRemove`. -/
def CheckAndRemove (env : Env) (rand : uint256 → Int) (s : Globals) : Option Globals :=
  let nCurrentHeight := s.budget.GetBestHeight
  match CheckAndRemove.budgetsLoop env rand nCurrentHeight s.budget.mapFinalizedBudgets.keys s []
  with
  | none => none
  | some (s1, tmpMapFinalizedBudgets) =>
    -- Remove invalid entries by overwriting complete map
    let s2 : Globals := { s1 with budget := { s1.budget with
      mapFinalizedBudgets := tmpMapFinalizedBudgets } }
    let tmpMapProposals := CheckAndRemove.proposalsLoop env nCurrentHeight s2.budget.mapProposals []
    -- Remove invalid entries by overwriting complete map
    some { s2 with budget := { s2.budget with mapProposals := tmpMapProposals } }

end CBudgetManager

/-! ## Invariants of the removal pass -/

/-- The proposal map `mp` holds the proposals of `mp0` under the same keys,
each with another allotted amount at most and, when `b` is true, with its
votes re-flagged by `CleanAndRemove`. -/
def ProposalsRefreshed (env : Env) (b : Bool) (mp0 mp : StdMap CBudgetProposal) : Prop :=
  StdMap.keys mp = StdMap.keys mp0 ∧
  ∀ k p0, mp0.find k = some p0 →
    ∃ a, mp.find k = some { (if b then p0.CleanAndRemove env else p0) with nAlloted := a }

/-- The budget map `mf` holds, under every key of `mf0`, a budget with the
name, block-start and payments that `mf0` holds there. -/
def BudgetsKept (mf0 mf : StdMap CFinalizedBudget) : Prop :=
  ∀ k fb0, mf0.find k = some fb0 →
    ∃ fb, mf.find k = some fb ∧ fb.strBudgetName = fb0.strBudgetName ∧
      fb.nBlockStart = fb0.nBlockStart ∧ fb.vecBudgetPayments = fb0.vecBudgetPayments

/-! ## Payment counts of a proposal -/

namespace CBudgetProposal

end CBudgetProposal

/-! ## Inbound messages -/

namespace CBudgetManager

end CBudgetManager

/-! ## Example data -/

/-- The collateral transaction `77`: it commits to the hash `3000000601` of
proposal A. -/
def exampleCollateralTx : CTransaction :=
  { vout := [{ nValue := 5000000000, scriptPubKey := [106, 3000000601] }], nLockTime := 0 }

/-- The collateral transaction `79`: it commits to the hash `201` of the
example budget. -/
def exampleBudgetCollateralTx : CTransaction :=
  { vout := [{ nValue := 500000000, scriptPubKey := [106, 201] }], nLockTime := 0 }

/-- The collateral transaction `80`: two unspendable outputs, committing to the
hashes `3000000601` and `5000000601` of two different proposals. -/
def exampleSharedCollateralTx : CTransaction :=
  { vout := [{ nValue := 5000000000, scriptPubKey := [106, 3000000601] },
             { nValue := 5000000000, scriptPubKey := [106, 5000000601] }], nLockTime := 0 }

/-- A small main-net environment: cycle length 200, 100 enabled masternodes,
block `11` at height 100 on the active chain, block `12` known but not on it. -/
def exampleEnv : Env where
  COIN := 100000000
  BUDGET_VOTE_UPDATE_MIN := 3600
  PROPOSAL_FEE_TX := 5000000000
  BUDGET_FEE_TX := 500000000
  nBudgetCycleBlocks := 200
  nProposalEstablishmentTime := 3600
  nBudgetFeeConfirmations := 6
  isTestnet := false
  upgradePoSActive := fun h => decide (h ≥ 1000)
  upgradeZCV2Active := fun h => decide (h ≥ 2000)
  GetTime := 1000000
  GetAdjustedTime := 1000000
  CountEnabled := 100
  mnFind := fun _ => true
  mapBlockIndex := fun h =>
    if h = 11 then some { nHeight := 100, nTime := 990000 }
    else if h = 12 then some { nHeight := 100, nTime := 990500 }
    else none
  chainActiveContains := fun b => decide (b.nTime = 990000)
  GetTransaction := fun h =>
    if h = 77 then some (exampleCollateralTx, 11)
    else if h = 79 then some (exampleBudgetCollateralTx, 11)
    else if h = 80 then some (exampleSharedCollateralTx, 11)
    else none
  GetIXConfirmations := fun _ => 0
  GetBlockValue := fun _ => 500000000
  opReturnScript := fun h => [106, h]
  IsNormalPaymentScript := fun s => decide (s.head? = some 118)
  IsUnspendable := fun s => decide (s.head? = some 106)
  IsPayToScriptHash := fun s => decide (s.head? = some 169)
  ExtractDestination := fun s => decide (s.head? = some 118)
  IsValidDestination := fun s => decide (s.head? = some 118)
  hashProposalFields := fun _ _ bs be a _ _ => (bs + be + a).toNat
  hashBudgetFields := fun _ bs l => bs.toNat + l.length
  uint256ToString := fun h => String.mk (List.replicate h 'x')
  decimalText := fun n => String.mk (List.replicate n.toNat 'i')
  masternodeSyncIsSynced := true
  fMasterNode := false
  activeMasternodeVin := none
  GetActiveMasternodes := []
  GetKeysFromSecret := fun k => decide (k ≠ "")
  signFinalizedVote := fun _ _ _ _ => true
  strBudgetMode := ""
  hashVoteFields := fun vin ph d t => Nat.pair (Nat.pair vin.prevout.GetHash ph) (Nat.pair d t.toNat)
  hashFinalizedVoteFields := fun vin bh t => Nat.pair (Nat.pair vin.prevout.GetHash bh) t.toNat
  fLiteMode := false
  masternodeSyncIsBlockchainSynced := true
  checkVoteSignature := fun _ _ _ _ vchSig => decide (vchSig = [1])
  checkFinalizedVoteSignature := fun _ _ _ vchSig => decide (vchSig = [1])

/-- A finalized budget starting at block 200 with the single payment of 30 to
script `[118, 1]` for proposal `7`, and an empty payment history. -/
def exampleBudget : CFinalizedBudget :=
  { fAutoChecked := false, fValid := true, strInvalid := "", mapVotes := [],
    strBudgetName := "main", nBlockStart := 200,
    vecBudgetPayments := [{ nProposalHash := 7, payee := [118, 1], nAmount := 30 }],
    nFeeTXHash := 77, strProposals := "", nTime := 0, mapPayment_History := [] }

/-- A transaction whose only output pays 30 to script `[118, 1]`. -/
def exampleTx : CTransaction :=
  { vout := [{ nValue := 30, scriptPubKey := [118, 1] }], nLockTime := 0 }

/-- A transaction with two outputs, both paying 30 to script `[118, 1]`. -/
def exampleTxTwice : CTransaction :=
  { vout := [{ nValue := 30, scriptPubKey := [118, 1] },
             { nValue := 30, scriptPubKey := [118, 1] }], nLockTime := 0 }

/-- Twenty finalized-budget votes, from the outpoints `(0, 0)` to `(19, 0)`. -/
def exampleBudgetVotes : StdMap CFinalizedBudgetVote :=
  (List.range 20).map (fun i =>
    (COutPoint.GetHash { hash := i, n := 0 },
     { fValid := true, fSynced := false, vin := { prevout := { hash := i, n := 0 } },
       nBudgetHash := 201, nTime := 5000 }))

/-- Votes on proposal `ph` from the outpoints `(0, 0)`, `(1, 0)`, ...: the
first `yes` of them vote yes, the next `no` vote no. -/
def exampleVotes (ph : uint256) (yes no : Nat) : StdMap CBudgetVote :=
  (List.range (yes + no)).map (fun i =>
    (COutPoint.GetHash { hash := i, n := 0 },
     { fValid := true, fSynced := false, nProposalHash := ph,
       nVote := if i < yes then VoteDirection.VOTE_YES else VoteDirection.VOTE_NO,
       nTime := 5000, vin := { prevout := { hash := i, n := 0 } } }))

/-- Proposal A: 30 coins, 20 yes votes, collateral transaction `77`. -/
def exampleProposalA : CBudgetProposal :=
  { nAlloted := 0, fValid := true, strInvalid := "", mapVotes := exampleVotes 3000000601 20 0,
    strProposalName := "A", strURL := "", nBlockStart := 200, nBlockEnd := 401,
    address := [118, 1], nAmount := 3000000000, nFeeTXHash := 77, nTime := 990000 }

/-- Proposal B: 50 coins, 15 yes votes and 1 no vote, collateral
transaction `78`. -/
def exampleProposalB : CBudgetProposal :=
  { nAlloted := 0, fValid := true, strInvalid := "", mapVotes := exampleVotes 5000000601 15 1,
    strProposalName := "B", strURL := "", nBlockStart := 200, nBlockEnd := 401,
    address := [118, 2], nAmount := 5000000000, nFeeTXHash := 78, nTime := 990000 }

/-- A manager at best height 150 holding the proposals A and B and the
finalized budget `exampleBudget` with twenty votes. -/
def exampleManager : CBudgetManager :=
  { mapProposals := [(3000000601, exampleProposalA), (5000000601, exampleProposalB)],
    mapFinalizedBudgets := [(201, { exampleBudget with mapVotes := exampleBudgetVotes })],
    mapSeenProposalVotes := [], mapOrphanProposalVotes := [],
    mapSeenFinalizedBudgetVotes := [], mapOrphanFinalizedBudgetVotes := [],
    mapCollateralTxids := [], nBestHeight := 150 }

/-- A yes vote on proposal A from the outpoint `(0, 0)` at time `t`. -/
def exampleVoteAt (t : Int) : CBudgetVote :=
  { fValid := true, fSynced := false, nProposalHash := 3000000601,
    nVote := VoteDirection.VOTE_YES, nTime := t, vin := { prevout := { hash := 0, n := 0 } } }

/-- A vote on the example budget from the outpoint `(0, 0)` at time `t`. -/
def exampleBudgetVoteAt (t : Int) : CFinalizedBudgetVote :=
  { fValid := true, fSynced := false, vin := { prevout := { hash := 0, n := 0 } },
    nBudgetHash := 201, nTime := t }

/-- Three votes of the voter `(0, 0)` on proposal A, all arriving with the
clock at 1000000: at time 5000, then 8601, then a stale one at 6000. -/
def exampleCalls : List (Int × CBudgetVote) :=
  [(1000000, exampleVoteAt 5000), (1000000, exampleVoteAt 8601), (1000000, exampleVoteAt 6000)]

/-- Two votes of the voter `(0, 0)` on the example budget: at time 5000 and,
too soon after it, at 5100. -/
def exampleBudgetCalls : List (Int × CFinalizedBudgetVote) :=
  [(1000000, exampleBudgetVoteAt 5000), (1000000, exampleBudgetVoteAt 5100)]

/-- Proposal A as it is submitted: no votes yet, creation time not yet set. -/
def exampleProposalNew : CBudgetProposal :=
  { exampleProposalA with mapVotes := [], nTime := 0 }

/-- A manager at best height 150 with no proposal and no finalized budget. -/
def exampleEmptyManager : CBudgetManager :=
  { mapProposals := [], mapFinalizedBudgets := [],
    mapSeenProposalVotes := [], mapOrphanProposalVotes := [],
    mapSeenFinalizedBudgetVotes := [], mapOrphanFinalizedBudgetVotes := [],
    mapCollateralTxids := [], nBestHeight := 150 }

/-- The example budget as it is submitted, with collateral transaction `79`. -/
def exampleBudgetNew : CFinalizedBudget :=
  { exampleBudget with nFeeTXHash := 79 }

/-- A finalized budget at block 200 with `n` payments of 1 each. -/
def exampleBudgetOfSize (n : Nat) : CFinalizedBudget :=
  { exampleBudget with
    vecBudgetPayments := List.replicate n { nProposalHash := 7, payee := [118, 1], nAmount := 1 } }

/-- A finalized budget whose block-start is the negative multiple `-200` of
the cycle length. -/
def exampleBudgetNegative : CFinalizedBudget :=
  { exampleBudget with nBlockStart := -200 }

/-- Proposal A as submitted with the shared collateral transaction `80`. -/
def exampleProposalShared1 : CBudgetProposal :=
  { exampleProposalNew with nFeeTXHash := 80 }

/-- Proposal B as submitted with the shared collateral transaction `80`. -/
def exampleProposalShared2 : CBudgetProposal :=
  { exampleProposalB with mapVotes := [], nTime := 0, nFeeTXHash := 80 }

/-- Proposal A created 30 seconds before the adjusted time of `exampleEnv`. -/
def exampleProposalRecent : CBudgetProposal :=
  { exampleProposalA with nTime := 999970 }

/-- Proposal A with the plain amount 30 (scenario "cap 100"). -/
def exampleProposalA30 : CBudgetProposal :=
  { exampleProposalA with nAmount := 30 }

/-- Proposal B with the plain amount 50 (scenario "cap 100"). -/
def exampleProposalB50 : CBudgetProposal :=
  { exampleProposalB with nAmount := 50 }

/-- A manager at best height 150 whose only proposal is the one created 30
seconds ago. -/
def exampleManagerRecent : CBudgetManager :=
  { exampleEmptyManager with mapProposals := [(3000000601, exampleProposalRecent)] }

/-- Proposal A asking for 647990 coins, 10 coins below the cap of 648000. -/
def exampleProposalBig : CBudgetProposal :=
  { exampleProposalA with nAmount := 64799000000000 }

/-- A manager at best height 150 holding the big proposal A and proposal B
(50 coins): together they exceed the cap of 648000 coins. -/
def exampleManagerOver : CBudgetManager :=
  { exampleEmptyManager with
    mapProposals := [(1, exampleProposalBig), (2, exampleProposalB)] }

/-- The environment `exampleEnv` with 10 enabled masternodes, so that 5% of
them rounds down to 0. -/
def exampleEnvTen : Env :=
  { exampleEnv with CountEnabled := 10 }

/-- The example manager one block before the superblock 200. -/
def exampleManagerAt199 : CBudgetManager :=
  { exampleManager with nBestHeight := 199 }

/-- A coinbase or coinstake with the single output of 7 to script `[118, 9]`. -/
def exampleTxNew : CTransaction :=
  { vout := [{ nValue := 7, scriptPubKey := [118, 9] }], nLockTime := 0 }

/-- The state of scenario "orphan vote resolution": a yes vote on proposal A
arrives from peer 1 while the proposal is unknown and is parked; then the
proposal is added. -/
def exampleGlobalsParked : Globals :=
  let s1 := (CBudgetManager.UpdateProposal exampleEnv
    { budget := exampleEmptyManager, askedForSourceProposalOrBudget := [] }
    (exampleVoteAt 5000) (some { id := 1 })).2
  { s1 with budget := (s1.budget.AddProposal exampleEnv exampleProposalNew).2.2 }

/-- The environment of a masternode node in budget mode "auto": the active
masternode has the resolved outpoint `(50, 0)` and a usable key. -/
def exampleEnvMasternode : Env :=
  { exampleEnv with
    fMasterNode := true
    activeMasternodeVin := some { prevout := { hash := 50, n := 0 } }
    GetActiveMasternodes :=
      [{ vin := some { prevout := { hash := 50, n := 0 } }, strMasterNodePrivKey := "secret" }]
    strBudgetMode := "auto" }

/-- The globals of a node that knows the example budget (hash `201`, no vote
yet) and no proposal. -/
def exampleGlobalsBudget : Globals :=
  { budget := { exampleEmptyManager with mapFinalizedBudgets := [(201, exampleBudget)] },
    askedForSourceProposalOrBudget := [] }

/-- The globals of a node holding `exampleManager`: proposals A and B and the
example budget with twenty votes, at best height 150. -/
def exampleGlobals : Globals :=
  { budget := exampleManager, askedForSourceProposalOrBudget := [] }

/-- The globals of `exampleGlobals` at best height 450, two cycles after the
example budget's last payment block 200. -/
def exampleGlobalsLate : Globals :=
  { budget := { exampleManager with nBestHeight := 450 }, askedForSourceProposalOrBudget := [] }

/-- Proposal A with 5 yes and 17 no votes, all flagged valid. -/
def exampleProposalDown : CBudgetProposal :=
  { exampleProposalA with mapVotes := exampleVotes 3000000601 5 17 }

/-- The globals of a node holding the downvoted proposal and the example
budget, at best height 150. -/
def exampleGlobalsDown : Globals :=
  { budget := { exampleEmptyManager with
      mapProposals := [(3000000601, exampleProposalDown)]
      mapFinalizedBudgets := [(201, exampleBudget)] },
    askedForSourceProposalOrBudget := [] }

/-- The masternode node of `exampleEnvMasternode` at a time when the
masternode directory no longer knows any of the voters. -/
def exampleEnvVotersGone : Env :=
  { exampleEnvMasternode with mnFind := fun _ => false }

/-- The example budget with twenty votes whose payment to proposal `7` is
recorded as made in block `11` (on the active chain) at height 200. -/
def exampleBudgetPaid : CFinalizedBudget :=
  { exampleBudget with mapVotes := exampleBudgetVotes, mapPayment_History := [(7, (11, 200))] }

/-- The example manager holding `exampleBudgetPaid`. -/
def exampleManagerPaid : CBudgetManager :=
  { exampleManager with mapFinalizedBudgets := [(201, exampleBudgetPaid)] }

/-- The example budget whose payment to proposal `7` is recorded as made in
block `12` (known to the block index, not on the active chain) at height 200. -/
def exampleBudgetStale : CFinalizedBudget :=
  { exampleBudget with mapPayment_History := [(7, (12, 200))] }

/-- The example manager whose finalized budget has exactly five votes, 5% of
the 100 enabled masternodes of `exampleEnv`. -/
def exampleManagerFive : CBudgetManager :=
  { exampleManager with
    mapFinalizedBudgets := [(201, { exampleBudget with mapVotes := exampleBudgetVotes.take 5 })] }

/-- Proposal X: 400000 coins, 20 yes votes. -/
def exampleProposalX : CBudgetProposal :=
  { exampleProposalA with strProposalName := "X", nAmount := 40000000000000 }

/-- Proposal Y: 300000 coins, 18 yes votes. -/
def exampleProposalY : CBudgetProposal :=
  { exampleProposalA with
    strProposalName := "Y", mapVotes := exampleVotes 3000000601 18 0,
    nAmount := 30000000000000, nFeeTXHash := 78 }

/-- Proposal Z: 200000 coins, 15 yes votes and 1 no vote. -/
def exampleProposalZ : CBudgetProposal :=
  { exampleProposalB with strProposalName := "Z", nAmount := 20000000000000, nFeeTXHash := 79 }

/-- A manager at best height 150 holding X, Y and Z: X and Y together exceed
the cap of 648000 coins, X and Z together do not. -/
def exampleManagerGreedy : CBudgetManager :=
  { exampleEmptyManager with
    mapProposals := [(1, exampleProposalX), (2, exampleProposalY), (3, exampleProposalZ)] }

/-- A no vote on proposal A from the outpoint `(1, 0)` at time 5000. -/
def exampleVoteOther : CBudgetVote :=
  { exampleVoteAt 5000 with
    nVote := VoteDirection.VOTE_NO, vin := { prevout := { hash := 1, n := 0 } } }

/-- The globals after a yes vote of voter `(0, 0)` on the still unknown
proposal A has arrived from peer 1 and been parked. -/
def exampleGlobalsParkedOnce : Globals :=
  (CBudgetManager.UpdateProposal exampleEnv
    { budget := exampleEmptyManager, askedForSourceProposalOrBudget := [] }
    (exampleVoteAt 5000) (some { id := 1 })).2

/-- The globals of `exampleGlobalsParkedOnce` after the no vote of voter
`(1, 0)` on proposal A has arrived from peer 2 and been parked, and proposal A
has then been added. -/
def exampleGlobalsParkedTwice : Globals :=
  let s1 := (CBudgetManager.UpdateProposal exampleEnv exampleGlobalsParkedOnce
    exampleVoteOther (some { id := 2 })).2
  { s1 with budget := (s1.budget.AddProposal exampleEnv exampleProposalNew).2.2 }

/-- A vote on the example budget from the outpoint `(1, 0)` at time 5000. -/
def exampleBudgetVoteOther : CFinalizedBudgetVote :=
  { exampleBudgetVoteAt 5000 with vin := { prevout := { hash := 1, n := 0 } } }

/-- Proposal A as submitted, holding the vote of voter `(0, 0)` with the
timestamp `INT64_MIN`. -/
def exampleProposalOldest : CBudgetProposal :=
  { exampleProposalNew with
    mapVotes := [(COutPoint.GetHash { hash := 0, n := 0 },
      exampleVoteAt (-9223372036854775808))] }

/-- The example budget holding the vote of voter `(0, 0)` with the timestamp
`INT64_MIN`. -/
def exampleBudgetOldest : CFinalizedBudget :=
  { exampleBudget with
    mapVotes := [(COutPoint.GetHash { hash := 0, n := 0 },
      exampleBudgetVoteAt (-9223372036854775808))] }

/-- The example budget with two payments of `2^62` each. -/
def exampleBudgetHuge : CFinalizedBudget :=
  { exampleBudget with
    vecBudgetPayments :=
      [{ nProposalHash := 7, payee := [118, 1], nAmount := 4611686018427387904 },
       { nProposalHash := 8, payee := [118, 2], nAmount := 4611686018427387904 }] }

/-- The example budget with 100 payments: three of `-2^62`, then 97 of 0. -/
def exampleBudgetWrapped : CFinalizedBudget :=
  { exampleBudget with
    vecBudgetPayments :=
      List.replicate 3 { nProposalHash := 7, payee := [118, 1], nAmount := -4611686018427387904 }
        ++ List.replicate 97 { nProposalHash := 7, payee := [118, 1], nAmount := 0 } }

/-- The environment `exampleEnv` with an identity hash of proposals that
covers the creation time as well. -/
def exampleEnvTimed : Env :=
  { exampleEnv with hashProposalFields := fun _ _ bs be a _ t => (bs + be + a + t).toNat }

/-- The globals of a node of `exampleEnvTimed` after `AddProposal` has
admitted proposal A as submitted (creation time 0, hash `3000000601`). -/
def exampleGlobalsRekeyed : Globals :=
  { budget := (exampleEmptyManager.AddProposal exampleEnvTimed exampleProposalNew).2.2,
    askedForSourceProposalOrBudget := [] }

end Budget

namespace Budget

/-! ## Facts about `StdMap` -/

namespace StdMap

variable {V : Type}

theorem find_set_self (m : StdMap V) (k : uint256) (v : V) : find (set m k v) k = some v := by
  induction m with
  | nil => simp [set, find]
  | cons e t ih =>
    obtain ⟨k0, v0⟩ := e
    unfold set
    split_ifs with h1 h2
    · simp [find]
    · simp [find]
    · have hne : k0 ≠ k := fun h => h2 h.symm
      simp [find, hne, ih]

theorem find_set_ne (m : StdMap V) (k j : uint256) (v : V) (hjk : j ≠ k) :
    find (set m k v) j = find m j := by
  induction m with
  | nil => simp [set, find, Ne.symm hjk]
  | cons e t ih =>
    obtain ⟨k0, v0⟩ := e
    unfold set
    split_ifs with h1 h2
    · simp [find, Ne.symm hjk]
    · subst h2
      simp [find, Ne.symm hjk]
    · by_cases h3 : k0 = j
      · simp [find, h3]
      · simp [find, h3, ih]

theorem length_set_of_find_none (m : StdMap V) (k : uint256) (v : V) (h : find m k = none) :
    (set m k v).length = m.length + 1 := by
  induction m with
  | nil => simp [set]
  | cons e t ih =>
    obtain ⟨k0, v0⟩ := e
    have hne : k0 ≠ k := by
      intro h0
      simp [find, h0] at h
    have ht : find t k = none := by simpa [find, hne] using h
    unfold set
    split_ifs with h1 h2
    · simp
    · exact absurd h2.symm hne
    · simp [ih ht]

theorem find_filter_set (f : uint256 × V → Bool) (m : StdMap V) (k : uint256) (v : V)
    (hk : f (k, v) = true) : find ((set m k v).filter f) k = some v := by
  induction m with
  | nil => simp [set, List.filter, hk, find]
  | cons e t ih =>
    obtain ⟨k0, v0⟩ := e
    unfold set
    split_ifs with h1 h2
    · simp [List.filter, hk, find]
    · simp [List.filter, hk, find]
    · have hne : k0 ≠ k := fun h => h2 h.symm
      by_cases hf : f (k0, v0) = true
      · simp [List.filter, hf, find, hne, ih]
      · simp [List.filter, hf, ih]

theorem eraseIf_eraseIf (m : StdMap V) (drop : uint256 → V → Bool) :
    eraseIf (eraseIf m drop) drop = eraseIf m drop := by
  unfold eraseIf
  rw [List.filter_eq_self]
  intro a ha
  exact (List.mem_filter.mp ha).2

theorem contains_eq_false_iff (m : StdMap V) (k : uint256) :
    contains m k = false ↔ find m k = none := by
  unfold contains
  cases find m k <;> simp

theorem emplace_of_find_none (m : StdMap V) (k : uint256) (v : V) (h : find m k = none) :
    emplace m k v = set m k v := by
  unfold emplace
  rw [(contains_eq_false_iff m k).mpr h]
  simp

theorem emplace_of_find_some (m : StdMap V) (k : uint256) (v w : V) (h : find m k = some w) :
    emplace m k v = m := by
  unfold emplace contains
  simp [h]

end StdMap

end Budget

namespace Budget

open TrxValidationStatus

/-! ## The per-budget transaction predicate -/

namespace CFinalizedBudget

theorem searchPayment_iff (s : CScript) (a : CAmount) (l : List CTxOut) :
    searchPayment s a l = true ↔ ∃ out ∈ l, out.scriptPubKey = s ∧ out.nValue = a := by
  induction l with
  | nil => simp [searchPayment]
  | cons o t ih =>
    unfold searchPayment
    split_ifs with h
    · simp only [true_iff]
      exact ⟨o, List.mem_cons_self _ _, h.1.symm, h.2.symm⟩
    · rw [ih]
      constructor
      · rintro ⟨out, hm, ho⟩
        exact ⟨out, List.mem_cons_of_mem _ hm, ho⟩
      · rintro ⟨out, hm, ho⟩
        rcases List.mem_cons.mp hm with rfl | hm
        · exact absurd ⟨ho.1.symm, ho.2.symm⟩ h
        · exact ⟨out, hm, ho⟩

/-- The backward scan finds a payment iff some output of the transaction
matches, whatever the scan order. -/
theorem searchPayment_reverse_iff (s : CScript) (a : CAmount) (l : List CTxOut) :
    searchPayment s a l.reverse = true ↔ ∃ out ∈ l, out.scriptPubKey = s ∧ out.nValue = a := by
  rw [searchPayment_iff]
  simp only [List.mem_reverse]

/-- The payment a block height selects, once the three range guards pass. -/
theorem payment_of_in_range (fb : CFinalizedBudget) (h : Int)
    (h1 : fb.nBlockStart ≤ h) (h2 : h ≤ fb.GetBlockEnd) :
    ∃ payment, fb.vecBudgetPayments[(h - fb.nBlockStart).toNat]? = some payment := by
  unfold GetBlockEnd at h2
  have hlt : (h - fb.nBlockStart).toNat < fb.vecBudgetPayments.length := by omega
  exact ⟨fb.vecBudgetPayments[(h - fb.nBlockStart).toNat], List.getElem?_eq_getElem hlt⟩

theorem IsPaidAlready_of_none (env : Env) (fb : CFinalizedBudget) (ph bh : uint256) (h : Int)
    (hf : fb.prunedHistory.find ph = none) :
    fb.IsPaidAlready env ph bh h =
      (false, { fb with mapPayment_History := fb.prunedHistory.emplace ph (bh, h) }) := by
  simp [IsPaidAlready, hf]

theorem IsPaidAlready_of_some (env : Env) (fb : CFinalizedBudget) (ph bh : uint256) (h : Int)
    (paid : uint256 × Int) (hf : fb.prunedHistory.find ph = some paid) :
    fb.IsPaidAlready env ph bh h =
      (if bh ≠ paid.1 then
          (match env.mapBlockIndex paid.1 with
            | none => false
            | some pindex => env.chainActiveContains pindex)
        else false,
       { fb with mapPayment_History := fb.prunedHistory }) := by
  simp only [IsPaidAlready, hf]
  split_ifs <;> rfl

theorem IsPaidAlready_frame (env : Env) (fb : CFinalizedBudget) (ph bh : uint256) (h : Int) :
    (fb.IsPaidAlready env ph bh h).2.nBlockStart = fb.nBlockStart ∧
    (fb.IsPaidAlready env ph bh h).2.vecBudgetPayments = fb.vecBudgetPayments ∧
    (fb.IsPaidAlready env ph bh h).2.mapVotes = fb.mapVotes := by
  cases hf : fb.prunedHistory.find ph with
  | none => rw [IsPaidAlready_of_none env fb ph bh h hf]; simp
  | some paid => rw [IsPaidAlready_of_some env fb ph bh h paid hf]; simp

theorem prunedHistory_congr (fb fb2 : CFinalizedBudget) (hs : fb2.nBlockStart = fb.nBlockStart)
    (hp : fb2.vecBudgetPayments = fb.vecBudgetPayments) :
    fb2.prunedHistory = fb2.mapPayment_History.eraseIf
      (fun _ e => decide (e.2 < fb.nBlockStart) || decide (e.2 > fb.GetBlockEnd)) := by
  simp [prunedHistory, GetBlockEnd, hs, hp]

/-- A second `IsPaidAlready` with the same arguments, for a height inside the
budget's range, answers as the first did. -/
theorem IsPaidAlready_twice (env : Env) (fb : CFinalizedBudget) (ph bh : uint256) (h : Int)
    (h1 : fb.nBlockStart ≤ h) (h2 : h ≤ fb.GetBlockEnd) :
    ((fb.IsPaidAlready env ph bh h).2.IsPaidAlready env ph bh h).1 =
      (fb.IsPaidAlready env ph bh h).1 := by
  cases hf : fb.prunedHistory.find ph with
  | none =>
    rw [IsPaidAlready_of_none env fb ph bh h hf]
    have hp := prunedHistory_congr fb
      { fb with mapPayment_History := fb.prunedHistory.emplace ph (bh, h) } rfl rfl
    have hfind : ({ fb with mapPayment_History := fb.prunedHistory.emplace ph (bh, h) } :
        CFinalizedBudget).prunedHistory.find ph = some (bh, h) := by
      rw [hp, StdMap.emplace_of_find_none _ _ _ hf]
      unfold StdMap.eraseIf
      apply StdMap.find_filter_set
      simp only [Bool.not_eq_eq_eq_not, Bool.not_true, Bool.or_eq_false_iff,
        decide_eq_false_iff_not, not_lt]
      exact ⟨h1, h2⟩
    rw [IsPaidAlready_of_some env _ ph bh h (bh, h) hfind]
    simp
  | some paid =>
    rw [IsPaidAlready_of_some env fb ph bh h paid hf]
    have hp := prunedHistory_congr fb
      { fb with mapPayment_History := fb.prunedHistory } rfl rfl
    have hfind : ({ fb with mapPayment_History := fb.prunedHistory } :
        CFinalizedBudget).prunedHistory.find ph = some paid := by
      rw [hp]
      have hidem : StdMap.eraseIf fb.prunedHistory
          (fun _ e => decide (e.2 < fb.nBlockStart) || decide (e.2 > fb.GetBlockEnd)) =
          fb.prunedHistory := StdMap.eraseIf_eraseIf _ _
      show StdMap.find (StdMap.eraseIf fb.prunedHistory
          (fun _ e => decide (e.2 < fb.nBlockStart) || decide (e.2 > fb.GetBlockEnd))) ph = some paid
      rw [hidem]
      exact hf
    rw [IsPaidAlready_of_some env _ ph bh h paid hfind]

theorem IsTransactionValid_of_out_of_range (env : Env) (fb : CFinalizedBudget)
    (tx : CTransaction) (bh : uint256) (h : Int)
    (hr : h < fb.nBlockStart ∨ h > fb.GetBlockEnd) :
    fb.IsTransactionValid env tx bh h = (InValid, fb) := by
  unfold IsTransactionValid
  rcases hr with hr | hr
  · by_cases h2 : h > fb.GetBlockEnd
    · simp [h2]
    · simp [h2, hr]
  · simp [hr]

theorem IsTransactionValid_of_in_range (env : Env) (fb : CFinalizedBudget)
    (tx : CTransaction) (bh : uint256) (h : Int) (payment : CTxBudgetPayment)
    (h1 : fb.nBlockStart ≤ h) (h2 : h ≤ fb.GetBlockEnd)
    (hp : fb.vecBudgetPayments[(h - fb.nBlockStart).toNat]? = some payment) :
    fb.IsTransactionValid env tx bh h =
      (if (fb.IsPaidAlready env payment.nProposalHash bh h).1 = true then DoublePayment
        else if searchPayment payment.payee payment.nAmount tx.vout.reverse = true then Valid
        else InValid,
       (fb.IsPaidAlready env payment.nProposalHash bh h).2) := by
  have h2' := h2
  unfold GetBlockEnd at h2'
  have g1 : ¬ h > fb.GetBlockEnd := not_lt.mpr h2
  have g2 : ¬ h < fb.nBlockStart := not_lt.mpr h1
  have g3 : ¬ h - fb.nBlockStart > (fb.vecBudgetPayments.length : Int) - 1 := by omega
  unfold IsTransactionValid
  simp only [g1, g2, g3, if_false, hp]
  split_ifs <;> rfl

/-- C3: `CFinalizedBudget::IsTransactionValid` is `InValid` when the height is
before block-start, after block-end, or not an index of the payment list;
otherwise the payment at index `height - blockStart` exists and the status is
`DoublePayment` when `IsPaidAlready` fires on it, else `Valid` when some
output of the transaction has exactly the expected script and value, else
`InValid`. -/
theorem budget_tx_valid_spec (env : Env) (fb : CFinalizedBudget)
    (tx : CTransaction) (bh : uint256) (h : Int) :
    ((h < fb.nBlockStart ∨ h > fb.GetBlockEnd ∨
        ¬ (0 ≤ h - fb.nBlockStart ∧ h - fb.nBlockStart < (fb.vecBudgetPayments.length : Int))) →
      (fb.IsTransactionValid env tx bh h).1 = InValid) ∧
    (¬ (h < fb.nBlockStart ∨ h > fb.GetBlockEnd ∨
        ¬ (0 ≤ h - fb.nBlockStart ∧ h - fb.nBlockStart < (fb.vecBudgetPayments.length : Int))) →
      ∃ payment, fb.vecBudgetPayments[(h - fb.nBlockStart).toNat]? = some payment ∧
        ((fb.IsPaidAlready env payment.nProposalHash bh h).1 = true →
          (fb.IsTransactionValid env tx bh h).1 = DoublePayment) ∧
        ((fb.IsPaidAlready env payment.nProposalHash bh h).1 = false →
          (∃ out ∈ tx.vout, out.scriptPubKey = payment.payee ∧ out.nValue = payment.nAmount) →
          (fb.IsTransactionValid env tx bh h).1 = Valid) ∧
        ((fb.IsPaidAlready env payment.nProposalHash bh h).1 = false →
          (¬ ∃ out ∈ tx.vout, out.scriptPubKey = payment.payee ∧ out.nValue = payment.nAmount) →
          (fb.IsTransactionValid env tx bh h).1 = InValid)) := by
  constructor
  · intro hr
    have hr2 : h < fb.nBlockStart ∨ h > fb.GetBlockEnd := by
      unfold GetBlockEnd at hr ⊢
      omega
    rw [IsTransactionValid_of_out_of_range env fb tx bh h hr2]
  · intro hr
    have h1 : fb.nBlockStart ≤ h := by omega
    have h2 : h ≤ fb.GetBlockEnd := by
      unfold GetBlockEnd at hr ⊢
      omega
    obtain ⟨payment, hp⟩ := payment_of_in_range fb h h1 h2
    refine ⟨payment, hp, ?_, ?_, ?_⟩
    · intro hpaid
      rw [IsTransactionValid_of_in_range env fb tx bh h payment h1 h2 hp]
      simp [hpaid]
    · intro hpaid hex
      rw [IsTransactionValid_of_in_range env fb tx bh h payment h1 h2 hp]
      simp [hpaid, (searchPayment_reverse_iff payment.payee payment.nAmount tx.vout).mpr hex]
    · intro hpaid hex
      have hs : ¬ searchPayment payment.payee payment.nAmount tx.vout.reverse = true :=
        fun hs => hex ((searchPayment_reverse_iff payment.payee payment.nAmount tx.vout).mp hs)
      rw [IsTransactionValid_of_in_range env fb tx bh h payment h1 h2 hp]
      simp [hpaid, hs]

/-- C4, as the code has it: when `CFinalizedBudget::IsTransactionValid`
returns `Valid`, the height is inside the budget's range and at least one
output of the transaction has script and value equal to the expected payee
and amount of the payment at index `height - blockStart`. -/
theorem budget_tx_valid_some_output (env : Env) (fb : CFinalizedBudget)
    (tx : CTransaction) (bh : uint256) (h : Int)
    (hv : (fb.IsTransactionValid env tx bh h).1 = Valid) :
    ∃ payment, fb.vecBudgetPayments[(h - fb.nBlockStart).toNat]? = some payment ∧
      1 ≤ tx.vout.countP
        (fun out => decide (out.scriptPubKey = payment.payee ∧ out.nValue = payment.nAmount)) := by
  by_cases hr : h < fb.nBlockStart ∨ h > fb.GetBlockEnd
  · rw [IsTransactionValid_of_out_of_range env fb tx bh h hr] at hv
    simp at hv
  · have h1 : fb.nBlockStart ≤ h := by omega
    have h2 : h ≤ fb.GetBlockEnd := by omega
    obtain ⟨payment, hp⟩ := payment_of_in_range fb h h1 h2
    refine ⟨payment, hp, ?_⟩
    rw [IsTransactionValid_of_in_range env fb tx bh h payment h1 h2 hp] at hv
    by_cases hs : searchPayment payment.payee payment.nAmount tx.vout.reverse = true
    · obtain ⟨out, hm, ho⟩ := (searchPayment_reverse_iff _ _ _).mp hs
      have hpos : 0 < tx.vout.countP
          (fun out => decide (out.scriptPubKey = payment.payee ∧ out.nValue = payment.nAmount)) :=
        List.countP_pos_iff.mpr ⟨out, hm, by simpa using ho⟩
      exact hpos
    · exfalso
      by_cases hpaid : (fb.IsPaidAlready env payment.nProposalHash bh h).1 = true <;>
        simp [hpaid, hs] at hv

/-- C4 witness: the one-output transaction is `Valid` for the example budget
at height 200 and has a matching output. -/
theorem budget_tx_valid_some_output_witness :
    (exampleBudget.IsTransactionValid exampleEnv exampleTx 11 200).1 = Valid ∧
    ∃ payment, exampleBudget.vecBudgetPayments[((200 : Int) - exampleBudget.nBlockStart).toNat]?
        = some payment ∧
      1 ≤ exampleTx.vout.countP
        (fun out => decide (out.scriptPubKey = payment.payee ∧ out.nValue = payment.nAmount)) :=
  ⟨by decide, budget_tx_valid_some_output exampleEnv exampleBudget exampleTx 11 200
    (by decide)⟩

/-- C4 as stated fails: a transaction with two outputs that both match the
expected payee and amount is `Valid` although two outputs, not exactly one,
match. -/
theorem budget_tx_valid_two_outputs :
    (exampleBudget.IsTransactionValid exampleEnv exampleTxTwice 11 200).1 = Valid ∧
    exampleBudget.vecBudgetPayments[((200 : Int) - exampleBudget.nBlockStart).toNat]? =
      some { nProposalHash := 7, payee := [118, 1], nAmount := 30 } ∧
    exampleTxTwice.vout.countP
      (fun out => decide (out.scriptPubKey = [118, 1] ∧ out.nValue = 30)) = 2 ∧
    ¬ exampleTxTwice.vout.countP
      (fun out => decide (out.scriptPubKey = [118, 1] ∧ out.nValue = 30)) = 1 := by
  decide

/-- C5: calling `CFinalizedBudget::IsTransactionValid` twice in succession
with the same arguments (same chain, any contents of the payment-history
cache) returns the same status both times; in particular, when the first
call records the proposal in `mapPayment_History`, the second call does not
report `DoublePayment`. -/
theorem budget_tx_valid_twice (env : Env) (fb : CFinalizedBudget)
    (tx : CTransaction) (bh : uint256) (h : Int) :
    ((fb.IsTransactionValid env tx bh h).2.IsTransactionValid env tx bh h).1 =
        (fb.IsTransactionValid env tx bh h).1 ∧
    (∀ payment, fb.nBlockStart ≤ h → h ≤ fb.GetBlockEnd →
      fb.vecBudgetPayments[(h - fb.nBlockStart).toNat]? = some payment →
      fb.prunedHistory.find payment.nProposalHash = none →
      (fb.IsTransactionValid env tx bh h).2.mapPayment_History.find payment.nProposalHash
          = some (bh, h) ∧
      ((fb.IsTransactionValid env tx bh h).2.IsTransactionValid env tx bh h).1 ≠ DoublePayment) := by
  have key : ((fb.IsTransactionValid env tx bh h).2.IsTransactionValid env tx bh h).1 =
      (fb.IsTransactionValid env tx bh h).1 := by
    by_cases hr : h < fb.nBlockStart ∨ h > fb.GetBlockEnd
    · rw [IsTransactionValid_of_out_of_range env fb tx bh h hr]
      show (fb.IsTransactionValid env tx bh h).1 = InValid
      rw [IsTransactionValid_of_out_of_range env fb tx bh h hr]
    · have h1 : fb.nBlockStart ≤ h := by omega
      have h2 : h ≤ fb.GetBlockEnd := by omega
      obtain ⟨payment, hp⟩ := payment_of_in_range fb h h1 h2
      obtain ⟨f1, f2, _⟩ := IsPaidAlready_frame env fb payment.nProposalHash bh h
      rw [IsTransactionValid_of_in_range env fb tx bh h payment h1 h2 hp]
      have h1' : (fb.IsPaidAlready env payment.nProposalHash bh h).2.nBlockStart ≤ h := by
        rw [f1]; exact h1
      have h2' : h ≤ (fb.IsPaidAlready env payment.nProposalHash bh h).2.GetBlockEnd := by
        unfold GetBlockEnd
        rw [f1, f2]
        exact h2
      have hp' : (fb.IsPaidAlready env payment.nProposalHash bh h).2.vecBudgetPayments[
          (h - (fb.IsPaidAlready env payment.nProposalHash bh h).2.nBlockStart).toNat]? =
          some payment := by
        rw [f1, f2]; exact hp
      show ((fb.IsPaidAlready env payment.nProposalHash bh h).2.IsTransactionValid env tx bh h).1 = _
      rw [IsTransactionValid_of_in_range env _ tx bh h payment h1' h2' hp']
      simp only [IsPaidAlready_twice env fb payment.nProposalHash bh h h1 h2]
  refine ⟨key, ?_⟩
  intro payment h1 h2 hp hnone
  have hfirst := IsTransactionValid_of_in_range env fb tx bh h payment h1 h2 hp
  rw [IsPaidAlready_of_none env fb payment.nProposalHash bh h hnone] at hfirst
  constructor
  · rw [hfirst]
    show StdMap.find (StdMap.emplace _ _ _) _ = _
    rw [StdMap.emplace_of_find_none _ _ _ hnone]
    exact StdMap.find_set_self _ _ _
  · rw [key, hfirst]
    simp only [Bool.false_eq_true, if_false]
    split_ifs <;> simp

/-- C6: `CFinalizedBudget::IsPaidAlready` first drops exactly the cache
entries whose recorded height is outside `[blockStart, blockEnd]`; then, if
the proposal has no entry, it records `(blockHash, height)` for it (the other
entries stay) and returns false; if the entry's block hash differs from
`blockHash` and the recorded block is on the active chain, it returns true;
if the entry's block hash equals `blockHash`, it returns false and leaves the
pruned cache as it is. -/
theorem IsPaidAlready_spec (env : Env) (fb : CFinalizedBudget) (ph bh : uint256) (h : Int) :
    (∀ e, e ∈ fb.prunedHistory ↔
      (e ∈ fb.mapPayment_History ∧ fb.nBlockStart ≤ e.2.2 ∧ e.2.2 ≤ fb.GetBlockEnd)) ∧
    (fb.prunedHistory.find ph = none →
      (fb.IsPaidAlready env ph bh h).1 = false ∧
      (fb.IsPaidAlready env ph bh h).2 =
        { fb with mapPayment_History := fb.prunedHistory.set ph (bh, h) } ∧
      (fb.IsPaidAlready env ph bh h).2.mapPayment_History.find ph = some (bh, h) ∧
      (∀ j, j ≠ ph → (fb.IsPaidAlready env ph bh h).2.mapPayment_History.find j =
        fb.prunedHistory.find j) ∧
      (fb.IsPaidAlready env ph bh h).2.mapPayment_History.size = fb.prunedHistory.size + 1) ∧
    (∀ paid, fb.prunedHistory.find ph = some paid → paid.1 ≠ bh →
      (∃ pindex, env.mapBlockIndex paid.1 = some pindex ∧ env.chainActiveContains pindex = true) →
      (fb.IsPaidAlready env ph bh h).1 = true) ∧
    (∀ paid, fb.prunedHistory.find ph = some paid → paid.1 = bh →
      fb.IsPaidAlready env ph bh h = (false, { fb with mapPayment_History := fb.prunedHistory })) := by
  refine ⟨?_, ?_, ?_, ?_⟩
  · intro e
    simp only [prunedHistory, StdMap.eraseIf, List.mem_filter, Bool.not_eq_eq_eq_not,
      Bool.not_true, Bool.or_eq_false_iff, decide_eq_false_iff_not, not_lt]
  · intro hnone
    rw [IsPaidAlready_of_none env fb ph bh h hnone, StdMap.emplace_of_find_none _ _ _ hnone]
    refine ⟨rfl, rfl, StdMap.find_set_self _ _ _, ?_, ?_⟩
    · intro j hj
      exact StdMap.find_set_ne _ _ _ _ hj
    · exact StdMap.length_set_of_find_none _ _ _ hnone
  · intro paid hsome hne
    rintro ⟨pindex, hidx, hact⟩
    rw [IsPaidAlready_of_some env fb ph bh h paid hsome]
    simp [Ne.symm hne, hidx, hact]
  · intro paid hsome heq
    rw [IsPaidAlready_of_some env fb ph bh h paid hsome]
    simp [heq]

end CFinalizedBudget

end Budget

/-! ## The consensus-facing predicates of the manager -/

namespace Budget

open TrxValidationStatus

namespace CBudgetManager

/-- C7: with `H = GetHighestVoteCount(height)` and `E >= 0` enabled
masternodes, `IsBudgetPaymentBlock(height, threshold)` returns true iff
`H > E/20` and leaves `H - E/10` in the threshold when `E >= 10` and `H - 1`
when `E < 10`; for `H = 20`, `E = 100` it gives `(true, 10)`. -/
theorem IsBudgetPaymentBlock_spec (env : Env) (m : CBudgetManager) (height : Int)
    (hE : 0 ≤ env.CountEnabled) :
    ((m.IsBudgetPaymentBlock env height).1 = true ↔
      m.GetHighestVoteCount height > env.CountEnabled / 20) ∧
    (10 ≤ env.CountEnabled →
      (m.IsBudgetPaymentBlock env height).2 = m.GetHighestVoteCount height - env.CountEnabled / 10) ∧
    (env.CountEnabled < 10 →
      (m.IsBudgetPaymentBlock env height).2 = m.GetHighestVoteCount height - 1) ∧
    (m.GetHighestVoteCount height = 20 → env.CountEnabled = 100 →
      m.IsBudgetPaymentBlock env height = (true, 10)) := by
  have d20 : env.CountEnabled.tdiv 20 = env.CountEnabled / 20 :=
    Int.tdiv_eq_ediv hE (by norm_num)
  have d10 : env.CountEnabled.tdiv 10 = env.CountEnabled / 10 :=
    Int.tdiv_eq_ediv hE (by norm_num)
  unfold IsBudgetPaymentBlock
  simp only [d20, d10, decide_eq_true_eq]
  refine ⟨trivial, ?_, ?_, ?_⟩
  · intro h10
    have : m.GetHighestVoteCount height - env.CountEnabled / 10 ≠ m.GetHighestVoteCount height := by
      omega
    simp [this]
  · intro h10
    have : env.CountEnabled / 10 = 0 := by omega
    simp [this]
  · intro hH hc
    rw [hH, hc]
    decide

/-- C7 witness: the example manager (one finalized budget with twenty votes
covering block 200) on a network of 100 enabled masternodes. -/
theorem IsBudgetPaymentBlock_spec_witness :
    exampleManager.GetHighestVoteCount 200 = 20 ∧
    exampleManager.IsBudgetPaymentBlock exampleEnv 200 = (true, 10) :=
  ⟨by decide,
   (IsBudgetPaymentBlock_spec exampleEnv exampleManager 200 (by decide)).2.2.2
     (by decide) (by decide)⟩

/-- The status the budget loop of `IsTransactionValid` ends with. -/
theorem IsTransactionValid_loop_status (env : Env) (tx : CTransaction) (bh : uint256)
    (h thr : Int) (l : StdMap CFinalizedBudget) (fThreshold : Bool) :
    ((IsTransactionValid.loop env tx bh h thr l fThreshold).1 = Valid ↔
      ∃ e ∈ l, e.2.GetVoteCount > thr ∧ (e.2.IsTransactionValid env tx bh h).1 = Valid) ∧
    ((IsTransactionValid.loop env tx bh h thr l fThreshold).1 = InValid ↔
      (¬ ∃ e ∈ l, e.2.GetVoteCount > thr ∧ (e.2.IsTransactionValid env tx bh h).1 = Valid) ∧
      (fThreshold = true ∨ ∃ e ∈ l, e.2.GetVoteCount > thr)) ∧
    ((IsTransactionValid.loop env tx bh h thr l fThreshold).1 = VoteThreshold ↔
      fThreshold = false ∧ ∀ e ∈ l, ¬ e.2.GetVoteCount > thr) ∧
    (IsTransactionValid.loop env tx bh h thr l fThreshold).1 ≠ DoublePayment := by
  induction l generalizing fThreshold with
  | nil =>
    cases fThreshold <;> simp [IsTransactionValid.loop]
  | cons e t ih =>
    obtain ⟨k, fb⟩ := e
    unfold IsTransactionValid.loop
    by_cases hc : fb.GetVoteCount > thr
    · by_cases hv : (fb.IsTransactionValid env tx bh h).1 = Valid
      · simp only [hc, hv, if_true]
        refine ⟨?_, ?_, ?_, by simp⟩
        · simp only [true_iff]
          exact ⟨(k, fb), List.mem_cons_self _ _, hc, hv⟩
        · constructor
          · intro hcontra
            simp at hcontra
          · rintro ⟨hno, _⟩
            exact absurd ⟨(k, fb), List.mem_cons_self _ _, hc, hv⟩ hno
        · constructor
          · intro hcontra
            simp at hcontra
          · rintro ⟨_, hall⟩
            exact absurd hc (hall (k, fb) (List.mem_cons_self _ _))
      · obtain ⟨i1, i2, i3, i4⟩ := ih true
        simp only [hc, hv, if_true, if_false]
        refine ⟨?_, ?_, ?_, i4⟩
        · rw [i1]
          constructor
          · rintro ⟨e, he, hx⟩
            exact ⟨e, List.mem_cons_of_mem _ he, hx⟩
          · rintro ⟨e, he, hx⟩
            rcases List.mem_cons.mp he with rfl | he
            · exact absurd hx.2 hv
            · exact ⟨e, he, hx⟩
        · rw [i2]
          constructor
          · rintro ⟨hno, _⟩
            refine ⟨?_, Or.inr ⟨(k, fb), List.mem_cons_self _ _, hc⟩⟩
            rintro ⟨e, he, hx⟩
            rcases List.mem_cons.mp he with rfl | he
            · exact absurd hx.2 hv
            · exact hno ⟨e, he, hx⟩
          · rintro ⟨hno, _⟩
            refine ⟨?_, Or.inl rfl⟩
            rintro ⟨e, he, hx⟩
            exact hno ⟨e, List.mem_cons_of_mem _ he, hx⟩
        · rw [i3]
          constructor
          · rintro ⟨hcontra, _⟩
            simp at hcontra
          · rintro ⟨_, hall⟩
            exact absurd hc (hall (k, fb) (List.mem_cons_self _ _))
    · obtain ⟨i1, i2, i3, i4⟩ := ih fThreshold
      simp only [hc, if_false]
      refine ⟨?_, ?_, ?_, i4⟩
      · rw [i1]
        constructor
        · rintro ⟨e, he, hx⟩
          exact ⟨e, List.mem_cons_of_mem _ he, hx⟩
        · rintro ⟨e, he, hx⟩
          rcases List.mem_cons.mp he with rfl | he
          · exact absurd hx.1 hc
          · exact ⟨e, he, hx⟩
      · rw [i2]
        constructor
        · rintro ⟨hno, hor⟩
          refine ⟨?_, ?_⟩
          · rintro ⟨e, he, hx⟩
            rcases List.mem_cons.mp he with rfl | he
            · exact absurd hx.1 hc
            · exact hno ⟨e, he, hx⟩
          · rcases hor with hf | ⟨e, he, hx⟩
            · exact Or.inl hf
            · exact Or.inr ⟨e, List.mem_cons_of_mem _ he, hx⟩
        · rintro ⟨hno, hor⟩
          refine ⟨?_, ?_⟩
          · rintro ⟨e, he, hx⟩
            exact hno ⟨e, List.mem_cons_of_mem _ he, hx⟩
          · rcases hor with hf | ⟨e, he, hx⟩
            · exact Or.inl hf
            · rcases List.mem_cons.mp he with rfl | he
              · exact absurd hx hc
              · exact Or.inr ⟨e, he, hx⟩
      · rw [i3]
        constructor
        · rintro ⟨hf, hall⟩
          refine ⟨hf, ?_⟩
          intro e he
          rcases List.mem_cons.mp he with rfl | he
          · exact hc
          · exact hall e he
        · rintro ⟨hf, hall⟩
          exact ⟨hf, fun e he => hall e (List.mem_cons_of_mem _ he)⟩

/-- C2: `CBudgetManager::IsTransactionValid` returns `InValid` whenever
`IsBudgetPaymentBlock(height)` is false; otherwise it returns `Valid` iff some
finalized budget of the map with vote count strictly above the threshold has
per-entity `IsTransactionValid = Valid`, and it returns `InValid` when at
least one budget is above the threshold and none of those validates. -/
theorem manager_tx_valid_spec (env : Env) (m : CBudgetManager) (tx : CTransaction)
    (bh : uint256) (h : Int) :
    ((m.IsBudgetPaymentBlock env h).1 = false →
      (m.IsTransactionValid env tx bh h).1 = InValid) ∧
    ((m.IsBudgetPaymentBlock env h).1 = true →
      ((m.IsTransactionValid env tx bh h).1 = Valid ↔
        ∃ e ∈ m.mapFinalizedBudgets, e.2.GetVoteCount > (m.IsBudgetPaymentBlock env h).2 ∧
          (e.2.IsTransactionValid env tx bh h).1 = Valid) ∧
      ((∃ e ∈ m.mapFinalizedBudgets, e.2.GetVoteCount > (m.IsBudgetPaymentBlock env h).2) →
        (¬ ∃ e ∈ m.mapFinalizedBudgets, e.2.GetVoteCount > (m.IsBudgetPaymentBlock env h).2 ∧
          (e.2.IsTransactionValid env tx bh h).1 = Valid) →
        (m.IsTransactionValid env tx bh h).1 = InValid)) := by
  constructor
  · intro hb
    simp [IsTransactionValid, hb]
  · intro hb
    obtain ⟨i1, i2, _, _⟩ := IsTransactionValid_loop_status env tx bh h
      (m.IsBudgetPaymentBlock env h).2 m.mapFinalizedBudgets false
    have hres : (m.IsTransactionValid env tx bh h).1 =
        (IsTransactionValid.loop env tx bh h (m.IsBudgetPaymentBlock env h).2
          m.mapFinalizedBudgets false).1 := by
      simp [IsTransactionValid, hb]
    rw [hres]
    refine ⟨i1, ?_⟩
    intro hcross hno
    exact i2.mpr ⟨hno, Or.inr hcross⟩

/-! ## Allocation -/

theorem ite_nonneg_aux (c : Prop) [Decidable c] (a b : Int) (ha : 0 ≤ a) (hb : 0 ≤ b) :
    0 ≤ (if c then a else b) := by
  split_ifs <;> assumption

theorem GetTotalBudget_nSubsidy_nonneg (env : Env) (hC : 0 ≤ env.COIN) (nHeight : Int) :
    0 ≤ GetTotalBudget.nSubsidy env nHeight := by
  have h50 : (0 : Int) ≤ 50 * env.COIN := mul_nonneg (by norm_num) hC
  have h45 : (0 : Int) ≤ 45 * env.COIN := mul_nonneg (by norm_num) hC
  have h40 : (0 : Int) ≤ 40 * env.COIN := mul_nonneg (by norm_num) hC
  have h35 : (0 : Int) ≤ 35 * env.COIN := mul_nonneg (by norm_num) hC
  have h30 : (0 : Int) ≤ 30 * env.COIN := mul_nonneg (by norm_num) hC
  have h25 : (0 : Int) ≤ 25 * env.COIN := mul_nonneg (by norm_num) hC
  have h20 : (0 : Int) ≤ 20 * env.COIN := mul_nonneg (by norm_num) hC
  have h15 : (0 : Int) ≤ 15 * env.COIN := mul_nonneg (by norm_num) hC
  have h10 : (0 : Int) ≤ 10 * env.COIN := mul_nonneg (by norm_num) hC
  have h5 : (0 : Int) ≤ 5 * env.COIN := mul_nonneg (by norm_num) hC
  unfold GetTotalBudget.nSubsidy
  dsimp only
  repeat' apply ite_nonneg_aux
  all_goals assumption

theorem GetTotalBudget_nonneg (env : Env) (hC : 0 ≤ env.COIN) (nHeight : Int) :
    0 ≤ GetTotalBudget env nHeight := by
  have hs := GetTotalBudget_nSubsidy_nonneg env hC nHeight
  have h500 : (0 : Int) ≤ 500 * env.COIN := mul_nonneg (by norm_num) hC
  unfold GetTotalBudget
  dsimp only
  apply ite_nonneg_aux
  · exact mul_nonneg (mul_nonneg (Int.tdiv_nonneg h500 (by norm_num)) (by norm_num)) (by norm_num)
  · apply ite_nonneg_aux
    · exact mul_nonneg (by norm_num) hC
    · exact mul_nonneg (mul_nonneg (mul_nonneg (Int.tdiv_nonneg hs (by norm_num)) (by norm_num))
        (by norm_num)) (by norm_num)

/-- The greedy loop never allocates beyond the cap: what was allocated on
entry plus the amounts it admits stays at most `nTotalBudget`. -/
theorem GetBudget_loop_sum_le (env : Env) (bs be mn : Int) (nTotalBudget : CAmount)
    (l : List (uint256 × CBudgetProposal)) (nBudgetAllocated : CAmount)
    (h0 : nBudgetAllocated ≤ nTotalBudget) :
    nBudgetAllocated +
      ((GetBudget.loop env bs be mn nTotalBudget l nBudgetAllocated).1.map
        (fun e => e.2.nAmount)).sum ≤ nTotalBudget := by
  induction l generalizing nBudgetAllocated with
  | nil => simpa [GetBudget.loop] using h0
  | cons e t ih =>
    obtain ⟨k, p⟩ := e
    unfold GetBudget.loop
    by_cases hp : p.IsPassing env bs be mn = true
    · by_cases hfit : p.nAmount + nBudgetAllocated ≤ nTotalBudget
      · simp only [hp, hfit, if_true, List.map_cons, List.sum_cons]
        have := ih (nBudgetAllocated + p.nAmount) (by linarith)
        linarith
      · simp only [hp, hfit, if_true, if_false]
        exact ih nBudgetAllocated h0
    · simp only [hp, if_false]
      exact ih nBudgetAllocated h0

/-- C1: for every manager state with best height `h > 0`, the amounts
(`GetAmount()`) of the proposals returned by `CBudgetManager::GetBudget()` sum
to at most `GetTotalBudget(blockStart)`, `blockStart = h - h % cycle + cycle`
(`COIN` being a non-negative constant). -/
theorem GetBudget_sum_le_total (env : Env) (m : CBudgetManager)
    (hh : 0 < m.GetBestHeight) (hC : 0 ≤ env.COIN) :
    ((m.GetBudget env).1.map (fun e => e.2.nAmount)).sum ≤
      GetTotalBudget env
        (m.GetBestHeight - m.GetBestHeight.tmod env.nBudgetCycleBlocks + env.nBudgetCycleBlocks) := by
  have hh2 : ¬ m.GetBestHeight ≤ 0 := not_le.mpr hh
  unfold GetBudget
  simp only [hh2, if_false]
  have := GetBudget_loop_sum_le env
    (m.GetBestHeight - m.GetBestHeight.tmod env.nBudgetCycleBlocks + env.nBudgetCycleBlocks)
    (m.GetBestHeight - m.GetBestHeight.tmod env.nBudgetCycleBlocks + env.nBudgetCycleBlocks
      + env.nBudgetCycleBlocks - 1)
    env.CountEnabled
    (GetTotalBudget env
      (m.GetBestHeight - m.GetBestHeight.tmod env.nBudgetCycleBlocks + env.nBudgetCycleBlocks))
    (sortByHigherYes (m.mapProposals.map (fun e => (e.1, e.2.CleanAndRemove env)))) 0
    (GetTotalBudget_nonneg env hC _)
  simpa using this

/-- C1 witness: the example manager at best height 150 (cycle length 200, so
block-start 200) returns A and B, 80 coins in all. -/
theorem GetBudget_sum_le_total_witness :
    0 < exampleManager.GetBestHeight ∧ 0 ≤ exampleEnv.COIN ∧
    (exampleManager.GetBudget exampleEnv).1.map (fun e => e.2.nAmount)
      = [3000000000, 5000000000] ∧
    ((exampleManager.GetBudget exampleEnv).1.map (fun e => e.2.nAmount)).sum ≤
      GetTotalBudget exampleEnv
        (exampleManager.GetBestHeight -
          exampleManager.GetBestHeight.tmod exampleEnv.nBudgetCycleBlocks +
          exampleEnv.nBudgetCycleBlocks) :=
  ⟨by decide, by decide, by decide,
   GetBudget_sum_le_total exampleEnv exampleManager (by decide) (by decide)⟩

end CBudgetManager

end Budget

/-! ## Vote intake -/

namespace Budget

theorem proposal_AddOrUpdateVote_eq (env : Env) (p : CBudgetProposal)
    (vote : CBudgetVote) :
    p.AddOrUpdateVote env vote =
      ((voteIntake env.BUDGET_VOTE_UPDATE_MIN env.GetTime CBudgetVote.nTime p.mapVotes
          vote.vin.prevout.GetHash vote).1,
       { p with mapVotes :=
          (voteIntake env.BUDGET_VOTE_UPDATE_MIN env.GetTime CBudgetVote.nTime p.mapVotes
            vote.vin.prevout.GetHash vote).2 }) := by
  cases hf : p.mapVotes.find vote.vin.prevout.GetHash <;>
    simp only [CBudgetProposal.AddOrUpdateVote, voteIntake, hf] <;>
    split_ifs <;> rfl

theorem finalized_AddOrUpdateVote_eq (env : Env) (fb : CFinalizedBudget)
    (vote : CFinalizedBudgetVote) :
    fb.AddOrUpdateVote env vote =
      ((voteIntake env.BUDGET_VOTE_UPDATE_MIN env.GetTime CFinalizedBudgetVote.nTime fb.mapVotes
          vote.vin.prevout.GetHash vote).1,
       { fb with mapVotes :=
          (voteIntake env.BUDGET_VOTE_UPDATE_MIN env.GetTime CFinalizedBudgetVote.nTime fb.mapVotes
            vote.vin.prevout.GetHash vote).2 }) := by
  cases hf : fb.mapVotes.find vote.vin.prevout.GetHash <;>
    simp only [CFinalizedBudget.AddOrUpdateVote, voteIntake, hf] <;>
    split_ifs <;> rfl

section Intake

variable {V : Type}

theorem voteIntake_of_none (updateMin now : Int) (time : V → Int) (m : StdMap V)
    (hash : uint256) (vote : V) (hf : m.find hash = none) :
    voteIntake updateMin now time m hash vote =
      if time vote > now + 60 * 60 then (false, m) else (true, m.set hash vote) := by
  simp [voteIntake, hf]

theorem voteIntake_of_some (updateMin now : Int) (time : V → Int) (m : StdMap V)
    (hash : uint256) (vote old : V) (hf : m.find hash = some old) :
    voteIntake updateMin now time m hash vote =
      if time old > time vote then (false, m)
      else if wrapInt64 (time vote - time old) < updateMin then (false, m)
      else if time vote > now + 60 * 60 then (false, m)
      else (true, m.set hash vote) := by
  simp only [voteIntake, hf]
  split_ifs <;> simp_all

/-- An accepted vote is stored; a rejected one leaves the map alone. -/
theorem voteIntake_map (updateMin now : Int) (time : V → Int) (m : StdMap V)
    (hash : uint256) (vote : V) :
    (voteIntake updateMin now time m hash vote).2 =
      if (voteIntake updateMin now time m hash vote).1 = true then m.set hash vote else m := by
  cases hf : m.find hash with
  | none =>
    rw [voteIntake_of_none updateMin now time m hash vote hf]
    split_ifs <;> simp_all
  | some old =>
    rw [voteIntake_of_some updateMin now time m hash vote old hf]
    split_ifs <;> simp_all

/-- An `int64_t` result within `[-2^63, 2^63)` is the exact result. -/
theorem wrapInt64_of_range (x : Int) (h1 : -9223372036854775808 ≤ x)
    (h2 : x < 9223372036854775808) : wrapInt64 x = x := by
  unfold wrapInt64
  omega

/-- An `int64_t` value lies in `[-2^63, 2^63)`. -/
theorem wrapInt64_range (x : Int) :
    -9223372036854775808 ≤ wrapInt64 x ∧ wrapInt64 x < 9223372036854775808 := by
  unfold wrapInt64
  omega

/-- The acceptance rule, for a positive minimum update interval and a
subtraction `time vote - time old` that does not exceed `INT64_MAX`. -/
theorem voteIntake_accept_iff (updateMin now : Int) (hmin : 0 < updateMin) (time : V → Int)
    (m : StdMap V) (hash : uint256) (vote : V)
    (hrange : ∀ old, m.find hash = some old → time vote - time old < 9223372036854775808) :
    (voteIntake updateMin now time m hash vote).1 = true ↔
      time vote ≤ now + 3600 ∧
      (m.find hash = none ∨ ∃ old, m.find hash = some old ∧ time vote - time old ≥ updateMin) := by
  cases hf : m.find hash with
  | none =>
    rw [voteIntake_of_none updateMin now time m hash vote hf]
    split_ifs with h1
    · simp only [Bool.false_eq_true, false_iff]
      intro hc
      omega
    · simp only [true_iff]
      exact ⟨by omega, Or.inl trivial⟩
  | some old =>
    have hr := hrange old hf
    rw [voteIntake_of_some updateMin now time m hash vote old hf]
    by_cases h1 : time old > time vote
    · rw [if_pos h1]
      simp only [Bool.false_eq_true, false_iff]
      rintro ⟨_, hc | ⟨o, ho, hge⟩⟩
      · simp at hc
      · obtain rfl : old = o := by simpa using ho
        omega
    · rw [if_neg h1]
      have hw : wrapInt64 (time vote - time old) = time vote - time old :=
        wrapInt64_of_range _ (by omega) hr
      rw [hw]
      by_cases h2 : time vote - time old < updateMin
      · rw [if_pos h2]
        simp only [Bool.false_eq_true, false_iff]
        rintro ⟨_, hc | ⟨o, ho, hge⟩⟩
        · simp at hc
        · obtain rfl : old = o := by simpa using ho
          omega
      · rw [if_neg h2]
        by_cases h3 : time vote > now + 60 * 60
        · rw [if_pos h3]
          simp only [Bool.false_eq_true, false_iff]
          rintro ⟨hc, _⟩
          omega
        · rw [if_neg h3]
          simp only [true_iff]
          exact ⟨by omega, Or.inr ⟨old, rfl, by omega⟩⟩

/-- An accepted vote is never older than the stored one (for any value of the
minimum update interval). -/
theorem voteIntake_accept_mono (updateMin now : Int) (time : V → Int)
    (m : StdMap V) (hash : uint256) (vote old : V) (hf : m.find hash = some old)
    (ha : (voteIntake updateMin now time m hash vote).1 = true) : time old ≤ time vote := by
  rw [voteIntake_of_some updateMin now time m hash vote old hf] at ha
  by_cases h1 : time old > time vote
  · simp [h1] at ha
  · omega

end Intake

/-- C8, as stated, fails where the `int64_t` subtraction `t - storedTime`
overflows. With an update interval of 3600 seconds and the clock at 1000000,
the vote of voter `(0, 0)` with timestamp `INT64_MIN` is accepted and stored
(it is not ahead of the clock). The voter's next vote has timestamp 5000: it
is not ahead of the clock and `5000 - storedTime` is `2^63 + 5000`, far above
the interval, yet both `AddOrUpdateVote` functions return false, because the
`int64_t` value of the difference is negative. -/
theorem AddOrUpdateVote_overflow :
    0 < exampleEnv.BUDGET_VOTE_UPDATE_MIN ∧
    exampleProposalNew.AddOrUpdateVote exampleEnv (exampleVoteAt (-9223372036854775808)) =
      (true, exampleProposalOldest) ∧
    exampleBudget.AddOrUpdateVote exampleEnv (exampleBudgetVoteAt (-9223372036854775808)) =
      (true, exampleBudgetOldest) ∧
    exampleProposalOldest.mapVotes.find (exampleVoteAt 5000).vin.prevout.GetHash =
      some (exampleVoteAt (-9223372036854775808)) ∧
    exampleBudgetOldest.mapVotes.find (exampleBudgetVoteAt 5000).vin.prevout.GetHash =
      some (exampleBudgetVoteAt (-9223372036854775808)) ∧
    (5000 : Int) ≤ exampleEnv.GetTime + 3600 ∧
    (5000 : Int) - (-9223372036854775808) ≥ exampleEnv.BUDGET_VOTE_UPDATE_MIN ∧
    wrapInt64 (5000 - (-9223372036854775808)) = -9223372036854770808 ∧
    (exampleProposalOldest.AddOrUpdateVote exampleEnv (exampleVoteAt 5000)).1 = false ∧
    (exampleBudgetOldest.AddOrUpdateVote exampleEnv (exampleBudgetVoteAt 5000)).1 = false := by
  decide

/-- C8 (amended): with `BUDGET_VOTE_UPDATE_MIN > 0`, and a new timestamp `t`
for which the subtraction `t - storedTime` does not exceed `INT64_MAX` (no
overflow; so it is whenever the stored timestamp is not negative), both
`CBudgetProposal::AddOrUpdateVote` and `CFinalizedBudget::AddOrUpdateVote`
accept a vote with timestamp `t` (return true, and the vote becomes the stored
vote of its voter) iff `t <= now + 3600` and the voter has no stored vote or
`t - storedTime >= BUDGET_VOTE_UPDATE_MIN`. So a vote
`BUDGET_VOTE_UPDATE_MIN - 1` seconds after the stored one is rejected, one
`BUDGET_VOTE_UPDATE_MIN + 1` seconds after it is accepted when not more than an
hour ahead of the clock, and a vote at `now + 3601` is rejected. -/
theorem AddOrUpdateVote_rule (env : Env) (hmin : 0 < env.BUDGET_VOTE_UPDATE_MIN)
    (p : CBudgetProposal) (vote : CBudgetVote)
    (fb : CFinalizedBudget) (fvote : CFinalizedBudgetVote)
    (hp : ∀ old, p.mapVotes.find vote.vin.prevout.GetHash = some old →
      vote.nTime - old.nTime < 9223372036854775808)
    (hfb : ∀ old, fb.mapVotes.find fvote.vin.prevout.GetHash = some old →
      fvote.nTime - old.nTime < 9223372036854775808) :
    (((p.AddOrUpdateVote env vote).1 = true ↔
        vote.nTime ≤ env.GetTime + 3600 ∧
        (p.mapVotes.find vote.vin.prevout.GetHash = none ∨
          ∃ old, p.mapVotes.find vote.vin.prevout.GetHash = some old ∧
            vote.nTime - old.nTime ≥ env.BUDGET_VOTE_UPDATE_MIN)) ∧
      ((p.AddOrUpdateVote env vote).1 = true →
        (p.AddOrUpdateVote env vote).2.mapVotes.find vote.vin.prevout.GetHash = some vote) ∧
      (∀ old, p.mapVotes.find vote.vin.prevout.GetHash = some old →
        vote.nTime = old.nTime + env.BUDGET_VOTE_UPDATE_MIN - 1 →
        (p.AddOrUpdateVote env vote).1 = false) ∧
      (∀ old, p.mapVotes.find vote.vin.prevout.GetHash = some old →
        vote.nTime = old.nTime + env.BUDGET_VOTE_UPDATE_MIN + 1 →
        vote.nTime ≤ env.GetTime + 3600 →
        (p.AddOrUpdateVote env vote).1 = true) ∧
      (vote.nTime = env.GetTime + 3601 → (p.AddOrUpdateVote env vote).1 = false)) ∧
    (((fb.AddOrUpdateVote env fvote).1 = true ↔
        fvote.nTime ≤ env.GetTime + 3600 ∧
        (fb.mapVotes.find fvote.vin.prevout.GetHash = none ∨
          ∃ old, fb.mapVotes.find fvote.vin.prevout.GetHash = some old ∧
            fvote.nTime - old.nTime ≥ env.BUDGET_VOTE_UPDATE_MIN)) ∧
      ((fb.AddOrUpdateVote env fvote).1 = true →
        (fb.AddOrUpdateVote env fvote).2.mapVotes.find fvote.vin.prevout.GetHash = some fvote) ∧
      (∀ old, fb.mapVotes.find fvote.vin.prevout.GetHash = some old →
        fvote.nTime = old.nTime + env.BUDGET_VOTE_UPDATE_MIN - 1 →
        (fb.AddOrUpdateVote env fvote).1 = false) ∧
      (∀ old, fb.mapVotes.find fvote.vin.prevout.GetHash = some old →
        fvote.nTime = old.nTime + env.BUDGET_VOTE_UPDATE_MIN + 1 →
        fvote.nTime ≤ env.GetTime + 3600 →
        (fb.AddOrUpdateVote env fvote).1 = true) ∧
      (fvote.nTime = env.GetTime + 3601 → (fb.AddOrUpdateVote env fvote).1 = false)) := by
  have gen : ∀ {V : Type} (time : V → Int) (m : StdMap V) (hash : uint256) (v : V),
      (∀ old, m.find hash = some old → time v - time old < 9223372036854775808) →
      ((voteIntake env.BUDGET_VOTE_UPDATE_MIN env.GetTime time m hash v).1 = true ↔
        time v ≤ env.GetTime + 3600 ∧
        (m.find hash = none ∨
          ∃ old, m.find hash = some old ∧ time v - time old ≥ env.BUDGET_VOTE_UPDATE_MIN)) ∧
      ((voteIntake env.BUDGET_VOTE_UPDATE_MIN env.GetTime time m hash v).1 = true →
        (voteIntake env.BUDGET_VOTE_UPDATE_MIN env.GetTime time m hash v).2.find hash = some v) ∧
      (∀ old, m.find hash = some old →
        time v = time old + env.BUDGET_VOTE_UPDATE_MIN - 1 →
        (voteIntake env.BUDGET_VOTE_UPDATE_MIN env.GetTime time m hash v).1 = false) ∧
      (∀ old, m.find hash = some old →
        time v = time old + env.BUDGET_VOTE_UPDATE_MIN + 1 →
        time v ≤ env.GetTime + 3600 →
        (voteIntake env.BUDGET_VOTE_UPDATE_MIN env.GetTime time m hash v).1 = true) ∧
      (time v = env.GetTime + 3601 →
        (voteIntake env.BUDGET_VOTE_UPDATE_MIN env.GetTime time m hash v).1 = false) := by
    intro V time m hash v hrange
    have hiff := voteIntake_accept_iff env.BUDGET_VOTE_UPDATE_MIN env.GetTime hmin time m hash v
      hrange
    refine ⟨hiff, ?_, ?_, ?_, ?_⟩
    · intro ha
      rw [voteIntake_map, if_pos ha]
      exact StdMap.find_set_self _ _ _
    · intro old hf ht
      rw [Bool.eq_false_iff]
      intro ha
      rcases (hiff.mp ha).2 with hc | ⟨o, ho, hge⟩
      · rw [hf] at hc
        simp at hc
      · rw [hf] at ho
        obtain rfl : old = o := by simpa using ho
        omega
    · intro old hf ht hle
      exact hiff.mpr ⟨hle, Or.inr ⟨old, hf, by omega⟩⟩
    · intro ht
      rw [Bool.eq_false_iff]
      intro ha
      have := (hiff.mp ha).1
      omega
  constructor
  · rw [proposal_AddOrUpdateVote_eq]
    exact gen CBudgetVote.nTime p.mapVotes vote.vin.prevout.GetHash vote hp
  · rw [finalized_AddOrUpdateVote_eq]
    exact gen CFinalizedBudgetVote.nTime fb.mapVotes fvote.vin.prevout.GetHash fvote hfb

/-- The stored vote of the voter `(0, 0)` of proposal A has timestamp 5000. -/
theorem exampleProposalA_stored (old : CBudgetVote)
    (h : exampleProposalA.mapVotes.find (exampleVoteAt 8599).vin.prevout.GetHash = some old) :
    old.nTime = 5000 := by
  have h0 : exampleProposalA.mapVotes.find (exampleVoteAt 8599).vin.prevout.GetHash =
      some (exampleVoteAt 5000) := by decide
  rw [h0] at h
  rw [← Option.some.inj h]
  rfl

/-- The stored vote of the voter `(0, 0)` of the example budget has timestamp
5000. -/
theorem exampleBudgetVotes_stored (old : CFinalizedBudgetVote)
    (h : exampleBudgetVotes.find (exampleBudgetVoteAt 8601).vin.prevout.GetHash = some old) :
    old.nTime = 5000 := by
  have h0 : exampleBudgetVotes.find (exampleBudgetVoteAt 8601).vin.prevout.GetHash =
      some (exampleBudgetVoteAt 5000) := by decide
  rw [h0] at h
  rw [← Option.some.inj h]
  rfl

/-- C8 witness: with an update interval of 3600 seconds and the clock at
1000000, the voter `(0, 0)` of proposal A and of the example budget (stored
vote at time 5000, so the differences 3599 and 3601 do not overflow) is
refused at 5000 + 3599 and accepted at 5000 + 3601. -/
theorem AddOrUpdateVote_rule_witness :
    0 < exampleEnv.BUDGET_VOTE_UPDATE_MIN ∧
    (exampleProposalA.AddOrUpdateVote exampleEnv (exampleVoteAt 8599)).1 = false ∧
    (({ exampleBudget with mapVotes := exampleBudgetVotes }).AddOrUpdateVote exampleEnv
      (exampleBudgetVoteAt 8601)).1 = true :=
  ⟨by decide,
   (AddOrUpdateVote_rule exampleEnv (by decide) exampleProposalA (exampleVoteAt 8599)
      { exampleBudget with mapVotes := exampleBudgetVotes } (exampleBudgetVoteAt 8601)
      (fun old h => by
        rw [exampleProposalA_stored old h]
        decide)
      (fun old h => by
        rw [exampleBudgetVotes_stored old h]
        decide)).1.2.2.1
      (exampleVoteAt 5000) (by decide) (by decide),
   (AddOrUpdateVote_rule exampleEnv (by decide) exampleProposalA (exampleVoteAt 8599)
      { exampleBudget with mapVotes := exampleBudgetVotes } (exampleBudgetVoteAt 8601)
      (fun old h => by
        rw [exampleProposalA_stored old h]
        decide)
      (fun old h => by
        rw [exampleBudgetVotes_stored old h]
        decide)).2.2.2.2.1
      (exampleBudgetVoteAt 5000) (by decide) (by decide) (by decide)⟩

/-! ## The vote map under sequences of intakes -/

namespace StdMap

variable {V : Type}

theorem mem_set (m : StdMap V) (k : uint256) (v : V) (e : uint256 × V)
    (he : e ∈ set m k v) : e = (k, v) ∨ e ∈ m := by
  induction m with
  | nil =>
    simp only [set, List.mem_singleton] at he
    exact Or.inl he
  | cons e0 t ih =>
    obtain ⟨k0, v0⟩ := e0
    unfold set at he
    split_ifs at he with h1 h2
    · rcases List.mem_cons.mp he with h | h
      · exact Or.inl h
      · exact Or.inr h
    · rcases List.mem_cons.mp he with h | h
      · exact Or.inl h
      · exact Or.inr (List.mem_cons_of_mem _ h)
    · rcases List.mem_cons.mp he with h | h
      · exact Or.inr (h ▸ List.mem_cons_self _ _)
      · rcases ih h with h | h
        · exact Or.inl h
        · exact Or.inr (List.mem_cons_of_mem _ h)

theorem WF_cons (e : uint256 × V) (t : StdMap V) :
    WF (e :: t) ↔ (∀ x ∈ t, e.1 < x.1) ∧ WF t := by
  unfold WF keys
  simp [List.pairwise_cons]

/-- Assignment keeps the keys strictly ascending. -/
theorem WF_set (m : StdMap V) (k : uint256) (v : V) (hm : WF m) : WF (set m k v) := by
  induction m with
  | nil => simp [set, WF, keys]
  | cons e0 t ih =>
    obtain ⟨k0, v0⟩ := e0
    obtain ⟨hlt, ht⟩ := (WF_cons (k0, v0) t).mp hm
    unfold set
    split_ifs with h1 h2
    · refine (WF_cons _ _).mpr ⟨?_, hm⟩
      intro x hx
      rcases List.mem_cons.mp hx with rfl | hx
      · exact h1
      · exact lt_trans h1 (hlt x hx)
    · subst h2
      exact (WF_cons _ _).mpr ⟨hlt, ht⟩
    · refine (WF_cons _ _).mpr ⟨?_, ih ht⟩
      intro x hx
      rcases mem_set t k v x hx with rfl | hx
      · exact lt_of_le_of_ne (not_lt.mp h1) (fun h => h2 h.symm)
      · exact hlt x hx

/-- In a well-formed map every entry is the one `find` returns for its key. -/
theorem find_of_mem (m : StdMap V) (hm : WF m) (e : uint256 × V) (he : e ∈ m) :
    find m e.1 = some e.2 := by
  induction m with
  | nil => simp at he
  | cons e0 t ih =>
    obtain ⟨k0, v0⟩ := e0
    obtain ⟨hlt, ht⟩ := (WF_cons (k0, v0) t).mp hm
    rcases List.mem_cons.mp he with rfl | he
    · simp [find]
    · have hne : k0 ≠ e.1 := ne_of_lt (hlt e he)
      simp [find, hne, ih ht he]

theorem mem_of_find (m : StdMap V) (k : uint256) (v : V) (h : find m k = some v) :
    (k, v) ∈ m := by
  induction m with
  | nil => simp [find] at h
  | cons e0 t ih =>
    obtain ⟨k0, v0⟩ := e0
    unfold find at h
    split_ifs at h with h1
    · simp only [Option.some.injEq] at h
      subst h1 h
      exact List.mem_cons_self _ _
    · exact List.mem_cons_of_mem _ (ih h)

/-- In a well-formed map whose keys are computed from the values by `key`, at
most one entry satisfies a predicate that determines the key. -/
theorem countP_le_one (m : StdMap V) (hm : WF m) (q : uint256 × V → Bool) (k : uint256)
    (hq : ∀ e ∈ m, q e = true → e.1 = k) : m.countP q ≤ 1 := by
  induction m with
  | nil => simp
  | cons e0 t ih =>
    obtain ⟨hlt, ht⟩ := (WF_cons e0 t).mp hm
    have iht := ih ht (fun e he => hq e (List.mem_cons_of_mem _ he))
    by_cases h0 : q e0 = true
    · have hk0 : e0.1 = k := hq e0 (List.mem_cons_self _ _) h0
      have hzero : t.countP q = 0 := by
        rw [List.countP_eq_zero]
        intro x hx hqx
        have hxk : x.1 = k := hq x (List.mem_cons_of_mem _ hx) hqx
        have hlt2 := hlt x hx
        rw [hk0, hxk] at hlt2
        exact lt_irrefl _ hlt2
      rw [List.countP_cons_of_pos _ _ h0, hzero]
    · rw [List.countP_cons_of_neg _ _ h0]
      exact iht

end StdMap

section IntakeRun

variable {V : Type}

theorem IntakeInv_nil (time : V → Int) (key : V → uint256) : IntakeInv time key [] [] := by
  refine ⟨?_, ?_, ?_, ?_⟩
  · simp [StdMap.WF, StdMap.keys]
  · simp
  · intro k
    simp [StdMap.find]
  · intro k v h
    simp [StdMap.find] at h

theorem IntakeInv_step (updateMin now : Int) (time : V → Int) (key : V → uint256)
    (m : StdMap V) (acc : List V) (vote : V) (hinv : IntakeInv time key m acc) :
    IntakeInv time key (voteIntake updateMin now time m (key vote) vote).2
      (if (voteIntake updateMin now time m (key vote) vote).1 = true then vote :: acc else acc) := by
  obtain ⟨i1, i2, i3, i4⟩ := hinv
  rw [voteIntake_map]
  by_cases ha : (voteIntake updateMin now time m (key vote) vote).1 = true
  · simp only [ha, if_true]
    refine ⟨StdMap.WF_set m _ _ i1, ?_, ?_, ?_⟩
    · intro e he
      rcases StdMap.mem_set m _ _ e he with rfl | he
      · rfl
      · exact i2 e he
    · intro k
      by_cases hk : key vote = k
      · subst hk
        rw [StdMap.find_set_self]
        simp [List.find?]
      · rw [StdMap.find_set_ne _ _ _ _ (Ne.symm hk), i3 k]
        simp [List.find?, hk]
    · intro k v hf a hmem hak
      by_cases hk : key vote = k
      · subst hk
        rw [StdMap.find_set_self] at hf
        obtain rfl : vote = v := by simpa using hf
        rcases List.mem_cons.mp hmem with rfl | hmem
        · exact le_refl _
        · have hsome : (acc.find? (fun b => decide (key b = key vote))).isSome = true := by
            rw [List.find?_isSome]
            exact ⟨a, hmem, by simpa using hak⟩
          rw [← i3 (key vote)] at hsome
          obtain ⟨old, hold⟩ := Option.isSome_iff_exists.mp hsome
          exact le_trans (i4 _ old hold a hmem hak)
            (voteIntake_accept_mono updateMin now time m (key vote) vote old hold ha)
      · rw [StdMap.find_set_ne _ _ _ _ (Ne.symm hk)] at hf
        rcases List.mem_cons.mp hmem with rfl | hmem
        · exact absurd hak hk
        · exact i4 k v hf a hmem hak
  · simp only [ha, if_false]
    exact ⟨i1, i2, i3, i4⟩

theorem IntakeInv_run (updateMin : Int) (time : V → Int) (key : V → uint256)
    (calls : List (Int × V)) (m : StdMap V) (acc : List V) (hinv : IntakeInv time key m acc) :
    IntakeInv time key (voteIntakeRun updateMin time key calls (m, acc)).1
      (voteIntakeRun updateMin time key calls (m, acc)).2 := by
  induction calls generalizing m acc with
  | nil => exact hinv
  | cons c rest ih =>
    obtain ⟨now, vote⟩ := c
    unfold voteIntakeRun
    exact ih _ _ (IntakeInv_step updateMin now time key m acc vote hinv)

end IntakeRun

theorem outpoint_GetHash_inj (a b : COutPoint) : a.GetHash = b.GetHash ↔ a = b := by
  constructor
  · intro h
    unfold COutPoint.GetHash at h
    obtain ⟨h1, h2⟩ := Nat.pair_eq_pair.mp h
    cases a
    cases b
    simp_all
  · rintro rfl
    rfl

/-- What the invariant says about voters, for vote maps keyed by the hash of
the voter's outpoint. -/
theorem IntakeInv_voters {V : Type} (time : V → Int) (voter : V → COutPoint)
    (m : StdMap V) (acc : List V)
    (hinv : IntakeInv time (fun v => (voter v).GetHash) m acc) :
    (∀ o : COutPoint, m.countP (fun e => decide (voter e.2 = o)) ≤ 1) ∧
    (∀ o : COutPoint, m.find o.GetHash = acc.find? (fun a => decide (voter a = o))) ∧
    (∀ e ∈ m, e.1 = (voter e.2).GetHash ∧
      acc.find? (fun a => decide (voter a = voter e.2)) = some e.2) ∧
    (∀ e ∈ m, ∀ a ∈ acc, voter a = voter e.2 → time a ≤ time e.2) := by
  obtain ⟨i1, i2, i3, i4⟩ := hinv
  have i2' : ∀ e ∈ m, e.1 = (voter e.2).GetHash := i2
  have hfind : ∀ o : COutPoint, m.find o.GetHash = acc.find? (fun a => decide (voter a = o)) := by
    intro o
    rw [i3 o.GetHash]
    congr 1
    funext a
    simp only [outpoint_GetHash_inj]
  refine ⟨?_, hfind, ?_, ?_⟩
  · intro o
    apply StdMap.countP_le_one m i1 _ o.GetHash
    intro e he hq
    have hv : voter e.2 = o := by simpa using hq
    rw [i2' e he, hv]
  · intro e he
    refine ⟨i2' e he, ?_⟩
    rw [← hfind (voter e.2), ← i2' e he]
    exact StdMap.find_of_mem m i1 e he
  · intro e he a ha hv
    have hf : m.find e.1 = some e.2 := StdMap.find_of_mem m i1 e he
    apply i4 e.1 e.2 hf a ha
    show (voter a).GetHash = e.1
    rw [hv]
    exact (i2' e he).symm

theorem proposal_addVotes_eq (env : Env) (calls : List (Int × CBudgetVote))
    (p : CBudgetProposal) (acc : List CBudgetVote) :
    (CBudgetProposal.addVotes env calls (p, acc)).1.mapVotes =
      (voteIntakeRun env.BUDGET_VOTE_UPDATE_MIN CBudgetVote.nTime
        (fun v => v.vin.prevout.GetHash) calls (p.mapVotes, acc)).1 ∧
    (CBudgetProposal.addVotes env calls (p, acc)).2 =
      (voteIntakeRun env.BUDGET_VOTE_UPDATE_MIN CBudgetVote.nTime
        (fun v => v.vin.prevout.GetHash) calls (p.mapVotes, acc)).2 := by
  induction calls generalizing p acc with
  | nil => exact ⟨rfl, rfl⟩
  | cons c rest ih =>
    obtain ⟨now, vote⟩ := c
    unfold CBudgetProposal.addVotes voteIntakeRun
    rw [proposal_AddOrUpdateVote_eq]
    exact ih _ _

theorem finalized_addVotes_eq (env : Env) (calls : List (Int × CFinalizedBudgetVote))
    (fb : CFinalizedBudget) (acc : List CFinalizedBudgetVote) :
    (CFinalizedBudget.addVotes env calls (fb, acc)).1.mapVotes =
      (voteIntakeRun env.BUDGET_VOTE_UPDATE_MIN CFinalizedBudgetVote.nTime
        (fun v => v.vin.prevout.GetHash) calls (fb.mapVotes, acc)).1 ∧
    (CFinalizedBudget.addVotes env calls (fb, acc)).2 =
      (voteIntakeRun env.BUDGET_VOTE_UPDATE_MIN CFinalizedBudgetVote.nTime
        (fun v => v.vin.prevout.GetHash) calls (fb.mapVotes, acc)).2 := by
  induction calls generalizing fb acc with
  | nil => exact ⟨rfl, rfl⟩
  | cons c rest ih =>
    obtain ⟨now, vote⟩ := c
    unfold CFinalizedBudget.addVotes voteIntakeRun
    rw [finalized_AddOrUpdateVote_eq]
    exact ih _ _

/-- C9: after any sequence of `AddOrUpdateVote` calls on a proposal (and on a
finalized budget) that starts with an empty vote map, the map holds at most
one vote per voter outpoint; the vote stored for a voter is the last vote
accepted from that voter (and a voter with an accepted vote has one stored);
and no vote accepted from that voter has a later timestamp than the stored
one. -/
theorem AddOrUpdateVote_invariant (env : Env)
    (calls : List (Int × CBudgetVote)) (p0 : CBudgetProposal) (hp0 : p0.mapVotes = [])
    (fcalls : List (Int × CFinalizedBudgetVote)) (fb0 : CFinalizedBudget)
    (hfb0 : fb0.mapVotes = []) :
    ((∀ o : COutPoint, (CBudgetProposal.addVotes env calls (p0, [])).1.mapVotes.countP
        (fun e => decide (e.2.vin.prevout = o)) ≤ 1) ∧
      (∀ o : COutPoint, (CBudgetProposal.addVotes env calls (p0, [])).1.mapVotes.find o.GetHash =
        (CBudgetProposal.addVotes env calls (p0, [])).2.find?
          (fun a => decide (a.vin.prevout = o))) ∧
      (∀ e ∈ (CBudgetProposal.addVotes env calls (p0, [])).1.mapVotes,
        e.1 = e.2.vin.prevout.GetHash ∧
        (CBudgetProposal.addVotes env calls (p0, [])).2.find?
          (fun a => decide (a.vin.prevout = e.2.vin.prevout)) = some e.2) ∧
      (∀ e ∈ (CBudgetProposal.addVotes env calls (p0, [])).1.mapVotes,
        ∀ a ∈ (CBudgetProposal.addVotes env calls (p0, [])).2,
          a.vin.prevout = e.2.vin.prevout → a.nTime ≤ e.2.nTime)) ∧
    ((∀ o : COutPoint, (CFinalizedBudget.addVotes env fcalls (fb0, [])).1.mapVotes.countP
        (fun e => decide (e.2.vin.prevout = o)) ≤ 1) ∧
      (∀ o : COutPoint, (CFinalizedBudget.addVotes env fcalls (fb0, [])).1.mapVotes.find o.GetHash =
        (CFinalizedBudget.addVotes env fcalls (fb0, [])).2.find?
          (fun a => decide (a.vin.prevout = o))) ∧
      (∀ e ∈ (CFinalizedBudget.addVotes env fcalls (fb0, [])).1.mapVotes,
        e.1 = e.2.vin.prevout.GetHash ∧
        (CFinalizedBudget.addVotes env fcalls (fb0, [])).2.find?
          (fun a => decide (a.vin.prevout = e.2.vin.prevout)) = some e.2) ∧
      (∀ e ∈ (CFinalizedBudget.addVotes env fcalls (fb0, [])).1.mapVotes,
        ∀ a ∈ (CFinalizedBudget.addVotes env fcalls (fb0, [])).2,
          a.vin.prevout = e.2.vin.prevout → a.nTime ≤ e.2.nTime)) := by
  constructor
  · obtain ⟨e1, e2⟩ := proposal_addVotes_eq env calls p0 []
    rw [e1, e2, hp0]
    exact IntakeInv_voters CBudgetVote.nTime (fun v => v.vin.prevout) _ _
      (IntakeInv_run env.BUDGET_VOTE_UPDATE_MIN CBudgetVote.nTime
        (fun v => v.vin.prevout.GetHash) calls [] [] (IntakeInv_nil _ _))
  · obtain ⟨e1, e2⟩ := finalized_addVotes_eq env fcalls fb0 []
    rw [e1, e2, hfb0]
    exact IntakeInv_voters CFinalizedBudgetVote.nTime (fun v => v.vin.prevout) _ _
      (IntakeInv_run env.BUDGET_VOTE_UPDATE_MIN CFinalizedBudgetVote.nTime
        (fun v => v.vin.prevout.GetHash) fcalls [] [] (IntakeInv_nil _ _))

/-- C9 witness: three votes of one voter on a proposal whose vote map starts
empty (times 5000, 8601, then a stale 6000) leave the vote of time 8601
stored, and one vote for that voter. -/
theorem AddOrUpdateVote_invariant_witness :
    exampleProposalNew.mapVotes = [] ∧ exampleBudget.mapVotes = [] ∧
    (CBudgetProposal.addVotes exampleEnv exampleCalls (exampleProposalNew, [])).1.mapVotes =
      [(0, exampleVoteAt 8601)] ∧
    (CBudgetProposal.addVotes exampleEnv exampleCalls (exampleProposalNew, [])).2 =
      [exampleVoteAt 8601, exampleVoteAt 5000] ∧
    (∀ o : COutPoint,
      (CBudgetProposal.addVotes exampleEnv exampleCalls (exampleProposalNew, [])).1.mapVotes.countP
        (fun e => decide (e.2.vin.prevout = o)) ≤ 1) :=
  ⟨rfl, rfl, by decide, by decide,
   (AddOrUpdateVote_invariant exampleEnv exampleCalls exampleProposalNew rfl
      exampleBudgetCalls exampleBudget rfl).1.1⟩

/-! ## Adding a proposal -/

namespace CBudgetManager

/-- A successful `AddProposal` found the hash absent and filed the proposal,
as the call leaves it, under that hash; nothing else of the manager changes. -/
theorem AddProposal_of_true (env : Env) (m : CBudgetManager) (p : CBudgetProposal)
    (h : (m.AddProposal env p).1 = true) :
    m.mapProposals.find (p.GetHash env) = none ∧
    (m.AddProposal env p).2.2 =
      { m with mapProposals := m.mapProposals.set (p.GetHash env) (m.AddProposal env p).2.1 } := by
  by_cases c0 : m.mapProposals.contains (p.GetHash env) = true
  · simp [AddProposal, c0] at h
  · have c0f : m.mapProposals.contains (p.GetHash env) = false := by simpa using c0
    have hnone : m.mapProposals.find (p.GetHash env) = none :=
      (StdMap.contains_eq_false_iff _ _).mp c0f
    refine ⟨hnone, ?_⟩
    unfold AddProposal at h ⊢
    dsimp only at h ⊢
    rw [StdMap.emplace_of_find_none _ _ _ hnone]
    generalize p.IsWellFormed env (GetTotalBudget env p.nBlockStart) = W at h ⊢
    generalize CheckCollateral env W.2.nFeeTXHash (p.GetHash env) W.2.nTime m.GetBestHeight
      false = C at h ⊢
    generalize ({ W.2 with nTime := C.2 } : CBudgetProposal).UpdateValid env m.GetBestHeight
      = U at h ⊢
    cases hw : W.1 <;> cases hc : C.1 <;> cases hu : U.1 <;>
      simp [c0f, hw, hc, hu] at h ⊢

/-- C10: when a first `AddProposal(P)` returns true, an immediately following
`AddProposal` of `P` (same chain and masternode state), and of any proposal
with the identity hash of `P`, such as `P` as the first call left it when its
hash is unchanged, returns false, and `mapProposals` then has exactly one
entry more than before the first call. -/
theorem AddProposal_twice (env : Env) (m : CBudgetManager) (p : CBudgetProposal)
    (h : (m.AddProposal env p).1 = true) :
    (((m.AddProposal env p).2.2.AddProposal env p).1 = false ∧
      ((m.AddProposal env p).2.2.AddProposal env p).2.2.mapProposals.size =
        m.mapProposals.size + 1) ∧
    (∀ q : CBudgetProposal, q.GetHash env = p.GetHash env →
      ((m.AddProposal env p).2.2.AddProposal env q).1 = false ∧
      ((m.AddProposal env p).2.2.AddProposal env q).2.2.mapProposals.size =
        m.mapProposals.size + 1) := by
  obtain ⟨hnone, hm1⟩ := AddProposal_of_true env m p h
  have gen : ∀ q : CBudgetProposal, q.GetHash env = p.GetHash env →
      ((m.AddProposal env p).2.2.AddProposal env q).1 = false ∧
      ((m.AddProposal env p).2.2.AddProposal env q).2.2.mapProposals.size =
        m.mapProposals.size + 1 := by
    intro q hq
    have hc : (m.AddProposal env p).2.2.mapProposals.contains (q.GetHash env) = true := by
      rw [hm1, hq]
      unfold StdMap.contains
      rw [StdMap.find_set_self]
      rfl
    have hsecond : (m.AddProposal env p).2.2.AddProposal env q =
        (false, q, (m.AddProposal env p).2.2) := by
      generalize (m.AddProposal env p).2.2 = m1 at hc ⊢
      unfold AddProposal
      simp [hc]
    rw [hsecond]
    refine ⟨rfl, ?_⟩
    show StdMap.size (m.AddProposal env p).2.2.mapProposals = _
    rw [hm1]
    exact StdMap.length_set_of_find_none _ _ _ hnone
  exact ⟨gen p rfl, gen⟩

/-- C10 witness: proposal A, with its collateral at depth, is added to the
empty example manager; adding it again fails and the map has one entry. -/
theorem AddProposal_twice_witness :
    (exampleEmptyManager.AddProposal exampleEnv exampleProposalNew).1 = true ∧
    ((exampleEmptyManager.AddProposal exampleEnv exampleProposalNew).2.2.AddProposal
      exampleEnv exampleProposalNew).1 = false ∧
    ((exampleEmptyManager.AddProposal exampleEnv exampleProposalNew).2.2.AddProposal
      exampleEnv exampleProposalNew).2.2.mapProposals.size =
        exampleEmptyManager.mapProposals.size + 1 :=
  ⟨by decide,
   (AddProposal_twice exampleEnv exampleEmptyManager exampleProposalNew (by decide)).1⟩

end CBudgetManager

end Budget

/-! ## Well-formedness, validity and the passing predicate of a proposal -/

namespace Budget

namespace CBudgetProposal

theorem CheckStartEnd_fst (p : CBudgetProposal) :
    (p.CheckStartEnd.1 = true ↔ 0 ≤ p.nBlockStart ∧ p.nBlockStart ≤ p.nBlockEnd) ∧
    (p.CheckStartEnd.1 = true → p.CheckStartEnd.2 = p) := by
  unfold CheckStartEnd
  split_ifs with h1 h2
  · simp only [Bool.false_eq_true, false_iff, false_imp_iff, and_true]
    omega
  · simp only [Bool.false_eq_true, false_iff, false_imp_iff, and_true]
    omega
  · simp only [true_iff, forall_const, and_true]
    omega

theorem CheckAmount_fst (env : Env) (p : CBudgetProposal) (cap : CAmount) :
    ((p.CheckAmount env cap).1 = true ↔ 10 * env.COIN ≤ p.nAmount ∧ p.nAmount ≤ cap) ∧
    ((p.CheckAmount env cap).1 = true → (p.CheckAmount env cap).2 = p) := by
  unfold CheckAmount
  split_ifs with h1 h2
  · simp only [Bool.false_eq_true, false_iff, false_imp_iff, and_true]
    intro hc
    exact absurd hc.1 (not_le.mpr h1)
  · simp only [Bool.false_eq_true, false_iff, false_imp_iff, and_true]
    intro hc
    exact absurd hc.2 (not_le.mpr h2)
  · simp only [true_iff, forall_const, and_true]
    exact ⟨not_lt.mp h1, not_lt.mp h2⟩

theorem CheckAddress_fst (env : Env) (p : CBudgetProposal) :
    ((p.CheckAddress env).1 = true ↔
      env.IsPayToScriptHash p.address = false ∧ env.ExtractDestination p.address = true ∧
      env.IsValidDestination p.address = true) ∧
    ((p.CheckAddress env).1 = true → (p.CheckAddress env).2 = p) := by
  unfold CheckAddress
  cases h1 : env.IsPayToScriptHash p.address <;>
    cases h2 : env.ExtractDestination p.address <;>
    cases h3 : env.IsValidDestination p.address <;> simp

/-- A well-formed proposal is left as it was; the conditions are those of the
three checks. -/
theorem IsWellFormed_fst (env : Env) (p : CBudgetProposal) (cap : CAmount) :
    ((p.IsWellFormed env cap).1 = true ↔
      (0 ≤ p.nBlockStart ∧ p.nBlockStart ≤ p.nBlockEnd) ∧
      (10 * env.COIN ≤ p.nAmount ∧ p.nAmount ≤ cap) ∧
      (env.IsPayToScriptHash p.address = false ∧ env.ExtractDestination p.address = true ∧
        env.IsValidDestination p.address = true)) ∧
    ((p.IsWellFormed env cap).1 = true → (p.IsWellFormed env cap).2 = p) := by
  obtain ⟨a1, a2⟩ := CheckStartEnd_fst p
  unfold IsWellFormed
  dsimp only
  cases h1 : p.CheckStartEnd.1
  · have : ¬ (0 ≤ p.nBlockStart ∧ p.nBlockStart ≤ p.nBlockEnd) := fun hc => by
      rw [a1.mpr hc] at h1
      exact absurd h1 (by decide)
    simp [this]
  · have e1 : p.CheckStartEnd.2 = p := a2 h1
    rw [e1]
    obtain ⟨b1, b2⟩ := CheckAmount_fst env p cap
    obtain ⟨c1, c2⟩ := CheckAddress_fst env p
    cases h2 : (p.CheckAmount env cap).1
    · have : ¬ (10 * env.COIN ≤ p.nAmount ∧ p.nAmount ≤ cap) := fun hc => by
        rw [b1.mpr hc] at h2
        exact absurd h2 (by decide)
      simp [this]
    · have e2 : (p.CheckAmount env cap).2 = p := b2 h2
      rw [e2]
      simp only [Bool.not_true, Bool.false_eq_true, if_false]
      refine ⟨?_, c2⟩
      rw [c1]
      constructor
      · intro hc
        exact ⟨a1.mp h1, b1.mp h2, hc⟩
      · intro hc
        exact hc.2.2

/-- C12: `CBudgetProposal::IsWellFormed(cap)` returns true iff
`blockStart >= 0`, `blockEnd >= blockStart`, `10*COIN <= amount <= cap`, and
the payee script is not pay-to-script-hash, extracts to a destination and that
destination is valid. With the other conditions met, `amount = 10*COIN` is
accepted, and every amount below `10*COIN` is rejected: `10*COIN - 1`, and
9.99 units (`999*COIN/100`) for a positive `COIN`. -/
theorem proposal_IsWellFormed_iff (env : Env) (p : CBudgetProposal) (cap : CAmount) :
    ((p.IsWellFormed env cap).1 = true ↔
      0 ≤ p.nBlockStart ∧ p.nBlockStart ≤ p.nBlockEnd ∧
      10 * env.COIN ≤ p.nAmount ∧ p.nAmount ≤ cap ∧
      env.IsPayToScriptHash p.address = false ∧ env.ExtractDestination p.address = true ∧
      env.IsValidDestination p.address = true) ∧
    (0 ≤ p.nBlockStart → p.nBlockStart ≤ p.nBlockEnd → 10 * env.COIN ≤ cap →
      env.IsPayToScriptHash p.address = false → env.ExtractDestination p.address = true →
      env.IsValidDestination p.address = true →
      p.nAmount = 10 * env.COIN → (p.IsWellFormed env cap).1 = true) ∧
    (p.nAmount = 10 * env.COIN - 1 → (p.IsWellFormed env cap).1 = false) ∧
    (0 < env.COIN → p.nAmount = (999 * env.COIN).tdiv 100 → (p.IsWellFormed env cap).1 = false) ∧
    (p.nAmount < 10 * env.COIN → (p.IsWellFormed env cap).1 = false) := by
  have hiff := (IsWellFormed_fst env p cap).1
  have hlow : p.nAmount < 10 * env.COIN → (p.IsWellFormed env cap).1 = false := by
    intro hlt
    rw [Bool.eq_false_iff]
    intro hc
    have := (hiff.mp hc).2.1.1
    exact absurd this (not_le.mpr hlt)
  refine ⟨?_, ?_, ?_, ?_, hlow⟩
  · rw [hiff]
    constructor
    · rintro ⟨⟨h1, h2⟩, ⟨h3, h4⟩, h5, h6, h7⟩
      exact ⟨h1, h2, h3, h4, h5, h6, h7⟩
    · rintro ⟨h1, h2, h3, h4, h5, h6, h7⟩
      exact ⟨⟨h1, h2⟩, ⟨h3, h4⟩, h5, h6, h7⟩
  · intro h1 h2 hcap h5 h6 h7 ha
    exact hiff.mpr ⟨⟨h1, h2⟩, ⟨by rw [ha], by rw [ha]; exact hcap⟩, h5, h6, h7⟩
  · intro ha
    apply hlow
    rw [ha]
    exact sub_one_lt _
  · intro hC ha
    apply hlow
    rw [ha, Int.tdiv_eq_ediv (by positivity) (by norm_num)]
    have hlt : (999 * env.COIN) / 100 < 10 * env.COIN := by omega
    exact hlt

/-- C15: `CBudgetProposal::IsPassing(bs, be, mn)` returns true iff `fValid` is
set, the proposal's `blockStart <= bs`, its `blockEnd >= be`,
`yeas - nays > mn/10` (the integer division of C++, the floor for `mn >= 0`),
and the proposal is established: `now - nTime > nProposalEstablishmentTime`
with `now` the adjusted time. -/
theorem IsPassing_iff (env : Env) (p : CBudgetProposal) (bs be mn : Int) :
    (p.IsPassing env bs be mn = true ↔
      p.fValid = true ∧ p.nBlockStart ≤ bs ∧ p.nBlockEnd ≥ be ∧
      p.GetYeas - p.GetNays > mn.tdiv 10 ∧
      env.GetAdjustedTime - p.nTime > env.nProposalEstablishmentTime) ∧
    (p.IsEstablished env = true ↔
      env.GetAdjustedTime - p.nTime > env.nProposalEstablishmentTime) ∧
    (0 ≤ mn → mn.tdiv 10 = mn / 10) := by
  have hest : p.IsEstablished env = true ↔
      env.GetAdjustedTime - p.nTime > env.nProposalEstablishmentTime := by
    unfold IsEstablished
    rw [decide_eq_true_iff]
    constructor <;> intro h <;> linarith
  refine ⟨?_, hest, fun hmn => Int.tdiv_eq_ediv hmn (by norm_num)⟩
  rw [← hest]
  unfold IsPassing
  cases hv : p.fValid
  · simp
  · by_cases h1 : p.nBlockStart > bs
    · simp only [h1, Bool.not_true, Bool.false_eq_true, if_false, if_true, false_iff]
      intro hc
      exact absurd hc.2.1 (not_le.mpr h1)
    · by_cases h2 : p.nBlockEnd < be
      · simp only [h1, h2, Bool.not_true, Bool.false_eq_true, if_false, if_true, false_iff]
        intro hc
        exact absurd hc.2.2.1 (not_le.mpr h2)
      · by_cases h3 : p.GetYeas - p.GetNays ≤ mn.tdiv 10
        · simp only [h1, h2, h3, Bool.not_true, Bool.false_eq_true, if_false, if_true, false_iff]
          intro hc
          exact absurd hc.2.2.2.1 (not_lt.mpr h3)
        · cases h4 : p.IsEstablished env
          · simp [h1, h2, h3]
          · simp only [h1, h2, h3, Bool.not_true, Bool.false_eq_true, if_false, true_iff,
              true_and]
            exact ⟨not_lt.mp h1, not_lt.mp h2, not_le.mp h3, trivial⟩

/-- The three outcomes of `UpdateValid`. -/
theorem UpdateValid_eq (env : Env) (p : CBudgetProposal) (h : Int) :
    p.UpdateValid env h =
      if p.GetNays - p.GetYeas > env.CountEnabled.tdiv 10 then
        (false, { p with fValid := false, strInvalid := "Active removal" })
      else if p.nBlockEnd < h then
        (false, { p with fValid := false, strInvalid := "Proposal expired" })
      else (true, { p with fValid := true, strInvalid := "" }) := by
  have hn : ({ p with fValid := false } : CBudgetProposal).GetNays -
      ({ p with fValid := false } : CBudgetProposal).GetYeas = p.GetNays - p.GetYeas := rfl
  unfold UpdateValid IsHeavilyDownvoted IsExpired
  dsimp only
  rw [hn]
  by_cases h1 : p.GetNays - p.GetYeas > env.CountEnabled.tdiv 10
  · simp [h1]
  · by_cases h2 : p.nBlockEnd < h
    · simp [h1, h2]
    · simp [h1, h2]

/-- C20: `CBudgetProposal::UpdateValid(h)` returns true and sets `fValid` to
true iff `nays - yeas <= enabledMasternodes/10` and `blockEnd >= h`; otherwise
it returns false and sets `fValid` to false. Neither the result nor the
proposal it leaves depends on the value `fValid` had before the call. -/
theorem proposal_UpdateValid_iff (env : Env) (p : CBudgetProposal) (h : Int) :
    (((p.UpdateValid env h).1 = true ∧ (p.UpdateValid env h).2.fValid = true) ↔
      p.GetNays - p.GetYeas ≤ env.CountEnabled.tdiv 10 ∧ p.nBlockEnd ≥ h) ∧
    (¬ (p.GetNays - p.GetYeas ≤ env.CountEnabled.tdiv 10 ∧ p.nBlockEnd ≥ h) →
      (p.UpdateValid env h).1 = false ∧ (p.UpdateValid env h).2.fValid = false) ∧
    (∀ b : Bool, ({ p with fValid := b } : CBudgetProposal).UpdateValid env h =
      p.UpdateValid env h) ∧
    (0 ≤ env.CountEnabled → env.CountEnabled.tdiv 10 = env.CountEnabled / 10) := by
  have heq := UpdateValid_eq env p h
  refine ⟨?_, ?_, ?_, fun hE => Int.tdiv_eq_ediv hE (by norm_num)⟩
  · rw [heq]
    by_cases h1 : p.GetNays - p.GetYeas > env.CountEnabled.tdiv 10
    · simp only [h1, if_true, Bool.false_eq_true, false_and, false_iff]
      intro hc
      exact absurd hc.1 (not_le.mpr h1)
    · by_cases h2 : p.nBlockEnd < h
      · simp only [h1, h2, if_true, if_false, Bool.false_eq_true, false_and, false_iff]
        intro hc
        exact absurd hc.2 (not_le.mpr h2)
      · simp only [h1, h2, if_false, true_and, true_iff]
        exact ⟨not_lt.mp h1, not_lt.mp h2⟩
  · intro hc
    rw [heq]
    by_cases h1 : p.GetNays - p.GetYeas > env.CountEnabled.tdiv 10
    · simp [h1]
    · by_cases h2 : p.nBlockEnd < h
      · simp [h1, h2]
      · exact absurd ⟨not_lt.mp h1, not_lt.mp h2⟩ hc
  · intro b
    rfl

end CBudgetProposal

end Budget

/-! ## Well-formedness of a finalized budget -/

namespace Budget

namespace CFinalizedBudget

/-- The `int64_t` accumulation of the amounts is their sum when no partial sum
leaves the `int64_t` range. -/
theorem foldl_amount_eq (l : List CTxBudgetPayment) (acc : Int)
    (hno : ∀ k, -9223372036854775808 ≤ acc + ((l.take k).map (fun x => x.nAmount)).sum ∧
      acc + ((l.take k).map (fun x => x.nAmount)).sum < 9223372036854775808) :
    l.foldl (fun ret x => wrapInt64 (ret + x.nAmount)) acc =
      acc + (l.map (fun x => x.nAmount)).sum := by
  induction l generalizing acc with
  | nil => simp
  | cons x t ih =>
    have h1 := hno 1
    simp only [List.take_succ_cons, List.take_zero, List.map_cons, List.map_nil, List.sum_cons,
      List.sum_nil, add_zero] at h1
    have hw : wrapInt64 (acc + x.nAmount) = acc + x.nAmount :=
      wrapInt64_of_range _ h1.1 h1.2
    simp only [List.foldl_cons, List.map_cons, List.sum_cons]
    rw [hw, ih]
    · ring
    · intro k
      have hk := hno (k + 1)
      simp only [List.take_succ_cons, List.map_cons, List.sum_cons] at hk
      constructor
      · linarith [hk.1]
      · linarith [hk.2]

/-- `GetTotalPayout` is the sum of the payment amounts when no partial sum of
the amounts leaves the `int64_t` range. -/
theorem GetTotalPayout_eq_sum (fb : CFinalizedBudget)
    (hno : ∀ k, -9223372036854775808 ≤
        ((fb.vecBudgetPayments.take k).map (fun x => x.nAmount)).sum ∧
      ((fb.vecBudgetPayments.take k).map (fun x => x.nAmount)).sum < 9223372036854775808) :
    fb.GetTotalPayout = (fb.vecBudgetPayments.map (fun x => x.nAmount)).sum := by
  unfold GetTotalPayout
  rw [foldl_amount_eq]
  · simp
  · intro k
    have hk := hno k
    constructor
    · linarith [hk.1]
    · linarith [hk.2]

theorem budget_CheckStartEnd_fst (env : Env) (fb : CFinalizedBudget) :
    ((fb.CheckStartEnd env).1 = true ↔
      fb.nBlockStart ≠ 0 ∧ fb.nBlockStart.tmod env.nBudgetCycleBlocks = 0 ∧
      fb.vecBudgetPayments.length ≤ 100) ∧
    ((fb.CheckStartEnd env).1 = true → (fb.CheckStartEnd env).2 = fb) := by
  unfold CheckStartEnd GetBlockEnd
  by_cases h1 : fb.nBlockStart = 0
  · simp [h1]
  · rw [if_neg h1]
    by_cases h2 : fb.nBlockStart.tmod env.nBudgetCycleBlocks ≠ 0
    · rw [if_pos h2]
      exact ⟨⟨fun hc => absurd hc (by simp), fun hc => absurd hc.2.1 h2⟩,
        fun hc => absurd hc (by simp)⟩
    · rw [if_neg h2]
      have h2' : fb.nBlockStart.tmod env.nBudgetCycleBlocks = 0 := not_not.mp h2
      by_cases h3 : fb.nBlockStart + (fb.vecBudgetPayments.length : Int) - 1 - fb.nBlockStart > 100
      · rw [if_pos h3]
        refine ⟨⟨fun hc => absurd hc (by simp), fun hc => ?_⟩, fun hc => absurd hc (by simp)⟩
        have := hc.2.2
        omega
      · rw [if_neg h3]
        by_cases h4 : (fb.vecBudgetPayments.length : Int) > 100
        · rw [if_pos h4]
          refine ⟨⟨fun hc => absurd hc (by simp), fun hc => ?_⟩, fun hc => absurd hc (by simp)⟩
          have := hc.2.2
          omega
        · rw [if_neg h4]
          exact ⟨⟨fun _ => ⟨h1, h2', by omega⟩, fun _ => rfl⟩, fun _ => rfl⟩

/-- A well-formed finalized budget is left as it was; the conditions are those
of the three checks. -/
theorem budget_IsWellFormed_fst (env : Env) (fb : CFinalizedBudget) (cap : CAmount) :
    ((fb.IsWellFormed env cap).1 = true ↔
      (fb.nBlockStart ≠ 0 ∧ fb.nBlockStart.tmod env.nBudgetCycleBlocks = 0 ∧
        fb.vecBudgetPayments.length ≤ 100) ∧
      fb.GetTotalPayout ≤ cap ∧ fb.strBudgetName ≠ "") ∧
    ((fb.IsWellFormed env cap).1 = true → (fb.IsWellFormed env cap).2 = fb) := by
  obtain ⟨a1, a2⟩ := budget_CheckStartEnd_fst env fb
  unfold IsWellFormed
  dsimp only
  cases h1 : (fb.CheckStartEnd env).1
  · have : ¬ (fb.nBlockStart ≠ 0 ∧ fb.nBlockStart.tmod env.nBudgetCycleBlocks = 0 ∧
        fb.vecBudgetPayments.length ≤ 100) := fun hc => by
      rw [a1.mpr hc] at h1
      exact absurd h1 (by decide)
    simp [this]
  · rw [a2 h1]
    unfold CheckAmount CheckName
    by_cases h2 : fb.GetTotalPayout > cap
    · simp only [h2, if_true, Bool.not_true, Bool.not_false, Bool.false_eq_true, if_false,
        false_iff, false_imp_iff, and_true]
      intro hc
      exact absurd hc.2.1 (not_le.mpr h2)
    · by_cases h3 : fb.strBudgetName = ""
      · simp [h2, h3]
      · simp only [h2, h3, if_false, Bool.not_true, Bool.false_eq_true, true_iff, forall_const,
          and_true]
        exact ⟨a1.mp h1, not_lt.mp h2, h3⟩

/-- C13, as the code has it: a finalized budget for which
`CFinalizedBudget::IsWellFormed(cap)` returns true has a non-empty name, a
block-start that is not 0 and is a multiple of the cycle length (its C++
remainder is 0; the sign is not checked), at most 100 payments, and a total
payout of at most `cap`, where the total payout is the value `GetTotalPayout()`
accumulates in `int64_t`: it is the sum of the payment amounts, and so the sum
is at most `cap`, whenever no partial sum of the amounts leaves the `int64_t`
range. -/
theorem budget_IsWellFormed_true (env : Env) (fb : CFinalizedBudget) (cap : CAmount)
    (hw : (fb.IsWellFormed env cap).1 = true) :
    fb.strBudgetName ≠ "" ∧
    fb.nBlockStart ≠ 0 ∧ fb.nBlockStart.tmod env.nBudgetCycleBlocks = 0 ∧
    env.nBudgetCycleBlocks ∣ fb.nBlockStart ∧
    fb.vecBudgetPayments.length ≤ 100 ∧
    fb.GetTotalPayout ≤ cap ∧
    ((∀ k, -9223372036854775808 ≤
          ((fb.vecBudgetPayments.take k).map (fun x => x.nAmount)).sum ∧
        ((fb.vecBudgetPayments.take k).map (fun x => x.nAmount)).sum < 9223372036854775808) →
      fb.GetTotalPayout = (fb.vecBudgetPayments.map (fun x => x.nAmount)).sum ∧
      (fb.vecBudgetPayments.map (fun x => x.nAmount)).sum ≤ cap) := by
  obtain ⟨⟨h1, h2, h3⟩, h4, h5⟩ := (budget_IsWellFormed_fst env fb cap).1.mp hw
  refine ⟨h5, h1, h2, Int.dvd_of_tmod_eq_zero h2, h3, h4, ?_⟩
  intro hno
  have he := GetTotalPayout_eq_sum fb hno
  refine ⟨he, ?_⟩
  rw [← he]
  exact h4

/-- C13 witness: the example budget (block-start 200, cycle length 200, one
payment of 30) is well-formed for the cap of its block-start. -/
theorem budget_IsWellFormed_true_witness :
    (exampleBudget.IsWellFormed exampleEnv 64800000000000).1 = true ∧
    exampleBudget.strBudgetName ≠ "" ∧
    exampleBudget.nBlockStart ≠ 0 ∧
    exampleBudget.nBlockStart.tmod exampleEnv.nBudgetCycleBlocks = 0 ∧
    exampleEnv.nBudgetCycleBlocks ∣ exampleBudget.nBlockStart ∧
    exampleBudget.vecBudgetPayments.length ≤ 100 ∧
    exampleBudget.GetTotalPayout ≤ 64800000000000 :=
  ⟨by decide,
   (budget_IsWellFormed_true exampleEnv exampleBudget 64800000000000 (by decide)).1,
   (budget_IsWellFormed_true exampleEnv exampleBudget 64800000000000 (by decide)).2.1,
   (budget_IsWellFormed_true exampleEnv exampleBudget 64800000000000 (by decide)).2.2.1,
   (budget_IsWellFormed_true exampleEnv exampleBudget 64800000000000 (by decide)).2.2.2.1,
   (budget_IsWellFormed_true exampleEnv exampleBudget 64800000000000 (by decide)).2.2.2.2.1,
   (budget_IsWellFormed_true exampleEnv exampleBudget 64800000000000 (by decide)).2.2.2.2.2.1⟩

/-- C13 as stated fails: a finalized budget whose block-start is `-200`, a
negative multiple of the cycle length 200, is well-formed although its
block-start is not strictly greater than 0. It also fails for the payout: the
budget at block 200 with the two payments of `2^62` is well-formed for the cap
of 648000 coins, because the `int64_t` accumulation of the amounts ends at
`-2^63`, although the amounts sum to `2^63`, far above the cap. -/
theorem budget_IsWellFormed_negative_start :
    (exampleBudgetNegative.IsWellFormed exampleEnv
      (CBudgetManager.GetTotalBudget exampleEnv exampleBudgetNegative.nBlockStart)).1 = true ∧
    exampleBudgetNegative.nBlockStart = -200 ∧
    ¬ (0 < exampleBudgetNegative.nBlockStart) ∧
    (exampleBudgetHuge.IsWellFormed exampleEnv 64800000000000).1 = true ∧
    exampleBudgetHuge.vecBudgetPayments.map (fun x => x.nAmount) =
      [4611686018427387904, 4611686018427387904] ∧
    exampleBudgetHuge.GetTotalPayout = -9223372036854775808 ∧
    ¬ ((exampleBudgetHuge.vecBudgetPayments.map (fun x => x.nAmount)).sum ≤ 64800000000000) := by
  decide

set_option maxRecDepth 8000 in
/-- C14, as stated, fails: the budget at block 200 named "main" with 100
payments, three of `-2^62` and 97 of 0, has a non-empty name, a positive
block-start that is a multiple of the cycle length 200 and amounts whose sum
`-3 * 2^62` is below the cap of 648000 coins, yet `IsWellFormed(cap)` returns
false: the `int64_t` accumulation of the amounts ends at `2^62`, above the
cap. -/
theorem budget_IsWellFormed_wrapped_payout :
    exampleBudgetWrapped.strBudgetName ≠ "" ∧
    0 < exampleBudgetWrapped.nBlockStart ∧
    exampleEnv.nBudgetCycleBlocks ∣ exampleBudgetWrapped.nBlockStart ∧
    exampleBudgetWrapped.vecBudgetPayments.length = 100 ∧
    (exampleBudgetWrapped.vecBudgetPayments.map (fun x => x.nAmount)).sum =
      -13835058055282163712 ∧
    (exampleBudgetWrapped.vecBudgetPayments.map (fun x => x.nAmount)).sum ≤ 64800000000000 ∧
    exampleBudgetWrapped.GetTotalPayout = 4611686018427387904 ∧
    (exampleBudgetWrapped.IsWellFormed exampleEnv 64800000000000).1 = false := by
  decide

/-- C14 (amended): with block-end = block-start + (number of payments) - 1, a
finalized budget with a non-empty name, a positive block-start that is a
multiple of the cycle length and a total payout of at most `cap` is
well-formed when it has exactly 100 payments and is not well-formed when it
has 101 or more, where the total payout is the value `GetTotalPayout()`
accumulates in `int64_t`; it is the sum of the payment amounts whenever no
partial sum of the amounts leaves the `int64_t` range. -/
theorem budget_IsWellFormed_boundary (env : Env) (fb : CFinalizedBudget) (cap : CAmount)
    (hname : fb.strBudgetName ≠ "") (hpos : 0 < fb.nBlockStart)
    (hmul : env.nBudgetCycleBlocks ∣ fb.nBlockStart)
    (hpay : fb.GetTotalPayout ≤ cap) :
    fb.GetBlockEnd = fb.nBlockStart + (fb.vecBudgetPayments.length : Int) - 1 ∧
    (fb.vecBudgetPayments.length = 100 → (fb.IsWellFormed env cap).1 = true) ∧
    (101 ≤ fb.vecBudgetPayments.length → (fb.IsWellFormed env cap).1 = false) ∧
    ((∀ k, -9223372036854775808 ≤
          ((fb.vecBudgetPayments.take k).map (fun x => x.nAmount)).sum ∧
        ((fb.vecBudgetPayments.take k).map (fun x => x.nAmount)).sum < 9223372036854775808) →
      fb.GetTotalPayout = (fb.vecBudgetPayments.map (fun x => x.nAmount)).sum) := by
  have hiff := (budget_IsWellFormed_fst env fb cap).1
  refine ⟨rfl, ?_, ?_, GetTotalPayout_eq_sum fb⟩
  · intro hlen
    apply hiff.mpr
    exact ⟨⟨ne_of_gt hpos, Int.tmod_eq_zero_of_dvd hmul, by omega⟩, hpay, hname⟩
  · intro hlen
    rw [Bool.eq_false_iff]
    intro hc
    have := (hiff.mp hc).1.2.2
    omega

set_option maxRecDepth 8000 in
/-- C14 witness: budgets at block 200 with 100 and with 101 payments of 1. -/
theorem budget_IsWellFormed_boundary_witness :
    (exampleBudgetOfSize 100).vecBudgetPayments.length = 100 ∧
    ((exampleBudgetOfSize 100).IsWellFormed exampleEnv 1000).1 = true ∧
    (exampleBudgetOfSize 101).vecBudgetPayments.length = 101 ∧
    ((exampleBudgetOfSize 101).IsWellFormed exampleEnv 1000).1 = false :=
  ⟨by decide,
   (budget_IsWellFormed_boundary exampleEnv (exampleBudgetOfSize 100) 1000
      (by decide) (by decide) (by decide) (by decide)).2.1 (by decide),
   by decide,
   (budget_IsWellFormed_boundary exampleEnv (exampleBudgetOfSize 101) 1000
      (by decide) (by decide) (by decide) (by decide)).2.2.1 (by decide)⟩

end CFinalizedBudget

end Budget

/-! ## Admission of proposals and finalized budgets -/

namespace Budget

namespace CBudgetManager

theorem proposal_UpdateValid_nTime (env : Env) (p : CBudgetProposal) (t h : Int) :
    (({ p with nTime := t } : CBudgetProposal).UpdateValid env h).1 = (p.UpdateValid env h).1 ∧
    ((p.UpdateValid env h).1 = true →
      (({ p with nTime := t } : CBudgetProposal).UpdateValid env h).2 =
        { p with nTime := t, fValid := true, strInvalid := "" }) := by
  have hn : ({ p with nTime := t } : CBudgetProposal).GetNays -
      ({ p with nTime := t } : CBudgetProposal).GetYeas = p.GetNays - p.GetYeas := rfl
  rw [CBudgetProposal.UpdateValid_eq, CBudgetProposal.UpdateValid_eq, hn]
  by_cases h1 : p.GetNays - p.GetYeas > env.CountEnabled.tdiv 10
  · simp [h1]
  · by_cases h2 : p.nBlockEnd < h
    · simp [h1, h2]
    · simp [h1, h2]

/-- The five outcomes of `AddProposal`, in terms of the proposal passed in. -/
theorem AddProposal_eq (env : Env) (m : CBudgetManager) (p : CBudgetProposal) :
    m.AddProposal env p =
      if m.mapProposals.contains (p.GetHash env) = true then (false, p, m)
      else if (p.IsWellFormed env (GetTotalBudget env p.nBlockStart)).1 = false then
        (false, (p.IsWellFormed env (GetTotalBudget env p.nBlockStart)).2, m)
      else if (CheckCollateral env p.nFeeTXHash (p.GetHash env) p.nTime m.GetBestHeight
          false).1 = false then
        (false, { p with nTime := (CheckCollateral env p.nFeeTXHash (p.GetHash env) p.nTime
          m.GetBestHeight false).2 }, m)
      else if (p.UpdateValid env m.GetBestHeight).1 = false then
        (false, (({ p with nTime := (CheckCollateral env p.nFeeTXHash (p.GetHash env) p.nTime
          m.GetBestHeight false).2 } : CBudgetProposal).UpdateValid env m.GetBestHeight).2, m)
      else
        (true,
         { p with nTime := (CheckCollateral env p.nFeeTXHash (p.GetHash env) p.nTime
            m.GetBestHeight false).2, fValid := true, strInvalid := "" },
         { m with mapProposals := (m.mapProposals.set (p.GetHash env)
            ({ p with nTime := (CheckCollateral env p.nFeeTXHash (p.GetHash env) p.nTime
                m.GetBestHeight false).2, fValid := true, strInvalid := "" } :
              CBudgetProposal)) }) := by
  unfold AddProposal
  dsimp only
  cases hc : m.mapProposals.contains (p.GetHash env)
  · have hnone : m.mapProposals.find (p.GetHash env) = none :=
      (StdMap.contains_eq_false_iff _ _).mp hc
    rw [StdMap.emplace_of_find_none _ _ _ hnone]
    cases hw : (p.IsWellFormed env (GetTotalBudget env p.nBlockStart)).1
    · simp
    · have e := (CBudgetProposal.IsWellFormed_fst env p (GetTotalBudget env p.nBlockStart)).2 hw
      rw [e]
      obtain ⟨u1, u2⟩ := proposal_UpdateValid_nTime env p
        (CheckCollateral env p.nFeeTXHash (p.GetHash env) p.nTime m.GetBestHeight false).2
        m.GetBestHeight
      rw [u1]
      cases hC : (CheckCollateral env p.nFeeTXHash (p.GetHash env) p.nTime m.GetBestHeight
        false).1
      · simp
      · cases hu : (p.UpdateValid env m.GetBestHeight).1
        · simp
        · rw [u2 hu]
          simp
  · simp

/-- The two outcomes of `CFinalizedBudget::UpdateValid`. -/
theorem budget_UpdateValid_eq (env : Env) (fb : CFinalizedBudget) (h : Int) :
    fb.UpdateValid env h =
      if fb.GetBlockEnd < h - h.tmod env.nBudgetCycleBlocks then
        (false, { fb with fValid := false, strInvalid :=
          ("(ends at block " ++ env.decimalText fb.GetBlockEnd ++ ") too old and obsolete") })
      else (true, { fb with fValid := true, strInvalid := "" }) := by
  have hb : ({ fb with fValid := false } : CFinalizedBudget).GetBlockEnd = fb.GetBlockEnd := rfl
  unfold CFinalizedBudget.UpdateValid CFinalizedBudget.IsExpired
  dsimp only
  rw [hb]
  by_cases h1 : fb.GetBlockEnd < h - h.tmod env.nBudgetCycleBlocks
  · simp [h1]
  · simp [h1]

theorem budget_UpdateValid_nTime (env : Env) (fb : CFinalizedBudget) (t h : Int) :
    (({ fb with nTime := t } : CFinalizedBudget).UpdateValid env h).1 = (fb.UpdateValid env h).1 ∧
    ((fb.UpdateValid env h).1 = true →
      (({ fb with nTime := t } : CFinalizedBudget).UpdateValid env h).2 =
        { fb with nTime := t, fValid := true, strInvalid := "" }) := by
  have hb : ({ fb with nTime := t } : CFinalizedBudget).GetBlockEnd = fb.GetBlockEnd := rfl
  rw [budget_UpdateValid_eq, budget_UpdateValid_eq, hb]
  by_cases h1 : fb.GetBlockEnd < h - h.tmod env.nBudgetCycleBlocks
  · simp [h1]
  · simp [h1]

/-- The five outcomes of `AddFinalizedBudget`, in terms of the budget passed
in. -/
theorem AddFinalizedBudget_eq (env : Env) (m : CBudgetManager) (fb : CFinalizedBudget) :
    m.AddFinalizedBudget env fb =
      if m.mapFinalizedBudgets.contains (fb.GetHash env) = true then (false, fb, m)
      else if (fb.IsWellFormed env (GetTotalBudget env fb.nBlockStart)).1 = false then
        (false, (fb.IsWellFormed env (GetTotalBudget env fb.nBlockStart)).2, m)
      else if (CheckCollateral env fb.nFeeTXHash (fb.GetHash env) fb.nTime m.GetBestHeight
          true).1 = false then
        (false, { fb with nTime := (CheckCollateral env fb.nFeeTXHash (fb.GetHash env) fb.nTime
          m.GetBestHeight true).2 }, m)
      else if (fb.UpdateValid env m.GetBestHeight).1 = false then
        (false, (({ fb with nTime := (CheckCollateral env fb.nFeeTXHash (fb.GetHash env) fb.nTime
          m.GetBestHeight true).2 } : CFinalizedBudget).UpdateValid env m.GetBestHeight).2, m)
      else
        (true,
         m.SetBudgetProposalsStr env
          { fb with nTime := (CheckCollateral env fb.nFeeTXHash (fb.GetHash env) fb.nTime
            m.GetBestHeight true).2, fValid := true, strInvalid := "" },
         { m with mapFinalizedBudgets := (m.mapFinalizedBudgets.set (fb.GetHash env)
            (m.SetBudgetProposalsStr env
              { fb with nTime := (CheckCollateral env fb.nFeeTXHash (fb.GetHash env) fb.nTime
                m.GetBestHeight true).2, fValid := true, strInvalid := "" })) }) := by
  unfold AddFinalizedBudget
  dsimp only
  cases hc : m.mapFinalizedBudgets.contains (fb.GetHash env)
  · have hnone : m.mapFinalizedBudgets.find (fb.GetHash env) = none :=
      (StdMap.contains_eq_false_iff _ _).mp hc
    rw [StdMap.emplace_of_find_none _ _ _ hnone]
    cases hw : (fb.IsWellFormed env (GetTotalBudget env fb.nBlockStart)).1
    · simp
    · have e := (CFinalizedBudget.budget_IsWellFormed_fst env fb
        (GetTotalBudget env fb.nBlockStart)).2 hw
      rw [e]
      obtain ⟨u1, u2⟩ := budget_UpdateValid_nTime env fb
        (CheckCollateral env fb.nFeeTXHash (fb.GetHash env) fb.nTime m.GetBestHeight true).2
        m.GetBestHeight
      rw [u1]
      cases hC : (CheckCollateral env fb.nFeeTXHash (fb.GetHash env) fb.nTime m.GetBestHeight
        true).1
      · simp
      · cases hu : (fb.UpdateValid env m.GetBestHeight).1
        · simp
        · rw [u2 hu]
          simp
  · simp

/-- C11: `CBudgetManager::AddProposal` (resp. `AddFinalizedBudget`) returns true
iff the identity hash is not yet a key of its map,
`IsWellFormed(GetTotalBudget(blockStart))` holds,
`CheckCollateral(feeTxHash, identityHash, bestHeight, false` (resp. `true`)`)`
succeeds and `UpdateValid(bestHeight)` holds. It then inserts the item under
its identity hash: the item passed in with the creation time the collateral
check returned, marked valid (and, for a budget, with its proposals text
set). In every other case it returns false and leaves the manager as it
was. -/
theorem Add_item_spec (env : Env) (m : CBudgetManager) (p : CBudgetProposal)
    (fb : CFinalizedBudget) :
    (((m.AddProposal env p).1 = true ↔
        m.mapProposals.contains (p.GetHash env) = false ∧
        (p.IsWellFormed env (GetTotalBudget env p.nBlockStart)).1 = true ∧
        (CheckCollateral env p.nFeeTXHash (p.GetHash env) p.nTime m.GetBestHeight false).1
          = true ∧
        (p.UpdateValid env m.GetBestHeight).1 = true) ∧
      ((m.AddProposal env p).1 = true →
        (m.AddProposal env p).2.2 = { m with mapProposals :=
          (m.mapProposals.set (p.GetHash env) (m.AddProposal env p).2.1) } ∧
        (m.AddProposal env p).2.2.mapProposals.find (p.GetHash env) =
          some (m.AddProposal env p).2.1 ∧
        (m.AddProposal env p).2.1 =
          { p with nTime := (CheckCollateral env p.nFeeTXHash (p.GetHash env) p.nTime
              m.GetBestHeight false).2, fValid := true, strInvalid := "" }) ∧
      ((m.AddProposal env p).1 = false → (m.AddProposal env p).2.2 = m)) ∧
    (((m.AddFinalizedBudget env fb).1 = true ↔
        m.mapFinalizedBudgets.contains (fb.GetHash env) = false ∧
        (fb.IsWellFormed env (GetTotalBudget env fb.nBlockStart)).1 = true ∧
        (CheckCollateral env fb.nFeeTXHash (fb.GetHash env) fb.nTime m.GetBestHeight true).1
          = true ∧
        (fb.UpdateValid env m.GetBestHeight).1 = true) ∧
      ((m.AddFinalizedBudget env fb).1 = true →
        (m.AddFinalizedBudget env fb).2.2 = { m with mapFinalizedBudgets :=
          (m.mapFinalizedBudgets.set (fb.GetHash env) (m.AddFinalizedBudget env fb).2.1) } ∧
        (m.AddFinalizedBudget env fb).2.2.mapFinalizedBudgets.find (fb.GetHash env) =
          some (m.AddFinalizedBudget env fb).2.1 ∧
        (m.AddFinalizedBudget env fb).2.1 =
          m.SetBudgetProposalsStr env
            { fb with nTime := (CheckCollateral env fb.nFeeTXHash (fb.GetHash env) fb.nTime
                m.GetBestHeight true).2, fValid := true, strInvalid := "" }) ∧
      ((m.AddFinalizedBudget env fb).1 = false → (m.AddFinalizedBudget env fb).2.2 = m)) := by
  constructor
  · rw [AddProposal_eq]
    cases hc : m.mapProposals.contains (p.GetHash env) <;>
      cases hw : (p.IsWellFormed env (GetTotalBudget env p.nBlockStart)).1 <;>
      cases hC : (CheckCollateral env p.nFeeTXHash (p.GetHash env) p.nTime m.GetBestHeight
        false).1 <;>
      cases hu : (p.UpdateValid env m.GetBestHeight).1 <;>
      simp [StdMap.find_set_self]
  · rw [AddFinalizedBudget_eq]
    cases hc : m.mapFinalizedBudgets.contains (fb.GetHash env) <;>
      cases hw : (fb.IsWellFormed env (GetTotalBudget env fb.nBlockStart)).1 <;>
      cases hC : (CheckCollateral env fb.nFeeTXHash (fb.GetHash env) fb.nTime m.GetBestHeight
        true).1 <;>
      cases hu : (fb.UpdateValid env m.GetBestHeight).1 <;>
      simp [StdMap.find_set_self]

end CBudgetManager

end Budget

/-! ## The order of `PtrHigherYes` and the sort of `GetBudget` -/

namespace Budget

namespace CBudgetProposal

theorem PtrHigherYes_iff (a b : CBudgetProposal) :
    a.PtrHigherYes b = true ↔
      a.GetYeas - a.GetNays > b.GetYeas - b.GetNays ∨
      (a.GetYeas - a.GetNays = b.GetYeas - b.GetNays ∧ a.nFeeTXHash > b.nFeeTXHash) := by
  unfold PtrHigherYes
  dsimp only
  by_cases h : a.GetYeas - a.GetNays = b.GetYeas - b.GetNays
  · rw [if_pos h, decide_eq_true_iff]
    constructor
    · intro hf
      exact Or.inr ⟨h, hf⟩
    · rintro (hgt | ⟨_, hf⟩)
      · exact absurd h (ne_of_gt hgt)
      · exact hf
  · rw [if_neg h, decide_eq_true_iff]
    constructor
    · intro hgt
      exact Or.inl hgt
    · rintro (hgt | ⟨heq, _⟩)
      · exact hgt
      · exact absurd heq h

theorem PtrHigherYes_asymm (a b : CBudgetProposal) (h : a.PtrHigherYes b = true) :
    ¬ b.PtrHigherYes a = true := by
  rw [PtrHigherYes_iff] at h ⊢
  rintro (h2 | ⟨h2, h3⟩)
  · rcases h with h | ⟨h, _⟩
    · exact lt_asymm h h2
    · rw [h] at h2
      exact lt_irrefl _ h2
  · rcases h with h | ⟨_, h⟩
    · rw [h2] at h
      exact lt_irrefl _ h
    · exact lt_asymm h h3

theorem PtrHigherYes_trans (a b c : CBudgetProposal) (h1 : a.PtrHigherYes b = true)
    (h2 : b.PtrHigherYes c = true) : a.PtrHigherYes c = true := by
  rw [PtrHigherYes_iff] at h1 h2 ⊢
  rcases h1 with h1 | ⟨h1, f1⟩
  · rcases h2 with h2 | ⟨h2, _⟩
    · exact Or.inl (lt_trans h2 h1)
    · exact Or.inl (h2 ▸ h1)
  · rcases h2 with h2 | ⟨h2, f2⟩
    · exact Or.inl (h1 ▸ h2)
    · exact Or.inr ⟨h1.trans h2, lt_trans f2 f1⟩

/-- Not being ranked below: `b` is not higher than `a` iff `a` has the larger
net yes count, or the same and a collateral hash at least as large. -/
theorem not_PtrHigherYes_iff (a b : CBudgetProposal) :
    ¬ b.PtrHigherYes a = true ↔
      a.GetYeas - a.GetNays > b.GetYeas - b.GetNays ∨
      (a.GetYeas - a.GetNays = b.GetYeas - b.GetNays ∧ a.nFeeTXHash ≥ b.nFeeTXHash) := by
  rw [PtrHigherYes_iff]
  constructor
  · intro h
    rcases lt_trichotomy (a.GetYeas - a.GetNays) (b.GetYeas - b.GetNays) with hlt | heq | hgt
    · exact absurd (Or.inl hlt) h
    · refine Or.inr ⟨heq, ?_⟩
      by_contra hc
      exact h (Or.inr ⟨heq.symm, not_le.mp hc⟩)
    · exact Or.inl hgt
  · rintro (hgt | ⟨heq, hge⟩) (h2 | ⟨e2, h3⟩)
    · exact lt_asymm hgt h2
    · rw [e2] at hgt
      exact lt_irrefl _ hgt
    · rw [heq] at h2
      exact lt_irrefl _ h2
    · exact absurd hge (not_le.mpr h3)

/-- Exactly one of the two comparisons holds iff the proposals differ in net
yes count or in collateral hash. -/
theorem PtrHigherYes_total_iff (a b : CBudgetProposal) :
    (a.PtrHigherYes b = true ∨ b.PtrHigherYes a = true) ↔
      (a.GetYeas - a.GetNays ≠ b.GetYeas - b.GetNays ∨ a.nFeeTXHash ≠ b.nFeeTXHash) := by
  constructor
  · rintro (h | h)
    · rcases (PtrHigherYes_iff a b).mp h with h | ⟨_, h⟩
      · exact Or.inl (ne_of_gt h)
      · exact Or.inr (ne_of_gt h)
    · rcases (PtrHigherYes_iff b a).mp h with h | ⟨_, h⟩
      · exact Or.inl (ne_of_lt h)
      · exact Or.inr (ne_of_lt h)
  · intro h
    by_contra hc
    rw [not_or] at hc
    obtain ⟨h1, h2⟩ := hc
    rcases (not_PtrHigherYes_iff b a).mp h1 with g1 | ⟨g1, g2⟩
    · rcases (not_PtrHigherYes_iff a b).mp h2 with k1 | ⟨k1, _⟩
      · exact lt_asymm g1 k1
      · rw [k1] at g1
        exact lt_irrefl _ g1
    · rcases (not_PtrHigherYes_iff a b).mp h2 with k1 | ⟨_, k2⟩
      · rw [g1] at k1
        exact lt_irrefl _ k1
      · rcases h with h | h
        · exact h g1.symm
        · exact h (le_antisymm g2 k2)

end CBudgetProposal

/-- Insertion sort by a strict order leaves no later element ranked above an
earlier one. -/
theorem pairwise_insertionSort_strict {α : Type} (r : α → α → Prop) [DecidableRel r]
    (hasymm : ∀ a b, r a b → ¬ r b a) (htrans : ∀ a b c, r a b → r b c → r a c)
    (l : List α) : (l.insertionSort r).Pairwise (fun a b => ¬ r b a) := by
  have hins : ∀ (a : α) (t : List α), t.Pairwise (fun a b => ¬ r b a) →
      (t.orderedInsert r a).Pairwise (fun a b => ¬ r b a) := by
    intro a t
    induction t with
    | nil =>
      intro _
      simp
    | cons b t ih =>
      intro ht
      obtain ⟨hb, ht2⟩ := List.pairwise_cons.mp ht
      rw [List.orderedInsert]
      split_ifs with hab
      · refine List.pairwise_cons.mpr ⟨?_, ht⟩
        intro x hx
        rcases List.mem_cons.mp hx with rfl | hx
        · exact hasymm _ _ hab
        · intro hxa
          exact hb x hx (htrans _ _ _ hxa hab)
      · refine List.pairwise_cons.mpr ⟨?_, ih ht2⟩
        intro y hy
        rcases (List.mem_orderedInsert r).mp hy with rfl | hy
        · exact hab
        · exact hb y hy
  induction l with
  | nil => simp
  | cons a t ih =>
    rw [List.insertionSort]
    exact hins a _ ih

namespace CBudgetManager

theorem sortByHigherYes_perm (v : List (uint256 × CBudgetProposal)) :
    (sortByHigherYes v).Perm v :=
  List.perm_insertionSort _ v

/-- The sorted vector has no proposal ranked (by `PtrHigherYes`) above one
that precedes it. -/
theorem sortByHigherYes_sorted (v : List (uint256 × CBudgetProposal)) :
    (sortByHigherYes v).Pairwise (fun a b => ¬ b.2.PtrHigherYes a.2 = true) :=
  pairwise_insertionSort_strict (fun a b => CBudgetProposal.PtrHigherYes a.2 b.2 = true)
    (fun a b h => CBudgetProposal.PtrHigherYes_asymm a.2 b.2 h)
    (fun a b c h1 h2 => CBudgetProposal.PtrHigherYes_trans a.2 b.2 c.2 h1 h2) v

theorem GetBudget_loop_admitted (env : Env) (bs be mn : Int) (cap : CAmount)
    (k : uint256) (p : CBudgetProposal) (t : List (uint256 × CBudgetProposal)) (a : CAmount)
    (hp : p.IsPassing env bs be mn = true) (hfit : p.nAmount + a ≤ cap) :
    GetBudget.loop env bs be mn cap ((k, p) :: t) a =
      ((k, { p with nAlloted := p.nAmount }) ::
          (GetBudget.loop env bs be mn cap t (a + p.nAmount)).1,
       (k, { p with nAlloted := p.nAmount }) ::
          (GetBudget.loop env bs be mn cap t (a + p.nAmount)).2) := by
  rw [GetBudget.loop, if_pos hp, if_pos hfit]

theorem GetBudget_loop_reject (env : Env) (bs be mn : Int) (cap : CAmount)
    (k : uint256) (p : CBudgetProposal) (t : List (uint256 × CBudgetProposal)) (a : CAmount)
    (hp : p.IsPassing env bs be mn = true) (hfit : ¬ p.nAmount + a ≤ cap) :
    GetBudget.loop env bs be mn cap ((k, p) :: t) a =
      ((GetBudget.loop env bs be mn cap t a).1,
       (k, { p with nAlloted := 0 }) :: (GetBudget.loop env bs be mn cap t a).2) := by
  rw [GetBudget.loop, if_pos hp, if_neg hfit]

theorem GetBudget_loop_skip (env : Env) (bs be mn : Int) (cap : CAmount)
    (k : uint256) (p : CBudgetProposal) (t : List (uint256 × CBudgetProposal)) (a : CAmount)
    (hp : ¬ p.IsPassing env bs be mn = true) :
    GetBudget.loop env bs be mn cap ((k, p) :: t) a =
      ((GetBudget.loop env bs be mn cap t a).1,
       (k, p) :: (GetBudget.loop env bs be mn cap t a).2) := by
  rw [GetBudget.loop, if_neg hp]

/-- The entries `GetBudget` returns are a subsequence of the sorted vector:
each is a passing proposal with its amount allotted. -/
theorem GetBudget_loop_ret (env : Env) (bs be mn : Int) (cap : CAmount)
    (l : List (uint256 × CBudgetProposal)) (a : CAmount) :
    ∃ l2 : List (uint256 × CBudgetProposal), l2.Sublist l ∧
      (∀ e ∈ l2, e.2.IsPassing env bs be mn = true) ∧
      (GetBudget.loop env bs be mn cap l a).1 =
        l2.map (fun e => (e.1, { e.2 with nAlloted := e.2.nAmount })) := by
  induction l generalizing a with
  | nil => exact ⟨[], List.Sublist.refl _, by simp, rfl⟩
  | cons e t ih =>
    obtain ⟨k, p⟩ := e
    by_cases hp : p.IsPassing env bs be mn = true
    · by_cases hfit : p.nAmount + a ≤ cap
      · obtain ⟨l2, hs, hall, heq⟩ := ih (a + p.nAmount)
        refine ⟨(k, p) :: l2, hs.cons₂ _, ?_, ?_⟩
        · intro e he
          rcases List.mem_cons.mp he with rfl | he
          · exact hp
          · exact hall e he
        · rw [GetBudget_loop_admitted env bs be mn cap k p t a hp hfit, List.map_cons, heq]
      · obtain ⟨l2, hs, hall, heq⟩ := ih a
        refine ⟨l2, hs.cons _, hall, ?_⟩
        rw [GetBudget_loop_reject env bs be mn cap k p t a hp hfit, heq]
    · obtain ⟨l2, hs, hall, heq⟩ := ih a
      refine ⟨l2, hs.cons _, hall, ?_⟩
      rw [GetBudget_loop_skip env bs be mn cap k p t a hp, heq]

/-- The loop visits every entry once and keeps its key. -/
theorem GetBudget_loop_keys (env : Env) (bs be mn : Int) (cap : CAmount)
    (l : List (uint256 × CBudgetProposal)) (a : CAmount) :
    (GetBudget.loop env bs be mn cap l a).2.map Prod.fst = l.map Prod.fst := by
  induction l generalizing a with
  | nil => rfl
  | cons e t ih =>
    obtain ⟨k, p⟩ := e
    by_cases hp : p.IsPassing env bs be mn = true
    · by_cases hfit : p.nAmount + a ≤ cap
      · rw [GetBudget_loop_admitted env bs be mn cap k p t a hp hfit, List.map_cons, ih,
          List.map_cons]
      · rw [GetBudget_loop_reject env bs be mn cap k p t a hp hfit, List.map_cons, ih,
          List.map_cons]
    · rw [GetBudget_loop_skip env bs be mn cap k p t a hp, List.map_cons, ih, List.map_cons]

/-- Every returned entry is among the visited entries as the loop leaves
them. -/
theorem GetBudget_loop_ret_mem (env : Env) (bs be mn : Int) (cap : CAmount)
    (l : List (uint256 × CBudgetProposal)) (a : CAmount) :
    ∀ e ∈ (GetBudget.loop env bs be mn cap l a).1,
      e ∈ (GetBudget.loop env bs be mn cap l a).2 := by
  induction l generalizing a with
  | nil =>
    intro e he
    simp [GetBudget.loop] at he
  | cons e0 t ih =>
    obtain ⟨k, p⟩ := e0
    by_cases hp : p.IsPassing env bs be mn = true
    · by_cases hfit : p.nAmount + a ≤ cap
      · rw [GetBudget_loop_admitted env bs be mn cap k p t a hp hfit]
        intro e he
        rcases List.mem_cons.mp he with rfl | he
        · exact List.mem_cons_self _ _
        · exact List.mem_cons_of_mem _ (ih _ e he)
      · rw [GetBudget_loop_reject env bs be mn cap k p t a hp hfit]
        intro e he
        exact List.mem_cons_of_mem _ (ih _ e he)
    · rw [GetBudget_loop_skip env bs be mn cap k p t a hp]
      intro e he
      exact List.mem_cons_of_mem _ (ih _ e he)

/-- The loop over a concatenation: the second part starts with what the first
part allocated. -/
theorem GetBudget_loop_append (env : Env) (bs be mn : Int) (cap : CAmount)
    (l1 l2 : List (uint256 × CBudgetProposal)) (a : CAmount) :
    GetBudget.loop env bs be mn cap (l1 ++ l2) a =
      ((GetBudget.loop env bs be mn cap l1 a).1 ++
        (GetBudget.loop env bs be mn cap l2
          (a + ((GetBudget.loop env bs be mn cap l1 a).1.map (fun e => e.2.nAmount)).sum)).1,
       (GetBudget.loop env bs be mn cap l1 a).2 ++
        (GetBudget.loop env bs be mn cap l2
          (a + ((GetBudget.loop env bs be mn cap l1 a).1.map (fun e => e.2.nAmount)).sum)).2) := by
  induction l1 generalizing a with
  | nil => simp [GetBudget.loop]
  | cons e t ih =>
    obtain ⟨k, p⟩ := e
    rw [List.cons_append]
    by_cases hp : p.IsPassing env bs be mn = true
    · by_cases hfit : p.nAmount + a ≤ cap
      · rw [GetBudget_loop_admitted env bs be mn cap k p _ a hp hfit,
          GetBudget_loop_admitted env bs be mn cap k p _ a hp hfit, ih]
        simp only [List.map_cons, List.sum_cons, List.cons_append, add_assoc]
      · rw [GetBudget_loop_reject env bs be mn cap k p _ a hp hfit,
          GetBudget_loop_reject env bs be mn cap k p _ a hp hfit, ih]
        simp only [List.cons_append]
    · rw [GetBudget_loop_skip env bs be mn cap k p _ a hp,
        GetBudget_loop_skip env bs be mn cap k p _ a hp, ih]
      simp only [List.cons_append]

end CBudgetManager

/-! ## The proposals `GetBudget` returns -/

namespace StdMap

variable {V : Type}

theorem WF_nodup (m : StdMap V) (hm : WF m) : (keys m).Nodup := by
  unfold WF at hm
  exact List.Pairwise.imp (fun h => ne_of_lt h) hm

/-- With distinct keys every entry is the one `find` returns for its key. -/
theorem find_of_mem_nodup (m : StdMap V) (hm : (keys m).Nodup) (e : uint256 × V) (he : e ∈ m) :
    find m e.1 = some e.2 := by
  induction m with
  | nil => simp at he
  | cons e0 t ih =>
    obtain ⟨k0, v0⟩ := e0
    have hm2 : k0 ∉ keys t ∧ (keys t).Nodup := by
      simpa [keys] using hm
    rcases List.mem_cons.mp he with rfl | he
    · simp [find]
    · have hne : k0 ≠ e.1 := by
        intro hk
        apply hm2.1
        rw [hk]
        exact List.mem_map_of_mem Prod.fst he
      simp [find, hne, ih hm2.2 he]

theorem find_isSome_of_mem_keys (m : StdMap V) (k : uint256) (hk : k ∈ keys m) :
    ∃ v, find m k = some v := by
  induction m with
  | nil => simp [keys] at hk
  | cons e0 t ih =>
    obtain ⟨k0, v0⟩ := e0
    by_cases h0 : k0 = k
    · exact ⟨v0, by simp [find, h0]⟩
    · have hk2 : k ∈ keys t := by
        simp only [keys, List.map_cons, List.mem_cons] at hk
        rcases hk with hk | hk
        · exact absurd hk.symm h0
        · exact hk
      obtain ⟨v, hv⟩ := ih hk2
      exact ⟨v, by simp [find, h0, hv]⟩

/-- Looking a key up after the values were replaced entry by entry. -/
theorem find_map_val {W : Type} (m : StdMap V) (f : uint256 → V → W) (k : uint256) :
    find (m.map (fun e => (e.1, f e.1 e.2))) k = (find m k).map (f k) := by
  induction m with
  | nil => simp [find]
  | cons e0 t ih =>
    obtain ⟨k0, v0⟩ := e0
    by_cases h0 : k0 = k
    · subst h0
      simp [find]
    · simp only [List.map_cons, find, h0, if_false]
      exact ih

end StdMap

namespace CBudgetManager

/-- What `GetBudget` computes for a positive best height. -/
theorem GetBudget_eq (env : Env) (m : CBudgetManager) (hh : 0 < m.GetBestHeight) :
    m.GetBudget env =
      ((GetBudget.loop env (nextCycleStart env m) (nextCycleEnd env m) env.CountEnabled
          (GetTotalBudget env (nextCycleStart env m)) (sortedProposals env m) 0).1,
       { m with mapProposals :=
          ((m.mapProposals.map (fun e => (e.1, e.2.CleanAndRemove env))).map
            (fun e => (e.1, (StdMap.find
              (GetBudget.loop env (nextCycleStart env m) (nextCycleEnd env m) env.CountEnabled
                (GetTotalBudget env (nextCycleStart env m)) (sortedProposals env m) 0).2
              e.1).getD e.2))) }) := by
  have hh2 : ¬ m.GetBestHeight ≤ 0 := not_le.mpr hh
  unfold GetBudget
  rw [if_neg hh2]
  rfl

theorem GetBudget_nonpositive (env : Env) (m : CBudgetManager) (hh : m.GetBestHeight ≤ 0) :
    m.GetBudget env = ([], m) := by
  unfold GetBudget
  rw [if_pos hh]

theorem sortedProposals_keys_perm (env : Env) (m : CBudgetManager) :
    ((sortedProposals env m).map Prod.fst).Perm (StdMap.keys m.mapProposals) := by
  unfold sortedProposals
  have h1 := (sortByHigherYes_perm
    (m.mapProposals.map (fun e => (e.1, e.2.CleanAndRemove env)))).map Prod.fst
  refine h1.trans ?_
  unfold StdMap.keys
  rw [List.map_map]
  exact List.Perm.refl _

/-- Every entry of the sorted vector is a map entry with its votes cleaned. -/
theorem mem_sortedProposals (env : Env) (m : CBudgetManager) (e : uint256 × CBudgetProposal)
    (he : e ∈ sortedProposals env m) :
    ∃ p0, (e.1, p0) ∈ m.mapProposals ∧ e.2 = p0.CleanAndRemove env := by
  unfold sortedProposals at he
  have he2 := (sortByHigherYes_perm _).mem_iff.mp he
  obtain ⟨e0, he0, rfl⟩ := List.mem_map.mp he2
  exact ⟨e0.2, he0, rfl⟩

/-- With distinct keys, every entry the loop of `GetBudget` leaves is the one
the map holds under its key after the call. -/
theorem GetBudget_map_find (env : Env) (m : CBudgetManager) (hh : 0 < m.GetBestHeight)
    (hwf : m.mapProposals.WF) (e : uint256 × CBudgetProposal)
    (he : e ∈ (GetBudget.loop env (nextCycleStart env m) (nextCycleEnd env m) env.CountEnabled
      (GetTotalBudget env (nextCycleStart env m)) (sortedProposals env m) 0).2) :
    (m.GetBudget env).2.mapProposals.find e.1 = some e.2 := by
  rw [GetBudget_eq env m hh]
  have hkeys := GetBudget_loop_keys env (nextCycleStart env m) (nextCycleEnd env m)
    env.CountEnabled (GetTotalBudget env (nextCycleStart env m)) (sortedProposals env m) 0
  have hperm := sortedProposals_keys_perm env m
  have hnd : (StdMap.keys (GetBudget.loop env (nextCycleStart env m) (nextCycleEnd env m)
      env.CountEnabled (GetTotalBudget env (nextCycleStart env m))
      (sortedProposals env m) 0).2).Nodup := by
    unfold StdMap.keys
    rw [hkeys]
    exact hperm.nodup_iff.mpr (StdMap.WF_nodup _ hwf)
  have hfind := StdMap.find_of_mem_nodup _ hnd e he
  have hk : e.1 ∈ StdMap.keys (m.mapProposals.map (fun e => (e.1, e.2.CleanAndRemove env))) := by
    have h1 : e.1 ∈ (GetBudget.loop env (nextCycleStart env m) (nextCycleEnd env m)
        env.CountEnabled (GetTotalBudget env (nextCycleStart env m))
        (sortedProposals env m) 0).2.map Prod.fst := List.mem_map_of_mem Prod.fst he
    rw [hkeys] at h1
    have h2 := hperm.mem_iff.mp h1
    unfold StdMap.keys at h2 ⊢
    rw [List.map_map]
    exact h2
  obtain ⟨pc, hpc⟩ := StdMap.find_isSome_of_mem_keys _ _ hk
  have hmap := StdMap.find_map_val
    (m.mapProposals.map (fun e => (e.1, e.2.CleanAndRemove env)))
    (fun k v => (StdMap.find
      (GetBudget.loop env (nextCycleStart env m) (nextCycleEnd env m) env.CountEnabled
        (GetTotalBudget env (nextCycleStart env m)) (sortedProposals env m) 0).2
      k).getD v) e.1
  rw [hpc, hfind] at hmap
  exact hmap

/-- C16: every proposal in the list returned by `CBudgetManager::GetBudget()`
satisfies `IsPassing(blockStart, blockEnd, mnCount)` for the next cycle, so it
is valid, established and has `yeas - nays > mnCount/10`, and has its allotted
amount equal to its amount. It is the map entry of its key with the votes
cleaned, that entry is established too, and (keys being distinct) it is what
the map holds under that key after the call; so a proposal of the map that is
not established is never returned. -/
theorem GetBudget_returned_passing (env : Env) (m : CBudgetManager)
    (e : uint256 × CBudgetProposal) (he : e ∈ (m.GetBudget env).1) :
    e.2.IsPassing env (nextCycleStart env m) (nextCycleEnd env m) env.CountEnabled = true ∧
    e.2.fValid = true ∧
    e.2.IsEstablished env = true ∧
    env.GetAdjustedTime - e.2.nTime > env.nProposalEstablishmentTime ∧
    e.2.GetYeas - e.2.GetNays > env.CountEnabled.tdiv 10 ∧
    e.2.nAlloted = e.2.nAmount ∧
    (∃ p0, (e.1, p0) ∈ m.mapProposals ∧ p0.IsEstablished env = true ∧
      e.2 = { p0.CleanAndRemove env with nAlloted := p0.nAmount }) ∧
    (m.mapProposals.WF →
      (m.GetBudget env).2.mapProposals.find e.1 = some e.2 ∧
      ∀ p0, (e.1, p0) ∈ m.mapProposals → p0.IsEstablished env = true) := by
  by_cases hh : 0 < m.GetBestHeight
  · have heq := GetBudget_eq env m hh
    have he1 : e ∈ (GetBudget.loop env (nextCycleStart env m) (nextCycleEnd env m)
        env.CountEnabled (GetTotalBudget env (nextCycleStart env m))
        (sortedProposals env m) 0).1 := by
      rw [heq] at he
      exact he
    obtain ⟨l2, hsub, hall, hret⟩ := GetBudget_loop_ret env (nextCycleStart env m)
      (nextCycleEnd env m) env.CountEnabled (GetTotalBudget env (nextCycleStart env m))
      (sortedProposals env m) 0
    rw [hret] at he1
    obtain ⟨e0, he0, rfl⟩ := List.mem_map.mp he1
    have hpass0 := hall e0 he0
    have hpass : ({ e0.2 with nAlloted := e0.2.nAmount } : CBudgetProposal).IsPassing env
        (nextCycleStart env m) (nextCycleEnd env m) env.CountEnabled = true := hpass0
    obtain ⟨p0, hp0, hclean⟩ := mem_sortedProposals env m e0 (hsub.subset he0)
    obtain ⟨hv, _, _, hy, hest⟩ := (CBudgetProposal.IsPassing_iff env _ (nextCycleStart env m)
      (nextCycleEnd env m) env.CountEnabled).1.mp hpass
    have hest2 := (CBudgetProposal.IsPassing_iff env
      ({ e0.2 with nAlloted := e0.2.nAmount } : CBudgetProposal) (nextCycleStart env m)
      (nextCycleEnd env m) env.CountEnabled).2.1.mpr hest
    have hp0est : p0.IsEstablished env = true := by
      have h3 : e0.2.IsEstablished env = true := hest2
      rw [hclean] at h3
      exact h3
    refine ⟨hpass, hv, hest2, hest, hy, rfl, ⟨p0, hp0, hp0est, ?_⟩, ?_⟩
    · show ({ e0.2 with nAlloted := e0.2.nAmount } : CBudgetProposal) = _
      rw [hclean]
      rfl
    · intro hwf
      constructor
      · have hmem : (e0.1, ({ e0.2 with nAlloted := e0.2.nAmount } : CBudgetProposal)) ∈
            (GetBudget.loop env (nextCycleStart env m) (nextCycleEnd env m)
              env.CountEnabled (GetTotalBudget env (nextCycleStart env m))
              (sortedProposals env m) 0).2 := by
          apply GetBudget_loop_ret_mem
          rw [hret]
          exact List.mem_map_of_mem _ he0
        exact GetBudget_map_find env m hh hwf _ hmem
      · intro q hq
        have h1 := StdMap.find_of_mem m.mapProposals hwf (e0.1, p0) hp0
        have h2 := StdMap.find_of_mem m.mapProposals hwf (e0.1, q) hq
        have h3 : p0 = q := by
          have h4 : some p0 = some q := h1.symm.trans h2
          exact Option.some.inj h4
        rw [← h3]
        exact hp0est
  · rw [GetBudget_nonpositive env m (not_lt.mp hh)] at he
    simp at he

/-- C16 witness: the example manager returns proposal A (20 yes votes, created
10000 seconds ago, window 3600); a manager whose only proposal was created 30
seconds ago returns nothing. -/
theorem GetBudget_returned_passing_witness :
    (3000000601, { exampleProposalA with nAlloted := 3000000000 }) ∈
      (exampleManager.GetBudget exampleEnv).1 ∧
    ({ exampleProposalA with nAlloted := 3000000000 } : CBudgetProposal).IsPassing exampleEnv
      (nextCycleStart exampleEnv exampleManager) (nextCycleEnd exampleEnv exampleManager)
      exampleEnv.CountEnabled = true ∧
    exampleProposalRecent.IsEstablished exampleEnv = false ∧
    (exampleManagerRecent.GetBudget exampleEnv).1 = [] :=
  ⟨by decide,
   (GetBudget_returned_passing exampleEnv exampleManager
      (3000000601, { exampleProposalA with nAlloted := 3000000000 }) (by decide)).1,
   by decide, by decide⟩

/-- C17: the list returned by `CBudgetManager::GetBudget()` is ordered by
`yeas - nays` non-increasing, and of two returned proposals with equal
`yeas - nays` the earlier has the collateral-tx hash that is at least as
large. For A (yeas 20, nays 0, amount 30) and B (yeas 15, nays 1, amount 50)
with cap 100 and 100 masternodes the loop returns `[A, B]`, whatever the order
of the two in the map; so does `GetBudget` on the example manager (amounts in
coins, cap 648000 coins). -/
theorem GetBudget_ordered (env : Env) (m : CBudgetManager) :
    (m.GetBudget env).1.Pairwise (fun a b =>
      a.2.GetYeas - a.2.GetNays > b.2.GetYeas - b.2.GetNays ∨
      (a.2.GetYeas - a.2.GetNays = b.2.GetYeas - b.2.GetNays ∧
        a.2.nFeeTXHash ≥ b.2.nFeeTXHash)) ∧
    (GetBudget.loop exampleEnv 200 399 100 100
      (sortByHigherYes [(1, exampleProposalB50), (2, exampleProposalA30)]) 0).1.map
        (fun e => (e.2.strProposalName, e.2.nAmount)) = [("A", 30), ("B", 50)] ∧
    (GetBudget.loop exampleEnv 200 399 100 100
      (sortByHigherYes [(1, exampleProposalA30), (2, exampleProposalB50)]) 0).1.map
        (fun e => (e.2.strProposalName, e.2.nAmount)) = [("A", 30), ("B", 50)] ∧
    (exampleManager.GetBudget exampleEnv).1.map (fun e => e.2.strProposalName) = ["A", "B"] := by
  refine ⟨?_, by decide, by decide, by decide⟩
  by_cases hh : 0 < m.GetBestHeight
  · rw [GetBudget_eq env m hh]
    obtain ⟨l2, hsub, _, hret⟩ := GetBudget_loop_ret env (nextCycleStart env m)
      (nextCycleEnd env m) env.CountEnabled (GetTotalBudget env (nextCycleStart env m))
      (sortedProposals env m) 0
    show List.Pairwise _ (GetBudget.loop env (nextCycleStart env m) (nextCycleEnd env m)
      env.CountEnabled (GetTotalBudget env (nextCycleStart env m)) (sortedProposals env m) 0).1
    rw [hret, List.pairwise_map]
    have hsorted : (sortedProposals env m).Pairwise
        (fun a b => ¬ b.2.PtrHigherYes a.2 = true) := sortByHigherYes_sorted _
    refine List.Pairwise.imp ?_ (List.Pairwise.sublist hsub hsorted)
    intro a b hab
    exact (CBudgetProposal.not_PtrHigherYes_iff a.2 b.2).mp hab
  · rw [GetBudget_nonpositive env m (not_lt.mp hh)]
    exact List.Pairwise.nil

/-- C18: in `CBudgetManager::GetBudget()`, a passing proposal of the sorted
vector whose amount plus the amounts of the proposals admitted before it
exceeds the cap is absent from the returned list, and after the call the map
holds it with allotted amount 0. The returned list is what the loop admits
among the higher-ranked proposals followed by what it admits among the
lower-ranked ones. With A = 30, B = 50 and cap 60, A is admitted and B is
not. -/
theorem GetBudget_over_cap (env : Env) (m : CBudgetManager) (hh : 0 < m.GetBestHeight)
    (hwf : m.mapProposals.WF)
    (higher lower : List (uint256 × CBudgetProposal)) (k : uint256) (p : CBudgetProposal)
    (hsplit : sortedProposals env m = higher ++ (k, p) :: lower)
    (hpass : p.IsPassing env (nextCycleStart env m) (nextCycleEnd env m) env.CountEnabled = true)
    (hover : p.nAmount + ((GetBudget.loop env (nextCycleStart env m) (nextCycleEnd env m)
        env.CountEnabled (GetTotalBudget env (nextCycleStart env m)) higher 0).1.map
          (fun e => e.2.nAmount)).sum > GetTotalBudget env (nextCycleStart env m)) :
    (m.GetBudget env).1 =
      (GetBudget.loop env (nextCycleStart env m) (nextCycleEnd env m) env.CountEnabled
        (GetTotalBudget env (nextCycleStart env m)) higher 0).1 ++
      (GetBudget.loop env (nextCycleStart env m) (nextCycleEnd env m) env.CountEnabled
        (GetTotalBudget env (nextCycleStart env m)) lower
        (0 + ((GetBudget.loop env (nextCycleStart env m) (nextCycleEnd env m)
          env.CountEnabled (GetTotalBudget env (nextCycleStart env m)) higher 0).1.map
            (fun e => e.2.nAmount)).sum)).1 ∧
    (∀ e ∈ (m.GetBudget env).1, e.1 ≠ k) ∧
    (m.GetBudget env).2.mapProposals.find k = some { p with nAlloted := 0 } ∧
    ((GetBudget.loop exampleEnv 200 399 100 60
        (sortByHigherYes [(1, exampleProposalA30), (2, exampleProposalB50)]) 0).1.map
          (fun e => (e.2.strProposalName, e.2.nAmount)) = [("A", 30)] ∧
      (GetBudget.loop exampleEnv 200 399 100 60
        (sortByHigherYes [(1, exampleProposalA30), (2, exampleProposalB50)]) 0).2.map
          (fun e => (e.2.strProposalName, e.2.nAlloted)) = [("A", 30), ("B", 0)]) := by
  have hnfit : ¬ p.nAmount + (0 + ((GetBudget.loop env (nextCycleStart env m)
      (nextCycleEnd env m) env.CountEnabled (GetTotalBudget env (nextCycleStart env m))
      higher 0).1.map (fun e => e.2.nAmount)).sum) ≤ GetTotalBudget env (nextCycleStart env m) := by
    rw [zero_add]
    exact not_le.mpr hover
  have hloop := GetBudget_loop_append env (nextCycleStart env m) (nextCycleEnd env m)
    env.CountEnabled (GetTotalBudget env (nextCycleStart env m)) higher ((k, p) :: lower) 0
  rw [GetBudget_loop_reject env (nextCycleStart env m) (nextCycleEnd env m)
    env.CountEnabled (GetTotalBudget env (nextCycleStart env m)) k p lower _ hpass hnfit,
    ← hsplit] at hloop
  have hret : (m.GetBudget env).1 = (GetBudget.loop env (nextCycleStart env m)
      (nextCycleEnd env m) env.CountEnabled (GetTotalBudget env (nextCycleStart env m))
      (sortedProposals env m) 0).1 := by
    rw [GetBudget_eq env m hh]
  have hnd : ((sortedProposals env m).map Prod.fst).Nodup :=
    (sortedProposals_keys_perm env m).nodup_iff.mpr (StdMap.WF_nodup _ hwf)
  rw [hsplit, List.map_append, List.map_cons, List.nodup_append] at hnd
  obtain ⟨_, hnd2, hdisj⟩ := hnd
  have hk_low : k ∉ lower.map Prod.fst := (List.nodup_cons.mp hnd2).1
  have hk_high : k ∉ higher.map Prod.fst := fun hc => hdisj hc (List.mem_cons_self _ _)
  refine ⟨?_, ?_, ?_, by decide, by decide⟩
  · rw [hret, hloop]
  · intro e he hek
    rw [hret, hloop] at he
    rcases List.mem_append.mp he with he | he
    · have h1 := GetBudget_loop_ret_mem _ _ _ _ _ _ _ e he
      have h2 : e.1 ∈ (GetBudget.loop env (nextCycleStart env m) (nextCycleEnd env m)
          env.CountEnabled (GetTotalBudget env (nextCycleStart env m)) higher 0).2.map
            Prod.fst := List.mem_map_of_mem Prod.fst h1
      rw [GetBudget_loop_keys, hek] at h2
      exact hk_high h2
    · have h1 := GetBudget_loop_ret_mem _ _ _ _ _ _ _ e he
      have h2 := List.mem_map_of_mem Prod.fst h1
      rw [GetBudget_loop_keys, hek] at h2
      exact hk_low h2
  · have hmem : (k, ({ p with nAlloted := 0 } : CBudgetProposal)) ∈
        (GetBudget.loop env (nextCycleStart env m) (nextCycleEnd env m) env.CountEnabled
          (GetTotalBudget env (nextCycleStart env m)) (sortedProposals env m) 0).2 := by
      rw [hloop]
      exact List.mem_append_right _ (List.mem_cons_self _ _)
    exact GetBudget_map_find env m hh hwf _ hmem

/-- C18 witness: in the manager holding the big proposal A (647990 coins) and
B (50 coins), A ranks first and is admitted, B passes but does not fit under
the cap of 648000 coins: it is not returned and is left with allotted 0. -/
theorem GetBudget_over_cap_witness :
    0 < exampleManagerOver.GetBestHeight ∧ exampleManagerOver.mapProposals.WF ∧
    sortedProposals exampleEnv exampleManagerOver =
      [(1, exampleProposalBig)] ++ (2, exampleProposalB) :: [] ∧
    (exampleManagerOver.GetBudget exampleEnv).1.map (fun e => e.1) = [1] ∧
    (∀ e ∈ (exampleManagerOver.GetBudget exampleEnv).1, e.1 ≠ 2) ∧
    (exampleManagerOver.GetBudget exampleEnv).2.mapProposals.find 2 =
      some { exampleProposalB with nAlloted := 0 } :=
  ⟨by decide, by decide, by decide, by decide,
   (GetBudget_over_cap exampleEnv exampleManagerOver (by decide) (by decide)
      [(1, exampleProposalBig)] [] 2 exampleProposalB (by decide) (by decide) (by decide)).2.1,
   (GetBudget_over_cap exampleEnv exampleManagerOver (by decide) (by decide)
      [(1, exampleProposalBig)] [] 2 exampleProposalB (by decide) (by decide) (by decide)).2.2.1⟩

/-- C19, as stated, fails: the two distinct proposals `exampleProposalShared1`
and `exampleProposalShared2` name the same collateral transaction `80` (it has
one committing output for each of them), both are accepted by `AddProposal`
and held in `mapProposals`, they have the same net yes count, and neither
`PtrHigherYes(a, b)` nor `PtrHigherYes(b, a)` is true. -/
theorem PtrHigherYes_tie :
    (exampleEmptyManager.AddProposal exampleEnv exampleProposalShared1).1 = true ∧
    ((exampleEmptyManager.AddProposal exampleEnv exampleProposalShared1).2.2.AddProposal
        exampleEnv exampleProposalShared2).1 = true ∧
    ((exampleEmptyManager.AddProposal exampleEnv exampleProposalShared1).2.2.AddProposal
        exampleEnv exampleProposalShared2).2.2.mapProposals =
      [(3000000601, { exampleProposalShared1 with nTime := 990000 }),
       (5000000601, { exampleProposalShared2 with nTime := 990000 })] ∧
    ({ exampleProposalShared1 with nTime := 990000 } : CBudgetProposal) ≠
      { exampleProposalShared2 with nTime := 990000 } ∧
    ¬ (({ exampleProposalShared1 with nTime := 990000 } : CBudgetProposal).PtrHigherYes
        { exampleProposalShared2 with nTime := 990000 } = true ∨
       ({ exampleProposalShared2 with nTime := 990000 } : CBudgetProposal).PtrHigherYes
        { exampleProposalShared1 with nTime := 990000 } = true) := by
  decide

/-- Two vectors with the same entries, both without a later entry ranked above
an earlier one, are equal when the entries are pairwise distinguished by net
yes count or collateral hash. -/
theorem sortByHigherYes_unique (v l : List (uint256 × CBudgetProposal))
    (hd : v.Pairwise (fun x y => x.2.GetYeas - x.2.GetNays ≠ y.2.GetYeas - y.2.GetNays ∨
      x.2.nFeeTXHash ≠ y.2.nFeeTXHash))
    (hp : l.Perm v) (hs : l.Pairwise (fun x y => ¬ y.2.PtrHigherYes x.2 = true)) :
    l = sortByHigherYes v := by
  have hsym : ∀ {x y : uint256 × CBudgetProposal},
      (x.2.GetYeas - x.2.GetNays ≠ y.2.GetYeas - y.2.GetNays ∨
        x.2.nFeeTXHash ≠ y.2.nFeeTXHash) →
      (y.2.GetYeas - y.2.GetNays ≠ x.2.GetYeas - x.2.GetNays ∨
        y.2.nFeeTXHash ≠ x.2.nFeeTXHash) := by
    intro x y h
    rcases h with h | h
    · exact Or.inl (Ne.symm h)
    · exact Or.inr (Ne.symm h)
  have strict : ∀ (t : List (uint256 × CBudgetProposal)), t.Perm v →
      t.Pairwise (fun x y => ¬ y.2.PtrHigherYes x.2 = true) →
      t.Pairwise (fun x y => x.2.PtrHigherYes y.2 = true) := by
    intro t ht hst
    have hdt := (List.Perm.pairwise_iff hsym ht).mpr hd
    refine List.Pairwise.imp₂ ?_ hst hdt
    intro x y hnot hdist
    rcases (CBudgetProposal.PtrHigherYes_total_iff x.2 y.2).mpr hdist with h | h
    · exact h
    · exact absurd h hnot
  haveI : IsAntisymm (uint256 × CBudgetProposal) (fun x y => x.2.PtrHigherYes y.2 = true) :=
    ⟨fun a b h1 h2 => absurd h2 (CBudgetProposal.PtrHigherYes_asymm a.2 b.2 h1)⟩
  exact List.eq_of_perm_of_sorted (hp.trans (sortByHigherYes_perm v).symm)
    (strict l hp hs) (strict _ (sortByHigherYes_perm v) (sortByHigherYes_sorted v))

/-- C19 (amended): for every two proposals `a` and `b`, `PtrHigherYes(a, b)` and
`PtrHigherYes(b, a)` are never both true, and one of them is true if and only
if the proposals differ in net yes count (yeas - nays) or in collateral
hash; so, whenever the entries of the vector are pairwise distinguished by net
yes count or collateral hash, the sorted order used by `GetBudget` is uniquely
determined: every arrangement of the same entries in which no entry is ranked
above an earlier one is the sorted vector. -/
theorem PtrHigherYes_deterministic :
    (∀ a b : CBudgetProposal, ¬ (a.PtrHigherYes b = true ∧ b.PtrHigherYes a = true)) ∧
    (∀ a b : CBudgetProposal,
      (a.PtrHigherYes b = true ∨ b.PtrHigherYes a = true) ↔
        (a.GetYeas - a.GetNays ≠ b.GetYeas - b.GetNays ∨ a.nFeeTXHash ≠ b.nFeeTXHash)) ∧
    (∀ v l : List (uint256 × CBudgetProposal),
      v.Pairwise (fun x y => x.2.GetYeas - x.2.GetNays ≠ y.2.GetYeas - y.2.GetNays ∨
        x.2.nFeeTXHash ≠ y.2.nFeeTXHash) →
      l.Perm v → l.Pairwise (fun x y => ¬ y.2.PtrHigherYes x.2 = true) →
      l = sortByHigherYes v) :=
  ⟨fun a b h => CBudgetProposal.PtrHigherYes_asymm a b h.1 h.2,
   CBudgetProposal.PtrHigherYes_total_iff,
   sortByHigherYes_unique⟩

/-- C19 witness: the two proposals of `exampleManager` have different
collateral hashes and the map order ranks neither above an earlier one, so
the map order is the order `GetBudget` sorts them into. -/
theorem PtrHigherYes_deterministic_witness :
    (exampleManager.mapProposals.map (fun e => (e.1, e.2.CleanAndRemove exampleEnv))).Pairwise
      (fun x y => x.2.GetYeas - x.2.GetNays ≠ y.2.GetYeas - y.2.GetNays ∨
        x.2.nFeeTXHash ≠ y.2.nFeeTXHash) ∧
    (exampleManager.mapProposals.map (fun e => (e.1, e.2.CleanAndRemove exampleEnv))).Pairwise
      (fun x y => ¬ y.2.PtrHigherYes x.2 = true) ∧
    exampleManager.mapProposals.map (fun e => (e.1, e.2.CleanAndRemove exampleEnv)) =
      sortedProposals exampleEnv exampleManager :=
  ⟨by decide, by decide,
   PtrHigherYes_deterministic.2.2
    (exampleManager.mapProposals.map (fun e => (e.1, e.2.CleanAndRemove exampleEnv)))
    (exampleManager.mapProposals.map (fun e => (e.1, e.2.CleanAndRemove exampleEnv)))
    (by decide) (List.Perm.refl _) (by decide)⟩

end CBudgetManager

end Budget

/-! ## Construction of a proposal, collateral depth and vote cleanup -/

namespace Budget

namespace CBudgetProposal

end CBudgetProposal

/-- C28: `CheckCollateralConfs(txHash, currentHeight, proposalHeight)` returns
true if and only if `GetIXConfirmations(txHash) + currentHeight -
proposalHeight + 1 ≥ nBudgetFeeConfirmations`; so, for a fixed transaction
and inclusion height, once it returns true at a height it returns true at
every later height. -/
theorem CheckCollateralConfs_iff (env : Env) (txHash : uint256) (h proposalHeight : Int) :
    (CheckCollateralConfs env txHash h proposalHeight = true ↔
      env.GetIXConfirmations txHash + h - proposalHeight + 1 ≥ env.nBudgetFeeConfirmations) ∧
    (∀ h2 : Int, h ≤ h2 → CheckCollateralConfs env txHash h proposalHeight = true →
      CheckCollateralConfs env txHash h2 proposalHeight = true) := by
  have key : ∀ c : Int, CheckCollateralConfs env txHash c proposalHeight = true ↔
      env.GetIXConfirmations txHash + c - proposalHeight + 1 ≥ env.nBudgetFeeConfirmations := by
    intro c
    unfold CheckCollateralConfs
    dsimp only
    by_cases hlt : env.GetIXConfirmations txHash + c - proposalHeight + 1 <
        env.nBudgetFeeConfirmations
    · rw [if_pos hlt]
      constructor
      · intro hf
        exact absurd hf (by decide)
      · intro hge
        exact absurd hlt (not_lt.mpr hge)
    · rw [if_neg hlt]
      exact ⟨fun _ => not_lt.mp hlt, fun _ => rfl⟩
  refine ⟨key h, ?_⟩
  intro h2 hle ht
  have h1 := (key h).mp ht
  apply (key h2).mpr
  have h3 : env.GetIXConfirmations txHash + h - proposalHeight + 1 ≤
      env.GetIXConfirmations txHash + h2 - proposalHeight + 1 := by linarith
  exact le_trans h1 h3

/-- C28 witness: with 6 required confirmations and the collateral included at
height 100, the check fails at height 104, holds at 105 and still holds at
150. -/
theorem CheckCollateralConfs_iff_witness :
    CheckCollateralConfs exampleEnv 77 104 100 = false ∧
    CheckCollateralConfs exampleEnv 77 105 100 = true ∧
    CheckCollateralConfs exampleEnv 77 150 100 = true :=
  ⟨by decide, by decide,
   (CheckCollateralConfs_iff exampleEnv 77 105 100).2 150 (by decide) (by decide)⟩

/-- C30: after `CBudgetProposal::CleanAndRemove()` and after
`CFinalizedBudget::CleanAndRemove()`, the vote map has the same keys in the
same order, the vote stored under a key is the vote stored there before with
only its validity flag replaced, that flag is true iff the masternode
directory finds the vote's voter, and nothing else of the proposal (resp.
budget) changes: no vote is removed or added. -/
theorem CleanAndRemove_frame (env : Env) (p : CBudgetProposal) (fb : CFinalizedBudget) :
    ((p.CleanAndRemove env).mapVotes.keys = p.mapVotes.keys ∧
     (p.CleanAndRemove env).mapVotes.size = p.mapVotes.size ∧
     (∀ k, (p.CleanAndRemove env).mapVotes.find k =
        (p.mapVotes.find k).map (fun v => { v with fValid := env.mnFind v.vin })) ∧
     (∀ e ∈ (p.CleanAndRemove env).mapVotes, (e.2.fValid = true ↔ env.mnFind e.2.vin = true)) ∧
     { p.CleanAndRemove env with mapVotes := p.mapVotes } = p) ∧
    ((fb.CleanAndRemove env).mapVotes.keys = fb.mapVotes.keys ∧
     (fb.CleanAndRemove env).mapVotes.size = fb.mapVotes.size ∧
     (∀ k, (fb.CleanAndRemove env).mapVotes.find k =
        (fb.mapVotes.find k).map (fun v => { v with fValid := env.mnFind v.vin })) ∧
     (∀ e ∈ (fb.CleanAndRemove env).mapVotes, (e.2.fValid = true ↔ env.mnFind e.2.vin = true)) ∧
     { fb.CleanAndRemove env with mapVotes := fb.mapVotes } = fb) := by
  refine ⟨⟨?_, ?_, ?_, ?_, rfl⟩, ⟨?_, ?_, ?_, ?_, rfl⟩⟩
  · simp [CBudgetProposal.CleanAndRemove, StdMap.keys, List.map_map, Function.comp_def]
  · simp [CBudgetProposal.CleanAndRemove, StdMap.size]
  · intro k
    exact StdMap.find_map_val p.mapVotes
      (fun _ v => ({ v with fValid := env.mnFind v.vin } : CBudgetVote)) k
  · intro e he
    simp only [CBudgetProposal.CleanAndRemove, List.mem_map] at he
    obtain ⟨e0, _, rfl⟩ := he
    exact Iff.rfl
  · simp [CFinalizedBudget.CleanAndRemove, StdMap.keys, List.map_map, Function.comp_def]
  · simp [CFinalizedBudget.CleanAndRemove, StdMap.size]
  · intro k
    exact StdMap.find_map_val fb.mapVotes
      (fun _ v => ({ v with fValid := env.mnFind v.vin } : CFinalizedBudgetVote)) k
  · intro e he
    simp only [CFinalizedBudget.CleanAndRemove, List.mem_map] at he
    obtain ⟨e0, _, rfl⟩ := he
    exact Iff.rfl

end Budget

/-! ## The payee of a superblock -/

namespace Budget

namespace CBudgetManager

/-- The loop of `GetBudgetWithHighestVoteCount`: a returned budget is the
carried one or an entry of the list, its range contains the height, and no
entry whose range contains the height has more votes. -/
theorem GetBudgetWithHighestVoteCount_loop_spec (h : Int) (l : StdMap CFinalizedBudget) :
    ∀ (hv : Int) (cur : Option CFinalizedBudget),
      (∀ fb0, cur = some fb0 → fb0.GetVoteCount = hv ∧ h ≥ fb0.nBlockStart ∧ h ≤ fb0.GetBlockEnd) →
      (∀ fb, GetBudgetWithHighestVoteCount.loop h l hv cur = some fb →
        fb.GetVoteCount ≥ hv ∧ h ≥ fb.nBlockStart ∧ h ≤ fb.GetBlockEnd ∧
        (∀ e ∈ l, h ≥ e.2.nBlockStart → h ≤ e.2.GetBlockEnd →
          e.2.GetVoteCount ≤ fb.GetVoteCount) ∧
        (cur = some fb ∨ ∃ e ∈ l, e.2 = fb ∧ fb.GetVoteCount > hv)) := by
  induction l with
  | nil =>
    intro hv cur hcur fb hres
    simp only [GetBudgetWithHighestVoteCount.loop] at hres
    obtain ⟨h1, h2, h3⟩ := hcur fb hres
    refine ⟨le_of_eq h1.symm, h2, h3, ?_, Or.inl hres⟩
    intro e he
    exact absurd he (List.not_mem_nil e)
  | cons e0 t ih =>
    obtain ⟨k0, fb0⟩ := e0
    intro hv cur hcur fb hres
    rw [GetBudgetWithHighestVoteCount.loop] at hres
    by_cases hc : fb0.GetVoteCount > hv ∧ h ≥ fb0.nBlockStart ∧ h ≤ fb0.GetBlockEnd
    · rw [if_pos hc] at hres
      have hnew : ∀ f, some fb0 = some f →
          f.GetVoteCount = fb0.GetVoteCount ∧ h ≥ f.nBlockStart ∧ h ≤ f.GetBlockEnd := by
        intro f hf
        cases hf
        exact ⟨rfl, hc.2.1, hc.2.2⟩
      obtain ⟨g1, g2, g3, g4, g5⟩ := ih fb0.GetVoteCount (some fb0) hnew fb hres
      refine ⟨le_of_lt (lt_of_lt_of_le hc.1 g1), g2, g3, ?_, ?_⟩
      · intro e he hs he2
        rcases List.mem_cons.mp he with rfl | he
        · exact g1
        · exact g4 e he hs he2
      · right
        rcases g5 with g5 | ⟨e, he, hef, hgt⟩
        · have hfb : fb0 = fb := Option.some.inj g5
          exact ⟨(k0, fb0), List.mem_cons_self _ _, hfb, hfb ▸ hc.1⟩
        · exact ⟨e, List.mem_cons_of_mem _ he, hef, lt_trans hc.1 hgt⟩
    · rw [if_neg hc] at hres
      obtain ⟨g1, g2, g3, g4, g5⟩ := ih hv cur hcur fb hres
      refine ⟨g1, g2, g3, ?_, ?_⟩
      · intro e he hs he2
        rcases List.mem_cons.mp he with rfl | he
        · by_contra hgt
          exact hc ⟨lt_of_le_of_lt g1 (not_le.mp hgt), hs, he2⟩
        · exact g4 e he hs he2
      · rcases g5 with g5 | ⟨e, he, hef, hgt⟩
        · exact Or.inl g5
        · exact Or.inr ⟨e, List.mem_cons_of_mem _ he, hef, hgt⟩

/-- The budget `GetBudgetWithHighestVoteCount` returns is an entry of
`mapFinalizedBudgets` with at least one vote whose range contains the height,
and no entry whose range contains the height has more votes. -/
theorem GetBudgetWithHighestVoteCount_spec (m : CBudgetManager) (h : Int) (fb : CFinalizedBudget)
    (hb : m.GetBudgetWithHighestVoteCount h = some fb) :
    (∃ e ∈ m.mapFinalizedBudgets, e.2 = fb) ∧ fb.GetVoteCount > 0 ∧
    fb.nBlockStart ≤ h ∧ h ≤ fb.GetBlockEnd ∧
    (∀ e ∈ m.mapFinalizedBudgets, e.2.nBlockStart ≤ h → h ≤ e.2.GetBlockEnd →
      e.2.GetVoteCount ≤ fb.GetVoteCount) := by
  have hnone : ∀ fb0, (none : Option CFinalizedBudget) = some fb0 →
      fb0.GetVoteCount = 0 ∧ h ≥ fb0.nBlockStart ∧ h ≤ fb0.GetBlockEnd := by
    intro fb0 hf
    cases hf
  obtain ⟨_, g2, g3, g4, g5⟩ :=
    GetBudgetWithHighestVoteCount_loop_spec h m.mapFinalizedBudgets 0 none hnone fb hb
  rcases g5 with g5 | ⟨e, he, hef, hgt⟩
  · cases g5
  · exact ⟨⟨e, he, hef⟩, hgt, g2, g3, fun e he hs he2 => g4 e he hs he2⟩

/-- C23, as stated, fails: with 10 enabled masternodes `E / 20 = 0`, the
highest-vote budget of `exampleManager` containing height 200 has 20 votes
(at least `E / 20`) and index `200 - 200 = 0` is within its payment list, yet
`GetPayeeAndAmount(200)` fails. -/
theorem GetPayeeAndAmount_few_masternodes :
    exampleManager.GetBudgetWithHighestVoteCount 200 =
      some { exampleBudget with mapVotes := exampleBudgetVotes } ∧
    ({ exampleBudget with mapVotes := exampleBudgetVotes } : CFinalizedBudget).GetVoteCount ≥
      exampleEnvTen.CountEnabled.tdiv 20 ∧
    (0 : Int) ≤ 200 - exampleBudget.nBlockStart ∧
    200 - exampleBudget.nBlockStart ≤ (exampleBudget.vecBudgetPayments.length : Int) - 1 ∧
    (exampleManager.GetPayeeAndAmount exampleEnvTen 200 [] 0).1 = false := by
  decide

/-- C23 (amended): for every height `h`, when `E / 20` is not zero (`E` the
enabled-masternode count), the highest-vote finalized budget whose range
contains `h` (the one `GetBudgetWithHighestVoteCount(h)` returns) has at
least `E / 20` votes and index `h - blockStart` is within its payment list,
`CBudgetManager::GetPayeeAndAmount(h)` succeeds with the payee and amount of
the payment at that index. -/
theorem GetPayeeAndAmount_highest (env : Env) (m : CBudgetManager) (h : Int)
    (fb : CFinalizedBudget) (payee0 : CScript) (amount0 : CAmount)
    (hb : m.GetBudgetWithHighestVoteCount h = some fb)
    (h5 : env.CountEnabled.tdiv 20 ≠ 0)
    (hv : fb.GetVoteCount ≥ env.CountEnabled.tdiv 20)
    (hi0 : 0 ≤ h - fb.nBlockStart)
    (hi1 : h - fb.nBlockStart ≤ (fb.vecBudgetPayments.length : Int) - 1) :
    ((∃ e ∈ m.mapFinalizedBudgets, e.2 = fb) ∧ fb.nBlockStart ≤ h ∧ h ≤ fb.GetBlockEnd ∧
      (∀ e ∈ m.mapFinalizedBudgets, e.2.nBlockStart ≤ h → h ≤ e.2.GetBlockEnd →
        e.2.GetVoteCount ≤ fb.GetVoteCount)) ∧
    ∃ payment, fb.vecBudgetPayments[(h - fb.nBlockStart).toNat]? = some payment ∧
      m.GetPayeeAndAmount env h payee0 amount0 = (true, payment.payee, payment.nAmount) := by
  obtain ⟨g1, _, g3, g4, g5⟩ := GetBudgetWithHighestVoteCount_spec m h fb hb
  refine ⟨⟨g1, g3, g4, g5⟩, ?_⟩
  have hlt : (h - fb.nBlockStart).toNat < fb.vecBudgetPayments.length := by omega
  refine ⟨fb.vecBudgetPayments[(h - fb.nBlockStart).toNat], List.getElem?_eq_getElem hlt, ?_⟩
  have hguard : ¬ (env.CountEnabled.tdiv 20 = 0 ∨ fb.GetVoteCount < env.CountEnabled.tdiv 20) := by
    rintro (h0 | hl)
    · exact h5 h0
    · exact absurd hv (not_le.mpr hl)
  unfold GetPayeeAndAmount
  rw [hb]
  dsimp only
  rw [if_neg hguard]
  unfold CFinalizedBudget.GetPayeeAndAmount
  dsimp only
  rw [if_neg (not_lt.mpr hi0), if_neg (not_lt.mpr hi1), List.getElem?_eq_getElem hlt]

/-- C23 witness: with 100 enabled masternodes (`E / 20 = 5`) the budget of
`exampleManager` has 20 votes and `GetPayeeAndAmount(200)` gives its payment
of 30 to script `[118, 1]`. -/
theorem GetPayeeAndAmount_highest_witness :
    exampleManager.GetBudgetWithHighestVoteCount 200 =
      some { exampleBudget with mapVotes := exampleBudgetVotes } ∧
    exampleEnv.CountEnabled.tdiv 20 ≠ 0 ∧
    exampleManager.GetPayeeAndAmount exampleEnv 200 [] 0 = (true, [118, 1], 30) :=
  ⟨by decide, by decide,
   by
    obtain ⟨_, payment, hp, hr⟩ := GetPayeeAndAmount_highest exampleEnv exampleManager 200
      { exampleBudget with mapVotes := exampleBudgetVotes } [] 0
      (by decide) (by decide) (by decide) (by decide) (by decide)
    have hp2 : payment = { nProposalHash := 7, payee := [118, 1], nAmount := 30 } := by
      have h0 : ({ exampleBudget with mapVotes := exampleBudgetVotes } :
          CFinalizedBudget).vecBudgetPayments[((200 : Int) - ({ exampleBudget with
            mapVotes := exampleBudgetVotes } : CFinalizedBudget).nBlockStart).toNat]? =
          some { nProposalHash := 7, payee := [118, 1], nAmount := 30 } := by decide
      rw [h0] at hp
      exact (Option.some.inj hp).symm
    rw [hr, hp2]⟩

end CBudgetManager

end Budget

/-! ## Filling the block payee -/

namespace Budget

namespace CBudgetManager

/-- The closed form of `FillBlockPayee` once the payee lookup succeeded. -/
theorem FillBlockPayee_found (env : Env) (m : CBudgetManager) (tx : CTransaction)
    ( fProofOfStake : Bool) (payee : CScript) (amount : CAmount)
    (hh : 0 < m.GetBestHeight)
    (hp : m.GetPayeeAndAmount env (m.GetBestHeight + 1) [] 0 = (true, payee, amount)) :
    m.FillBlockPayee env tx fProofOfStake =
      if fProofOfStake then
        some (true, { tx with vout := tx.vout ++ [{ nValue := amount, scriptPubKey := payee }] })
      else
        match tx.vout with
        | [] => none
        | out0 :: _ =>
          some (true, { tx with
            vout := [{ out0 with nValue := env.GetBlockValue (m.GetBestHeight + 1) },
                     { nValue := amount, scriptPubKey := payee }] }) := by
  unfold FillBlockPayee
  dsimp only
  rw [if_neg (not_le.mpr hh), hp]
  simp

/-- The closed form of `FillBlockPayee` when there is nothing to pay. -/
theorem FillBlockPayee_not_found (env : Env) (m : CBudgetManager) (tx : CTransaction)
    ( fProofOfStake : Bool)
    (hp : m.GetBestHeight ≤ 0 ∨ (m.GetPayeeAndAmount env (m.GetBestHeight + 1) [] 0).1 = false) :
    m.FillBlockPayee env tx fProofOfStake = some (false, tx) := by
  unfold FillBlockPayee
  dsimp only
  by_cases hh : m.GetBestHeight ≤ 0
  · rw [if_pos hh]
  · rw [if_neg hh]
    rcases hp with hp | hp
    · exact absurd hp hh
    · rw [hp]
      simp

/-- C24: `CBudgetManager::FillBlockPayee(tx, fProofOfStake)` has a result for
proof-of-stake and for a proof-of-work transaction with at least one output.
When it returns true, `(payee, amount)` being what `GetPayeeAndAmount(h + 1)`
gave: for proof-of-stake the outputs of `tx` are the previous outputs,
unchanged, followed by the one output `(payee, amount)`; for proof-of-work
`tx` has exactly two outputs, output 0 keeps its script with value
`GetBlockValue(h + 1)` and output 1 is `(payee, amount)`. When it returns
false, `tx` is unchanged. -/
theorem FillBlockPayee_spec (env : Env) (m : CBudgetManager) (tx : CTransaction)
    ( fProofOfStake : Bool) :
    ((fProofOfStake = true ∨ tx.vout ≠ []) → (m.FillBlockPayee env tx fProofOfStake).isSome) ∧
    (∀ tx2, m.FillBlockPayee env tx fProofOfStake = some (false, tx2) → tx2 = tx) ∧
    (∀ tx2, m.FillBlockPayee env tx fProofOfStake = some (true, tx2) →
      ∃ payee amount,
        m.GetPayeeAndAmount env (m.GetBestHeight + 1) [] 0 = (true, payee, amount) ∧
        tx2.nLockTime = tx.nLockTime ∧
        (fProofOfStake = true →
          tx2.vout = tx.vout ++ [{ nValue := amount, scriptPubKey := payee }]) ∧
        (fProofOfStake = false →
          tx2.vout.length = 2 ∧
          ∃ out0 rest, tx.vout = out0 :: rest ∧
            tx2.vout = [{ nValue := env.GetBlockValue (m.GetBestHeight + 1),
                          scriptPubKey := out0.scriptPubKey },
                        { nValue := amount, scriptPubKey := payee }])) := by
  by_cases hnf : m.GetBestHeight ≤ 0 ∨
      (m.GetPayeeAndAmount env (m.GetBestHeight + 1) [] 0).1 = false
  · rw [FillBlockPayee_not_found env m tx fProofOfStake hnf]
    refine ⟨fun _ => rfl, ?_, ?_⟩
    · intro tx2 h2
      simp only [Option.some.injEq, Prod.mk.injEq, true_and] at h2
      exact h2.symm
    · intro tx2 h2
      simp at h2
  · rw [not_or] at hnf
    obtain ⟨hh, hp⟩ := hnf
    have hh2 : 0 < m.GetBestHeight := not_le.mp hh
    have hp1 : (m.GetPayeeAndAmount env (m.GetBestHeight + 1) [] 0).1 = true := by
      simpa using hp
    have hp2 : m.GetPayeeAndAmount env (m.GetBestHeight + 1) [] 0 =
        (true, (m.GetPayeeAndAmount env (m.GetBestHeight + 1) [] 0).2.1,
          (m.GetPayeeAndAmount env (m.GetBestHeight + 1) [] 0).2.2) := by
      rw [← hp1]
    rw [FillBlockPayee_found env m tx fProofOfStake _ _ hh2 hp2]
    cases fProofOfStake with
    | true =>
      refine ⟨fun _ => rfl, ?_, ?_⟩
      · intro tx2 h2
        simp at h2
      · intro tx2 h2
        simp only [if_true, Option.some.injEq, Prod.mk.injEq, true_and] at h2
        subst h2
        exact ⟨_, _, hp2, rfl, fun _ => rfl, fun hf => absurd hf (by decide)⟩
    | false =>
      cases hv : tx.vout with
      | nil =>
        refine ⟨?_, ?_, ?_⟩
        · rintro (hf | hf)
          · exact absurd hf (by decide)
          · exact absurd rfl hf
        · intro tx2 h2
          simp at h2
        · intro tx2 h2
          simp at h2
      | cons out0 rest =>
        refine ⟨fun _ => rfl, ?_, ?_⟩
        · intro tx2 h2
          simp at h2
        · intro tx2 h2
          simp only [Bool.false_eq_true, if_false, Option.some.injEq, Prod.mk.injEq,
            true_and] at h2
          subst h2
          exact ⟨_, _, hp2, rfl, fun hf => absurd hf (by decide),
            fun _ => ⟨rfl, out0, rest, rfl, rfl⟩⟩

/-- C24 witness: at best height 199 the winning payment is 30 to script
`[118, 1]`; a coinstake with one output gets it appended, a coinbase with one
output becomes the block value in output 0 and the payment in output 1; at
best height 150 there is no payment and the transaction is unchanged. -/
theorem FillBlockPayee_spec_witness :
    exampleManagerAt199.FillBlockPayee exampleEnv exampleTxNew true =
      some (true, { vout := [{ nValue := 7, scriptPubKey := [118, 9] },
                              { nValue := 30, scriptPubKey := [118, 1] }], nLockTime := 0 }) ∧
    exampleManagerAt199.FillBlockPayee exampleEnv exampleTxNew false =
      some (true, { vout := [{ nValue := 500000000, scriptPubKey := [118, 9] },
                              { nValue := 30, scriptPubKey := [118, 1] }], nLockTime := 0 }) ∧
    exampleManager.FillBlockPayee exampleEnv exampleTxNew true = some (false, exampleTxNew) ∧
    (exampleManagerAt199.FillBlockPayee exampleEnv exampleTxNew true).isSome = true :=
  ⟨by decide, by decide, by decide,
   (FillBlockPayee_spec exampleEnv exampleManagerAt199 exampleTxNew true).1 (Or.inl rfl)⟩

end CBudgetManager

end Budget

/-! ## Broadcast round trip -/

namespace Budget

/-- Parsing the broadcast of a proposal whose name and URL are within their
limits. -/
theorem proposal_ParseBroadcast_GetBroadcast (a0 : CAmount) (p : CBudgetProposal)
    (hn : p.strProposalName.utf8ByteSize ≤ 20) (hu : p.strURL.utf8ByteSize ≤ 64) :
    CBudgetProposal.ParseBroadcast a0 p.GetBroadcast =
      (true, { p with nAlloted := a0, fValid := true, strInvalid := "", mapVotes := [] }, []) := by
  simp [CBudgetProposal.ParseBroadcast, CBudgetProposal.GetBroadcast,
    CBudgetProposal.ctorDefault, CDataStream.readLimitedString, CDataStream.readInt64,
    CDataStream.readInt, CDataStream.readScript, CDataStream.readUint256, hn, hu]

/-- Parsing the broadcast of a finalized budget whose name is within its
limit. -/
theorem budget_ParseBroadcast_GetBroadcast (fb : CFinalizedBudget)
    (hn : fb.strBudgetName.utf8ByteSize ≤ 20) :
    CFinalizedBudget.ParseBroadcast fb.GetBroadcast =
      (true, { CFinalizedBudget.ctorDefault with
                strBudgetName := fb.strBudgetName, nBlockStart := fb.nBlockStart,
                vecBudgetPayments := fb.vecBudgetPayments, nFeeTXHash := fb.nFeeTXHash }, []) := by
  simp [CFinalizedBudget.ParseBroadcast, CFinalizedBudget.GetBroadcast,
    CDataStream.readLimitedString, CDataStream.readInt, CDataStream.readPayments,
    CDataStream.readUint256, hn]

/-- C29: for every proposal whose name is at most 20 bytes and whose URL is at
most 64 bytes, `ParseBroadcast` applied to the stream produced by
`GetBroadcast` succeeds, consumes the stream, and yields a proposal with the
same name, URL, creation time, block-start, block-end, amount, payee script
and collateral hash, hence the same identity hash; likewise, for every
finalized budget whose name is at most 20 bytes,
`CFinalizedBudget::ParseBroadcast(GetBroadcast())` succeeds and restores name,
block-start, payment list and collateral hash, hence the identity hash. (A
name longer than 20 bytes makes either parse fail.) -/
theorem ParseBroadcast_roundtrip (env : Env) (a0 : CAmount) (p : CBudgetProposal)
    (fb : CFinalizedBudget) :
    (p.strProposalName.utf8ByteSize ≤ 20 → p.strURL.utf8ByteSize ≤ 64 →
      (CBudgetProposal.ParseBroadcast a0 p.GetBroadcast).1 = true ∧
      (CBudgetProposal.ParseBroadcast a0 p.GetBroadcast).2.2 = [] ∧
      (CBudgetProposal.ParseBroadcast a0 p.GetBroadcast).2.1.strProposalName =
        p.strProposalName ∧
      (CBudgetProposal.ParseBroadcast a0 p.GetBroadcast).2.1.strURL = p.strURL ∧
      (CBudgetProposal.ParseBroadcast a0 p.GetBroadcast).2.1.nTime = p.nTime ∧
      (CBudgetProposal.ParseBroadcast a0 p.GetBroadcast).2.1.nBlockStart = p.nBlockStart ∧
      (CBudgetProposal.ParseBroadcast a0 p.GetBroadcast).2.1.nBlockEnd = p.nBlockEnd ∧
      (CBudgetProposal.ParseBroadcast a0 p.GetBroadcast).2.1.nAmount = p.nAmount ∧
      (CBudgetProposal.ParseBroadcast a0 p.GetBroadcast).2.1.address = p.address ∧
      (CBudgetProposal.ParseBroadcast a0 p.GetBroadcast).2.1.nFeeTXHash = p.nFeeTXHash ∧
      (CBudgetProposal.ParseBroadcast a0 p.GetBroadcast).2.1.GetHash env = p.GetHash env) ∧
    (fb.strBudgetName.utf8ByteSize ≤ 20 →
      (CFinalizedBudget.ParseBroadcast fb.GetBroadcast).1 = true ∧
      (CFinalizedBudget.ParseBroadcast fb.GetBroadcast).2.2 = [] ∧
      (CFinalizedBudget.ParseBroadcast fb.GetBroadcast).2.1.strBudgetName = fb.strBudgetName ∧
      (CFinalizedBudget.ParseBroadcast fb.GetBroadcast).2.1.nBlockStart = fb.nBlockStart ∧
      (CFinalizedBudget.ParseBroadcast fb.GetBroadcast).2.1.vecBudgetPayments =
        fb.vecBudgetPayments ∧
      (CFinalizedBudget.ParseBroadcast fb.GetBroadcast).2.1.nFeeTXHash = fb.nFeeTXHash ∧
      (CFinalizedBudget.ParseBroadcast fb.GetBroadcast).2.1.GetHash env = fb.GetHash env) ∧
    (20 < p.strProposalName.utf8ByteSize →
      (CBudgetProposal.ParseBroadcast a0 p.GetBroadcast).1 = false) ∧
    (20 < fb.strBudgetName.utf8ByteSize →
      (CFinalizedBudget.ParseBroadcast fb.GetBroadcast).1 = false) := by
  refine ⟨?_, ?_, ?_, ?_⟩
  · intro hn hu
    rw [proposal_ParseBroadcast_GetBroadcast a0 p hn hu]
    exact ⟨rfl, rfl, rfl, rfl, rfl, rfl, rfl, rfl, rfl, rfl, rfl⟩
  · intro hn
    rw [budget_ParseBroadcast_GetBroadcast fb hn]
    exact ⟨rfl, rfl, rfl, rfl, rfl, rfl, rfl⟩
  · intro hn
    have hn2 : ¬ p.strProposalName.utf8ByteSize ≤ 20 := not_le.mpr hn
    simp [CBudgetProposal.ParseBroadcast, CBudgetProposal.GetBroadcast,
      CDataStream.readLimitedString, hn2]
  · intro hn
    have hn2 : ¬ fb.strBudgetName.utf8ByteSize ≤ 20 := not_le.mpr hn
    simp [CFinalizedBudget.ParseBroadcast, CFinalizedBudget.GetBroadcast,
      CDataStream.readLimitedString, hn2]

/-- C29 witness: proposal A (name "A", empty URL) and the example budget
(name "main") come back from their broadcasts with the same identity hash. -/
theorem ParseBroadcast_roundtrip_witness :
    exampleProposalA.strProposalName.utf8ByteSize ≤ 20 ∧
    exampleProposalA.strURL.utf8ByteSize ≤ 64 ∧
    exampleBudget.strBudgetName.utf8ByteSize ≤ 20 ∧
    (CBudgetProposal.ParseBroadcast 0 exampleProposalA.GetBroadcast).2.1.GetHash exampleEnv =
      exampleProposalA.GetHash exampleEnv ∧
    (CFinalizedBudget.ParseBroadcast exampleBudget.GetBroadcast).2.1.GetHash exampleEnv =
      exampleBudget.GetHash exampleEnv :=
  ⟨by decide, by decide, by decide,
   ((ParseBroadcast_roundtrip exampleEnv 0 exampleProposalA exampleBudget).1
      (by decide) (by decide)).2.2.2.2.2.2.2.2.2.2,
   ((ParseBroadcast_roundtrip exampleEnv 0 exampleProposalA exampleBudget).2.1
      (by decide)).2.2.2.2.2.2⟩

end Budget

/-! ## Orphan votes -/

namespace Budget

namespace StdMap

variable {V : Type}

theorem find_erase_self (m : StdMap V) (k : uint256) : find (erase m k) k = none := by
  induction m with
  | nil => simp [erase, find]
  | cons e t ih =>
    obtain ⟨k0, v0⟩ := e
    unfold erase at ih ⊢
    by_cases h0 : k0 = k
    · simp only [List.filter_cons, h0, decide_True, Bool.not_true, Bool.false_eq_true, if_false]
      exact ih
    · simp only [List.filter_cons, h0, decide_False, Bool.not_false, if_true, find, if_false]
      exact ih

theorem find_erase_ne (m : StdMap V) (k j : uint256) (hjk : j ≠ k) :
    find (erase m k) j = find m j := by
  induction m with
  | nil => simp [erase, find]
  | cons e t ih =>
    obtain ⟨k0, v0⟩ := e
    unfold erase at ih ⊢
    by_cases h0 : k0 = k
    · have hne : ¬ k0 = j := fun h => hjk (h.symm.trans h0)
      simp only [List.filter_cons, h0, decide_True, Bool.not_true, Bool.false_eq_true, if_false]
      rw [ih]
      simp only [find, ← h0, hne, if_false]
    · simp only [List.filter_cons, h0, decide_False, Bool.not_false, if_true, find]
      rw [ih]

/-- Looking up the head key of a list without repeated keys finds nothing in
the tail. -/
theorem find_tail_of_nodup (k : uint256) (v : V) (t : StdMap V)
    (hn : (keys ((k, v) :: t)).Nodup) : find t k = none := by
  cases hf : find t k with
  | none => rfl
  | some w =>
    exfalso
    have hmem : (k, w) ∈ t := by
      clear hn
      induction t with
      | nil => simp [find] at hf
      | cons e0 t ih =>
        obtain ⟨k0, v0⟩ := e0
        by_cases h0 : k0 = k
        · simp only [find, h0, if_true, Option.some.injEq] at hf
          rw [h0, hf]
          exact List.mem_cons_self _ _
        · simp only [find, h0, if_false] at hf
          exact List.mem_cons_of_mem _ (ih hf)
    have hk : k ∈ keys t := List.mem_map_of_mem Prod.fst hmem
    simp only [keys, List.map_cons, List.nodup_cons] at hn
    exact hn.1 hk

end StdMap

namespace CBudgetManager

/-- `UpdateProposal` with a null peer, in closed form. -/
theorem UpdateProposal_null (env : Env) (s : Globals) (vote : CBudgetVote) :
    UpdateProposal env s vote none =
      match s.budget.mapProposals.find vote.nProposalHash with
      | none => (false, s)
      | some p =>
        ((p.AddOrUpdateVote env vote).1,
         { s with budget := { s.budget with
            mapProposals := (s.budget.mapProposals.set vote.nProposalHash
              (p.AddOrUpdateVote env vote).2) } }) := by
  unfold UpdateProposal
  dsimp only

/-- `UpdateFinalizedBudget` with a null peer, in closed form. -/
theorem UpdateFinalizedBudget_null (env : Env) (s : Globals) (vote : CFinalizedBudgetVote) :
    UpdateFinalizedBudget env s vote none =
      match s.budget.mapFinalizedBudgets.find vote.nBudgetHash with
      | none => (false, s)
      | some fb =>
        ((fb.AddOrUpdateVote env vote).1,
         { s with budget := { s.budget with
            mapFinalizedBudgets := (s.budget.mapFinalizedBudgets.set vote.nBudgetHash
              (fb.AddOrUpdateVote env vote).2) } }) := by
  unfold UpdateFinalizedBudget
  dsimp only

/-- One orphan proposal vote, parked under its target `k`: the proposal under
`k`, if any, takes the vote in; the orphan entry goes when it was accepted;
everything else stays. -/
theorem proposalStep_spec (env : Env) (s : Globals) (k : uint256) (vote : CBudgetVote)
    (hk : vote.nProposalHash = k) :
    (∀ j, (CheckOrphanVotes.proposalStep env s k vote).budget.mapProposals.find j =
      if k = j then (s.budget.mapProposals.find j).map (fun p => (p.AddOrUpdateVote env vote).2)
      else s.budget.mapProposals.find j) ∧
    (∀ j, (CheckOrphanVotes.proposalStep env s k vote).budget.mapOrphanProposalVotes.find j =
      if k = j ∧ ((s.budget.mapProposals.find j).map
          (fun p => (p.AddOrUpdateVote env vote).1)).getD false = true then none
      else s.budget.mapOrphanProposalVotes.find j) ∧
    ((CheckOrphanVotes.proposalStep env s k vote).askedForSourceProposalOrBudget =
        s.askedForSourceProposalOrBudget ∧
      (CheckOrphanVotes.proposalStep env s k vote).budget.mapFinalizedBudgets =
        s.budget.mapFinalizedBudgets ∧
      (CheckOrphanVotes.proposalStep env s k vote).budget.mapSeenProposalVotes =
        s.budget.mapSeenProposalVotes ∧
      (CheckOrphanVotes.proposalStep env s k vote).budget.mapSeenFinalizedBudgetVotes =
        s.budget.mapSeenFinalizedBudgetVotes ∧
      (CheckOrphanVotes.proposalStep env s k vote).budget.mapOrphanFinalizedBudgetVotes =
        s.budget.mapOrphanFinalizedBudgetVotes ∧
      (CheckOrphanVotes.proposalStep env s k vote).budget.mapCollateralTxids =
        s.budget.mapCollateralTxids ∧
      (CheckOrphanVotes.proposalStep env s k vote).budget.nBestHeight = s.budget.nBestHeight) := by
  subst hk
  unfold CheckOrphanVotes.proposalStep
  rw [UpdateProposal_null]
  cases hf : s.budget.mapProposals.find vote.nProposalHash with
  | none =>
    refine ⟨?_, ?_, ?_⟩
    · intro j
      by_cases hj : vote.nProposalHash = j
      · subst hj
        simp [hf]
      · simp [hj]
    · intro j
      by_cases hj : vote.nProposalHash = j
      · subst hj
        simp [hf]
      · simp [hj]
    · simp
  | some p =>
    cases hacc : (p.AddOrUpdateVote env vote).1 with
    | false =>
      refine ⟨?_, ?_, ?_⟩
      · intro j
        by_cases hj : vote.nProposalHash = j
        · subst hj
          simp [hf, hacc, StdMap.find_set_self]
        · simp [hj, hacc, StdMap.find_set_ne _ _ _ _ (Ne.symm hj)]
      · intro j
        by_cases hj : vote.nProposalHash = j
        · subst hj
          simp [hf, hacc]
        · simp [hj, hacc]
      · simp [hacc]
    | true =>
      refine ⟨?_, ?_, ?_⟩
      · intro j
        by_cases hj : vote.nProposalHash = j
        · subst hj
          simp [hf, hacc, StdMap.find_set_self]
        · simp [hj, hacc, StdMap.find_set_ne _ _ _ _ (Ne.symm hj)]
      · intro j
        by_cases hj : vote.nProposalHash = j
        · subst hj
          simp [hf, hacc, StdMap.find_erase_self]
        · simp [hj, hacc, StdMap.find_erase_ne _ _ _ (Ne.symm hj)]
      · simp [hacc]

/-- The first loop of `CheckOrphanVotes` over orphan votes parked under their
targets, no target twice: key by key, what the proposal map and the orphan
map hold afterwards. -/
theorem proposalLoop_spec (env : Env) (l : StdMap CBudgetVote) :
    ∀ s : Globals, (StdMap.keys l).Nodup → (∀ e ∈ l, e.2.nProposalHash = e.1) →
      (∀ j, (CheckOrphanVotes.proposalLoop env l s).budget.mapProposals.find j =
        match StdMap.find l j with
        | none => s.budget.mapProposals.find j
        | some v =>
          (s.budget.mapProposals.find j).map (fun p => (p.AddOrUpdateVote env v).2)) ∧
      (∀ j, (CheckOrphanVotes.proposalLoop env l s).budget.mapOrphanProposalVotes.find j =
        match StdMap.find l j with
        | none => s.budget.mapOrphanProposalVotes.find j
        | some v =>
          if ((s.budget.mapProposals.find j).map
              (fun p => (p.AddOrUpdateVote env v).1)).getD false = true then none
          else s.budget.mapOrphanProposalVotes.find j) ∧
      ((CheckOrphanVotes.proposalLoop env l s).askedForSourceProposalOrBudget =
          s.askedForSourceProposalOrBudget ∧
        (CheckOrphanVotes.proposalLoop env l s).budget.mapFinalizedBudgets =
          s.budget.mapFinalizedBudgets ∧
        (CheckOrphanVotes.proposalLoop env l s).budget.mapSeenProposalVotes =
          s.budget.mapSeenProposalVotes ∧
        (CheckOrphanVotes.proposalLoop env l s).budget.mapSeenFinalizedBudgetVotes =
          s.budget.mapSeenFinalizedBudgetVotes ∧
        (CheckOrphanVotes.proposalLoop env l s).budget.mapOrphanFinalizedBudgetVotes =
          s.budget.mapOrphanFinalizedBudgetVotes ∧
        (CheckOrphanVotes.proposalLoop env l s).budget.mapCollateralTxids =
          s.budget.mapCollateralTxids ∧
        (CheckOrphanVotes.proposalLoop env l s).budget.nBestHeight = s.budget.nBestHeight) := by
  induction l with
  | nil =>
    intro s _ _
    simp [CheckOrphanVotes.proposalLoop, StdMap.find]
  | cons e rest ih =>
    obtain ⟨k, v⟩ := e
    intro s hn hk
    have hn2 : (StdMap.keys rest).Nodup := by
      simp only [StdMap.keys, List.map_cons, List.nodup_cons] at hn
      exact hn.2
    have hk2 : ∀ e ∈ rest, e.2.nProposalHash = e.1 :=
      fun e he => hk e (List.mem_cons_of_mem _ he)
    have hkv : v.nProposalHash = k := hk (k, v) (List.mem_cons_self _ _)
    obtain ⟨i1, i2, i3⟩ := ih (CheckOrphanVotes.proposalStep env s k v) hn2 hk2
    obtain ⟨s1, s2, s3⟩ := proposalStep_spec env s k v hkv
    have htail : StdMap.find rest k = none := StdMap.find_tail_of_nodup k v rest hn
    rw [CheckOrphanVotes.proposalLoop]
    refine ⟨?_, ?_, ?_⟩
    · intro j
      rw [i1 j, s1 j]
      by_cases hj : k = j
      · subst hj
        simp [StdMap.find, htail]
      · simp only [StdMap.find, hj, if_false]
    · intro j
      rw [i2 j, s1 j, s2 j]
      by_cases hj : k = j
      · subst hj
        simp only [StdMap.find, htail, if_true, true_and]
      · simp only [StdMap.find, hj, if_false, false_and]
    · obtain ⟨a1, a2, a3, a4, a5, a6, a7⟩ := i3
      obtain ⟨b1, b2, b3, b4, b5, b6, b7⟩ := s3
      exact ⟨a1.trans b1, a2.trans b2, a3.trans b3, a4.trans b4, a5.trans b5, a6.trans b6,
        a7.trans b7⟩

/-- One orphan finalized-budget vote, parked under its target `k`: the budget under
`k`, if any, takes the vote in; the orphan entry goes when it was accepted;
everything else stays. -/
theorem budgetStep_spec (env : Env) (s : Globals) (k : uint256) (vote : CFinalizedBudgetVote)
    (hk : vote.nBudgetHash = k) :
    (∀ j, (CheckOrphanVotes.budgetStep env s k vote).budget.mapFinalizedBudgets.find j =
      if k = j then (s.budget.mapFinalizedBudgets.find j).map (fun p => (p.AddOrUpdateVote env vote).2)
      else s.budget.mapFinalizedBudgets.find j) ∧
    (∀ j, (CheckOrphanVotes.budgetStep env s k vote).budget.mapOrphanFinalizedBudgetVotes.find j =
      if k = j ∧ ((s.budget.mapFinalizedBudgets.find j).map
          (fun p => (p.AddOrUpdateVote env vote).1)).getD false = true then none
      else s.budget.mapOrphanFinalizedBudgetVotes.find j) ∧
    ((CheckOrphanVotes.budgetStep env s k vote).askedForSourceProposalOrBudget =
        s.askedForSourceProposalOrBudget ∧
      (CheckOrphanVotes.budgetStep env s k vote).budget.mapProposals =
        s.budget.mapProposals ∧
      (CheckOrphanVotes.budgetStep env s k vote).budget.mapSeenProposalVotes =
        s.budget.mapSeenProposalVotes ∧
      (CheckOrphanVotes.budgetStep env s k vote).budget.mapSeenFinalizedBudgetVotes =
        s.budget.mapSeenFinalizedBudgetVotes ∧
      (CheckOrphanVotes.budgetStep env s k vote).budget.mapOrphanProposalVotes =
        s.budget.mapOrphanProposalVotes ∧
      (CheckOrphanVotes.budgetStep env s k vote).budget.mapCollateralTxids =
        s.budget.mapCollateralTxids ∧
      (CheckOrphanVotes.budgetStep env s k vote).budget.nBestHeight = s.budget.nBestHeight) := by
  subst hk
  unfold CheckOrphanVotes.budgetStep
  rw [UpdateFinalizedBudget_null]
  cases hf : s.budget.mapFinalizedBudgets.find vote.nBudgetHash with
  | none =>
    refine ⟨?_, ?_, ?_⟩
    · intro j
      by_cases hj : vote.nBudgetHash = j
      · subst hj
        simp [hf]
      · simp [hj]
    · intro j
      by_cases hj : vote.nBudgetHash = j
      · subst hj
        simp [hf]
      · simp [hj]
    · simp
  | some p =>
    cases hacc : (p.AddOrUpdateVote env vote).1 with
    | false =>
      refine ⟨?_, ?_, ?_⟩
      · intro j
        by_cases hj : vote.nBudgetHash = j
        · subst hj
          simp [hf, hacc, StdMap.find_set_self]
        · simp [hj, hacc, StdMap.find_set_ne _ _ _ _ (Ne.symm hj)]
      · intro j
        by_cases hj : vote.nBudgetHash = j
        · subst hj
          simp [hf, hacc]
        · simp [hj, hacc]
      · simp [hacc]
    | true =>
      refine ⟨?_, ?_, ?_⟩
      · intro j
        by_cases hj : vote.nBudgetHash = j
        · subst hj
          simp [hf, hacc, StdMap.find_set_self]
        · simp [hj, hacc, StdMap.find_set_ne _ _ _ _ (Ne.symm hj)]
      · intro j
        by_cases hj : vote.nBudgetHash = j
        · subst hj
          simp [hf, hacc, StdMap.find_erase_self]
        · simp [hj, hacc, StdMap.find_erase_ne _ _ _ (Ne.symm hj)]
      · simp [hacc]

/-- The second loop of `CheckOrphanVotes` over orphan votes parked under their
targets, no target twice: key by key, what the budget map and the orphan map
hold afterwards. -/
theorem budgetLoop_spec (env : Env) (l : StdMap CFinalizedBudgetVote) :
    ∀ s : Globals, (StdMap.keys l).Nodup → (∀ e ∈ l, e.2.nBudgetHash = e.1) →
      (∀ j, (CheckOrphanVotes.budgetLoop env l s).budget.mapFinalizedBudgets.find j =
        match StdMap.find l j with
        | none => s.budget.mapFinalizedBudgets.find j
        | some v =>
          (s.budget.mapFinalizedBudgets.find j).map (fun p => (p.AddOrUpdateVote env v).2)) ∧
      (∀ j, (CheckOrphanVotes.budgetLoop env l s).budget.mapOrphanFinalizedBudgetVotes.find j =
        match StdMap.find l j with
        | none => s.budget.mapOrphanFinalizedBudgetVotes.find j
        | some v =>
          if ((s.budget.mapFinalizedBudgets.find j).map
              (fun p => (p.AddOrUpdateVote env v).1)).getD false = true then none
          else s.budget.mapOrphanFinalizedBudgetVotes.find j) ∧
      ((CheckOrphanVotes.budgetLoop env l s).askedForSourceProposalOrBudget =
          s.askedForSourceProposalOrBudget ∧
        (CheckOrphanVotes.budgetLoop env l s).budget.mapProposals =
          s.budget.mapProposals ∧
        (CheckOrphanVotes.budgetLoop env l s).budget.mapSeenProposalVotes =
          s.budget.mapSeenProposalVotes ∧
        (CheckOrphanVotes.budgetLoop env l s).budget.mapSeenFinalizedBudgetVotes =
          s.budget.mapSeenFinalizedBudgetVotes ∧
        (CheckOrphanVotes.budgetLoop env l s).budget.mapOrphanProposalVotes =
          s.budget.mapOrphanProposalVotes ∧
        (CheckOrphanVotes.budgetLoop env l s).budget.mapCollateralTxids =
          s.budget.mapCollateralTxids ∧
        (CheckOrphanVotes.budgetLoop env l s).budget.nBestHeight = s.budget.nBestHeight) := by
  induction l with
  | nil =>
    intro s _ _
    simp [CheckOrphanVotes.budgetLoop, StdMap.find]
  | cons e rest ih =>
    obtain ⟨k, v⟩ := e
    intro s hn hk
    have hn2 : (StdMap.keys rest).Nodup := by
      simp only [StdMap.keys, List.map_cons, List.nodup_cons] at hn
      exact hn.2
    have hk2 : ∀ e ∈ rest, e.2.nBudgetHash = e.1 :=
      fun e he => hk e (List.mem_cons_of_mem _ he)
    have hkv : v.nBudgetHash = k := hk (k, v) (List.mem_cons_self _ _)
    obtain ⟨i1, i2, i3⟩ := ih (CheckOrphanVotes.budgetStep env s k v) hn2 hk2
    obtain ⟨s1, s2, s3⟩ := budgetStep_spec env s k v hkv
    have htail : StdMap.find rest k = none := StdMap.find_tail_of_nodup k v rest hn
    rw [CheckOrphanVotes.budgetLoop]
    refine ⟨?_, ?_, ?_⟩
    · intro j
      rw [i1 j, s1 j]
      by_cases hj : k = j
      · subst hj
        simp [StdMap.find, htail]
      · simp only [StdMap.find, hj, if_false]
    · intro j
      rw [i2 j, s1 j, s2 j]
      by_cases hj : k = j
      · subst hj
        simp only [StdMap.find, htail, if_true, true_and]
      · simp only [StdMap.find, hj, if_false, false_and]
    · obtain ⟨a1, a2, a3, a4, a5, a6, a7⟩ := i3
      obtain ⟨b1, b2, b3, b4, b5, b6, b7⟩ := s3
      exact ⟨a1.trans b1, a2.trans b2, a3.trans b3, a4.trans b4, a5.trans b5, a6.trans b6,
        a7.trans b7⟩

/-- An accepted proposal vote is stored under its voter. -/
theorem proposal_AddOrUpdateVote_snd_true (env : Env) (p : CBudgetProposal) (v : CBudgetVote)
    (h : (p.AddOrUpdateVote env v).1 = true) :
    (p.AddOrUpdateVote env v).2 =
      { p with mapVotes := p.mapVotes.set v.vin.prevout.GetHash v } := by
  rw [proposal_AddOrUpdateVote_eq] at h ⊢
  simp only at h ⊢
  rw [voteIntake_map, if_pos h]

/-- A rejected proposal vote leaves the proposal as it was. -/
theorem proposal_AddOrUpdateVote_snd_false (env : Env) (p : CBudgetProposal) (v : CBudgetVote)
    (h : (p.AddOrUpdateVote env v).1 = false) : (p.AddOrUpdateVote env v).2 = p := by
  rw [proposal_AddOrUpdateVote_eq] at h ⊢
  simp only at h ⊢
  rw [voteIntake_map, h]
  simp

/-- An accepted finalized-budget vote is stored under its voter. -/
theorem finalized_AddOrUpdateVote_snd_true (env : Env) (fb : CFinalizedBudget)
    (v : CFinalizedBudgetVote) (h : (fb.AddOrUpdateVote env v).1 = true) :
    (fb.AddOrUpdateVote env v).2 =
      { fb with mapVotes := fb.mapVotes.set v.vin.prevout.GetHash v } := by
  rw [finalized_AddOrUpdateVote_eq] at h ⊢
  simp only at h ⊢
  rw [voteIntake_map, if_pos h]

/-- A rejected finalized-budget vote leaves the budget as it was. -/
theorem finalized_AddOrUpdateVote_snd_false (env : Env) (fb : CFinalizedBudget)
    (v : CFinalizedBudgetVote) (h : (fb.AddOrUpdateVote env v).1 = false) :
    (fb.AddOrUpdateVote env v).2 = fb := by
  rw [finalized_AddOrUpdateVote_eq] at h ⊢
  simp only at h ⊢
  rw [voteIntake_map, h]
  simp

/-- C25: in a state whose orphan caches hold each vote under its target hash,
`CheckOrphanVotes()` does the following for every parked proposal vote `v`
with target `k`. If the target is still unknown the vote remains parked. If
the target is the known proposal `p` and `p.AddOrUpdateVote(v)` accepts, the
vote is installed in `p`'s vote map (under its voter) and the orphan entry is
erased; if it rejects, the vote remains parked and `p` is as before. Targets
without a parked vote are untouched and no orphan entry appears. The same
holds for finalized-budget votes and budgets, and nothing else of the manager
changes. -/
theorem CheckOrphanVotes_spec (env : Env) (s : Globals)
    (hwp : s.budget.mapOrphanProposalVotes.WF)
    (hkp : ∀ e ∈ s.budget.mapOrphanProposalVotes, e.2.nProposalHash = e.1)
    (hwf : s.budget.mapOrphanFinalizedBudgetVotes.WF)
    (hkf : ∀ e ∈ s.budget.mapOrphanFinalizedBudgetVotes, e.2.nBudgetHash = e.1) :
    (∀ k v, s.budget.mapOrphanProposalVotes.find k = some v →
      (s.budget.mapProposals.find k = none →
        (CheckOrphanVotes env s).budget.mapOrphanProposalVotes.find k = some v ∧
        (CheckOrphanVotes env s).budget.mapProposals.find k = none) ∧
      (∀ p, s.budget.mapProposals.find k = some p →
        ((p.AddOrUpdateVote env v).1 = true →
          (CheckOrphanVotes env s).budget.mapOrphanProposalVotes.find k = none ∧
          (CheckOrphanVotes env s).budget.mapProposals.find k =
            some { p with mapVotes := p.mapVotes.set v.vin.prevout.GetHash v }) ∧
        ((p.AddOrUpdateVote env v).1 = false →
          (CheckOrphanVotes env s).budget.mapOrphanProposalVotes.find k = some v ∧
          (CheckOrphanVotes env s).budget.mapProposals.find k = some p))) ∧
    (∀ k, s.budget.mapOrphanProposalVotes.find k = none →
      (CheckOrphanVotes env s).budget.mapOrphanProposalVotes.find k = none ∧
      (CheckOrphanVotes env s).budget.mapProposals.find k = s.budget.mapProposals.find k) ∧
    (∀ k v, s.budget.mapOrphanFinalizedBudgetVotes.find k = some v →
      (s.budget.mapFinalizedBudgets.find k = none →
        (CheckOrphanVotes env s).budget.mapOrphanFinalizedBudgetVotes.find k = some v ∧
        (CheckOrphanVotes env s).budget.mapFinalizedBudgets.find k = none) ∧
      (∀ fb, s.budget.mapFinalizedBudgets.find k = some fb →
        ((fb.AddOrUpdateVote env v).1 = true →
          (CheckOrphanVotes env s).budget.mapOrphanFinalizedBudgetVotes.find k = none ∧
          (CheckOrphanVotes env s).budget.mapFinalizedBudgets.find k =
            some { fb with mapVotes := fb.mapVotes.set v.vin.prevout.GetHash v }) ∧
        ((fb.AddOrUpdateVote env v).1 = false →
          (CheckOrphanVotes env s).budget.mapOrphanFinalizedBudgetVotes.find k = some v ∧
          (CheckOrphanVotes env s).budget.mapFinalizedBudgets.find k = some fb))) ∧
    (∀ k, s.budget.mapOrphanFinalizedBudgetVotes.find k = none →
      (CheckOrphanVotes env s).budget.mapOrphanFinalizedBudgetVotes.find k = none ∧
      (CheckOrphanVotes env s).budget.mapFinalizedBudgets.find k =
        s.budget.mapFinalizedBudgets.find k) ∧
    ((CheckOrphanVotes env s).askedForSourceProposalOrBudget =
        s.askedForSourceProposalOrBudget ∧
      (CheckOrphanVotes env s).budget.mapSeenProposalVotes = s.budget.mapSeenProposalVotes ∧
      (CheckOrphanVotes env s).budget.mapSeenFinalizedBudgetVotes =
        s.budget.mapSeenFinalizedBudgetVotes ∧
      (CheckOrphanVotes env s).budget.mapCollateralTxids = s.budget.mapCollateralTxids ∧
      (CheckOrphanVotes env s).budget.nBestHeight = s.budget.nBestHeight) := by
  obtain ⟨p1, p2, pa, pf, ps1, ps2, pof, pc, ph⟩ :=
    proposalLoop_spec env s.budget.mapOrphanProposalVotes s (StdMap.WF_nodup _ hwp) hkp
  have hn2 : (StdMap.keys (CheckOrphanVotes.proposalLoop env s.budget.mapOrphanProposalVotes
      s).budget.mapOrphanFinalizedBudgetVotes).Nodup := by
    rw [pof]
    exact StdMap.WF_nodup _ hwf
  have hk2 : ∀ e ∈ (CheckOrphanVotes.proposalLoop env s.budget.mapOrphanProposalVotes
      s).budget.mapOrphanFinalizedBudgetVotes, e.2.nBudgetHash = e.1 := by
    rw [pof]
    exact hkf
  obtain ⟨b1, b2, ba, bm, bs1, bs2, bop, bc, bh⟩ :=
    budgetLoop_spec env (CheckOrphanVotes.proposalLoop env s.budget.mapOrphanProposalVotes
      s).budget.mapOrphanFinalizedBudgetVotes _ hn2 hk2
  have hce : CheckOrphanVotes env s =
      CheckOrphanVotes.budgetLoop env s.budget.mapOrphanFinalizedBudgetVotes
        (CheckOrphanVotes.proposalLoop env s.budget.mapOrphanProposalVotes s) := by
    unfold CheckOrphanVotes
    dsimp only
    rw [pof]
  have e1 : ∀ j, (CheckOrphanVotes env s).budget.mapProposals.find j =
      match s.budget.mapOrphanProposalVotes.find j with
      | none => s.budget.mapProposals.find j
      | some v => (s.budget.mapProposals.find j).map (fun p => (p.AddOrUpdateVote env v).2) := by
    intro j
    show StdMap.find (CheckOrphanVotes.budgetLoop env _ _).budget.mapProposals j = _
    rw [bm]
    exact p1 j
  have e2 : ∀ j, (CheckOrphanVotes env s).budget.mapOrphanProposalVotes.find j =
      match s.budget.mapOrphanProposalVotes.find j with
      | none => s.budget.mapOrphanProposalVotes.find j
      | some v =>
        if ((s.budget.mapProposals.find j).map
            (fun p => (p.AddOrUpdateVote env v).1)).getD false = true then none
        else s.budget.mapOrphanProposalVotes.find j := by
    intro j
    show StdMap.find (CheckOrphanVotes.budgetLoop env _ _).budget.mapOrphanProposalVotes j = _
    rw [bop]
    exact p2 j
  have e3 : ∀ j, (CheckOrphanVotes env s).budget.mapFinalizedBudgets.find j =
      match s.budget.mapOrphanFinalizedBudgetVotes.find j with
      | none => s.budget.mapFinalizedBudgets.find j
      | some v =>
        (s.budget.mapFinalizedBudgets.find j).map (fun p => (p.AddOrUpdateVote env v).2) := by
    intro j
    have := b1 j
    rw [pof, pf] at this
    rw [hce]
    exact this
  have e4 : ∀ j, (CheckOrphanVotes env s).budget.mapOrphanFinalizedBudgetVotes.find j =
      match s.budget.mapOrphanFinalizedBudgetVotes.find j with
      | none => s.budget.mapOrphanFinalizedBudgetVotes.find j
      | some v =>
        if ((s.budget.mapFinalizedBudgets.find j).map
            (fun p => (p.AddOrUpdateVote env v).1)).getD false = true then none
        else s.budget.mapOrphanFinalizedBudgetVotes.find j := by
    intro j
    have := b2 j
    rw [pof, pf] at this
    rw [hce]
    exact this
  refine ⟨?_, ?_, ?_, ?_, ?_⟩
  · intro k v hv
    refine ⟨?_, ?_⟩
    · intro hp
      rw [e1 k, e2 k, hv, hp]
      simp [hv]
    · intro p hp
      refine ⟨?_, ?_⟩
      · intro hacc
        rw [e1 k, e2 k, hv, hp]
        simp [hacc, proposal_AddOrUpdateVote_snd_true env p v hacc]
      · intro hacc
        rw [e1 k, e2 k, hv, hp]
        simp [hacc, hv, proposal_AddOrUpdateVote_snd_false env p v hacc]
  · intro k hv
    rw [e1 k, e2 k, hv]
    exact ⟨rfl, rfl⟩
  · intro k v hv
    refine ⟨?_, ?_⟩
    · intro hp
      rw [e3 k, e4 k, hv, hp]
      simp [hv]
    · intro p hp
      refine ⟨?_, ?_⟩
      · intro hacc
        rw [e3 k, e4 k, hv, hp]
        simp [hacc, finalized_AddOrUpdateVote_snd_true env p v hacc]
      · intro hacc
        rw [e3 k, e4 k, hv, hp]
        simp [hacc, hv, finalized_AddOrUpdateVote_snd_false env p v hacc]
  · intro k hv
    rw [e3 k, e4 k, hv]
    exact ⟨rfl, rfl⟩
  · exact ⟨ba.trans pa, bs1.trans ps1, bs2.trans ps2, bc.trans pc, bh.trans ph⟩

/-- C25 witness (scenario "orphan vote resolution"): the vote on proposal A
was parked under the hash `3000000601` while A was unknown; A has then been
added; `CheckOrphanVotes` installs the vote in A's vote map and empties the
orphan slot. -/
theorem CheckOrphanVotes_spec_witness :
    exampleGlobalsParked.budget.mapOrphanProposalVotes = [(3000000601, exampleVoteAt 5000)] ∧
    (∃ p, exampleGlobalsParked.budget.mapProposals.find 3000000601 = some p ∧
      p.mapVotes = [] ∧ (p.AddOrUpdateVote exampleEnv (exampleVoteAt 5000)).1 = true ∧
      (CheckOrphanVotes exampleEnv exampleGlobalsParked).budget.mapProposals.find 3000000601 =
        some { p with mapVotes := [(COutPoint.GetHash { hash := 0, n := 0 },
          exampleVoteAt 5000)] }) ∧
    (CheckOrphanVotes exampleEnv exampleGlobalsParked).budget.mapOrphanProposalVotes.find
      3000000601 = none ∧
    (CheckOrphanVotes exampleEnv exampleGlobalsParked).budget.mapOrphanProposalVotes = [] :=
  ⟨by decide,
   ⟨{ exampleProposalNew with nTime := 990000 }, by decide, by decide, by decide,
    (((CheckOrphanVotes_spec exampleEnv exampleGlobalsParked (by decide) (by decide)
      (by decide) (by decide)).1 3000000601 (exampleVoteAt 5000) (by decide)).2
        { exampleProposalNew with nTime := 990000 } (by decide)).1 (by decide) |>.2⟩,
   (((CheckOrphanVotes_spec exampleEnv exampleGlobalsParked (by decide) (by decide)
      (by decide) (by decide)).1 3000000601 (exampleVoteAt 5000) (by decide)).2
        { exampleProposalNew with nTime := 990000 } (by decide)).1 (by decide) |>.1,
   by decide⟩

end CBudgetManager

end Budget

/-! ## The vote a masternode submits on a finalized budget -/

namespace Budget

namespace CFinalizedBudget

/-- On a masternode node, `SubmitVote` passes over every active masternode
whose outpoint is resolved, and stops at one without a usable key: when no
active masternode lacks an outpoint while having a usable key, the call
changes nothing. -/
theorem SubmitVote_loop_skips (env : Env) (fb : CFinalizedBudget) (hm : env.fMasterNode = true)
    (l : List CActiveMasternode)
    (hl : ∀ a ∈ l, a.vin = none → env.GetKeysFromSecret a.strMasterNodePrivKey = false) :
    ∀ s : Globals, SubmitVote.loop env fb l s = some s := by
  induction l with
  | nil =>
    intro s
    rfl
  | cons a rest ih =>
    intro s
    rw [SubmitVote.loop]
    simp only [hm, Bool.not_true, Bool.false_eq_true, if_false]
    by_cases hv : a.vin = none
    · have hk := hl a (List.mem_cons_self _ _) hv
      simp [hv, hk]
    · rw [if_pos hv]
      exact ih (fun b hb => hl b (List.mem_cons_of_mem _ hb)) s

/-- C26 fails on the code: on the masternode node `exampleEnvMasternode` the
active masternode has the resolved outpoint `(50, 0)` and a usable key, the
budget is known to the manager, and a vote from that outpoint for the budget's
hash would pass `AddOrUpdateVote` (`UpdateFinalizedBudget` returns true on
it); yet `SubmitVote()` returns with every map as it was: no vote reaches the
budget's vote map or the seen finalized-vote cache. -/
theorem SubmitVote_resolved_outpoint :
    exampleEnvMasternode.fMasterNode = true ∧
    exampleEnvMasternode.GetActiveMasternodes =
      [{ vin := some { prevout := { hash := 50, n := 0 } }, strMasterNodePrivKey := "secret" }] ∧
    exampleEnvMasternode.GetKeysFromSecret "secret" = true ∧
    exampleGlobalsBudget.budget.mapFinalizedBudgets.find (exampleBudget.GetHash exampleEnvMasternode) =
      some exampleBudget ∧
    (CBudgetManager.UpdateFinalizedBudget exampleEnvMasternode exampleGlobalsBudget
      (CFinalizedBudgetVote.ctor exampleEnvMasternode { prevout := { hash := 50, n := 0 } }
        (exampleBudget.GetHash exampleEnvMasternode)) none).1 = true ∧
    SubmitVote exampleEnvMasternode exampleGlobalsBudget exampleBudget =
      some exampleGlobalsBudget ∧
    exampleGlobalsBudget.budget.mapSeenFinalizedBudgetVotes = [] ∧
    exampleBudget.mapVotes = [] := by
  decide

end CFinalizedBudget

end Budget

/-! ## The removal pass -/

namespace Budget

namespace CBudgetProposal

/-- Re-flagging the votes twice is re-flagging them once. -/
theorem CleanAndRemove_idem (env : Env) (p : CBudgetProposal) :
    (p.CleanAndRemove env).CleanAndRemove env = p.CleanAndRemove env := by
  simp [CleanAndRemove, List.map_map, Function.comp_def]

end CBudgetProposal

namespace CBudgetManager

/-- Every entry the loop of `GetBudget` leaves is an entry it visited, with
another allotted amount at most. -/
theorem GetBudget_loop_visited (env : Env) (bs be mn : Int) (cap : CAmount)
    (l : List (uint256 × CBudgetProposal)) :
    ∀ (a : CAmount), ∀ e2 ∈ (GetBudget.loop env bs be mn cap l a).2,
      ∃ e ∈ l, e2.1 = e.1 ∧ ∃ x, e2.2 = { e.2 with nAlloted := x } := by
  induction l with
  | nil =>
    intro a e2 he
    simp [GetBudget.loop] at he
  | cons e0 t ih =>
    obtain ⟨k, p⟩ := e0
    intro a e2 he
    by_cases hp : p.IsPassing env bs be mn = true
    · by_cases hfit : p.nAmount + a ≤ cap
      · rw [GetBudget_loop_admitted env bs be mn cap k p t a hp hfit] at he
        rcases List.mem_cons.mp he with rfl | he
        · exact ⟨(k, p), List.mem_cons_self _ _, rfl, p.nAmount, rfl⟩
        · obtain ⟨e, hm, h1, h2⟩ := ih _ e2 he
          exact ⟨e, List.mem_cons_of_mem _ hm, h1, h2⟩
      · rw [GetBudget_loop_reject env bs be mn cap k p t a hp hfit] at he
        rcases List.mem_cons.mp he with rfl | he
        · exact ⟨(k, p), List.mem_cons_self _ _, rfl, 0, rfl⟩
        · obtain ⟨e, hm, h1, h2⟩ := ih _ e2 he
          exact ⟨e, List.mem_cons_of_mem _ hm, h1, h2⟩
    · rw [GetBudget_loop_skip env bs be mn cap k p t a hp] at he
      rcases List.mem_cons.mp he with rfl | he
      · exact ⟨(k, p), List.mem_cons_self _ _, rfl, p.nAlloted, rfl⟩
      · obtain ⟨e, hm, h1, h2⟩ := ih _ e2 he
        exact ⟨e, List.mem_cons_of_mem _ hm, h1, h2⟩

/-- `GetBudget` touches `mapProposals` only. -/
theorem GetBudget_frame (env : Env) (m : CBudgetManager) :
    (m.GetBudget env).2 = { m with mapProposals := (m.GetBudget env).2.mapProposals } := by
  by_cases hh : 0 < m.GetBestHeight
  · rw [GetBudget_eq env m hh]
  · rw [GetBudget_nonpositive env m (not_lt.mp hh)]

/-- The proposal map `GetBudget` leaves: the same keys, and under each key the
proposal that was there, its votes re-flagged (when the best height is
positive) and its allotted amount possibly changed. -/
theorem GetBudget_proposals_after (env : Env) (m : CBudgetManager)
    (hnd : (StdMap.keys m.mapProposals).Nodup) :
    StdMap.keys (m.GetBudget env).2.mapProposals = StdMap.keys m.mapProposals ∧
    ∀ k p0, m.mapProposals.find k = some p0 →
      ∃ a, (m.GetBudget env).2.mapProposals.find k =
        some { (if 0 < m.GetBestHeight then p0.CleanAndRemove env else p0) with nAlloted := a } := by
  by_cases hh : 0 < m.GetBestHeight
  · rw [GetBudget_eq env m hh]
    refine ⟨?_, ?_⟩
    · simp [StdMap.keys, List.map_map, Function.comp_def]
    · intro k p0 hf
      rw [if_pos hh]
      have h1 := StdMap.find_map_val m.mapProposals
        (fun _ (p : CBudgetProposal) => p.CleanAndRemove env) k
      rw [hf] at h1
      have h2 := StdMap.find_map_val
        (m.mapProposals.map (fun e => (e.1, e.2.CleanAndRemove env)))
        (fun j (p : CBudgetProposal) => (StdMap.find
          (GetBudget.loop env (nextCycleStart env m) (nextCycleEnd env m) env.CountEnabled
            (GetTotalBudget env (nextCycleStart env m)) (sortedProposals env m) 0).2 j).getD p) k
      rw [h1] at h2
      show ∃ a, StdMap.find _ k = _
      rw [h2]
      cases hr : StdMap.find (GetBudget.loop env (nextCycleStart env m) (nextCycleEnd env m)
          env.CountEnabled (GetTotalBudget env (nextCycleStart env m))
          (sortedProposals env m) 0).2 k with
      | none => exact ⟨(p0.CleanAndRemove env).nAlloted, rfl⟩
      | some q =>
        have hmem := StdMap.mem_of_find _ k q hr
        obtain ⟨e, he, hk, x, hx⟩ := GetBudget_loop_visited env _ _ _ _ _ 0 (k, q) hmem
        obtain ⟨p1, hp1, hc⟩ := mem_sortedProposals env m e he
        have hf1 := StdMap.find_of_mem_nodup m.mapProposals hnd (e.1, p1) hp1
        have hk2 : k = e.1 := hk
        rw [← hk2] at hf1
        have hp : p1 = p0 := Option.some.inj (hf1.symm.trans hf)
        refine ⟨x, ?_⟩
        simp only [Option.map_some', Option.getD_some]
        have hq : q = { e.2 with nAlloted := x } := hx
        rw [hq, hc, hp]
  · rw [GetBudget_nonpositive env m (not_lt.mp hh)]
    refine ⟨rfl, ?_⟩
    intro k p0 hf
    rw [if_neg hh]
    exact ⟨p0.nAlloted, hf⟩

/-- One more `GetBudget` on a refreshed proposal map gives a refreshed
proposal map. -/
theorem ProposalsRefreshed_GetBudget (env : Env) (b : Bool) (mp0 : StdMap CBudgetProposal)
    (m : CBudgetManager) (hnd0 : (StdMap.keys mp0).Nodup)
    (hinv : ProposalsRefreshed env b mp0 m.mapProposals) :
    ProposalsRefreshed env (b || decide (0 < m.GetBestHeight)) mp0
      (m.GetBudget env).2.mapProposals := by
  obtain ⟨hk, hf⟩ := hinv
  have hnd : (StdMap.keys m.mapProposals).Nodup := by
    rw [hk]
    exact hnd0
  obtain ⟨g1, g2⟩ := GetBudget_proposals_after env m hnd
  refine ⟨g1.trans hk, ?_⟩
  intro k p0 hp0
  obtain ⟨a, ha⟩ := hf k p0 hp0
  obtain ⟨a2, ha2⟩ := g2 k _ ha
  refine ⟨a2, ?_⟩
  rw [ha2]
  by_cases hh : 0 < m.GetBestHeight
  · cases b with
    | true =>
      simp only [hh, if_true, Bool.true_or]
      have hidem := CBudgetProposal.CleanAndRemove_idem env p0
      have hc : ({ p0.CleanAndRemove env with nAlloted := a } : CBudgetProposal).CleanAndRemove env =
          { (p0.CleanAndRemove env).CleanAndRemove env with nAlloted := a } := rfl
      rw [hc, hidem]
    | false =>
      simp only [hh, if_true, Bool.false_or, decide_True, Bool.false_eq_true, if_false]
      rfl
  · cases b with
    | true => simp only [hh, if_false, if_true, Bool.true_or]
    | false =>
      simp only [hh, if_false, Bool.false_or, decide_False, Bool.false_eq_true]

end CBudgetManager

end Budget

namespace Budget

namespace CFinalizedBudget

/-- `SubmitVote` on a masternode node where no active masternode lacks an
outpoint while having a usable key: the call returns with nothing changed. -/
theorem SubmitVote_skips (env : Env) (hm : env.fMasterNode = true)
    (hsafe : ∀ a ∈ env.GetActiveMasternodes,
      a.vin = none → env.GetKeysFromSecret a.strMasterNodePrivKey = false)
    (s : Globals) (fb : CFinalizedBudget) : SubmitVote env s fb = some s :=
  SubmitVote_loop_skips env fb hm env.GetActiveMasternodes hsafe s

/-- What one auto-check does to the globals: it has a result, it leaves the
best height alone, it changes the budget map at most by setting the
auto-checked flag of the budget under `k`, and it changes the proposal map at
most by one `GetBudget`, which takes a masternode node in mode "auto". -/
theorem CheckAndVote_effect (env : Env)
    (hsafe : ∀ a ∈ env.GetActiveMasternodes,
      a.vin = none → env.GetKeysFromSecret a.strMasterNodePrivKey = false)
    (rand : Int) (s : Globals) (k : uint256) :
    ∃ s2, CheckAndVote env rand s k = some s2 ∧
      s2.budget.nBestHeight = s.budget.nBestHeight ∧
      (s2.budget.mapFinalizedBudgets = s.budget.mapFinalizedBudgets ∨
        ∃ fb, s.budget.mapFinalizedBudgets.find k = some fb ∧
          s2.budget.mapFinalizedBudgets =
            s.budget.mapFinalizedBudgets.set k { fb with fAutoChecked := true }) ∧
      (s2.budget.mapProposals = s.budget.mapProposals ∨
        (env.fMasterNode = true ∧ env.strBudgetMode = "auto" ∧ env.activeMasternodeVin ≠ none ∧
          ∃ m1 : CBudgetManager, m1.mapProposals = s.budget.mapProposals ∧
            m1.nBestHeight = s.budget.nBestHeight ∧
            s2.budget.mapProposals = (m1.GetBudget env).2.mapProposals)) := by
  unfold CheckAndVote
  cases hf : s.budget.mapFinalizedBudgets.find k with
  | none => exact ⟨s, rfl, rfl, Or.inl rfl, Or.inl rfl⟩
  | some fb =>
    dsimp only
    by_cases h1 : (!env.fMasterNode || fb.fAutoChecked) = true
    · rw [if_pos h1]
      exact ⟨s, rfl, rfl, Or.inl rfl, Or.inl rfl⟩
    · rw [if_neg h1]
      have hm : env.fMasterNode = true := by
        cases hfm : env.fMasterNode with
        | true => rfl
        | false =>
          rw [hfm] at h1
          exact absurd rfl h1
      by_cases h2 : env.activeMasternodeVin = none
      · rw [if_pos h2]
        exact ⟨s, rfl, rfl, Or.inl rfl, Or.inl rfl⟩
      · rw [if_neg h2]
        by_cases h3 : rand.tmod 4 ≠ 0
        · rw [if_pos h3]
          exact ⟨s, rfl, rfl, Or.inl rfl, Or.inl rfl⟩
        · rw [if_neg h3]
          by_cases h4 : env.strBudgetMode = "auto"
          · rw [if_pos h4, SubmitVote_skips env hm hsafe]
            simp only [ite_self]
            refine ⟨_, rfl, ?_, ?_, ?_⟩
            · rw [CBudgetManager.GetBudget_frame]
            · right
              refine ⟨fb, rfl, ?_⟩
              rw [CBudgetManager.GetBudget_frame]
            · right
              exact ⟨hm, h4, h2,
                { s.budget with mapFinalizedBudgets :=
                    (s.budget.mapFinalizedBudgets.set k { fb with fAutoChecked := true }) },
                rfl, rfl, rfl⟩
          · rw [if_neg h4]
            exact ⟨_, rfl, rfl, Or.inr ⟨fb, rfl, rfl⟩, Or.inl rfl⟩

end CFinalizedBudget

end Budget

namespace Budget

namespace StdMap

variable {V : Type}

/-- Looking a key up after `emplace`: what was there, otherwise the new value
under the new key. -/
theorem find_emplace (m : StdMap V) (k j : uint256) (v : V) :
    find (emplace m k v) j =
      match find m j with
      | some w => some w
      | none => if j = k then some v else none := by
  cases hk : find m k with
  | some w0 =>
    rw [emplace_of_find_some m k v w0 hk]
    cases hj : find m j with
    | some w => rfl
    | none =>
      have hne : j ≠ k := by
        intro h
        rw [h, hk] at hj
        cases hj
      simp [hne]
  | none =>
    rw [emplace_of_find_none m k v hk]
    by_cases hjk : j = k
    · subst hjk
      rw [find_set_self, hk]
      simp
    · rw [find_set_ne m k j v hjk]
      cases hj : find m j with
      | some w => rfl
      | none => simp [hjk]

end StdMap

namespace CBudgetManager

/-- Replacing the budget under `k` by one with the same name, block-start and
payments keeps `BudgetsKept`. -/
theorem BudgetsKept_set (mf0 mf : StdMap CFinalizedBudget) (k : uint256)
    (fb fb2 : CFinalizedBudget) (hinv : BudgetsKept mf0 mf) (hf : mf.find k = some fb)
    (h1 : fb2.strBudgetName = fb.strBudgetName) (h2 : fb2.nBlockStart = fb.nBlockStart)
    (h3 : fb2.vecBudgetPayments = fb.vecBudgetPayments) :
    BudgetsKept mf0 (mf.set k fb2) := by
  intro j fb0 hj
  obtain ⟨g, hg, g1, g2, g3⟩ := hinv j fb0 hj
  by_cases hjk : j = k
  · subst hjk
    rw [hf] at hg
    have hfg : fb = g := Option.some.inj hg
    refine ⟨fb2, StdMap.find_set_self _ _ _, ?_, ?_, ?_⟩
    · rw [h1, hfg, g1]
    · rw [h2, hfg, g2]
    · rw [h3, hfg, g3]
  · exact ⟨g, by rw [StdMap.find_set_ne _ _ _ _ hjk]; exact hg, g1, g2, g3⟩

end CBudgetManager

end Budget

namespace Budget

namespace CBudgetManager

/-- One iteration of the first loop of `CheckAndRemove`, at the key `k` under
which the map holds `fb`: the loop goes on from a state in which the budget
under `k` has the same name, block-start and payments, every other budget is
untouched, the budget is in `tmp` iff it is not expired, and the proposal map
is as before or as one `GetBudget` leaves it. -/
theorem budgetsLoop_step (env : Env) (rand : uint256 → Int) (h : Int)
    (hsafe : ∀ a ∈ env.GetActiveMasternodes,
      a.vin = none → env.GetKeysFromSecret a.strMasterNodePrivKey = false)
    (k : uint256) (rest : List uint256) (s : Globals) (tmp : StdMap CFinalizedBudget)
    (fb : CFinalizedBudget) (hf : s.budget.mapFinalizedBudgets.find k = some fb) :
    ∃ s2 tmp2,
      CheckAndRemove.budgetsLoop env rand h (k :: rest) s tmp =
        CheckAndRemove.budgetsLoop env rand h rest s2 tmp2 ∧
      s2.budget.nBestHeight = s.budget.nBestHeight ∧
      (∃ fb2, s2.budget.mapFinalizedBudgets.find k = some fb2 ∧
        (∀ j, j ≠ k → s2.budget.mapFinalizedBudgets.find j = s.budget.mapFinalizedBudgets.find j) ∧
        fb2.strBudgetName = fb.strBudgetName ∧ fb2.nBlockStart = fb.nBlockStart ∧
        fb2.vecBudgetPayments = fb.vecBudgetPayments ∧
        ((fb.GetBlockEnd < h - h.tmod env.nBudgetCycleBlocks ∧ tmp2 = tmp) ∨
         (¬ fb.GetBlockEnd < h - h.tmod env.nBudgetCycleBlocks ∧ fb2.fValid = true ∧
           tmp2 = tmp.emplace (fb2.GetHash env) fb2))) ∧
      (s2.budget.mapProposals = s.budget.mapProposals ∨
        (env.fMasterNode = true ∧ env.strBudgetMode = "auto" ∧ env.activeMasternodeVin ≠ none ∧
          ∃ m1 : CBudgetManager, m1.mapProposals = s.budget.mapProposals ∧
            m1.nBestHeight = s.budget.nBestHeight ∧
            s2.budget.mapProposals = (m1.GetBudget env).2.mapProposals)) := by
  rw [CheckAndRemove.budgetsLoop]
  simp only [hf]
  rw [budget_UpdateValid_eq]
  by_cases hexp : fb.GetBlockEnd < h - h.tmod env.nBudgetCycleBlocks
  · simp only [hexp, if_true, Bool.not_false]
    refine ⟨_, _, rfl, rfl, ⟨_, StdMap.find_set_self _ _ _, ?_, rfl, rfl, rfl,
      Or.inl ⟨trivial, rfl⟩⟩, Or.inl rfl⟩
    intro j hj
    exact StdMap.find_set_ne _ _ _ _ hj
  · simp only [hexp, if_false, Bool.not_true, Bool.false_eq_true]
    obtain ⟨s2, hs2, hh, hmf, hmp⟩ := CFinalizedBudget.CheckAndVote_effect env hsafe (rand k)
      { s with budget := { s.budget with
          mapFinalizedBudgets := (s.budget.mapFinalizedBudgets.set k
            { fb with fValid := true, strInvalid := "" }) } } k
    rw [hs2]
    dsimp only
    rcases hmf with hmf | ⟨fbx, hfx, hmf⟩
    · have hfind : s2.budget.mapFinalizedBudgets.find k =
          some { fb with fValid := true, strInvalid := "" } := by
        rw [hmf]
        exact StdMap.find_set_self _ _ _
      simp only [hfind]
      refine ⟨s2, _, rfl, hh, ⟨_, hfind, ?_, rfl, rfl, rfl, Or.inr ⟨not_false, rfl, rfl⟩⟩, hmp⟩
      intro j hj
      rw [hmf]
      exact StdMap.find_set_ne _ _ _ _ hj
    · have hfx2 : fbx = { fb with fValid := true, strInvalid := "" } := by
        have := StdMap.find_set_self s.budget.mapFinalizedBudgets k
          ({ fb with fValid := true, strInvalid := "" } : CFinalizedBudget)
        exact (Option.some.inj (this.symm.trans hfx)).symm
      have hfind : s2.budget.mapFinalizedBudgets.find k =
          some { fbx with fAutoChecked := true } := by
        rw [hmf]
        exact StdMap.find_set_self _ _ _
      simp only [hfind]
      refine ⟨s2, _, rfl, hh, ⟨_, hfind, ?_, ?_, ?_, ?_, Or.inr ⟨not_false, ?_, rfl⟩⟩, hmp⟩
      · intro j hj
        rw [hmf, StdMap.find_set_ne _ _ _ _ hj]
        exact StdMap.find_set_ne _ _ _ _ hj
      · rw [hfx2]
      · rw [hfx2]
      · rw [hfx2]
      · rw [hfx2]

end CBudgetManager

end Budget

namespace Budget

namespace CBudgetManager

/-- Budgets with the same name, block-start and payments have the same hash
and the same block-end. -/
theorem GetHash_GetBlockEnd_congr (env : Env) (fb fb0 : CFinalizedBudget)
    (h1 : fb.strBudgetName = fb0.strBudgetName) (h2 : fb.nBlockStart = fb0.nBlockStart)
    (h3 : fb.vecBudgetPayments = fb0.vecBudgetPayments) :
    fb.GetHash env = fb0.GetHash env ∧ fb.GetBlockEnd = fb0.GetBlockEnd := by
  unfold CFinalizedBudget.GetHash CFinalizedBudget.GetBlockEnd
  rw [h1, h2, h3]
  exact ⟨rfl, rfl⟩

/-- The first loop of `CheckAndRemove` over keys of the budget map, no key
twice: it has a result; `tmp` gains exactly the visited budgets that are not
expired, each marked valid and with the name, block-start and payments it had;
the proposal map ends as it was or as `GetBudget` calls left it. -/
theorem budgetsLoop_spec (env : Env) (rand : uint256 → Int) (h : Int)
    (hsafe : ∀ a ∈ env.GetActiveMasternodes,
      a.vin = none → env.GetKeysFromSecret a.strMasterNodePrivKey = false)
    (mf0 : StdMap CFinalizedBudget)
    (hkey0 : ∀ k fb0, mf0.find k = some fb0 → fb0.GetHash env = k)
    (mp0 : StdMap CBudgetProposal) (h0 : Int) (ks : List uint256) :
    ∀ (s : Globals) (tmp : StdMap CFinalizedBudget),
      ks.Nodup → (∀ k ∈ ks, ∃ fb0, mf0.find k = some fb0) →
      BudgetsKept mf0 s.budget.mapFinalizedBudgets → s.budget.nBestHeight = h0 →
      ∃ s2 tmp2, CheckAndRemove.budgetsLoop env rand h ks s tmp = some (s2, tmp2) ∧
        s2.budget.nBestHeight = h0 ∧
        BudgetsKept mf0 s2.budget.mapFinalizedBudgets ∧
        (∀ j, (tmp2.find j).isSome = true ↔
          ((tmp.find j).isSome = true ∨
            (j ∈ ks ∧ ∃ fb0, mf0.find j = some fb0 ∧
              ¬ fb0.GetBlockEnd < h - h.tmod env.nBudgetCycleBlocks))) ∧
        (∀ j fb2, tmp2.find j = some fb2 →
          tmp.find j = some fb2 ∨
          (∃ fb0, mf0.find j = some fb0 ∧ fb2.strBudgetName = fb0.strBudgetName ∧
            fb2.nBlockStart = fb0.nBlockStart ∧ fb2.vecBudgetPayments = fb0.vecBudgetPayments ∧
            fb2.fValid = true)) ∧
        ((StdMap.keys mp0).Nodup → ∀ b, ProposalsRefreshed env b mp0 s.budget.mapProposals →
          (b = true → env.fMasterNode = true ∧ env.strBudgetMode = "auto" ∧
            env.activeMasternodeVin ≠ none ∧ 0 < h0) →
          ∃ b2, ProposalsRefreshed env b2 mp0 s2.budget.mapProposals ∧
            (b2 = true → env.fMasterNode = true ∧ env.strBudgetMode = "auto" ∧
              env.activeMasternodeVin ≠ none ∧ 0 < h0)) := by
  induction ks with
  | nil =>
    intro s tmp _ _ hinv hh
    refine ⟨s, tmp, rfl, hh, hinv, ?_, ?_, ?_⟩
    · intro j
      simp
    · intro j fb2 hj
      exact Or.inl hj
    · intro _ b hb hc
      exact ⟨b, hb, hc⟩
  | cons k rest ih =>
    intro s tmp hnd hks hinv hh
    obtain ⟨hknot, hnd2⟩ := List.nodup_cons.mp hnd
    obtain ⟨fb0, hk0⟩ := hks k (List.mem_cons_self _ _)
    obtain ⟨fb, hf, n1, n2, n3⟩ := hinv k fb0 hk0
    obtain ⟨s1, tmp1, hstep, hh1, ⟨fb2, hf2, hother, m1, m2, m3, hcase⟩, hmp⟩ :=
      budgetsLoop_step env rand h hsafe k rest s tmp fb hf
    have hinv1 : BudgetsKept mf0 s1.budget.mapFinalizedBudgets := by
      intro j g0 hj
      by_cases hjk : j = k
      · subst hjk
        rw [hk0] at hj
        have hg : fb0 = g0 := Option.some.inj hj
        rw [← hg]
        exact ⟨fb2, hf2, m1.trans n1, m2.trans n2, m3.trans n3⟩
      · obtain ⟨g, hg, g1, g2, g3⟩ := hinv j g0 hj
        exact ⟨g, by rw [hother j hjk]; exact hg, g1, g2, g3⟩
    obtain ⟨s2, tmp2, hres, hh2, hinv2, hiff, hval, hprop⟩ :=
      ih s1 tmp1 hnd2 (fun j hj => hks j (List.mem_cons_of_mem _ hj)) hinv1 (hh1.trans hh)
    have hend : fb.GetBlockEnd = fb0.GetBlockEnd :=
      (GetHash_GetBlockEnd_congr env fb fb0 n1 n2 n3).2
    have hhash : fb2.GetHash env = k := by
      rw [(GetHash_GetBlockEnd_congr env fb2 fb0 (m1.trans n1) (m2.trans n2) (m3.trans n3)).1]
      exact hkey0 k fb0 hk0
    refine ⟨s2, tmp2, hstep.trans hres, hh2, hinv2, ?_, ?_, ?_⟩
    · intro j
      rw [hiff j]
      rcases hcase with ⟨hexp, ht⟩ | ⟨hexp, _, ht⟩
      · rw [ht]
        constructor
        · rintro (hl | ⟨hj, hr⟩)
          · exact Or.inl hl
          · exact Or.inr ⟨List.mem_cons_of_mem _ hj, hr⟩
        · rintro (hl | ⟨hj, g0, hg0, hne⟩)
          · exact Or.inl hl
          · rcases List.mem_cons.mp hj with hjk | hj
            · exfalso
              rw [hjk, hk0] at hg0
              have hg : fb0 = g0 := Option.some.inj hg0
              rw [← hg, ← hend] at hne
              exact hne hexp
            · exact Or.inr ⟨hj, g0, hg0, hne⟩
      · rw [ht, hhash, StdMap.find_emplace]
        constructor
        · rintro (hl | ⟨hj, hr⟩)
          · cases hj0 : tmp.find j with
            | some w => exact Or.inl rfl
            | none =>
              rw [hj0] at hl
              by_cases hjk : j = k
              · right
                refine ⟨hjk ▸ List.mem_cons_self _ _, fb0, hjk ▸ hk0, ?_⟩
                rw [← hend]
                exact hexp
              · simp [hjk] at hl
          · exact Or.inr ⟨List.mem_cons_of_mem _ hj, hr⟩
        · rintro (hl | ⟨hj, g0, hg0, hne⟩)
          · left
            cases hj0 : tmp.find j with
            | some w => rfl
            | none =>
              rw [hj0] at hl
              cases hl
          · rcases List.mem_cons.mp hj with hjk | hj
            · left
              cases hj0 : tmp.find j with
              | some w => rfl
              | none => simp [hjk]
            · exact Or.inr ⟨hj, g0, hg0, hne⟩
    · intro j x hx
      rcases hval j x hx with h1 | h1
      · rcases hcase with ⟨_, ht⟩ | ⟨_, hv, ht⟩
        · rw [ht] at h1
          exact Or.inl h1
        · rw [ht, hhash, StdMap.find_emplace] at h1
          cases hj0 : tmp.find j with
          | some w =>
            rw [hj0] at h1
            exact Or.inl h1
          | none =>
            rw [hj0] at h1
            by_cases hjk : j = k
            · simp only [hjk, if_true, Option.some.injEq] at h1
              right
              refine ⟨fb0, hjk ▸ hk0, ?_, ?_, ?_, ?_⟩
              · rw [← h1]
                exact m1.trans n1
              · rw [← h1]
                exact m2.trans n2
              · rw [← h1]
                exact m3.trans n3
              · rw [← h1]
                exact hv
            · simp [hjk] at h1
      · exact Or.inr h1
    · intro hnd0 b hb hc
      rcases hmp with hmp | ⟨c1, c2, c3, mm, mm1, mm2, mm3⟩
      · exact hprop hnd0 b (by rw [hmp]; exact hb) hc
      · have hb1 : ProposalsRefreshed env b mp0 mm.mapProposals := by
          rw [mm1]
          exact hb
        have hb2 := ProposalsRefreshed_GetBudget env b mp0 mm hnd0 hb1
        rw [← mm3] at hb2
        refine hprop hnd0 _ hb2 ?_
        intro hbb
        rcases Bool.or_eq_true_iff.mp hbb with hb0 | hb0
        · exact hc hb0
        · have hpos : 0 < mm.GetBestHeight := of_decide_eq_true hb0
          have hmh : mm.GetBestHeight = h0 := by
            show mm.nBestHeight = h0
            rw [mm2]
            exact hh
          rw [hmh] at hpos
          exact ⟨c1, c2, c3, hpos⟩

end CBudgetManager

end Budget

namespace Budget

namespace CBudgetManager

/-- `UpdateValid` keeps the identity hash of a proposal. -/
theorem UpdateValid_GetHash (env : Env) (p : CBudgetProposal) (h : Int) :
    (p.UpdateValid env h).2.GetHash env = p.GetHash env := by
  rw [CBudgetProposal.UpdateValid_eq]
  split_ifs <;> rfl

/-- The second loop of `CheckAndRemove` over proposals stored under their
identity hashes, no key twice: key by key, what `tmp` holds afterwards. -/
theorem proposalsLoop_find (env : Env) (h : Int) (l : StdMap CBudgetProposal) :
    ∀ tmp : StdMap CBudgetProposal, (StdMap.keys l).Nodup →
      (∀ e ∈ l, e.2.GetHash env = e.1) →
      ∀ j, (CheckAndRemove.proposalsLoop env h l tmp).find j =
        match tmp.find j with
        | some w => some w
        | none => (StdMap.find l j).bind (fun p =>
            if (p.UpdateValid env h).1 = true then some (p.UpdateValid env h).2 else none) := by
  induction l with
  | nil =>
    intro tmp _ _ j
    rw [CheckAndRemove.proposalsLoop]
    cases tmp.find j <;> rfl
  | cons e rest ih =>
    obtain ⟨k, p⟩ := e
    intro tmp hnd hkey j
    have hnd2 : (StdMap.keys rest).Nodup := by
      simp only [StdMap.keys, List.map_cons, List.nodup_cons] at hnd
      exact hnd.2
    have hkey2 : ∀ e ∈ rest, e.2.GetHash env = e.1 :=
      fun e he => hkey e (List.mem_cons_of_mem _ he)
    have htail : StdMap.find rest k = none := StdMap.find_tail_of_nodup k p rest hnd
    have hk : p.GetHash env = k := hkey (k, p) (List.mem_cons_self _ _)
    rw [CheckAndRemove.proposalsLoop]
    cases hv : (p.UpdateValid env h).1 with
    | false =>
      simp only [Bool.not_false, if_true]
      rw [ih tmp hnd2 hkey2 j]
      cases tmp.find j with
      | some w => rfl
      | none =>
        by_cases hjk : k = j
        · subst hjk
          simp [StdMap.find, htail, hv]
        · simp [StdMap.find, hjk]
    | true =>
      simp only [Bool.not_true, Bool.false_eq_true, if_false]
      rw [ih _ hnd2 hkey2 j, UpdateValid_GetHash, hk, StdMap.find_emplace]
      cases tmp.find j with
      | some w => rfl
      | none =>
        by_cases hjk : k = j
        · subst hjk
          simp [StdMap.find, hv]
        · have hjk2 : ¬ j = k := fun h => hjk h.symm
          simp [StdMap.find, hjk, hjk2]

end CBudgetManager

end Budget

namespace Budget

namespace StdMap

variable {V : Type}

theorem mem_keys_of_find (m : StdMap V) (k : uint256) (v : V) (h : find m k = some v) :
    k ∈ keys m :=
  List.mem_map_of_mem Prod.fst (mem_of_find m k v h)

end StdMap

namespace CBudgetManager

/-- `CheckAndRemove` once its first loop has a result. -/
theorem CheckAndRemove_of_loop (env : Env) (rand : uint256 → Int) (s s1 : Globals)
    (tmp1 : StdMap CFinalizedBudget)
    (hl : CheckAndRemove.budgetsLoop env rand s.budget.GetBestHeight
      s.budget.mapFinalizedBudgets.keys s [] = some (s1, tmp1)) :
    CheckAndRemove env rand s =
      some { s1 with budget := { s1.budget with
        mapFinalizedBudgets := tmp1,
        mapProposals := (CheckAndRemove.proposalsLoop env s.budget.GetBestHeight
          s1.budget.mapProposals []) } } := by
  unfold CheckAndRemove
  dsimp only
  rw [hl]

/-- C22: in a state whose budget map holds each finalized budget under its
identity hash (and where `SubmitVote` has a defined result), `CheckAndRemove()`
at best height `h` returns, and afterwards `mapFinalizedBudgets` contains
exactly those previous keys whose budget has a block-end
`≥ h - h mod cycleLength`, each budget with the name, block-start and payments
it had and marked valid: `CFinalizedBudget::UpdateValid(h)` returns false iff
`blockEnd < h - h mod cycleLength` (`mod` is the C++ remainder, the
mathematical one for `h ≥ 0`). -/
theorem CheckAndRemove_budgets (env : Env) (rand : uint256 → Int) (s : Globals)
    (hsafe : ∀ a ∈ env.GetActiveMasternodes,
      a.vin = none → env.GetKeysFromSecret a.strMasterNodePrivKey = false)
    (hwf : s.budget.mapFinalizedBudgets.WF)
    (hkf : ∀ e ∈ s.budget.mapFinalizedBudgets, e.2.GetHash env = e.1) :
    ∃ s2, CheckAndRemove env rand s = some s2 ∧
      (∀ k, (s2.budget.mapFinalizedBudgets.find k).isSome = true ↔
        ∃ fb, s.budget.mapFinalizedBudgets.find k = some fb ∧
          fb.GetBlockEnd ≥ s.budget.GetBestHeight -
            s.budget.GetBestHeight.tmod env.nBudgetCycleBlocks) ∧
      (∀ k fb2, s2.budget.mapFinalizedBudgets.find k = some fb2 →
        ∃ fb, s.budget.mapFinalizedBudgets.find k = some fb ∧
          fb2.strBudgetName = fb.strBudgetName ∧ fb2.nBlockStart = fb.nBlockStart ∧
          fb2.vecBudgetPayments = fb.vecBudgetPayments ∧ fb2.fValid = true) ∧
      (∀ (fb : CFinalizedBudget) (h : Int),
        (fb.UpdateValid env h).1 = false ↔
          fb.GetBlockEnd < h - h.tmod env.nBudgetCycleBlocks) ∧
      (∀ h : Int, 0 ≤ h → 0 < env.nBudgetCycleBlocks →
        h.tmod env.nBudgetCycleBlocks = h % env.nBudgetCycleBlocks) := by
  have hkey0 : ∀ k fb0, s.budget.mapFinalizedBudgets.find k = some fb0 →
      fb0.GetHash env = k :=
    fun k fb0 hf => hkf (k, fb0) (StdMap.mem_of_find _ k fb0 hf)
  have hkept : BudgetsKept s.budget.mapFinalizedBudgets s.budget.mapFinalizedBudgets :=
    fun k fb0 hf => ⟨fb0, hf, rfl, rfl, rfl⟩
  obtain ⟨s1, tmp1, hres, _, _, hiff, hval, _⟩ :=
    budgetsLoop_spec env rand s.budget.GetBestHeight hsafe s.budget.mapFinalizedBudgets hkey0
      s.budget.mapProposals s.budget.nBestHeight s.budget.mapFinalizedBudgets.keys s []
      (StdMap.WF_nodup _ hwf)
      (fun k hk => StdMap.find_isSome_of_mem_keys _ k hk) hkept rfl
  refine ⟨_, CheckAndRemove_of_loop env rand s s1 tmp1 hres, ?_, ?_, ?_, ?_⟩
  · intro k
    show (StdMap.find tmp1 k).isSome = true ↔ _
    rw [hiff k]
    constructor
    · rintro (hl | ⟨_, fb0, hf0, hne⟩)
      · simp [StdMap.find] at hl
      · exact ⟨fb0, hf0, not_lt.mp hne⟩
    · rintro ⟨fb, hf, hge⟩
      exact Or.inr ⟨StdMap.mem_keys_of_find _ k fb hf, fb, hf, not_lt.mpr hge⟩
  · intro k fb2 hf2
    rcases hval k fb2 hf2 with hl | hr
    · simp [StdMap.find] at hl
    · exact hr
  · intro fb h
    rw [budget_UpdateValid_eq]
    by_cases hexp : fb.GetBlockEnd < h - h.tmod env.nBudgetCycleBlocks
    · simp [hexp]
    · simp [hexp]
  · intro h hh hc
    exact Int.tmod_eq_emod hh (le_of_lt hc)

/-- C22 witness: at best height 150 the last superblock height is 0 and the
example budget (block-end 200) stays; at best height 450 it is 400 and the
budget is removed. -/
theorem CheckAndRemove_budgets_witness :
    exampleGlobals.budget.mapFinalizedBudgets.WF ∧
    (∀ e ∈ exampleGlobals.budget.mapFinalizedBudgets, e.2.GetHash exampleEnv = e.1) ∧
    (∃ s2, CheckAndRemove exampleEnv (fun _ => 0) exampleGlobals = some s2 ∧
      (s2.budget.mapFinalizedBudgets.find 201).isSome = true) ∧
    (∃ s2, CheckAndRemove exampleEnv (fun _ => 0) exampleGlobalsLate = some s2 ∧
      (s2.budget.mapFinalizedBudgets.find 201).isSome = false) := by
  refine ⟨by decide, by decide, ?_, ?_⟩
  · obtain ⟨s2, h1, h2, _⟩ := CheckAndRemove_budgets exampleEnv (fun _ => 0) exampleGlobals
      (by decide) (by decide) (by decide)
    exact ⟨s2, h1, (h2 201).mpr
      ⟨{ exampleBudget with mapVotes := exampleBudgetVotes }, by decide, by decide⟩⟩
  · obtain ⟨s2, h1, h2, _⟩ := CheckAndRemove_budgets exampleEnv (fun _ => 0) exampleGlobalsLate
      (by decide) (by decide) (by decide)
    refine ⟨s2, h1, ?_⟩
    cases hs : (s2.budget.mapFinalizedBudgets.find 201).isSome with
    | false => rfl
    | true =>
      obtain ⟨fb, hf, hge⟩ := (h2 201).mp hs
      have hfb : exampleGlobalsLate.budget.mapFinalizedBudgets.find 201 =
          some { exampleBudget with mapVotes := exampleBudgetVotes } := by decide
      rw [hfb] at hf
      have hfe : fb = { exampleBudget with mapVotes := exampleBudgetVotes } :=
        (Option.some.inj hf).symm
      rw [hfe] at hge
      exact absurd hge (by decide)

end CBudgetManager

end Budget

namespace Budget

namespace CBudgetManager

/-- C21, as stated, fails: on the masternode node `exampleEnvVotersGone`
(budget mode "auto", 100 enabled masternodes) the previous map holds the
proposal `exampleProposalDown` with yeas 5 and nays 17, so `nays - yeas`
exceeds `100 / 10`; the auto-check of the example budget runs `GetBudget`,
which re-flags the votes (their voters are no longer known); after
`CheckAndRemove()` the proposal is still in `mapProposals`, with yeas 0 and
nays 0 and a vote map different from the one it had. -/
theorem CheckAndRemove_votes_refreshed :
    exampleGlobalsDown.budget.mapProposals.find 3000000601 = some exampleProposalDown ∧
    exampleProposalDown.GetYeas = 5 ∧ exampleProposalDown.GetNays = 17 ∧
    exampleEnvVotersGone.CountEnabled = 100 ∧
    ¬ (exampleProposalDown.GetNays - exampleProposalDown.GetYeas ≤
        exampleEnvVotersGone.CountEnabled.tdiv 10) ∧
    (CheckAndRemove exampleEnvVotersGone (fun _ => 0) exampleGlobalsDown).map
      (fun s2 => (s2.budget.mapProposals.find 3000000601).map
        (fun p => (p.GetYeas, p.GetNays, decide (p.mapVotes = exampleProposalDown.mapVotes)))) =
      some (some (0, 0, false)) := by
  decide

end CBudgetManager

end Budget

namespace Budget

namespace CBudgetManager

/-- An entry of the map the second loop of `CheckAndRemove` builds comes from
`tmp` or is a proposal of the list that `UpdateValid` accepts, as `UpdateValid`
leaves it, under its identity hash. -/
theorem proposalsLoop_entry (env : Env) (h : Int) (l : StdMap CBudgetProposal) :
    ∀ (tmp : StdMap CBudgetProposal) (j : uint256) (p2 : CBudgetProposal),
      (CheckAndRemove.proposalsLoop env h l tmp).find j = some p2 →
        tmp.find j = some p2 ∨
        ∃ e ∈ l, (e.2.UpdateValid env h).1 = true ∧ e.2.GetHash env = j ∧
          p2 = (e.2.UpdateValid env h).2 := by
  induction l with
  | nil =>
    intro tmp j p2 hf
    rw [CheckAndRemove.proposalsLoop] at hf
    exact Or.inl hf
  | cons e rest ih =>
    obtain ⟨k, p⟩ := e
    intro tmp j p2 hf
    rw [CheckAndRemove.proposalsLoop] at hf
    cases hv : (p.UpdateValid env h).1 with
    | false =>
      simp only [hv, Bool.not_false, if_true] at hf
      rcases ih tmp j p2 hf with h1 | ⟨e, he, h2⟩
      · exact Or.inl h1
      · exact Or.inr ⟨e, List.mem_cons_of_mem _ he, h2⟩
    | true =>
      simp only [hv, Bool.not_true, Bool.false_eq_true, if_false] at hf
      rcases ih _ j p2 hf with h1 | ⟨e, he, h2⟩
      · rw [StdMap.find_emplace] at h1
        cases ht : tmp.find j with
        | some w =>
          rw [ht] at h1
          exact Or.inl h1
        | none =>
          rw [ht] at h1
          by_cases hj : j = (p.UpdateValid env h).2.GetHash env
          · simp only [hj, if_true] at h1
            right
            refine ⟨(k, p), List.mem_cons_self _ _, hv, ?_, (Option.some.inj h1).symm⟩
            rw [hj, UpdateValid_GetHash]
          · simp only [hj, if_false] at h1
            cases h1
      · exact Or.inr ⟨e, List.mem_cons_of_mem _ he, h2⟩

/-- The second loop of `CheckAndRemove` keeps what `tmp` holds. -/
theorem proposalsLoop_keeps (env : Env) (h : Int) (l : StdMap CBudgetProposal) :
    ∀ (tmp : StdMap CBudgetProposal) (j : uint256) (w : CBudgetProposal),
      tmp.find j = some w → (CheckAndRemove.proposalsLoop env h l tmp).find j = some w := by
  induction l with
  | nil =>
    intro tmp j w hf
    rw [CheckAndRemove.proposalsLoop]
    exact hf
  | cons e rest ih =>
    obtain ⟨k, p⟩ := e
    intro tmp j w hf
    rw [CheckAndRemove.proposalsLoop]
    cases hv : (p.UpdateValid env h).1 with
    | false =>
      simp only [Bool.not_false, if_true]
      exact ih tmp j w hf
    | true =>
      simp only [Bool.not_true, Bool.false_eq_true, if_false]
      apply ih
      rw [StdMap.find_emplace, hf]

/-- Every proposal of the list that `UpdateValid` accepts has its identity
hash among the keys of the map the second loop of `CheckAndRemove` builds. -/
theorem proposalsLoop_present (env : Env) (h : Int) (l : StdMap CBudgetProposal) :
    ∀ (tmp : StdMap CBudgetProposal), ∀ e ∈ l, (e.2.UpdateValid env h).1 = true →
      ((CheckAndRemove.proposalsLoop env h l tmp).find (e.2.GetHash env)).isSome = true := by
  induction l with
  | nil =>
    intro tmp e he
    exact absurd he (List.not_mem_nil e)
  | cons e0 rest ih =>
    obtain ⟨k, p⟩ := e0
    intro tmp e he hs
    rw [CheckAndRemove.proposalsLoop]
    rcases List.mem_cons.mp he with heq | hin
    · rw [heq] at hs ⊢
      simp only [hs, Bool.not_true, Bool.false_eq_true, if_false]
      have hsome : ∃ w, (tmp.emplace ((p.UpdateValid env h).2.GetHash env)
          (p.UpdateValid env h).2).find (p.GetHash env) = some w := by
        rw [StdMap.find_emplace, UpdateValid_GetHash]
        cases tmp.find (p.GetHash env) with
        | some w => exact ⟨w, rfl⟩
        | none => exact ⟨(p.UpdateValid env h).2, by simp⟩
      obtain ⟨w, hw⟩ := hsome
      rw [proposalsLoop_keeps env h rest _ _ w hw]
      rfl
    · cases hv : (p.UpdateValid env h).1 with
      | false =>
        simp only [Bool.not_false, if_true]
        exact ih tmp e hin hs
      | true =>
        simp only [Bool.not_true, Bool.false_eq_true, if_false]
        exact ih _ e hin hs

/-- The tallies of a proposal are those of its vote map. -/
theorem tallies_of_mapVotes (p q : CBudgetProposal) (h : p.mapVotes = q.mapVotes) :
    p.GetYeas = q.GetYeas ∧ p.GetNays = q.GetNays := by
  unfold CBudgetProposal.GetYeas CBudgetProposal.GetNays CBudgetProposal.GetVoteCount
  rw [h]
  exact ⟨rfl, rfl⟩

/-- C21 (amended): in a state whose budget map holds each finalized budget
under its identity hash (and where `SubmitVote` has a defined result),
`CheckAndRemove()` at best height `h` returns, and afterwards `mapProposals`
contains exactly those proposals of the previous map for which
`nays - yeas ≤ enabledMasternodes / 10` and `blockEnd ≥ h`, each with its
votes unchanged and stored under its current identity hash, and no other
entry: every entry of the new map is such a proposal under its hash, every
such proposal has its hash among the new keys, and it is itself the entry
there when no other such proposal has the same hash. When the previous map
held each proposal under its identity hash, the new map has exactly the
previous keys of these proposals, each with its proposal. The votes are those
of the previous map, or (possible only on a masternode node in budget mode
"auto" with an initialised active masternode and `h > 0`, when the auto-check
of a finalized budget has run `GetBudget` first) those votes with their
validity flags re-set by `CleanAndRemove`; a proposal which, on these votes,
has yeas 5 and nays 17 on a network of 100 enabled masternodes is removed: it
is under no key of the new map. -/
theorem CheckAndRemove_proposals (env : Env) (rand : uint256 → Int) (s : Globals)
    (hsafe : ∀ a ∈ env.GetActiveMasternodes,
      a.vin = none → env.GetKeysFromSecret a.strMasterNodePrivKey = false)
    (hwp : s.budget.mapProposals.WF)
    (hwf : s.budget.mapFinalizedBudgets.WF)
    (hkf : ∀ e ∈ s.budget.mapFinalizedBudgets, e.2.GetHash env = e.1) :
    ∃ s2 b, CheckAndRemove env rand s = some s2 ∧
      (b = true → env.fMasterNode = true ∧ env.strBudgetMode = "auto" ∧
        env.activeMasternodeVin ≠ none ∧ 0 < s.budget.GetBestHeight) ∧
      (∀ j p2, s2.budget.mapProposals.find j = some p2 →
        ∃ k p, s.budget.mapProposals.find k = some p ∧ p.GetHash env = j ∧
          (if b then p.CleanAndRemove env else p).GetNays -
            (if b then p.CleanAndRemove env else p).GetYeas ≤ env.CountEnabled.tdiv 10 ∧
          p.nBlockEnd ≥ s.budget.GetBestHeight ∧
          p2.mapVotes = (if b then p.CleanAndRemove env else p).mapVotes ∧
          { p2 with nAlloted := 0, fValid := true, strInvalid := "" } =
            { (if b then p.CleanAndRemove env else p) with
              nAlloted := 0, fValid := true, strInvalid := "" }) ∧
      (∀ k p, s.budget.mapProposals.find k = some p →
        (if b then p.CleanAndRemove env else p).GetNays -
          (if b then p.CleanAndRemove env else p).GetYeas ≤ env.CountEnabled.tdiv 10 →
        p.nBlockEnd ≥ s.budget.GetBestHeight →
        (s2.budget.mapProposals.find (p.GetHash env)).isSome = true ∧
        ((∀ k1 p1, s.budget.mapProposals.find k1 = some p1 →
            (if b then p1.CleanAndRemove env else p1).GetNays -
              (if b then p1.CleanAndRemove env else p1).GetYeas ≤ env.CountEnabled.tdiv 10 →
            p1.nBlockEnd ≥ s.budget.GetBestHeight →
            p1.GetHash env = p.GetHash env → k1 = k) →
          ∃ p2, s2.budget.mapProposals.find (p.GetHash env) = some p2 ∧
            p2.mapVotes = (if b then p.CleanAndRemove env else p).mapVotes ∧
            { p2 with nAlloted := 0, fValid := true, strInvalid := "" } =
              { (if b then p.CleanAndRemove env else p) with
                nAlloted := 0, fValid := true, strInvalid := "" })) ∧
      (∀ k p, s.budget.mapProposals.find k = some p →
        (if b then p.CleanAndRemove env else p).GetYeas = 5 →
        (if b then p.CleanAndRemove env else p).GetNays = 17 →
        env.CountEnabled = 100 →
        ∀ j p2, s2.budget.mapProposals.find j = some p2 →
          ({ p2 with nAlloted := 0, fValid := true, strInvalid := "" } : CBudgetProposal) ≠
            { (if b then p.CleanAndRemove env else p) with
              nAlloted := 0, fValid := true, strInvalid := "" }) ∧
      ((∀ e ∈ s.budget.mapProposals, e.2.GetHash env = e.1) →
        (∀ k, (s2.budget.mapProposals.find k).isSome = true ↔
          ∃ p, s.budget.mapProposals.find k = some p ∧
            (if b then p.CleanAndRemove env else p).GetNays -
              (if b then p.CleanAndRemove env else p).GetYeas ≤ env.CountEnabled.tdiv 10 ∧
            p.nBlockEnd ≥ s.budget.GetBestHeight) ∧
        (∀ k p2, s2.budget.mapProposals.find k = some p2 →
          ∃ p, s.budget.mapProposals.find k = some p ∧
            p2.mapVotes = (if b then p.CleanAndRemove env else p).mapVotes ∧
            { p2 with nAlloted := 0, fValid := true, strInvalid := "" } =
              { (if b then p.CleanAndRemove env else p) with
                nAlloted := 0, fValid := true, strInvalid := "" }) ∧
        (∀ k p, s.budget.mapProposals.find k = some p →
          (if b then p.CleanAndRemove env else p).GetYeas = 5 →
          (if b then p.CleanAndRemove env else p).GetNays = 17 →
          env.CountEnabled = 100 → s2.budget.mapProposals.find k = none)) := by
  have hkey0 : ∀ k fb0, s.budget.mapFinalizedBudgets.find k = some fb0 →
      fb0.GetHash env = k :=
    fun k fb0 hf => hkf (k, fb0) (StdMap.mem_of_find _ k fb0 hf)
  have hkept : BudgetsKept s.budget.mapFinalizedBudgets s.budget.mapFinalizedBudgets :=
    fun k fb0 hf => ⟨fb0, hf, rfl, rfl, rfl⟩
  have hnd0 : (StdMap.keys s.budget.mapProposals).Nodup := StdMap.WF_nodup _ hwp
  obtain ⟨s1, tmp1, hres, _, _, _, _, hprop⟩ :=
    budgetsLoop_spec env rand s.budget.GetBestHeight hsafe s.budget.mapFinalizedBudgets hkey0
      s.budget.mapProposals s.budget.nBestHeight s.budget.mapFinalizedBudgets.keys s []
      (StdMap.WF_nodup _ hwf)
      (fun k hk => StdMap.find_isSome_of_mem_keys _ k hk) hkept rfl
  have hrefl : ProposalsRefreshed env false s.budget.mapProposals s.budget.mapProposals :=
    ⟨rfl, fun k p0 hf => ⟨p0.nAlloted, hf⟩⟩
  obtain ⟨b, ⟨hkeys, hfind⟩, hb⟩ := hprop hnd0 false hrefl (fun hf => absurd hf (by decide))
  have hnd1 : (StdMap.keys s1.budget.mapProposals).Nodup := by
    rw [hkeys]
    exact hnd0
  -- every entry the proposal pass meets is an entry of the previous map, refreshed
  have hentry : ∀ k q, s1.budget.mapProposals.find k = some q →
      ∃ p a, s.budget.mapProposals.find k = some p ∧
        q = { (if b then p.CleanAndRemove env else p) with nAlloted := a } := by
    intro k q hq
    have hk : k ∈ StdMap.keys s.budget.mapProposals := by
      rw [← hkeys]
      exact StdMap.mem_keys_of_find _ k q hq
    obtain ⟨p, hp⟩ := StdMap.find_isSome_of_mem_keys _ k hk
    obtain ⟨a, ha⟩ := hfind k p hp
    exact ⟨p, a, hp, Option.some.inj (hq.symm.trans ha)⟩
  have hhash : ∀ (p : CBudgetProposal) (a : CAmount),
      ({ (if b then p.CleanAndRemove env else p) with nAlloted := a } :
        CBudgetProposal).GetHash env = p.GetHash env := by
    intro p a
    cases b <;> rfl
  have hres2 := CheckAndRemove_of_loop env rand s s1 tmp1 hres
  have hvalid : ∀ (p : CBudgetProposal) (a : CAmount),
      (({ (if b then p.CleanAndRemove env else p) with nAlloted := a } :
        CBudgetProposal).UpdateValid env s.budget.GetBestHeight).1 = true ↔
      ((if b then p.CleanAndRemove env else p).GetNays -
          (if b then p.CleanAndRemove env else p).GetYeas ≤ env.CountEnabled.tdiv 10 ∧
        p.nBlockEnd ≥ s.budget.GetBestHeight) := by
    intro p a
    have hn : ({ (if b then p.CleanAndRemove env else p) with nAlloted := a } :
          CBudgetProposal).GetNays -
        ({ (if b then p.CleanAndRemove env else p) with nAlloted := a } :
          CBudgetProposal).GetYeas =
        (if b then p.CleanAndRemove env else p).GetNays -
          (if b then p.CleanAndRemove env else p).GetYeas := rfl
    have he : ({ (if b then p.CleanAndRemove env else p) with nAlloted := a } :
          CBudgetProposal).nBlockEnd = p.nBlockEnd := by
      cases b <;> rfl
    rw [CBudgetProposal.UpdateValid_eq, hn, he]
    by_cases h1 : (if b then p.CleanAndRemove env else p).GetNays -
        (if b then p.CleanAndRemove env else p).GetYeas > env.CountEnabled.tdiv 10
    · simp only [h1, if_true]
      constructor
      · intro hf
        exact absurd hf (by decide)
      · rintro ⟨hle, _⟩
        exact absurd h1 (not_lt.mpr hle)
    · by_cases h2 : p.nBlockEnd < s.budget.GetBestHeight
      · simp only [h1, h2, if_true, if_false]
        constructor
        · intro hf
          exact absurd hf (by decide)
        · rintro ⟨_, hge⟩
          exact absurd h2 (not_lt.mpr hge)
      · simp only [h1, h2, if_false]
        exact ⟨fun _ => ⟨not_lt.mp h1, not_lt.mp h2⟩, fun _ => trivial⟩
  -- an accepted proposal as `UpdateValid` leaves it
  have hform : ∀ q : CBudgetProposal, (q.UpdateValid env s.budget.GetBestHeight).1 = true →
      (q.UpdateValid env s.budget.GetBestHeight).2 =
        { q with fValid := true, strInvalid := "" } := by
    intro q hv
    have hv2 := hv
    rw [CBudgetProposal.UpdateValid_eq] at hv2 ⊢
    by_cases h1 : q.GetNays - q.GetYeas > env.CountEnabled.tdiv 10
    · rw [if_pos h1] at hv2
      exact absurd hv2 Bool.false_ne_true
    · rw [if_neg h1] at hv2 ⊢
      by_cases h2 : q.nBlockEnd < s.budget.GetBestHeight
      · rw [if_pos h2] at hv2
        exact absurd hv2 Bool.false_ne_true
      · rw [if_neg h2]
  -- every entry of the new map
  have hB1 : ∀ j p2, StdMap.find (CheckAndRemove.proposalsLoop env s.budget.GetBestHeight
        s1.budget.mapProposals []) j = some p2 →
      ∃ k p, s.budget.mapProposals.find k = some p ∧ p.GetHash env = j ∧
        (if b then p.CleanAndRemove env else p).GetNays -
          (if b then p.CleanAndRemove env else p).GetYeas ≤ env.CountEnabled.tdiv 10 ∧
        p.nBlockEnd ≥ s.budget.GetBestHeight ∧
        p2.mapVotes = (if b then p.CleanAndRemove env else p).mapVotes ∧
        { p2 with nAlloted := 0, fValid := true, strInvalid := "" } =
          { (if b then p.CleanAndRemove env else p) with
            nAlloted := 0, fValid := true, strInvalid := "" } := by
    intro j p2 hp2
    rcases proposalsLoop_entry env _ _ [] j p2 hp2 with h0 | ⟨e, he, hv, hj, hpe⟩
    · cases h0
    · have hf := StdMap.find_of_mem_nodup _ hnd1 e he
      obtain ⟨p, a, hp, hqe⟩ := hentry e.1 e.2 hf
      have hc : (({ (if b then p.CleanAndRemove env else p) with nAlloted := a } :
          CBudgetProposal).UpdateValid env s.budget.GetBestHeight).1 = true := by
        rw [← hqe]
        exact hv
      obtain ⟨hc1, hc2⟩ := (hvalid p a).mp hc
      refine ⟨e.1, p, hp, ?_, hc1, hc2, ?_, ?_⟩
      · rw [← hj, hqe, hhash]
      · rw [hpe, hform e.2 hv, hqe]
      · rw [hpe, hform e.2 hv, hqe]
  -- every surviving proposal
  have hB2 : ∀ k p, s.budget.mapProposals.find k = some p →
      (if b then p.CleanAndRemove env else p).GetNays -
        (if b then p.CleanAndRemove env else p).GetYeas ≤ env.CountEnabled.tdiv 10 →
      p.nBlockEnd ≥ s.budget.GetBestHeight →
      (StdMap.find (CheckAndRemove.proposalsLoop env s.budget.GetBestHeight
        s1.budget.mapProposals []) (p.GetHash env)).isSome = true := by
    intro k p hp hc1 hc2
    obtain ⟨a, ha⟩ := hfind k p hp
    have hmem := StdMap.mem_of_find _ k _ ha
    have hv := (hvalid p a).mpr ⟨hc1, hc2⟩
    have := proposalsLoop_present env s.budget.GetBestHeight s1.budget.mapProposals []
      (k, { (if b then p.CleanAndRemove env else p) with nAlloted := a }) hmem hv
    rw [hhash] at this
    exact this
  refine ⟨_, b, hres2, ?_, hB1, ?_, ?_, ?_⟩
  · intro hbt
    exact hb hbt
  · intro k p hp hc1 hc2
    refine ⟨hB2 k p hp hc1 hc2, ?_⟩
    intro huniq
    cases hr : StdMap.find (CheckAndRemove.proposalsLoop env s.budget.GetBestHeight
        s1.budget.mapProposals []) (p.GetHash env) with
    | none =>
      have := hB2 k p hp hc1 hc2
      rw [hr] at this
      cases this
    | some p2 =>
      obtain ⟨k1, p1, hp1, hh1, hd1, he1, hv1, hf1⟩ := hB1 _ p2 hr
      have hk1 : k1 = k := huniq k1 p1 hp1 hd1 he1 hh1
      rw [hk1, hp] at hp1
      have hpp : p = p1 := Option.some.inj hp1
      rw [← hpp] at hv1 hf1
      exact ⟨p2, rfl, hv1, hf1⟩
  · intro k p hp hy hn he j p2 hp2 heq
    obtain ⟨k1, p1, _, _, hd1, _, hv1, hf1⟩ := hB1 j p2 hp2
    have hmv : (if b then p1.CleanAndRemove env else p1).mapVotes =
        (if b then p.CleanAndRemove env else p).mapVotes := by
      have h3 := hf1.symm.trans heq
      have h4 := congrArg (fun x : CBudgetProposal => x.mapVotes) h3
      exact h4
    obtain ⟨ty, tn⟩ := tallies_of_mapVotes _ _ hmv
    rw [ty, tn, hy, hn, he] at hd1
    exact absurd hd1 (by decide)
  · intro hkp
    have hiff : ∀ k, (StdMap.find (CheckAndRemove.proposalsLoop env s.budget.GetBestHeight
          s1.budget.mapProposals []) k).isSome = true ↔
        ∃ p, s.budget.mapProposals.find k = some p ∧
          (if b then p.CleanAndRemove env else p).GetNays -
            (if b then p.CleanAndRemove env else p).GetYeas ≤ env.CountEnabled.tdiv 10 ∧
          p.nBlockEnd ≥ s.budget.GetBestHeight := by
      intro k
      constructor
      · intro hs
        cases hr : StdMap.find (CheckAndRemove.proposalsLoop env s.budget.GetBestHeight
            s1.budget.mapProposals []) k with
        | none =>
          rw [hr] at hs
          cases hs
        | some p2 =>
          obtain ⟨k1, p1, hp1, hh1, hd1, he1, _, _⟩ := hB1 k p2 hr
          have hk1 : k1 = k := by
            rw [← hh1]
            exact (hkp (k1, p1) (StdMap.mem_of_find _ k1 p1 hp1)).symm
          rw [hk1] at hp1
          exact ⟨p1, hp1, hd1, he1⟩
      · rintro ⟨p, hp, hc1, hc2⟩
        have := hB2 k p hp hc1 hc2
        rw [hkp (k, p) (StdMap.mem_of_find _ k p hp)] at this
        exact this
    refine ⟨hiff, ?_, ?_⟩
    · intro k p2 hp2
      obtain ⟨k1, p1, hp1, hh1, _, _, hv1, hf1⟩ := hB1 k p2 hp2
      have hk1 : k1 = k := by
        rw [← hh1]
        exact (hkp (k1, p1) (StdMap.mem_of_find _ k1 p1 hp1)).symm
      rw [hk1] at hp1
      exact ⟨p1, hp1, hv1, hf1⟩
    · intro k p hp hy hn he
      have hnot : ¬ (StdMap.find (CheckAndRemove.proposalsLoop env s.budget.GetBestHeight
          s1.budget.mapProposals []) k).isSome = true := by
        rw [hiff k]
        rintro ⟨p1, hp1, hle, _⟩
        have hpp : p = p1 := Option.some.inj (hp.symm.trans hp1)
        rw [← hpp, hy, hn, he] at hle
        exact absurd hle (by decide)
      show StdMap.find (CheckAndRemove.proposalsLoop env s.budget.GetBestHeight
          s1.budget.mapProposals []) k = none
      cases hr : StdMap.find (CheckAndRemove.proposalsLoop env s.budget.GetBestHeight
          s1.budget.mapProposals []) k with
      | none => rfl
      | some x =>
        rw [hr] at hnot
        exact absurd rfl hnot

end CBudgetManager

end Budget

namespace Budget

namespace CBudgetManager

/-- C21 witness (scenario "heavy downvote"): on the plain node `exampleEnv`
(not a masternode, 100 enabled masternodes) the proposal with yeas 5 and nays
17 is gone after `CheckAndRemove()`. And on the node `exampleEnvTimed`, whose
identity hash covers the creation time, proposal A was added under the hash
`3000000601` it had when submitted and has the hash `3000990601` since
`AddProposal` set its creation time: after `CheckAndRemove()` it is in the map
under `3000990601`. -/
theorem CheckAndRemove_proposals_witness :
    exampleGlobalsDown.budget.mapProposals.WF ∧
    (∀ e ∈ exampleGlobalsDown.budget.mapProposals, e.2.GetHash exampleEnv = e.1) ∧
    exampleGlobalsDown.budget.mapFinalizedBudgets.WF ∧
    (∀ e ∈ exampleGlobalsDown.budget.mapFinalizedBudgets, e.2.GetHash exampleEnv = e.1) ∧
    exampleGlobalsDown.budget.mapProposals.find 3000000601 = some exampleProposalDown ∧
    (∃ s2, CheckAndRemove exampleEnv (fun _ => 0) exampleGlobalsDown = some s2 ∧
      s2.budget.mapProposals.find 3000000601 = none) ∧
    exampleGlobalsRekeyed.budget.mapProposals =
      [(3000000601, { exampleProposalNew with nTime := 990000 })] ∧
    ({ exampleProposalNew with nTime := 990000 } : CBudgetProposal).GetHash exampleEnvTimed =
      3000990601 ∧
    (∃ s2, CheckAndRemove exampleEnvTimed (fun _ => 0) exampleGlobalsRekeyed = some s2 ∧
      (s2.budget.mapProposals.find 3000990601).isSome = true) := by
  refine ⟨by decide, by decide, by decide, by decide, by decide, ?_, by decide, by decide, ?_⟩
  · obtain ⟨s2, b, h1, hb, _, _, _, hkeyed⟩ :=
      CheckAndRemove_proposals exampleEnv (fun _ => 0) exampleGlobalsDown
        (by decide) (by decide) (by decide) (by decide)
    refine ⟨s2, h1, ?_⟩
    cases b with
    | true =>
      have hm := (hb rfl).1
      exact absurd hm (by decide)
    | false =>
      exact (hkeyed (by decide)).2.2 3000000601 exampleProposalDown (by decide) (by decide)
        (by decide) (by decide)
  · obtain ⟨s2, b, h1, hb, _, hsurv, _, _⟩ :=
      CheckAndRemove_proposals exampleEnvTimed (fun _ => 0) exampleGlobalsRekeyed
        (by decide) (by decide) (by decide) (by decide)
    refine ⟨s2, h1, ?_⟩
    cases b with
    | true =>
      have hm := (hb rfl).1
      exact absurd hm (by decide)
    | false =>
      exact (hsurv 3000000601 { exampleProposalNew with nTime := 990000 } (by decide)
        (by decide) (by decide)).1

end CBudgetManager

end Budget

/-! ## Rejected votes, stale payment records, tallies and payment counts -/

namespace Budget

/-- The rejection rule of a vote intake: the stored vote of the voter is
younger, or less than the minimum update interval older, or the vote is more
than an hour ahead of the clock. -/
theorem voteIntake_reject_iff {V : Type} (updateMin now : Int) (time : V → Int)
    (m : StdMap V) (hash : uint256) (vote : V) :
    (voteIntake updateMin now time m hash vote).1 = false ↔
      ((∃ old, m.find hash = some old ∧
          (time old > time vote ∨ wrapInt64 (time vote - time old) < updateMin)) ∨
        time vote > now + 60 * 60) := by
  cases hf : m.find hash with
  | none =>
    rw [voteIntake_of_none updateMin now time m hash vote hf]
    by_cases h1 : time vote > now + 60 * 60
    · rw [if_pos h1]
      simp only [true_iff]
      exact Or.inr h1
    · rw [if_neg h1]
      simp only [Bool.true_eq_false, false_iff]
      rintro (⟨old, ho, _⟩ | hc)
      · cases ho
      · exact h1 hc
  | some old =>
    rw [voteIntake_of_some updateMin now time m hash vote old hf]
    by_cases h1 : time old > time vote
    · rw [if_pos h1]
      simp only [true_iff]
      exact Or.inl ⟨old, rfl, Or.inl h1⟩
    · rw [if_neg h1]
      by_cases h2 : wrapInt64 (time vote - time old) < updateMin
      · rw [if_pos h2]
        simp only [true_iff]
        exact Or.inl ⟨old, rfl, Or.inr h2⟩
      · rw [if_neg h2]
        by_cases h3 : time vote > now + 60 * 60
        · rw [if_pos h3]
          simp only [true_iff]
          exact Or.inr h3
        · rw [if_neg h3]
          simp only [Bool.true_eq_false, false_iff]
          rintro (⟨o, ho, hc⟩ | hc)
          · have heq : old = o := Option.some.inj ho
            subst heq
            rcases hc with hc | hc
            · exact h1 hc
            · exact h2 hc
          · exact h3 hc

/-- C36: `AddOrUpdateVote` on a proposal, and on a finalized budget, returns
false exactly when the voter's stored vote is younger than the new one (stale
vote), or the `int64_t` difference of the two timestamps is less than
`BUDGET_VOTE_UPDATE_MIN` (update too soon), or the new timestamp is more than
an hour ahead of the clock; and whenever it returns false the object, hence
its vote map, is exactly as before the call: the stored vote of that voter, if
any, is kept and no entry is created. -/
theorem AddOrUpdateVote_rejected_keeps (env : Env) (p : CBudgetProposal) (v : CBudgetVote)
    (fb : CFinalizedBudget) (fv : CFinalizedBudgetVote) :
    (((p.AddOrUpdateVote env v).1 = false ↔
        ((∃ old, p.mapVotes.find v.vin.prevout.GetHash = some old ∧
            (old.nTime > v.nTime ∨
              wrapInt64 (v.nTime - old.nTime) < env.BUDGET_VOTE_UPDATE_MIN)) ∨
          v.nTime > env.GetTime + 60 * 60)) ∧
      ((p.AddOrUpdateVote env v).1 = false →
        (p.AddOrUpdateVote env v).2 = p ∧
        (p.AddOrUpdateVote env v).2.mapVotes = p.mapVotes ∧
        (p.AddOrUpdateVote env v).2.mapVotes.find v.vin.prevout.GetHash =
          p.mapVotes.find v.vin.prevout.GetHash)) ∧
    (((fb.AddOrUpdateVote env fv).1 = false ↔
        ((∃ old, fb.mapVotes.find fv.vin.prevout.GetHash = some old ∧
            (old.nTime > fv.nTime ∨
              wrapInt64 (fv.nTime - old.nTime) < env.BUDGET_VOTE_UPDATE_MIN)) ∨
          fv.nTime > env.GetTime + 60 * 60)) ∧
      ((fb.AddOrUpdateVote env fv).1 = false →
        (fb.AddOrUpdateVote env fv).2 = fb ∧
        (fb.AddOrUpdateVote env fv).2.mapVotes = fb.mapVotes ∧
        (fb.AddOrUpdateVote env fv).2.mapVotes.find fv.vin.prevout.GetHash =
          fb.mapVotes.find fv.vin.prevout.GetHash)) := by
  refine ⟨⟨?_, ?_⟩, ⟨?_, ?_⟩⟩
  · rw [proposal_AddOrUpdateVote_eq]
    exact voteIntake_reject_iff _ _ _ _ _ _
  · intro h
    rw [CBudgetManager.proposal_AddOrUpdateVote_snd_false env p v h]
    exact ⟨rfl, rfl, rfl⟩
  · rw [finalized_AddOrUpdateVote_eq]
    exact voteIntake_reject_iff _ _ _ _ _ _
  · intro h
    rw [CBudgetManager.finalized_AddOrUpdateVote_snd_false env fb fv h]
    exact ⟨rfl, rfl, rfl⟩

/-- C36 witness: proposal A holds the vote of voter `(0, 0)` cast at 5000; a
vote of that voter cast at 4000 is stale, and a vote on the example budget cast
at 1003601 is more than an hour ahead of the clock at 1000000: both calls
return false and leave the object as it was. -/
theorem AddOrUpdateVote_rejected_keeps_witness :
    (exampleProposalA.AddOrUpdateVote exampleEnv (exampleVoteAt 4000)).1 = false ∧
    (exampleProposalA.AddOrUpdateVote exampleEnv (exampleVoteAt 4000)).2 = exampleProposalA ∧
    (exampleBudget.AddOrUpdateVote exampleEnv (exampleBudgetVoteAt 1003601)).1 = false ∧
    (exampleBudget.AddOrUpdateVote exampleEnv (exampleBudgetVoteAt 1003601)).2 = exampleBudget :=
  ⟨by decide,
   ((AddOrUpdateVote_rejected_keeps exampleEnv exampleProposalA (exampleVoteAt 4000)
      exampleBudget (exampleBudgetVoteAt 1003601)).1.2 (by decide)).1,
   by decide,
   ((AddOrUpdateVote_rejected_keeps exampleEnv exampleProposalA (exampleVoteAt 4000)
      exampleBudget (exampleBudgetVoteAt 1003601)).2.2 (by decide)).1⟩

namespace StdMap

variable {V : Type}

/-- An erase loop keeps the entry found under `k` when that entry is not one
of those it drops. -/
theorem find_eraseIf_keep (m : StdMap V) (drop : uint256 → V → Bool) (k : uint256) (v : V)
    (hf : find m k = some v) (hk : drop k v = false) : find (eraseIf m drop) k = some v := by
  induction m with
  | nil => simp [find] at hf
  | cons e t ih =>
    obtain ⟨k0, v0⟩ := e
    unfold find at hf
    by_cases h0 : k0 = k
    · rw [if_pos h0] at hf
      have hv : v0 = v := Option.some.inj hf
      subst h0
      subst hv
      unfold eraseIf
      simp only [List.filter_cons, hk, Bool.not_false, if_true]
      unfold find
      rw [if_pos rfl]
    · rw [if_neg h0] at hf
      have ih2 := ih hf
      unfold eraseIf at ih2 ⊢
      cases hd : drop k0 v0 with
      | false =>
        simp only [List.filter_cons, hd, Bool.not_false, if_true]
        unfold find
        rw [if_neg h0]
        exact ih2
      | true =>
        simp only [List.filter_cons, hd, Bool.not_true, Bool.false_eq_true, if_false]
        exact ih2

end StdMap

namespace CFinalizedBudget

/-- An entry of the payment history whose height lies in the budget's range
survives the erase loop of `IsPaidAlready`. -/
theorem prunedHistory_find_in_range (fb : CFinalizedBudget) (ph : uint256) (paid : uint256 × Int)
    (hrec : fb.mapPayment_History.find ph = some paid)
    (hin : fb.nBlockStart ≤ paid.2 ∧ paid.2 ≤ fb.GetBlockEnd) :
    fb.prunedHistory.find ph = some paid := by
  unfold prunedHistory
  apply StdMap.find_eraseIf_keep _ _ _ _ hrec
  have h1 : ¬ paid.2 < fb.nBlockStart := not_lt.mpr hin.1
  have h2 : ¬ paid.2 > fb.GetBlockEnd := not_lt.mpr hin.2
  simp [h1, h2]

/-- C38: in `CFinalizedBudget::IsPaidAlready`, when the proposal is recorded
(for a height within the budget's range, the only entries the call's erase
loop keeps) under a block hash different from the one being checked, and the
recorded block is unknown to the block index or not on the active chain, the
call returns false and the entry of the proposal is the recorded one as before:
the recorded block hash is not replaced by the block being checked. -/
theorem IsPaidAlready_stale_block (env : Env) (fb : CFinalizedBudget) (ph bh : uint256) (h : Int)
    (paid : uint256 × Int)
    (hrec : fb.mapPayment_History.find ph = some paid)
    (hin : fb.nBlockStart ≤ paid.2 ∧ paid.2 ≤ fb.GetBlockEnd)
    (hne : bh ≠ paid.1)
    (hoff : ∀ pindex, env.mapBlockIndex paid.1 = some pindex →
      env.chainActiveContains pindex = false) :
    (fb.IsPaidAlready env ph bh h).1 = false ∧
    (fb.IsPaidAlready env ph bh h).2.mapPayment_History.find ph = some paid ∧
    (fb.IsPaidAlready env ph bh h).2.mapPayment_History.find ph ≠ some (bh, h) ∧
    (fb.IsPaidAlready env ph bh h).2 = { fb with mapPayment_History := fb.prunedHistory } := by
  have hp := prunedHistory_find_in_range fb ph paid hrec hin
  rw [IsPaidAlready_of_some env fb ph bh h paid hp, if_pos hne]
  refine ⟨?_, hp, ?_, rfl⟩
  · cases hidx : env.mapBlockIndex paid.1 with
    | none => rfl
    | some pindex => exact hoff pindex hidx
  · show fb.prunedHistory.find ph ≠ some (bh, h)
    rw [hp]
    intro hc
    have h2 : paid = (bh, h) := Option.some.inj hc
    apply hne
    rw [h2]

/-- C38 witness: the payment to proposal `7` is recorded in block `12`, which
the block index knows but the active chain does not contain; checking block
`11` at height 200 returns false and leaves the whole budget as it was. -/
theorem IsPaidAlready_stale_block_witness :
    (exampleBudgetStale.IsPaidAlready exampleEnv 7 11 200).1 = false ∧
    (exampleBudgetStale.IsPaidAlready exampleEnv 7 11 200).2.mapPayment_History.find 7 =
      some (12, 200) ∧
    (exampleBudgetStale.IsPaidAlready exampleEnv 7 11 200).2 = exampleBudgetStale :=
  ⟨(IsPaidAlready_stale_block exampleEnv exampleBudgetStale 7 11 200 (12, 200)
      (by decide) (by decide) (by decide) (by decide)).1,
   (IsPaidAlready_stale_block exampleEnv exampleBudgetStale 7 11 200 (12, 200)
      (by decide) (by decide) (by decide) (by decide)).2.1,
   by decide⟩

end CFinalizedBudget

namespace CBudgetProposal

/-- C39: with a masternode count `mn >= 0` used for both tests,
`IsHeavilyDownvoted()` is true iff `nays - yeas > mn/10`, it is never true
together with the vote condition `yeas - nays > mn/10` of `IsPassing`, hence
never together with `IsPassing`, and whenever `|yeas - nays| <= mn/10` both
`IsHeavilyDownvoted()` and the vote condition (and `IsPassing`) are false. -/
theorem IsHeavilyDownvoted_excludes_passing (env : Env) (p : CBudgetProposal) (bs be : Int)
    (hmn : 0 ≤ env.CountEnabled) :
    ((p.IsHeavilyDownvoted env).1 = true ↔ p.GetNays - p.GetYeas > env.CountEnabled.tdiv 10) ∧
    ¬ ((p.IsHeavilyDownvoted env).1 = true ∧
        p.GetYeas - p.GetNays > env.CountEnabled.tdiv 10) ∧
    ¬ ((p.IsHeavilyDownvoted env).1 = true ∧ p.IsPassing env bs be env.CountEnabled = true) ∧
    (|p.GetYeas - p.GetNays| ≤ env.CountEnabled.tdiv 10 →
      (p.IsHeavilyDownvoted env).1 = false ∧
      ¬ p.GetYeas - p.GetNays > env.CountEnabled.tdiv 10 ∧
      p.IsPassing env bs be env.CountEnabled = false) := by
  have h10 : 0 ≤ env.CountEnabled.tdiv 10 := Int.tdiv_nonneg hmn (by norm_num)
  have hd : (p.IsHeavilyDownvoted env).1 = true ↔
      p.GetNays - p.GetYeas > env.CountEnabled.tdiv 10 := by
    unfold IsHeavilyDownvoted
    by_cases hc : p.GetNays - p.GetYeas > env.CountEnabled.tdiv 10
    · rw [if_pos hc]
      simp [hc]
    · rw [if_neg hc]
      simp [hc]
  have hpass : p.IsPassing env bs be env.CountEnabled = true →
      p.GetYeas - p.GetNays > env.CountEnabled.tdiv 10 := by
    intro hp
    by_contra hc
    have hle : p.GetYeas - p.GetNays ≤ env.CountEnabled.tdiv 10 := not_lt.mp hc
    unfold IsPassing at hp
    simp [hle] at hp
  generalize env.CountEnabled.tdiv 10 = t at h10 hd hpass ⊢
  generalize p.GetYeas = y at hd hpass ⊢
  generalize p.GetNays = n at hd hpass ⊢
  refine ⟨hd, ?_, ?_, ?_⟩
  · rintro ⟨h1, h2⟩
    have h3 := hd.mp h1
    omega
  · rintro ⟨h1, h2⟩
    have h3 := hd.mp h1
    have h4 := hpass h2
    omega
  · intro habs
    obtain ⟨ha, hb⟩ := abs_le.mp habs
    refine ⟨?_, by omega, ?_⟩
    · cases hx : (p.IsHeavilyDownvoted env).1 with
      | false => rfl
      | true =>
        have h3 := hd.mp hx
        omega
    · cases hx : p.IsPassing env bs be env.CountEnabled with
      | false => rfl
      | true =>
        have h4 := hpass hx
        omega

/-- C39 witness: with 100 enabled masternodes, the proposal with 5 yes and 17
no votes is heavily downvoted (12 > 10) and not passing; proposal A, with 20
yes votes, is passing and not heavily downvoted. -/
theorem IsHeavilyDownvoted_excludes_passing_witness :
    (exampleProposalDown.IsHeavilyDownvoted exampleEnv).1 = true ∧
    exampleProposalDown.IsPassing exampleEnv 200 399 exampleEnv.CountEnabled = false ∧
    exampleProposalA.IsPassing exampleEnv 200 399 exampleEnv.CountEnabled = true ∧
    ¬ ((exampleProposalA.IsHeavilyDownvoted exampleEnv).1 = true ∧
        exampleProposalA.IsPassing exampleEnv 200 399 exampleEnv.CountEnabled = true) :=
  ⟨by decide, by decide, by decide,
   (IsHeavilyDownvoted_excludes_passing exampleEnv exampleProposalA 200 399 (by decide)).2.2.1⟩

end CBudgetProposal

end Budget

/-! ## The statuses of the manager's transaction check -/

namespace Budget

open TrxValidationStatus

namespace CBudgetManager

/-- On a budget payment block the manager's check is the result of its loop
over the finalized budgets. -/
theorem IsTransactionValid_of_payment_block (env : Env) (m : CBudgetManager) (tx : CTransaction)
    (bh : uint256) (h : Int) (hb : (m.IsBudgetPaymentBlock env h).1 = true) :
    (m.IsTransactionValid env tx bh h).1 =
      (IsTransactionValid.loop env tx bh h (m.IsBudgetPaymentBlock env h).2
        m.mapFinalizedBudgets false).1 := by
  simp [IsTransactionValid, hb]

/-- Off a budget payment block the manager's check is `InValid`. -/
theorem IsTransactionValid_of_no_payment_block (env : Env) (m : CBudgetManager)
    (tx : CTransaction) (bh : uint256) (h : Int) (hb : (m.IsBudgetPaymentBlock env h).1 = false) :
    (m.IsTransactionValid env tx bh h).1 = InValid := by
  simp [IsTransactionValid, hb]

/-- On a budget payment block, with a non-negative masternode count, the
budget `GetBudgetWithHighestVoteCount` returns has more votes than the
threshold. -/
theorem IsBudgetPaymentBlock_highest_crosses (env : Env) (m : CBudgetManager) (h : Int)
    (hE : 0 ≤ env.CountEnabled) (hb : (m.IsBudgetPaymentBlock env h).1 = true) :
    ∃ fb, m.GetBudgetWithHighestVoteCount h = some fb ∧
      fb.GetVoteCount > env.CountEnabled.tdiv 20 ∧
      fb.GetVoteCount > (m.IsBudgetPaymentBlock env h).2 := by
  have h20 : 0 ≤ env.CountEnabled.tdiv 20 := Int.tdiv_nonneg hE (by norm_num)
  have h10 : 0 ≤ env.CountEnabled.tdiv 10 := Int.tdiv_nonneg hE (by norm_num)
  unfold IsBudgetPaymentBlock GetHighestVoteCount at hb ⊢
  dsimp only at hb ⊢
  generalize env.CountEnabled.tdiv 20 = t20 at h20 hb ⊢
  generalize env.CountEnabled.tdiv 10 = t10 at h10 hb ⊢
  cases hg : m.GetBudgetWithHighestVoteCount h with
  | none =>
    rw [hg] at hb
    simp only [decide_eq_true_eq] at hb
    omega
  | some fb =>
    rw [hg] at hb
    simp only [decide_eq_true_eq] at hb
    refine ⟨fb, rfl, hb, ?_⟩
    dsimp only
    generalize fb.GetVoteCount = n at hb ⊢
    by_cases hc : n - t10 = n
    · rw [if_pos hc]
      omega
    · rw [if_neg hc]
      omega

/-- C32: with a non-negative count of enabled masternodes,
`CBudgetManager::IsTransactionValid` never returns `VoteThreshold`: whenever
`IsBudgetPaymentBlock(height)` is true, the finalized budget with the highest
vote count covering the height is an entry of the map whose vote count is
strictly greater than the computed threshold, so at least one budget crosses
the threshold and the result is `Valid` or `InValid`. -/
theorem IsTransactionValid_never_VoteThreshold (env : Env) (m : CBudgetManager)
    (tx : CTransaction) (bh : uint256) (h : Int) (hE : 0 ≤ env.CountEnabled) :
    (m.IsTransactionValid env tx bh h).1 ≠ VoteThreshold ∧
    ((m.IsBudgetPaymentBlock env h).1 = true →
      ∃ fb, m.GetBudgetWithHighestVoteCount h = some fb ∧
        (∃ e ∈ m.mapFinalizedBudgets, e.2 = fb) ∧
        fb.nBlockStart ≤ h ∧ h ≤ fb.GetBlockEnd ∧
        fb.GetVoteCount > (m.IsBudgetPaymentBlock env h).2 ∧
        ((m.IsTransactionValid env tx bh h).1 = Valid ∨
          (m.IsTransactionValid env tx bh h).1 = InValid)) := by
  have key : (m.IsBudgetPaymentBlock env h).1 = true →
      ∃ fb, m.GetBudgetWithHighestVoteCount h = some fb ∧
        (∃ e ∈ m.mapFinalizedBudgets, e.2 = fb) ∧
        fb.nBlockStart ≤ h ∧ h ≤ fb.GetBlockEnd ∧
        fb.GetVoteCount > (m.IsBudgetPaymentBlock env h).2 ∧
        (m.IsTransactionValid env tx bh h).1 ≠ VoteThreshold := by
    intro hb
    obtain ⟨fb, hfb, _, hcross⟩ := IsBudgetPaymentBlock_highest_crosses env m h hE hb
    obtain ⟨⟨e, he, hef⟩, _, g3, g4, _⟩ := GetBudgetWithHighestVoteCount_spec m h fb hfb
    refine ⟨fb, hfb, ⟨e, he, hef⟩, g3, g4, hcross, ?_⟩
    rw [IsTransactionValid_of_payment_block env m tx bh h hb]
    intro hvt
    obtain ⟨_, _, i3, _⟩ := IsTransactionValid_loop_status env tx bh h
      (m.IsBudgetPaymentBlock env h).2 m.mapFinalizedBudgets false
    have hall := (i3.mp hvt).2 e he
    rw [hef] at hall
    exact hall hcross
  have hdp : (m.IsTransactionValid env tx bh h).1 ≠ DoublePayment := by
    cases hb : (m.IsBudgetPaymentBlock env h).1 with
    | false =>
      rw [IsTransactionValid_of_no_payment_block env m tx bh h hb]
      intro hc
      cases hc
    | true =>
      rw [IsTransactionValid_of_payment_block env m tx bh h hb]
      exact (IsTransactionValid_loop_status env tx bh h
        (m.IsBudgetPaymentBlock env h).2 m.mapFinalizedBudgets false).2.2.2
  constructor
  · cases hb : (m.IsBudgetPaymentBlock env h).1 with
    | false =>
      rw [IsTransactionValid_of_no_payment_block env m tx bh h hb]
      intro hc
      cases hc
    | true =>
      obtain ⟨_, _, _, _, _, _, hne⟩ := key hb
      exact hne
  · intro hb
    obtain ⟨fb, hfb, hmem, g3, g4, hcross, hne⟩ := key hb
    refine ⟨fb, hfb, hmem, g3, g4, hcross, ?_⟩
    cases hr : (m.IsTransactionValid env tx bh h).1 with
    | InValid => exact Or.inr rfl
    | Valid => exact Or.inl rfl
    | DoublePayment => exact absurd hr hdp
    | VoteThreshold => exact absurd hr hne

/-- C32 witness: for the example manager (one budget with twenty votes
covering block 200, threshold 10) on 100 enabled masternodes, block 200 is a
budget payment block and the check of `exampleTx` is `Valid`. -/
theorem IsTransactionValid_never_VoteThreshold_witness :
    (0 : Int) ≤ exampleEnv.CountEnabled ∧
    (exampleManager.IsBudgetPaymentBlock exampleEnv 200).1 = true ∧
    (exampleManager.IsTransactionValid exampleEnv exampleTx 11 200).1 = Valid ∧
    (exampleManager.IsTransactionValid exampleEnv exampleTx 11 200).1 ≠ VoteThreshold :=
  ⟨by decide, by decide, by decide,
   (IsTransactionValid_never_VoteThreshold exampleEnv exampleManager exampleTx 11 200
      (by decide)).1⟩

/-- C33: `CBudgetManager::IsTransactionValid` never returns `DoublePayment`.
In its loop, a budget above the threshold whose per-entity
`IsTransactionValid` reports `DoublePayment` is treated like any non-`Valid`
result: the loop goes on with the remaining budgets (with `fThreshold` set);
and whenever a budget of the map above the threshold reports `DoublePayment`,
the manager returns `Valid` (some other budget above the threshold validates
the transaction) or `InValid`. -/
theorem IsTransactionValid_never_DoublePayment (env : Env) (m : CBudgetManager)
    (tx : CTransaction) (bh : uint256) (h : Int) :
    (m.IsTransactionValid env tx bh h).1 ≠ DoublePayment ∧
    (∀ (thr : Int) (k : uint256) (fb : CFinalizedBudget) (rest : StdMap CFinalizedBudget)
        (fThreshold : Bool),
      fb.GetVoteCount > thr → (fb.IsTransactionValid env tx bh h).1 = DoublePayment →
      IsTransactionValid.loop env tx bh h thr ((k, fb) :: rest) fThreshold =
        ((IsTransactionValid.loop env tx bh h thr rest true).1,
         (k, (fb.IsTransactionValid env tx bh h).2) ::
           (IsTransactionValid.loop env tx bh h thr rest true).2)) ∧
    (∀ e ∈ m.mapFinalizedBudgets, e.2.GetVoteCount > (m.IsBudgetPaymentBlock env h).2 →
      (e.2.IsTransactionValid env tx bh h).1 = DoublePayment →
      ((m.IsTransactionValid env tx bh h).1 = Valid ∨
        (m.IsTransactionValid env tx bh h).1 = InValid) ∧
      ((m.IsTransactionValid env tx bh h).1 = Valid →
        ∃ e2 ∈ m.mapFinalizedBudgets, e2 ≠ e ∧
          e2.2.GetVoteCount > (m.IsBudgetPaymentBlock env h).2 ∧
          (e2.2.IsTransactionValid env tx bh h).1 = Valid)) := by
  have hdp : (m.IsTransactionValid env tx bh h).1 ≠ DoublePayment := by
    cases hb : (m.IsBudgetPaymentBlock env h).1 with
    | false =>
      rw [IsTransactionValid_of_no_payment_block env m tx bh h hb]
      intro hc
      cases hc
    | true =>
      rw [IsTransactionValid_of_payment_block env m tx bh h hb]
      exact (IsTransactionValid_loop_status env tx bh h
        (m.IsBudgetPaymentBlock env h).2 m.mapFinalizedBudgets false).2.2.2
  refine ⟨hdp, ?_, ?_⟩
  · intro thr k fb rest fThreshold hv hd
    have hnv : ¬ (fb.IsTransactionValid env tx bh h).1 = Valid := by
      rw [hd]
      intro hc
      cases hc
    rw [IsTransactionValid.loop, if_pos hv]
    dsimp only
    rw [if_neg hnv]
  · intro e he hv hd
    cases hb : (m.IsBudgetPaymentBlock env h).1 with
    | false =>
      rw [IsTransactionValid_of_no_payment_block env m tx bh h hb]
      refine ⟨Or.inr rfl, ?_⟩
      intro hc
      cases hc
    | true =>
      rw [IsTransactionValid_of_payment_block env m tx bh h hb]
      obtain ⟨i1, _, i3, i4⟩ := IsTransactionValid_loop_status env tx bh h
        (m.IsBudgetPaymentBlock env h).2 m.mapFinalizedBudgets false
      constructor
      · cases hr : (IsTransactionValid.loop env tx bh h (m.IsBudgetPaymentBlock env h).2
            m.mapFinalizedBudgets false).1 with
        | InValid => exact Or.inr rfl
        | Valid => exact Or.inl rfl
        | DoublePayment => exact absurd hr i4
        | VoteThreshold => exact absurd hv ((i3.mp hr).2 e he)
      · intro hval
        obtain ⟨e2, he2, hv2, hok⟩ := i1.mp hval
        refine ⟨e2, he2, ?_, hv2, hok⟩
        intro heq
        rw [heq, hd] at hok
        cases hok

/-- C33 witness: the budget of `exampleManagerPaid` has twenty votes (above
the threshold 10) and records proposal `7` as paid in block `11` of the active
chain; for block `12` at height 200 its own check reports `DoublePayment`, and
the manager returns `InValid`. -/
theorem IsTransactionValid_never_DoublePayment_witness :
    (exampleBudgetPaid.IsTransactionValid exampleEnv exampleTx 12 200).1 = DoublePayment ∧
    (exampleManagerPaid.IsTransactionValid exampleEnv exampleTx 12 200).1 = InValid ∧
    (exampleManagerPaid.IsTransactionValid exampleEnv exampleTx 12 200).1 ≠ DoublePayment :=
  ⟨by decide, by decide,
   (IsTransactionValid_never_DoublePayment exampleEnv exampleManagerPaid exampleTx 12 200).1⟩

/-- When `GetPayeeAndAmount(h)` succeeds, `IsBudgetPaymentBlock(h)` is true
exactly when the highest-vote budget covering `h` has more than `E / 20`
votes, and false exactly when it has `E / 20` votes. -/
theorem GetPayeeAndAmount_payment_block (env : Env) (m : CBudgetManager) (h : Int)
    (payee0 : CScript) (amount0 : CAmount)
    (hok : (m.GetPayeeAndAmount env h payee0 amount0).1 = true) :
    ∃ fb, m.GetBudgetWithHighestVoteCount h = some fb ∧
      env.CountEnabled.tdiv 20 ≠ 0 ∧ fb.GetVoteCount ≥ env.CountEnabled.tdiv 20 ∧
      ((m.IsBudgetPaymentBlock env h).1 = true ↔ fb.GetVoteCount > env.CountEnabled.tdiv 20) ∧
      ((m.IsBudgetPaymentBlock env h).1 = false ↔ fb.GetVoteCount = env.CountEnabled.tdiv 20) := by
  unfold GetPayeeAndAmount at hok
  cases hg : m.GetBudgetWithHighestVoteCount h with
  | none =>
    rw [hg] at hok
    exact absurd hok Bool.false_ne_true
  | some fb =>
    rw [hg] at hok
    dsimp only at hok
    by_cases hguard : env.CountEnabled.tdiv 20 = 0 ∨ fb.GetVoteCount < env.CountEnabled.tdiv 20
    · rw [if_pos hguard] at hok
      exact absurd hok Bool.false_ne_true
    · have h1 : env.CountEnabled.tdiv 20 ≠ 0 := fun hc => hguard (Or.inl hc)
      have h2 : fb.GetVoteCount ≥ env.CountEnabled.tdiv 20 :=
        not_lt.mp (fun hc => hguard (Or.inr hc))
      have hpb : (m.IsBudgetPaymentBlock env h).1 =
          decide (fb.GetVoteCount > env.CountEnabled.tdiv 20) := by
        unfold IsBudgetPaymentBlock GetHighestVoteCount
        rw [hg]
      refine ⟨fb, rfl, h1, h2, ?_, ?_⟩
      · rw [hpb, decide_eq_true_eq]
      · rw [hpb, decide_eq_false_iff_not]
        constructor
        · intro hn
          exact le_antisymm (not_lt.mp hn) h2
        · intro heq
          rw [heq]
          exact lt_irrefl _

/-- C34, evaluated on the failing input: with 100 enabled masternodes
(`E / 20 = 5`) and a finalized budget with exactly 5 votes covering block 200,
`GetPayeeAndAmount(200)` succeeds (at best height 199 `FillBlockPayee` adds
the budget payment of 30 to script `[118, 1]`), yet
`IsBudgetPaymentBlock(200)` is false and the manager's check of the block so
produced is `InValid`. -/
theorem GetPayeeAndAmount_at_five_percent :
    ({ exampleBudget with mapVotes := exampleBudgetVotes.take 5 } :
      CFinalizedBudget).GetVoteCount = 5 ∧
    exampleEnv.CountEnabled.tdiv 20 = 5 ∧
    exampleManagerFive.GetPayeeAndAmount exampleEnv 200 [] 0 = (true, [118, 1], 30) ∧
    ({ exampleManagerFive with nBestHeight := 199 } : CBudgetManager).FillBlockPayee
        exampleEnv exampleTxNew true =
      some (true, { vout := [{ nValue := 7, scriptPubKey := [118, 9] },
                             { nValue := 30, scriptPubKey := [118, 1] }], nLockTime := 0 }) ∧
    (exampleManagerFive.IsBudgetPaymentBlock exampleEnv 200).1 = false ∧
    (exampleManagerFive.IsTransactionValid exampleEnv
        { vout := [{ nValue := 7, scriptPubKey := [118, 9] },
                   { nValue := 30, scriptPubKey := [118, 1] }], nLockTime := 0 } 11 200).1 =
      InValid := by
  decide

/-- C35: the greedy loop of `GetBudget()` does not stop at a proposal that
does not fit. For every passing proposal `p` of the sorted vector, the
returned list is what the loop admits among the higher-ranked proposals, then
`p` (with its amount allotted) iff `amount(p)` plus the amounts admitted
before it is at most the cap, then what the loop admits among the lower-ranked
proposals starting from the total admitted so far, which a rejected `p` leaves
as it was. -/
theorem GetBudget_loop_continues (env : Env) (m : CBudgetManager) (hh : 0 < m.GetBestHeight)
    (higher lower : List (uint256 × CBudgetProposal)) (k : uint256) (p : CBudgetProposal)
    (hsplit : sortedProposals env m = higher ++ (k, p) :: lower)
    (hpass : p.IsPassing env (nextCycleStart env m) (nextCycleEnd env m) env.CountEnabled = true) :
    (m.GetBudget env).1 =
      (GetBudget.loop env (nextCycleStart env m) (nextCycleEnd env m) env.CountEnabled
        (GetTotalBudget env (nextCycleStart env m)) higher 0).1 ++
      ((if p.nAmount + ((GetBudget.loop env (nextCycleStart env m) (nextCycleEnd env m)
            env.CountEnabled (GetTotalBudget env (nextCycleStart env m)) higher 0).1.map
              (fun e => e.2.nAmount)).sum ≤ GetTotalBudget env (nextCycleStart env m)
        then [(k, { p with nAlloted := p.nAmount })] else []) ++
      (GetBudget.loop env (nextCycleStart env m) (nextCycleEnd env m) env.CountEnabled
        (GetTotalBudget env (nextCycleStart env m)) lower
        (((GetBudget.loop env (nextCycleStart env m) (nextCycleEnd env m)
            env.CountEnabled (GetTotalBudget env (nextCycleStart env m)) higher 0).1.map
              (fun e => e.2.nAmount)).sum +
          (if p.nAmount + ((GetBudget.loop env (nextCycleStart env m) (nextCycleEnd env m)
              env.CountEnabled (GetTotalBudget env (nextCycleStart env m)) higher 0).1.map
                (fun e => e.2.nAmount)).sum ≤ GetTotalBudget env (nextCycleStart env m)
            then p.nAmount else 0))).1) := by
  have hret : (m.GetBudget env).1 = (GetBudget.loop env (nextCycleStart env m)
      (nextCycleEnd env m) env.CountEnabled (GetTotalBudget env (nextCycleStart env m))
      (sortedProposals env m) 0).1 := by
    rw [GetBudget_eq env m hh]
  rw [hret, hsplit, GetBudget_loop_append, zero_add]
  generalize ((GetBudget.loop env (nextCycleStart env m) (nextCycleEnd env m)
      env.CountEnabled (GetTotalBudget env (nextCycleStart env m)) higher 0).1.map
        (fun e => e.2.nAmount)).sum = before
  by_cases hfit : p.nAmount + before ≤ GetTotalBudget env (nextCycleStart env m)
  · rw [GetBudget_loop_admitted env _ _ _ _ k p lower before hpass hfit, if_pos hfit, if_pos hfit]
    rfl
  · rw [GetBudget_loop_reject env _ _ _ _ k p lower before hpass hfit, if_neg hfit, if_neg hfit,
      add_zero]
    rfl

/-- C35 witness: the manager holds X (400000 coins, 20 yes), Y (300000 coins,
18 yes) and Z (200000 coins, net 14 yes), all passing, under the cap of 648000
coins. X is admitted, Y is rejected (700000 exceeds the cap) and Z, ranked
below Y, is admitted (600000 fits): `GetBudget()` returns X and Z. -/
theorem GetBudget_loop_continues_witness :
    0 < exampleManagerGreedy.GetBestHeight ∧
    sortedProposals exampleEnv exampleManagerGreedy =
      [(1, exampleProposalX)] ++ (2, exampleProposalY) :: [(3, exampleProposalZ)] ∧
    GetTotalBudget exampleEnv (nextCycleStart exampleEnv exampleManagerGreedy) =
      64800000000000 ∧
    (exampleManagerGreedy.GetBudget exampleEnv).1 =
      [(1, { exampleProposalX with nAlloted := 40000000000000 }),
       (3, { exampleProposalZ with nAlloted := 20000000000000 })] :=
  ⟨by decide, by decide, by decide,
   (GetBudget_loop_continues exampleEnv exampleManagerGreedy (by decide)
      [(1, exampleProposalX)] [(3, exampleProposalZ)] 2 exampleProposalY
      (by decide) (by decide)).trans (by decide)⟩

end CBudgetManager

end Budget

/-! ## One parked vote per target -/

namespace Budget

namespace CBudgetManager

/-- With the sync complete, `UpdateProposal` for an unknown proposal and a
non-null peer parks the vote under the proposal hash. -/
theorem UpdateProposal_parks (env : Env) (s : Globals) (v : CBudgetVote) (pfrom : CNode)
    (hsync : env.masternodeSyncIsSynced = true)
    (hunk : s.budget.mapProposals.find v.nProposalHash = none) :
    UpdateProposal env s v (some pfrom) =
      (false,
       { budget := { s.budget with
           mapOrphanProposalVotes := s.budget.mapOrphanProposalVotes.set v.nProposalHash v },
         askedForSourceProposalOrBudget :=
           if !s.askedForSourceProposalOrBudget.contains v.nProposalHash then
             s.askedForSourceProposalOrBudget.set v.nProposalHash env.GetTime
           else s.askedForSourceProposalOrBudget }) := by
  unfold UpdateProposal
  dsimp only
  rw [hunk]
  simp only [hsync, Bool.not_true, Bool.false_eq_true, if_false]

/-- With the sync complete, `UpdateFinalizedBudget` for an unknown budget and
a non-null peer parks the vote under the budget hash. -/
theorem UpdateFinalizedBudget_parks (env : Env) (s : Globals) (v : CFinalizedBudgetVote)
    (pfrom : CNode) (hsync : env.masternodeSyncIsSynced = true)
    (hunk : s.budget.mapFinalizedBudgets.find v.nBudgetHash = none) :
    UpdateFinalizedBudget env s v (some pfrom) =
      (false,
       { budget := { s.budget with
           mapOrphanFinalizedBudgetVotes :=
             s.budget.mapOrphanFinalizedBudgetVotes.set v.nBudgetHash v },
         askedForSourceProposalOrBudget :=
           if !s.askedForSourceProposalOrBudget.contains v.nBudgetHash then
             s.askedForSourceProposalOrBudget.set v.nBudgetHash env.GetTime
           else s.askedForSourceProposalOrBudget }) := by
  unfold UpdateFinalizedBudget
  dsimp only
  rw [hunk]
  simp only [hsync, Bool.not_true, Bool.false_eq_true, if_false]

/-- What `CheckOrphanVotes` leaves under each key of the proposal map and of
the budget map, for orphan caches that hold each vote under its target. -/
theorem CheckOrphanVotes_find (env : Env) (s : Globals)
    (hwp : s.budget.mapOrphanProposalVotes.WF)
    (hkp : ∀ e ∈ s.budget.mapOrphanProposalVotes, e.2.nProposalHash = e.1)
    (hwf : s.budget.mapOrphanFinalizedBudgetVotes.WF)
    (hkf : ∀ e ∈ s.budget.mapOrphanFinalizedBudgetVotes, e.2.nBudgetHash = e.1) :
    (∀ j, (CheckOrphanVotes env s).budget.mapProposals.find j =
      match s.budget.mapOrphanProposalVotes.find j with
      | none => s.budget.mapProposals.find j
      | some v => (s.budget.mapProposals.find j).map (fun p => (p.AddOrUpdateVote env v).2)) ∧
    (∀ j, (CheckOrphanVotes env s).budget.mapFinalizedBudgets.find j =
      match s.budget.mapOrphanFinalizedBudgetVotes.find j with
      | none => s.budget.mapFinalizedBudgets.find j
      | some v =>
        (s.budget.mapFinalizedBudgets.find j).map (fun p => (p.AddOrUpdateVote env v).2)) := by
  obtain ⟨p1, _, _, pf, _, _, pof, _, _⟩ :=
    proposalLoop_spec env s.budget.mapOrphanProposalVotes s (StdMap.WF_nodup _ hwp) hkp
  have hn2 : (StdMap.keys (CheckOrphanVotes.proposalLoop env s.budget.mapOrphanProposalVotes
      s).budget.mapOrphanFinalizedBudgetVotes).Nodup := by
    rw [pof]
    exact StdMap.WF_nodup _ hwf
  have hk2 : ∀ e ∈ (CheckOrphanVotes.proposalLoop env s.budget.mapOrphanProposalVotes
      s).budget.mapOrphanFinalizedBudgetVotes, e.2.nBudgetHash = e.1 := by
    rw [pof]
    exact hkf
  obtain ⟨b1, _, _, bm, _, _, _, _, _⟩ :=
    budgetLoop_spec env (CheckOrphanVotes.proposalLoop env s.budget.mapOrphanProposalVotes
      s).budget.mapOrphanFinalizedBudgetVotes _ hn2 hk2
  have hce : CheckOrphanVotes env s =
      CheckOrphanVotes.budgetLoop env s.budget.mapOrphanFinalizedBudgetVotes
        (CheckOrphanVotes.proposalLoop env s.budget.mapOrphanProposalVotes s) := by
    unfold CheckOrphanVotes
    dsimp only
    rw [pof]
  constructor
  · intro j
    show StdMap.find (CheckOrphanVotes.budgetLoop env _ _).budget.mapProposals j = _
    rw [bm]
    exact p1 j
  · intro j
    have := b1 j
    rw [pof, pf] at this
    rw [hce]
    exact this

/-- C37: the orphan caches hold at most one vote per target hash. With the
sync complete, when `UpdateProposal` (resp. `UpdateFinalizedBudget`) gets a
vote from a peer for an unknown target, it returns false and the orphan cache
then holds that vote under the target, and no other entry under it: a vote
parked there before is overwritten, whoever its voter was; the other targets
keep their entries and the cache still has ascending keys and holds each vote
under its target. On such caches `CheckOrphanVotes` leaves a known target
either as it was or with exactly the one parked vote installed under its
voter, so it installs at most one vote for it. -/
theorem orphan_cache_single_vote (env : Env) (s : Globals) (pfrom : CNode)
    (v : CBudgetVote) (fv : CFinalizedBudgetVote)
    (hsync : env.masternodeSyncIsSynced = true)
    (hwp : s.budget.mapOrphanProposalVotes.WF)
    (hkp : ∀ e ∈ s.budget.mapOrphanProposalVotes, e.2.nProposalHash = e.1)
    (hwf : s.budget.mapOrphanFinalizedBudgetVotes.WF)
    (hkf : ∀ e ∈ s.budget.mapOrphanFinalizedBudgetVotes, e.2.nBudgetHash = e.1) :
    (s.budget.mapProposals.find v.nProposalHash = none →
      (UpdateProposal env s v (some pfrom)).1 = false ∧
      (UpdateProposal env s v (some pfrom)).2.budget.mapOrphanProposalVotes.find
        v.nProposalHash = some v ∧
      (∀ e ∈ (UpdateProposal env s v (some pfrom)).2.budget.mapOrphanProposalVotes,
        e.1 = v.nProposalHash → e.2 = v) ∧
      (∀ j, j ≠ v.nProposalHash →
        (UpdateProposal env s v (some pfrom)).2.budget.mapOrphanProposalVotes.find j =
          s.budget.mapOrphanProposalVotes.find j) ∧
      (UpdateProposal env s v (some pfrom)).2.budget.mapOrphanProposalVotes.WF ∧
      (∀ e ∈ (UpdateProposal env s v (some pfrom)).2.budget.mapOrphanProposalVotes,
        e.2.nProposalHash = e.1) ∧
      (UpdateProposal env s v (some pfrom)).2.budget.mapProposals = s.budget.mapProposals) ∧
    (s.budget.mapFinalizedBudgets.find fv.nBudgetHash = none →
      (UpdateFinalizedBudget env s fv (some pfrom)).1 = false ∧
      (UpdateFinalizedBudget env s fv (some pfrom)).2.budget.mapOrphanFinalizedBudgetVotes.find
        fv.nBudgetHash = some fv ∧
      (∀ e ∈ (UpdateFinalizedBudget env s fv (some pfrom)).2.budget.mapOrphanFinalizedBudgetVotes,
        e.1 = fv.nBudgetHash → e.2 = fv) ∧
      (∀ j, j ≠ fv.nBudgetHash →
        (UpdateFinalizedBudget env s fv (some pfrom)).2.budget.mapOrphanFinalizedBudgetVotes.find j =
          s.budget.mapOrphanFinalizedBudgetVotes.find j) ∧
      (UpdateFinalizedBudget env s fv (some pfrom)).2.budget.mapOrphanFinalizedBudgetVotes.WF ∧
      (∀ e ∈ (UpdateFinalizedBudget env s fv (some pfrom)).2.budget.mapOrphanFinalizedBudgetVotes,
        e.2.nBudgetHash = e.1) ∧
      (UpdateFinalizedBudget env s fv (some pfrom)).2.budget.mapFinalizedBudgets =
        s.budget.mapFinalizedBudgets) ∧
    (∀ k p, s.budget.mapProposals.find k = some p →
      (CheckOrphanVotes env s).budget.mapProposals.find k = some p ∨
      ∃ w, s.budget.mapOrphanProposalVotes.find k = some w ∧
        (CheckOrphanVotes env s).budget.mapProposals.find k =
          some { p with mapVotes := p.mapVotes.set w.vin.prevout.GetHash w }) ∧
    (∀ k fb, s.budget.mapFinalizedBudgets.find k = some fb →
      (CheckOrphanVotes env s).budget.mapFinalizedBudgets.find k = some fb ∨
      ∃ w, s.budget.mapOrphanFinalizedBudgetVotes.find k = some w ∧
        (CheckOrphanVotes env s).budget.mapFinalizedBudgets.find k =
          some { fb with mapVotes := fb.mapVotes.set w.vin.prevout.GetHash w }) := by
  obtain ⟨e1, e3⟩ := CheckOrphanVotes_find env s hwp hkp hwf hkf
  refine ⟨?_, ?_, ?_, ?_⟩
  · intro hunk
    rw [UpdateProposal_parks env s v pfrom hsync hunk]
    have hwf2 : (s.budget.mapOrphanProposalVotes.set v.nProposalHash v).WF :=
      StdMap.WF_set _ _ _ hwp
    have hfind : (s.budget.mapOrphanProposalVotes.set v.nProposalHash v).find v.nProposalHash =
        some v := StdMap.find_set_self _ _ _
    refine ⟨rfl, hfind, ?_, ?_, hwf2, ?_, rfl⟩
    · intro e he hk
      have h1 := StdMap.find_of_mem _ hwf2 e he
      rw [hk] at h1
      exact (Option.some.inj (h1.symm.trans hfind))
    · intro j hj
      exact StdMap.find_set_ne _ _ _ _ hj
    · intro e he
      rcases StdMap.mem_set _ _ _ e he with h1 | h1
      · rw [h1]
      · exact hkp e h1
  · intro hunk
    rw [UpdateFinalizedBudget_parks env s fv pfrom hsync hunk]
    have hwf2 : (s.budget.mapOrphanFinalizedBudgetVotes.set fv.nBudgetHash fv).WF :=
      StdMap.WF_set _ _ _ hwf
    have hfind : (s.budget.mapOrphanFinalizedBudgetVotes.set fv.nBudgetHash fv).find
        fv.nBudgetHash = some fv := StdMap.find_set_self _ _ _
    refine ⟨rfl, hfind, ?_, ?_, hwf2, ?_, rfl⟩
    · intro e he hk
      have h1 := StdMap.find_of_mem _ hwf2 e he
      rw [hk] at h1
      exact (Option.some.inj (h1.symm.trans hfind))
    · intro j hj
      exact StdMap.find_set_ne _ _ _ _ hj
    · intro e he
      rcases StdMap.mem_set _ _ _ e he with h1 | h1
      · rw [h1]
      · exact hkf e h1
  · intro k p hp
    rw [e1 k, hp]
    cases hw : s.budget.mapOrphanProposalVotes.find k with
    | none => exact Or.inl rfl
    | some w =>
      cases hacc : (p.AddOrUpdateVote env w).1 with
      | false =>
        left
        simp only [Option.map_some']
        rw [proposal_AddOrUpdateVote_snd_false env p w hacc]
      | true =>
        right
        refine ⟨w, rfl, ?_⟩
        simp only [Option.map_some']
        rw [proposal_AddOrUpdateVote_snd_true env p w hacc]
  · intro k fb hp
    rw [e3 k, hp]
    cases hw : s.budget.mapOrphanFinalizedBudgetVotes.find k with
    | none => exact Or.inl rfl
    | some w =>
      cases hacc : (fb.AddOrUpdateVote env w).1 with
      | false =>
        left
        simp only [Option.map_some']
        rw [finalized_AddOrUpdateVote_snd_false env fb w hacc]
      | true =>
        right
        refine ⟨w, rfl, ?_⟩
        simp only [Option.map_some']
        rw [finalized_AddOrUpdateVote_snd_true env fb w hacc]

/-- C37 witness: the yes vote of voter `(0, 0)` on the unknown proposal A is
parked; the no vote of voter `(1, 0)` on A, parked next, replaces it, so the
cache holds one vote for A. After A is added, `CheckOrphanVotes` installs that
vote alone: A ends with the single vote of voter `(1, 0)`. -/
theorem orphan_cache_single_vote_witness :
    exampleGlobalsParkedOnce.budget.mapOrphanProposalVotes =
      [(3000000601, exampleVoteAt 5000)] ∧
    (UpdateProposal exampleEnv exampleGlobalsParkedOnce exampleVoteOther
      (some { id := 2 })).2.budget.mapOrphanProposalVotes = [(3000000601, exampleVoteOther)] ∧
    (UpdateProposal exampleEnv exampleGlobalsParkedOnce exampleVoteOther
      (some { id := 2 })).2.budget.mapOrphanProposalVotes.find exampleVoteOther.nProposalHash =
        some exampleVoteOther ∧
    ((CheckOrphanVotes exampleEnv exampleGlobalsParkedTwice).budget.mapProposals.find
      3000000601).map (fun p => p.mapVotes) =
        some [(COutPoint.GetHash { hash := 1, n := 0 }, exampleVoteOther)] :=
  ⟨by decide, by decide,
   ((orphan_cache_single_vote exampleEnv exampleGlobalsParkedOnce { id := 2 } exampleVoteOther
      exampleBudgetVoteOther (by decide) (by decide) (by decide) (by decide)
      (by decide)).1 (by decide)).2.1,
   by decide⟩

end CBudgetManager

end Budget

/-! ## Votes recorded as seen before their signature is checked -/

namespace Budget

namespace StdMap

variable {V : Type}

end StdMap

namespace CBudgetManager

end CBudgetManager

end Budget

namespace Budget

namespace CBudgetManager

end CBudgetManager

end Budget

/-! ## Recorded payment heights stay within the budget's range -/

namespace Budget

namespace CFinalizedBudget

/-- After `IsPaidAlready` for a height within the budget's range, every
recorded payment height is within the range: the erase loop keeps the entries
in range only and the one entry the call may add is at the checked height. -/
theorem IsPaidAlready_history_in_range (env : Env) (fb : CFinalizedBudget) (ph bh : uint256)
    (h : Int) (h1 : fb.nBlockStart ≤ h) (h2 : h ≤ fb.GetBlockEnd) :
    ∀ e ∈ (fb.IsPaidAlready env ph bh h).2.mapPayment_History,
      fb.nBlockStart ≤ e.2.2 ∧ e.2.2 ≤ fb.GetBlockEnd := by
  have hpr : ∀ e ∈ fb.prunedHistory, fb.nBlockStart ≤ e.2.2 ∧ e.2.2 ≤ fb.GetBlockEnd := by
    intro e he
    simp only [prunedHistory, StdMap.eraseIf, List.mem_filter, Bool.not_eq_eq_eq_not,
      Bool.not_true, Bool.or_eq_false_iff, decide_eq_false_iff_not, not_lt] at he
    exact he.2
  cases hf : fb.prunedHistory.find ph with
  | none =>
    rw [IsPaidAlready_of_none env fb ph bh h hf, StdMap.emplace_of_find_none _ _ _ hf]
    intro e he
    rcases StdMap.mem_set _ _ _ e he with h3 | h3
    · rw [h3]
      exact ⟨h1, h2⟩
    · exact hpr e h3
  | some paid =>
    rw [IsPaidAlready_of_some env fb ph bh h paid hf]
    exact hpr

/-- The per-budget `IsTransactionValid`, the only caller of `IsPaidAlready`,
keeps every recorded payment height within the budget's range. -/
theorem IsTransactionValid_history_in_range (env : Env) (fb : CFinalizedBudget)
    (tx : CTransaction) (bh : uint256) (h : Int)
    (hinv : ∀ e ∈ fb.mapPayment_History, fb.nBlockStart ≤ e.2.2 ∧ e.2.2 ≤ fb.GetBlockEnd) :
    ∀ e ∈ (fb.IsTransactionValid env tx bh h).2.mapPayment_History,
      fb.nBlockStart ≤ e.2.2 ∧ e.2.2 ≤ fb.GetBlockEnd := by
  by_cases hr : h < fb.nBlockStart ∨ h > fb.GetBlockEnd
  · rw [IsTransactionValid_of_out_of_range env fb tx bh h hr]
    exact hinv
  · have h1 : fb.nBlockStart ≤ h := not_lt.mp (fun hc => hr (Or.inl hc))
    have h2 : h ≤ fb.GetBlockEnd := not_lt.mp (fun hc => hr (Or.inr hc))
    obtain ⟨payment, hp⟩ := payment_of_in_range fb h h1 h2
    rw [IsTransactionValid_of_in_range env fb tx bh h payment h1 h2 hp]
    exact IsPaidAlready_history_in_range env fb payment.nProposalHash bh h h1 h2

end CFinalizedBudget

end Budget
